import Mathlib

/-!
# nss_mcdb_netdb: decoding of netdb records into caller buffers

Shallow embedding of `src/nss_mcdb_netdb.c`.

Conventions of the embedding.

* A byte is a `Nat`; numeric conversions reduce it modulo 256.
* The caller buffer `v->buf` is a map from offsets to bytes together with
  `v->bufsz`; `v->buf` itself is the address `buf`.  Every access of the code
  to the caller buffer is checked against `[0, bufsz)`; an access outside is
  undefined behaviour in C and makes the embedded routine return `none`.
* Addresses are `Nat` reduced modulo `2 ^ 32` or `2 ^ 64` (`uintptr_t`).
* A store record is the list of its bytes (`mcdb_dataptr`, `mcdb_datalen`);
  a byte read past the end of the list reads as 0.
* The header constants `NSS_*` of `nss_mcdb_netdb.h` are parameters.
-/

namespace NssMcdbNetdb

/-! ## Platform -/

/-- The C platform: width of `char *` / `size_t` / `uintptr_t` and host byte order. -/
structure Machine where
  ptr64 : Bool
  big_endian : Bool

/-- Value of `sizeof(char *)`. -/
def Machine.ptrsz (M : Machine) : Nat := if M.ptr64 then 8 else 4

/-- Number of values of `uintptr_t` and `size_t`: `2 ^ (8 * sizeof(char *))`. -/
def Machine.umax (M : Machine) : Nat :=
  if M.ptr64 then 18446744073709551616 else 4294967296

/-- Status values of `enum nss_status` (`<nss.h>`). -/
abbrev nss_status_t := Int

def NSS_STATUS_TRYAGAIN : nss_status_t := -2
def NSS_STATUS_UNAVAIL : nss_status_t := -1
def NSS_STATUS_NOTFOUND : nss_status_t := 0
def NSS_STATUS_SUCCESS : nss_status_t := 1
def NSS_STATUS_RETURN : nss_status_t := 2

/-- Value of `ENOENT` in `<errno.h>` (Linux). -/
def ENOENT : Int := 2
/-- Value of `ERANGE` in `<errno.h>` (Linux). -/
def ERANGE : Int := 34

/-- Value of `HOST_NOT_FOUND` in `<netdb.h>`. -/
def HOST_NOT_FOUND : Int := 1
/-- Value of `TRY_AGAIN` in `<netdb.h>`. -/
def TRY_AGAIN : Int := 2
/-- Value of `NO_RECOVERY` in `<netdb.h>`. -/
def NO_RECOVERY : Int := 3

/-- Value of `AF_INET` in `<sys/socket.h>`. -/
def AF_INET : Int := 2
/-- Value of `AF_INET6` in `<sys/socket.h>` (Linux). -/
def AF_INET6 : Int := 10

/-! ## Bytes, integers, byte order -/

/-- Byte `i` of a record or of a copied header; 0 past the end. -/
def rd (data : List Nat) (i : Nat) : Nat := data.getD i 0

/-- Big-endian value of the two bytes at `off`: `(p[0] << 8) | p[1]`. -/
def be16 (data : List Nat) (off : Nat) : Nat :=
  rd data off % 256 * 256 + rd data (off + 1) % 256

/-- Big-endian value of the four bytes at `off`:
`(p[0] << 24) | (p[1] << 16) | (p[2] << 8) | p[3]`. -/
def be32 (data : List Nat) (off : Nat) : Nat :=
  rd data off % 256 * 16777216 + rd data (off + 1) % 256 * 65536
    + rd data (off + 2) % 256 * 256 + rd data (off + 3) % 256

/-- The expression `hdr.h[i]`: the `uint16_t` the host loads from bytes `2i, 2i+1`. -/
def load16 (M : Machine) (hdr : List Nat) (i : Nat) : Nat :=
  if M.big_endian then rd hdr (2 * i) % 256 * 256 + rd hdr (2 * i + 1) % 256
  else rd hdr (2 * i + 1) % 256 * 256 + rd hdr (2 * i) % 256

/-- The expression `hdr.u[i]`: the `uint32_t` the host loads from bytes `4i .. 4i+3`. -/
def load32 (M : Machine) (hdr : List Nat) (i : Nat) : Nat :=
  if M.big_endian then
    rd hdr (4 * i) % 256 * 16777216 + rd hdr (4 * i + 1) % 256 * 65536
      + rd hdr (4 * i + 2) % 256 * 256 + rd hdr (4 * i + 3) % 256
  else
    rd hdr (4 * i + 3) % 256 * 16777216 + rd hdr (4 * i + 2) % 256 * 65536
      + rd hdr (4 * i + 1) % 256 * 256 + rd hdr (4 * i) % 256

/-- The function `ntohs` on a 16-bit value. -/
def ntohs (M : Machine) (x : Nat) : Nat :=
  if M.big_endian then x % 65536 else x % 256 * 256 + x / 256 % 256

/-- The function `ntohl` on a 32-bit value. -/
def ntohl (M : Machine) (x : Nat) : Nat :=
  if M.big_endian then x % 4294967296
  else x % 256 * 16777216 + x / 256 % 256 * 65536 + x / 65536 % 256 * 256
    + x / 16777216 % 256

/-- Conversion `(int)` of a `uint32_t`. -/
def to_int (x : Nat) : Int :=
  if x % 4294967296 < 2147483648 then (x % 4294967296 : Nat)
  else ((x % 4294967296 : Nat) : Int) - 4294967296

/-- The expression `ntohs( hdr.h[c>>1] )` after `memcpy(hdr.u, dptr, hdrsz)`. -/
def hdr16 (M : Machine) (dptr : List Nat) (hdrsz c : Nat) : Nat :=
  ntohs M (load16 M (dptr.take hdrsz) (c >>> 1))

/-- The expression `ntohl( hdr.u[c>>2] )` after `memcpy(hdr.u, dptr, hdrsz)`. -/
def hdr32 (M : Machine) (dptr : List Nat) (hdrsz c : Nat) : Nat :=
  ntohl M (load32 M (dptr.take hdrsz) (c >>> 2))

/-- Address `p + d` for a `char *p` and a signed `d`, in `uintptr_t`. -/
def ptr_add (M : Machine) (p : Nat) (d : Int) : Nat :=
  (((p : Int) + d) % (M.umax : Int)).toNat

/-- Offset of address `a` from the buffer start `buf`, as `size_t`: `a - buf`. -/
def ptr_diff (M : Machine) (a buf : Nat) : Nat :=
  (a % M.umax + (M.umax - buf % M.umax)) % M.umax

/-! ## Caller buffer -/

/-- Contents of the caller buffer, by offset from `v->buf`. -/
abbrev Mem := Nat → Nat

/-- Byte `j` (in memory order) of a pointer value stored in host byte order. -/
def ptr_byte (M : Machine) (val : Nat) (j : Nat) : Nat :=
  if M.big_endian then val / 256 ^ (M.ptrsz - 1 - j) % 256 else val / 256 ^ j % 256

/-- Store of a `char *` value at offset `off` of the caller buffer;
`none` when the slot is not inside `[0, bufsz)`. -/
def store_ptr (M : Machine) (bufsz : Nat) (mem : Mem) (off : Nat) (val : Nat) : Option Mem :=
  if off + M.ptrsz ≤ bufsz then
    some (fun i => if off ≤ i ∧ i < off + M.ptrsz then ptr_byte M val (i - off) else mem i)
  else none

/-- Little-endian value of the `n` bytes `f 0, ..., f (n-1)`. -/
def le_val (f : Nat → Nat) : Nat → Nat
  | 0 => 0
  | n + 1 => f 0 % 256 + 256 * le_val (fun j => f (j + 1)) n

/-- Big-endian value of the `n` bytes `f 0, ..., f (n-1)`. -/
def be_val (f : Nat → Nat) : Nat → Nat
  | 0 => 0
  | n + 1 => be_val f n * 256 + f n % 256

/-- Value of the `char *` stored at offset `off` of the caller buffer. -/
def load_ptr (M : Machine) (mem : Mem) (off : Nat) : Nat :=
  if M.big_endian then be_val (fun j => mem (off + j)) M.ptrsz
  else le_val (fun j => mem (off + j)) M.ptrsz

/-- The call `memcpy(buf + off, src + from, len)` into the caller buffer;
`none` when `[off, off + len)` is not inside `[0, bufsz)`. -/
def memcpy_buf (bufsz : Nat) (mem : Mem) (off : Nat) (src : List Nat) (start len : Nat) :
    Option Mem :=
  if off + len ≤ bufsz then
    some (fun i => if off ≤ i ∧ i < off + len then rd src (start + (i - off)) else mem i)
  else none

/-- The loop `while (*++buf != 0) ;` started with `buf` at offset `off`, where `room` is the
number of buffer bytes after offset `off`.  Result: offset of the NUL found; `none` when the
scan leaves the buffer. -/
def scan_nul (mem : Mem) : Nat → Nat → Option Nat
  | _, 0 => none
  | off, room + 1 => if mem (off + 1) ≠ 0 then scan_nul mem (off + 1) room else some (off + 1)

/-- The call `strlen(buf + off)`, where `room` is the number of buffer bytes from offset
`off` on; `none` when no NUL is found inside the buffer. -/
def strlen_buf (mem : Mem) : Nat → Nat → Option Nat
  | _, 0 => none
  | off, room + 1 =>
    if mem off ≠ 0 then (strlen_buf mem (off + 1) room).map (fun n => n + 1) else some 0

/-- The call `memcmp(a, b, n)`: difference of the first pair of bytes that differ. -/
def memcmp (a b : Nat → Nat) : Nat → Int
  | 0 => 0
  | n + 1 =>
    if a 0 = b 0 then memcmp (fun i => a (i + 1)) (fun i => b (i + 1)) n
    else (a 0 : Int) - (b 0 : Int)

/-! ## Store cursor and call state -/

/-- Modelled from the spec: the cursor `struct mcdb` of the external store, reduced to what the
decode routines observe: the bytes of the current record (`mcdb_dataptr`, `mcdb_datalen`), the
further records sharing the same (key, tag) in store order, and the number of
`mcdb_findtagnext_h` calls made so far.  A call of `mcdb_findtagnext_h` ("next record sharing
(key, tag), continuing a scan") counts one in `nexts`; it fails when `dups` is empty and
otherwise makes the head of `dups` the current record. -/
structure mcdb where
  data : List Nat
  dups : List (List Nat)
  nexts : Nat

/-- The fields of `struct nss_mcdb_vinfo` that are constant during a call. -/
structure nss_mcdb_vinfo where
  buf : Nat
  bufsz : Nat
  key : List Nat
  klen : Nat
  tagc : Nat

/-- What a call can change: the caller buffer, the output structure `*v->vstruct`,
`*v->errnop`, `errno`, and the store cursor. -/
structure State (ε : Type) where
  mem : Mem
  ent : ε
  errnop : Int
  errno : Int
  m : mcdb

/-- The type `struct hostent`. -/
structure hostent where
  h_name : Nat
  h_aliases : Nat
  h_addrtype : Int
  h_length : Int
  h_addr_list : Nat
deriving DecidableEq

/-- The type `struct netent`. -/
structure netent where
  n_name : Nat
  n_aliases : Nat
  n_addrtype : Int
  n_net : Nat
deriving DecidableEq

/-- The type `struct protoent`. -/
structure protoent where
  p_name : Nat
  p_aliases : Nat
  p_proto : Int
deriving DecidableEq

/-- The type `struct rpcent`. -/
structure rpcent where
  r_name : Nat
  r_aliases : Nat
  r_number : Int
deriving DecidableEq

/-- The type `struct servent`. -/
structure servent where
  s_name : Nat
  s_aliases : Nat
  s_port : Int
  s_proto : Nat
deriving DecidableEq

/-! ## Header layouts (constants of `nss_mcdb_netdb.h`, taken as parameters) -/

/-- Offsets of the host record header. -/
structure HostentLayout where
  NSS_H_ADDRTYPE : Nat
  NSS_H_LENGTH : Nat
  NSS_HE_MEM : Nat
  NSS_HE_MEM_STR : Nat
  NSS_HE_LST_STR : Nat
  NSS_HE_MEM_NUM : Nat
  NSS_HE_LST_NUM : Nat
  NSS_HE_HDRSZ : Nat

/-- Offsets of the network record header. -/
structure NetentLayout where
  NSS_N_ADDRTYPE : Nat
  NSS_N_NET : Nat
  NSS_NE_MEM : Nat
  NSS_NE_MEM_STR : Nat
  NSS_NE_MEM_NUM : Nat
  NSS_NE_HDRSZ : Nat

/-- Offsets of the protocol record header. -/
structure ProtoentLayout where
  NSS_P_PROTO : Nat
  NSS_PE_MEM : Nat
  NSS_PE_MEM_STR : Nat
  NSS_PE_MEM_NUM : Nat
  NSS_PE_HDRSZ : Nat

/-- Offsets of the rpc record header. -/
structure RpcentLayout where
  NSS_R_NUMBER : Nat
  NSS_RE_MEM : Nat
  NSS_RE_MEM_STR : Nat
  NSS_RE_MEM_NUM : Nat
  NSS_RE_HDRSZ : Nat

/-- Offsets of the service record header. -/
structure ServentLayout where
  NSS_S_PORT : Nat
  NSS_S_NAME : Nat
  NSS_SE_MEM : Nat
  NSS_SE_MEM_STR : Nat
  NSS_SE_MEM_NUM : Nat
  NSS_SE_HDRSZ : Nat

/-! ## Code shared by the decode routines

The five decode routines repeat the same statements on their own variables; the statements are
embedded once. -/

/-- The expression `(uintptr_t)(buf + m + 0x7u) & ~0x7u`.  The constant `~0x7u` has type
`unsigned int`: its value is `0xFFFFFFF8` also where `uintptr_t` has 64 bits. -/
def align8u (M : Machine) (buf m : Nat) : Nat :=
  ((buf + m + 7) % M.umax) &&& 4294967288

/-- Offset from `v->buf` of slot `i` of the `char **` array at address `arr`. -/
def slot (M : Machine) (v : nss_mcdb_vinfo) (arr i : Nat) : Nat :=
  ptr_diff M (arr + M.ptrsz * i) v.buf

/-- The value `(size_t)mcdb_datalen(m) - HDRSZ`. -/
def var_len (M : Machine) (data : List Nat) (hdrsz : Nat) : Nat :=
  (data.length % M.umax + (M.umax - hdrsz % M.umax)) % M.umax

/-- The loop
`for (size_t i=1; i<num; ++i) { while (*++buf != '\0') ; mem[i] = ++buf; }`
with `cnt` iterations left, `buf` at offset `off`. -/
def alias_loop (M : Machine) (v : nss_mcdb_vinfo) (arr : Nat) : Nat → Nat → Nat → Mem → Option Mem
  | 0, _, _, mem => some mem
  | cnt + 1, i, off, mem =>
    match scan_nul mem off (v.bufsz - (off + 1)) with
    | none => none
    | some z =>
      match store_ptr M v.bufsz mem (slot M v arr i) (ptr_add M v.buf ((z + 1 : Nat) : Int)) with
      | none => none
      | some mem1 => alias_loop M v arr cnt (i + 1) (z + 1) mem1

/-- The statements
`mem[0] = (buf += mem_str); for (...) {...}; mem[num] = NULL;`
after the variable region has been copied. -/
def fill_aliases (M : Machine) (v : nss_mcdb_vinfo) (arr mem_str num : Nat) (mem : Mem) :
    Option Mem :=
  match store_ptr M v.bufsz mem (slot M v arr 0) (ptr_add M v.buf (mem_str : Int)) with
  | none => none
  | some mem0 =>
    match alias_loop M v arr (num - 1) 1 mem_str mem0 with
    | none => none
    | some mem1 => store_ptr M v.bufsz mem1 (slot M v arr num) 0

/-- The loop `for (size_t i=1; i<he_lst_num; ++i) he_lst[i] = (buf += he->h_length);`
with `cnt` iterations left, `buf` at address `cur`. -/
def addr_loop (M : Machine) (v : nss_mcdb_vinfo) (lst : Nat) (h_length : Int) :
    Nat → Nat → Nat → Mem → Option Mem
  | 0, _, _, mem => some mem
  | cnt + 1, i, cur, mem =>
    match store_ptr M v.bufsz mem (slot M v lst i) (ptr_add M cur h_length) with
    | none => none
    | some mem1 => addr_loop M v lst h_length cnt (i + 1) (ptr_add M cur h_length) mem1

/-- The statements
`he_lst[0] = buf = v->buf + lst_str; for (...) {...}; he_lst[he_lst_num] = NULL;`. -/
def fill_addrs (M : Machine) (v : nss_mcdb_vinfo) (lst lst_str : Nat) (h_length : Int)
    (num : Nat) (mem : Mem) : Option Mem :=
  match store_ptr M v.bufsz mem (slot M v lst 0) (ptr_add M v.buf (lst_str : Int)) with
  | none => none
  | some mem0 =>
    match addr_loop M v lst h_length (num - 1) 1 (ptr_add M v.buf (lst_str : Int)) mem0 with
    | none => none
    | some mem1 => store_ptr M v.bufsz mem1 (slot M v lst num) 0

/-! ## Hosts -/

/-- The filter `type` read from `buf[0..3]`. -/
def staged_type (mem : Mem) : Nat :=
  mem 0 % 256 * 16777216 + mem 1 % 256 * 65536 + mem 2 % 256 * 256 + mem 3 % 256

/-- The loop `while (type != <address type of the record>) {...}` of
`nss_mcdb_netdb_hostent_decode`, on the current record `data`, the count of next-duplicate
requests so far and the duplicates left.  The flag is false when the store ran out of
duplicates (the `NSS_STATUS_NOTFOUND` exit). -/
def hostent_scan (L : HostentLayout) (type : Nat) : List Nat → Nat → List (List Nat) → Bool × mcdb
  | data, nexts, [] =>
    if type ≠ be32 data L.NSS_H_ADDRTYPE then (false, ⟨data, [], nexts + 1⟩)
    else (true, ⟨data, [], nexts⟩)
  | data, nexts, r :: rs =>
    if type ≠ be32 data L.NSS_H_ADDRTYPE then hostent_scan L type r (nexts + 1) rs
    else (true, ⟨data, r :: rs, nexts⟩)

/-- The part of `nss_mcdb_netdb_hostent_decode` after the duplicate scan (from
`memcpy(hdr.u, dptr, NSS_HE_HDRSZ)` on), on the record the cursor is at. -/
def hostent_fill (M : Machine) (L : HostentLayout) (v : nss_mcdb_vinfo) (s : State hostent) :
    Option (nss_status_t × State hostent) :=
  let dptr := s.m.data
  let HDRSZ := L.NSS_HE_HDRSZ
  let he_mem_num := hdr16 M dptr HDRSZ L.NSS_HE_MEM_NUM
  let he_lst_num := hdr16 M dptr HDRSZ L.NSS_HE_LST_NUM
  let he0 : hostent :=
    { s.ent with
      h_addrtype := to_int (hdr32 M dptr HDRSZ L.NSS_H_ADDRTYPE)
      h_length := to_int (hdr32 M dptr HDRSZ L.NSS_H_LENGTH)
      h_name := v.buf
      h_aliases := align8u M v.buf (hdr16 M dptr HDRSZ L.NSS_HE_MEM) }
  if (ptr_diff M he0.h_aliases v.buf + ((he_mem_num + 1 + he_lst_num + 1) <<< 3)) % M.umax
      ≤ v.bufsz then
    let he_mem := he0.h_aliases
    let he_lst := (he_mem + M.ptrsz * (he_mem_num + 1)) % M.umax
    let he : hostent := { he0 with h_addr_list := he_lst }
    match memcpy_buf v.bufsz s.mem 0 dptr HDRSZ (var_len M dptr HDRSZ) with
    | none => none
    | some mem0 =>
      match fill_aliases M v he_mem (hdr16 M dptr HDRSZ L.NSS_HE_MEM_STR)
          he_mem_num mem0 with
      | none => none
      | some mem1 =>
        match fill_addrs M v he_lst (hdr16 M dptr HDRSZ L.NSS_HE_LST_STR)
            he.h_length he_lst_num mem1 with
        | none => none
        | some mem2 => some (NSS_STATUS_SUCCESS, { s with mem := mem2, ent := he })
  else
    some (NSS_STATUS_TRYAGAIN, { s with ent := he0, errnop := ERANGE, errno := ERANGE })

/-- The routine `nss_mcdb_netdb_hostent_decode`. -/
def nss_mcdb_netdb_hostent_decode (M : Machine) (L : HostentLayout) (v : nss_mcdb_vinfo)
    (s : State hostent) : Option (nss_status_t × State hostent) :=
  if 4 ≤ v.bufsz then
    let type := staged_type s.mem
    if type ≠ 0 then
      let r := hostent_scan L type s.m.data s.m.nexts s.m.dups
      if r.1 then hostent_fill M L v { s with m := r.2 }
      else some (NSS_STATUS_NOTFOUND, { s with m := r.2, errnop := ENOENT, errno := ENOENT })
    else hostent_fill M L v s
  else none

/-! ## Networks, protocols, rpc, services -/

/-- The statements of the network, protocol, rpc and service routines from the size check
`((char *)aliases) - buf + ((num + 1) << 3) <= v->bufsz` on; `ent` is the output structure
as assigned before the check and `aliases` its alias array field. -/
def pack_aliases {ε : Type} (M : Machine) (v : nss_mcdb_vinfo) (hdrsz mem_str num : Nat)
    (s : State ε) (ent : ε) (aliases : Nat) : Option (nss_status_t × State ε) :=
  if (ptr_diff M aliases v.buf + ((num + 1) <<< 3)) % M.umax ≤ v.bufsz then
    match memcpy_buf v.bufsz s.mem 0 s.m.data hdrsz (var_len M s.m.data hdrsz) with
    | none => none
    | some mem0 =>
      match fill_aliases M v aliases mem_str num mem0 with
      | none => none
      | some mem1 => some (NSS_STATUS_SUCCESS, { s with mem := mem1, ent := ent })
  else
    some (NSS_STATUS_TRYAGAIN, { s with ent := ent, errnop := ERANGE, errno := ERANGE })

/-- The routine `nss_mcdb_netdb_netent_decode` (not `_AIX`). -/
def nss_mcdb_netdb_netent_decode (M : Machine) (L : NetentLayout) (v : nss_mcdb_vinfo)
    (s : State netent) : Option (nss_status_t × State netent) :=
  let dptr := s.m.data
  let HDRSZ := L.NSS_NE_HDRSZ
  let ne : netent :=
    { n_addrtype := to_int (hdr32 M dptr HDRSZ L.NSS_N_ADDRTYPE)
      n_net := hdr32 M dptr HDRSZ L.NSS_N_NET
      n_name := v.buf
      n_aliases := align8u M v.buf (hdr16 M dptr HDRSZ L.NSS_NE_MEM) }
  pack_aliases M v HDRSZ (hdr16 M dptr HDRSZ L.NSS_NE_MEM_STR)
    (hdr16 M dptr HDRSZ L.NSS_NE_MEM_NUM) s ne ne.n_aliases

/-- The routine `nss_mcdb_netdb_protoent_decode`. -/
def nss_mcdb_netdb_protoent_decode (M : Machine) (L : ProtoentLayout) (v : nss_mcdb_vinfo)
    (s : State protoent) : Option (nss_status_t × State protoent) :=
  let dptr := s.m.data
  let HDRSZ := L.NSS_PE_HDRSZ
  let pe : protoent :=
    { p_proto := to_int (hdr32 M dptr HDRSZ L.NSS_P_PROTO)
      p_name := v.buf
      p_aliases := align8u M v.buf (hdr16 M dptr HDRSZ L.NSS_PE_MEM) }
  pack_aliases M v HDRSZ (hdr16 M dptr HDRSZ L.NSS_PE_MEM_STR)
    (hdr16 M dptr HDRSZ L.NSS_PE_MEM_NUM) s pe pe.p_aliases

/-- The routine `nss_mcdb_netdb_rpcent_decode`. -/
def nss_mcdb_netdb_rpcent_decode (M : Machine) (L : RpcentLayout) (v : nss_mcdb_vinfo)
    (s : State rpcent) : Option (nss_status_t × State rpcent) :=
  let dptr := s.m.data
  let HDRSZ := L.NSS_RE_HDRSZ
  let re : rpcent :=
    { r_number := to_int (hdr32 M dptr HDRSZ L.NSS_R_NUMBER)
      r_name := v.buf
      r_aliases := align8u M v.buf (hdr16 M dptr HDRSZ L.NSS_RE_MEM) }
  pack_aliases M v HDRSZ (hdr16 M dptr HDRSZ L.NSS_RE_MEM_STR)
    (hdr16 M dptr HDRSZ L.NSS_RE_MEM_NUM) s re re.r_aliases

/-- The loop `while (dptr[NSS_SE_HDRSZ] != *buf || memcmp(dptr+NSS_SE_HDRSZ, buf, protolen) != 0)
{...}` of `nss_mcdb_netdb_servent_decode`, on the current record `data`, the count of
next-duplicate requests so far and the duplicates left.  The flag is false when the store ran
out of duplicates (the `NSS_STATUS_NOTFOUND` exit). -/
def servent_scan (L : ServentLayout) (mem : Mem) (protolen : Nat) :
    List Nat → Nat → List (List Nat) → Bool × mcdb
  | data, nexts, [] =>
    if rd data L.NSS_SE_HDRSZ ≠ mem 0
        ∨ memcmp (fun i => rd data (L.NSS_SE_HDRSZ + i)) mem protolen ≠ 0 then
      (false, ⟨data, [], nexts + 1⟩)
    else (true, ⟨data, [], nexts⟩)
  | data, nexts, r :: rs =>
    if rd data L.NSS_SE_HDRSZ ≠ mem 0
        ∨ memcmp (fun i => rd data (L.NSS_SE_HDRSZ + i)) mem protolen ≠ 0 then
      servent_scan L mem protolen r (nexts + 1) rs
    else (true, ⟨data, r :: rs, nexts⟩)

/-- The part of `nss_mcdb_netdb_servent_decode` after the duplicate scan (from
`memcpy(hdr.u, dptr, NSS_SE_HDRSZ)` on), on the record the cursor is at. -/
def servent_fill (M : Machine) (L : ServentLayout) (v : nss_mcdb_vinfo) (s : State servent) :
    Option (nss_status_t × State servent) :=
  let dptr := s.m.data
  let HDRSZ := L.NSS_SE_HDRSZ
  let se : servent :=
    { s_port := to_int (load32 M (dptr.take HDRSZ) (L.NSS_S_PORT >>> 2))
      s_proto := v.buf
      s_name := ptr_add M v.buf (hdr16 M dptr HDRSZ L.NSS_S_NAME : Nat)
      s_aliases := align8u M v.buf (hdr16 M dptr HDRSZ L.NSS_SE_MEM) }
  pack_aliases M v HDRSZ (hdr16 M dptr HDRSZ L.NSS_SE_MEM_STR)
    (hdr16 M dptr HDRSZ L.NSS_SE_MEM_NUM) s se se.s_aliases

/-- The routine `nss_mcdb_netdb_servent_decode`. -/
def nss_mcdb_netdb_servent_decode (M : Machine) (L : ServentLayout) (v : nss_mcdb_vinfo)
    (s : State servent) : Option (nss_status_t × State servent) :=
  if 1 ≤ v.bufsz then
    if s.mem 0 ≠ 0 then
      match strlen_buf s.mem 0 v.bufsz with
      | none => none
      | some len =>
        let protolen := 1 + len
        let r := servent_scan L s.mem protolen s.m.data s.m.nexts s.m.dups
        if r.1 then servent_fill M L v { s with m := r.2 }
        else some (NSS_STATUS_NOTFOUND, { s with m := r.2, errnop := ENOENT, errno := ENOENT })
    else servent_fill M L v s
  else none

/-! ## Address literals -/

/-- The routine `nss_mcdb_netdb_gethost_fill_h_errnop`: the status returned and `*h_errnop`
after the call. -/
def nss_mcdb_netdb_gethost_fill_h_errnop (status : nss_status_t) (h_errnop : Int) :
    nss_status_t × Int :=
  if NSS_STATUS_TRYAGAIN = status then (status, TRY_AGAIN)
  else if NSS_STATUS_NOTFOUND = status then (status, HOST_NOT_FOUND)
  else if NSS_STATUS_SUCCESS ≠ status then (status, NO_RECOVERY)
  else (status, h_errnop)

/-- The routine `nss_mcdb_netdb_gethost_filladdr`; `addr` holds the 16 bytes of
`uint64_t addr[2]`, `v.key` the `v.klen` bytes of the name (the byte after them is the NUL of
the C string).  Result: status, state, `*h_errnop`. -/
def nss_mcdb_netdb_gethost_filladdr (M : Machine) (addr : List Nat) (type : Int)
    (v : nss_mcdb_vinfo) (s : State hostent) (h_errnop : Int) :
    Option (nss_status_t × State hostent × Int) :=
  let aligned := ((v.buf + 7) % M.umax) &&& (M.umax - 8)
  if type = AF_INET ∨ type = AF_INET6 then
    let h_length : Nat := if type = AF_INET then 4 else 16
    if (ptr_diff M aligned v.buf + 8 + 8 + h_length + v.klen + 1) % M.umax ≥ v.bufsz then
      let r := nss_mcdb_netdb_gethost_fill_h_errnop NSS_STATUS_TRYAGAIN h_errnop
      some (r.1, { s with errnop := ERANGE, errno := ERANGE }, r.2)
    else
      match memcpy_buf v.bufsz s.mem (ptr_diff M (aligned + 16 + h_length) v.buf) v.key 0
          ((v.klen + 1) % M.umax) with
      | none => none
      | some mem0 =>
        match store_ptr M v.bufsz mem0 (ptr_diff M aligned v.buf) 0 with
        | none => none
        | some mem1 =>
          match memcpy_buf v.bufsz mem1 (ptr_diff M (aligned + 16) v.buf) addr 0 h_length with
          | none => none
          | some mem2 =>
            match store_ptr M v.bufsz mem2 (ptr_diff M (aligned + 8) v.buf)
                ((aligned + 16) % M.umax) with
            | none => none
            | some mem3 =>
              some (NSS_STATUS_SUCCESS,
                { s with
                  mem := mem3
                  ent :=
                    { h_name := (aligned + 16 + h_length) % M.umax
                      h_aliases := aligned
                      h_addrtype := type
                      h_length := (h_length : Int)
                      h_addr_list := (aligned + 8) % M.umax } },
                h_errnop)
  else
    let r := nss_mcdb_netdb_gethost_fill_h_errnop NSS_STATUS_UNAVAIL h_errnop
    some (r.1, { s with errnop := ENOENT, errno := ENOENT }, r.2)

/-! ## Entry points that stage a predicate

The calls `nss_mcdb_getent(dbtype, &v)` and `nss_mcdb_get_generic(dbtype, &v)` belong to
`nss_mcdb.c`; an entry point takes the call as a parameter. -/

/-- A call into `nss_mcdb.c`: from the request and the state at the time of the call to the
status returned and the state after it; `none` when an access leaves the caller buffer. -/
abbrev StoreCall (ε : Type) := nss_mcdb_vinfo → State ε → Option (nss_status_t × State ε)

/-- The return statement
`return (status == NSS_STATUS_SUCCESS) ? NSS_STATUS_SUCCESS
                                       : nss_mcdb_netdb_gethost_fill_h_errnop(status, h_errnop);`
of the host and network entry points. -/
def host_return {ε : Type} (r : Option (nss_status_t × State ε)) (h_errnop : Int) :
    Option (nss_status_t × State ε × Int) :=
  match r with
  | none => none
  | some (status, s) =>
    if status = NSS_STATUS_SUCCESS then some (NSS_STATUS_SUCCESS, s, h_errnop)
    else
      some ((nss_mcdb_netdb_gethost_fill_h_errnop status h_errnop).1, s,
        (nss_mcdb_netdb_gethost_fill_h_errnop status h_errnop).2)

/-- The entry point `_nss_mcdb_gethostent_r`. -/
def _nss_mcdb_gethostent_r (getent : StoreCall hostent) (buf bufsz : Nat) (s : State hostent)
    (h_errnop : Int) : Option (nss_status_t × State hostent × Int) :=
  let v : nss_mcdb_vinfo := { buf := buf, bufsz := bufsz, key := [], klen := 0, tagc := 0 }
  if bufsz > 3 then
    host_return (getent v { s with mem := fun i => if i < 4 then 0 else s.mem i }) h_errnop
  else
    host_return (some (NSS_STATUS_TRYAGAIN, { s with errnop := ERANGE, errno := ERANGE }))
      h_errnop

/-- The entry point `_nss_mcdb_getservent_r`. -/
def _nss_mcdb_getservent_r (getent : StoreCall servent) (buf bufsz : Nat) (s : State servent) :
    Option (nss_status_t × State servent) :=
  let v : nss_mcdb_vinfo := { buf := buf, bufsz := bufsz, key := [], klen := 0, tagc := 0 }
  if bufsz > 0 then getent v { s with mem := fun i => if i = 0 then 0 else s.mem i }
  else some (NSS_STATUS_TRYAGAIN, { s with errnop := ERANGE, errno := ERANGE })

/-- The statements `*buf = '\0'; if (plen) memcpy(buf, proto, plen+1);` of the service
queries; `proto` holds the bytes of the string before its NUL, `none` is `NULL`. -/
def stage_proto (mem : Mem) (proto : Option (List Nat)) : Mem :=
  let plen := (proto.getD []).length
  if plen ≠ 0 then fun i => if i < plen + 1 then rd (proto.getD []) i else mem i
  else fun i => if i = 0 then 0 else mem i

/-- The entry point `_nss_mcdb_getservbyname_r`; `name` holds the bytes of the name before
its NUL. -/
def _nss_mcdb_getservbyname_r (get_generic : StoreCall servent) (name : List Nat)
    (proto : Option (List Nat)) (buf bufsz : Nat) (s : State servent) :
    Option (nss_status_t × State servent) :=
  let v : nss_mcdb_vinfo :=
    { buf := buf, bufsz := bufsz, key := name, klen := name.length, tagc := 126 }
  let plen := (proto.getD []).length
  if bufsz > plen then get_generic v { s with mem := stage_proto s.mem proto }
  else some (NSS_STATUS_TRYAGAIN, { s with errnop := ERANGE, errno := ERANGE })

/-- The four bytes of an `int` in memory, in host byte order. -/
def int_bytes (M : Machine) (x : Int) : List Nat :=
  let u := (x % 4294967296).toNat
  if M.big_endian then [u / 16777216 % 256, u / 65536 % 256, u / 256 % 256, u % 256]
  else [u % 256, u / 256 % 256, u / 65536 % 256, u / 16777216 % 256]

/-- The entry point `_nss_mcdb_getservbyport_r`; the key is the memory of `port`. -/
def _nss_mcdb_getservbyport_r (M : Machine) (get_generic : StoreCall servent) (port : Int)
    (proto : Option (List Nat)) (buf bufsz : Nat) (s : State servent) :
    Option (nss_status_t × State servent) :=
  let v : nss_mcdb_vinfo :=
    { buf := buf, bufsz := bufsz, key := int_bytes M port, klen := 4, tagc := 120 }
  let plen := (proto.getD []).length
  if bufsz > plen then get_generic v { s with mem := stage_proto s.mem proto }
  else some (NSS_STATUS_TRYAGAIN, { s with errnop := ERANGE, errno := ERANGE })

/-! ## Keys of numeric queries -/

/-- The function `htons` on a 16-bit value. -/
def htons (M : Machine) (x : Nat) : Nat :=
  if M.big_endian then x % 65536 else x % 256 * 256 + x / 256 % 256

/-- The function `htonl` on a 32-bit value. -/
def htonl (M : Machine) (x : Nat) : Nat :=
  if M.big_endian then x % 4294967296
  else x % 256 * 16777216 + x / 256 % 256 * 65536 + x / 65536 % 256 * 256
    + x / 16777216 % 256

/-- Conversion `(uint32_t)` of an `int`. -/
def to_u32 (x : Int) : Nat := (x % 4294967296).toNat

/-- The four bytes of a `uint32_t` object in memory, in host byte order. -/
def u32_bytes (M : Machine) (u : Nat) : List Nat :=
  if M.big_endian then [u / 16777216 % 256, u / 65536 % 256, u / 256 % 256, u % 256]
  else [u % 256, u / 256 % 256, u / 65536 % 256, u / 16777216 % 256]

/-! ## The remaining entry points -/

/-- The routine `nss_mcdb_netdb_gethost_query`; `type` is its `uint32_t` argument. -/
def nss_mcdb_netdb_gethost_query (get_generic : StoreCall hostent) (type : Nat)
    (v : nss_mcdb_vinfo) (s : State hostent) (h_errnop : Int) :
    Option (nss_status_t × State hostent × Int) :=
  if v.bufsz ≥ 4 then
    host_return
      (get_generic v
        { s with
          mem := fun i =>
            if i = 0 then type % 4294967296 / 16777216 % 256
            else if i = 1 then (type &&& 16711680) / 65536 % 256
            else if i = 2 then (type &&& 65280) / 256 % 256
            else if i = 3 then (type &&& 255) % 256
            else s.mem i })
      h_errnop
  else
    host_return (some (NSS_STATUS_TRYAGAIN, { s with errnop := ERANGE, errno := ERANGE }))
      h_errnop

/-- The library call `inet_pton(type, name, &addr)` as `_nss_mcdb_gethostbyname2_r` uses it:
from the address family and the name to the value returned and the 16 bytes of
`uint64_t addr[2]` after the call. -/
abbrev InetPton := Int → List Nat → Int × List Nat

/-- The entry point `_nss_mcdb_gethostbyname2_r`; `name` holds the bytes of the name before
its NUL. -/
def _nss_mcdb_gethostbyname2_r (M : Machine) (inet_pton : InetPton)
    (get_generic : StoreCall hostent) (name : List Nat) (type : Int) (buf bufsz : Nat)
    (s : State hostent) (h_errnop : Int) : Option (nss_status_t × State hostent × Int) :=
  let v : nss_mcdb_vinfo :=
    { buf := buf, bufsz := bufsz, key := name, klen := name.length, tagc := 126 }
  let is_addr := (inet_pton type name).1
  if is_addr = 0 then nss_mcdb_netdb_gethost_query get_generic (to_u32 type) v s h_errnop
  else if is_addr > 0 then
    nss_mcdb_netdb_gethost_filladdr M (inet_pton type name).2 type v s h_errnop
  else
    some ((nss_mcdb_netdb_gethost_fill_h_errnop NSS_STATUS_RETURN h_errnop).1, s,
      (nss_mcdb_netdb_gethost_fill_h_errnop NSS_STATUS_RETURN h_errnop).2)

/-- The entry point `_nss_mcdb_gethostbyname_r`. -/
def _nss_mcdb_gethostbyname_r (M : Machine) (inet_pton : InetPton)
    (get_generic : StoreCall hostent) (name : List Nat) (buf bufsz : Nat)
    (s : State hostent) (h_errnop : Int) : Option (nss_status_t × State hostent × Int) :=
  _nss_mcdb_gethostbyname2_r M inet_pton get_generic name AF_INET buf bufsz s h_errnop

/-- The entry point `_nss_mcdb_gethostbyaddr_r`; `addr` holds the `len` bytes of the
address. -/
def _nss_mcdb_gethostbyaddr_r (get_generic : StoreCall hostent) (addr : List Nat) (len : Nat)
    (type : Int) (buf bufsz : Nat) (s : State hostent) (h_errnop : Int) :
    Option (nss_status_t × State hostent × Int) :=
  let v : nss_mcdb_vinfo := { buf := buf, bufsz := bufsz, key := addr, klen := len, tagc := 98 }
  nss_mcdb_netdb_gethost_query get_generic (to_u32 type) v s h_errnop

/-- The entry point `_nss_mcdb_getnetent_r`. -/
def _nss_mcdb_getnetent_r (getent : StoreCall netent) (buf bufsz : Nat) (s : State netent)
    (h_errnop : Int) : Option (nss_status_t × State netent × Int) :=
  let v : nss_mcdb_vinfo := { buf := buf, bufsz := bufsz, key := [], klen := 0, tagc := 0 }
  host_return (getent v s) h_errnop

/-- The entry point `_nss_mcdb_getnetbyname_r`. -/
def _nss_mcdb_getnetbyname_r (get_generic : StoreCall netent) (name : List Nat)
    (buf bufsz : Nat) (s : State netent) (h_errnop : Int) :
    Option (nss_status_t × State netent × Int) :=
  let v : nss_mcdb_vinfo :=
    { buf := buf, bufsz := bufsz, key := name, klen := name.length, tagc := 126 }
  host_return (get_generic v s) h_errnop

/-- The entry point `_nss_mcdb_getnetbyaddr_r`; `net` is its `uint32_t` argument and the key
is the memory of `uint32_t n[2]`. -/
def _nss_mcdb_getnetbyaddr_r (M : Machine) (get_generic : StoreCall netent) (net : Nat)
    (type : Int) (buf bufsz : Nat) (s : State netent) (h_errnop : Int) :
    Option (nss_status_t × State netent × Int) :=
  let n0 := htonl M (net % 4294967296)
  let n1 := htonl M (to_u32 type)
  let v : nss_mcdb_vinfo :=
    { buf := buf, bufsz := bufsz, key := u32_bytes M n0 ++ u32_bytes M n1, klen := 8,
      tagc := 120 }
  host_return (get_generic v s) h_errnop

/-- The entry point `_nss_mcdb_getprotoent_r`. -/
def _nss_mcdb_getprotoent_r (getent : StoreCall protoent) (buf bufsz : Nat)
    (s : State protoent) : Option (nss_status_t × State protoent) :=
  getent { buf := buf, bufsz := bufsz, key := [], klen := 0, tagc := 0 } s

/-- The entry point `_nss_mcdb_getprotobyname_r`. -/
def _nss_mcdb_getprotobyname_r (get_generic : StoreCall protoent) (name : List Nat)
    (buf bufsz : Nat) (s : State protoent) : Option (nss_status_t × State protoent) :=
  get_generic { buf := buf, bufsz := bufsz, key := name, klen := name.length, tagc := 126 } s

/-- The entry point `_nss_mcdb_getprotobynumber_r`; the key is the memory of
`const uint32_t n = htonl((uint32_t) proto)`. -/
def _nss_mcdb_getprotobynumber_r (M : Machine) (get_generic : StoreCall protoent)
    (proto : Int) (buf bufsz : Nat) (s : State protoent) :
    Option (nss_status_t × State protoent) :=
  let n := htonl M (to_u32 proto)
  get_generic { buf := buf, bufsz := bufsz, key := u32_bytes M n, klen := 4, tagc := 120 } s

/-- The entry point `_nss_mcdb_getrpcent_r`. -/
def _nss_mcdb_getrpcent_r (getent : StoreCall rpcent) (buf bufsz : Nat)
    (s : State rpcent) : Option (nss_status_t × State rpcent) :=
  getent { buf := buf, bufsz := bufsz, key := [], klen := 0, tagc := 0 } s

/-- The entry point `_nss_mcdb_getrpcbyname_r`. -/
def _nss_mcdb_getrpcbyname_r (get_generic : StoreCall rpcent) (name : List Nat)
    (buf bufsz : Nat) (s : State rpcent) : Option (nss_status_t × State rpcent) :=
  get_generic { buf := buf, bufsz := bufsz, key := name, klen := name.length, tagc := 126 } s

/-- The entry point `_nss_mcdb_getrpcbynumber_r`; the key is the memory of
`const uint32_t n = htonl((uint32_t) number)`. -/
def _nss_mcdb_getrpcbynumber_r (M : Machine) (get_generic : StoreCall rpcent)
    (number : Int) (buf bufsz : Nat) (s : State rpcent) :
    Option (nss_status_t × State rpcent) :=
  let n := htonl M (to_u32 number)
  get_generic { buf := buf, bufsz := bufsz, key := u32_bytes M n, klen := 4, tagc := 120 } s

/-! ## Results of calls -/

/-- Status of a result, when the call returns. -/
def status_of {ε : Type} (r : Option (nss_status_t × State ε)) : Option nss_status_t :=
  r.map (fun x => x.1)

/-- Output structure after a call, when the call returns. -/
def ent_of {ε : Type} (r : Option (nss_status_t × State ε)) : Option ε :=
  r.map (fun x => x.2.ent)

/-- State after a call; the state `s` when the call does not return. -/
def state_of {ε : Type} (r : Option (nss_status_t × State ε)) (s : State ε) : State ε :=
  (r.getD (NSS_STATUS_UNAVAIL, s)).2

/-- Status, output structure, `h_addr_list[0]` and `h_addr_list[1]` after a call of
`nss_mcdb_netdb_gethost_filladdr`. -/
def filladdr_view (M : Machine) (v : nss_mcdb_vinfo)
    (r : Option (nss_status_t × State hostent × Int)) :
    Option (nss_status_t × hostent × Nat × Nat) :=
  r.map (fun x => (x.1, x.2.1.ent,
    load_ptr M x.2.1.mem (ptr_diff M x.2.1.ent.h_addr_list v.buf),
    load_ptr M x.2.1.mem (ptr_diff M (x.2.1.ent.h_addr_list + M.ptrsz) v.buf)))

/-- State after a call of `nss_mcdb_netdb_gethost_filladdr`; the state `s` when the call does
not return. -/
def filladdr_state (r : Option (nss_status_t × State hostent × Int)) (s : State hostent) :
    State hostent :=
  (r.getD (NSS_STATUS_UNAVAIL, s, 0)).2.1

/-! ## Notions of the specification -/

/-- The NUL-terminated string at the head of `l`, without its terminator; `none` when `l`
holds no NUL. -/
def cstr : List Nat → Option (List Nat)
  | [] => none
  | c :: cs => if c = 0 then some [] else (cstr cs).map (fun t => c :: t)

/-- The NUL-terminated string stored at offset `off` of a record. -/
def cstr_at (data : List Nat) (off : Nat) : Option (List Nat) := cstr (data.drop off)

/-- The first `n` bytes of the caller buffer. -/
def buf_bytes (mem : Mem) (n : Nat) : List Nat := (List.range n).map mem

/-- Start offsets of `n` non-empty NUL-terminated strings stored back to back from offset
`off` of the variable region `var`; `none` when one of them is empty or is not terminated
inside `var`. -/
def alias_offsets (var : List Nat) : Nat → Nat → Option (List Nat)
  | _, 0 => some []
  | off, n + 1 =>
    match cstr (var.drop off) with
    | none => none
    | some str =>
      if str = [] then none
      else (alias_offsets var (off + str.length + 1) n).map (fun t => off :: t)

/-- A record is consistent for header size `hdrsz`, array offset `m`, first-alias offset
`mem_str` and alias count `num` when it holds its header, its length fits `uint32_t`, its
variable region (the bytes after the header) is no longer than `m`, and `num` non-empty
NUL-terminated strings are stored back to back from `mem_str` inside the variable region. -/
def consistent (data : List Nat) (hdrsz m mem_str num : Nat) : Prop :=
  hdrsz ≤ data.length ∧ data.length < 4294967296 ∧ data.length - hdrsz ≤ m
    ∧ (alias_offsets (data.drop hdrsz) mem_str num).isSome = true

instance (data : List Nat) (hdrsz m mem_str num : Nat) :
    Decidable (consistent data hdrsz m mem_str num) := by
  unfold consistent
  exact inferInstance

/-- The `k` addresses of `h_length` bytes of a host record lie inside its variable region:
`h_length` is positive and `lst_str + k * h_length` does not exceed the length of the region. -/
def addrs_inside (data : List Nat) (hdrsz lst_str k : Nat) (h_length : Int) : Prop :=
  0 < h_length ∧ (lst_str : Int) + (k : Int) * h_length ≤ ((data.length - hdrsz : Nat) : Int)

instance (data : List Nat) (hdrsz lst_str k : Nat) (h_length : Int) :
    Decidable (addrs_inside data hdrsz lst_str k h_length) := by
  unfold addrs_inside
  exact inferInstance

/-- A caller buffer is an object of the address space of the platform. -/
def valid_buf (M : Machine) (v : nss_mcdb_vinfo) : Prop :=
  v.buf < M.umax ∧ v.buf + v.bufsz ≤ M.umax

instance (M : Machine) (v : nss_mcdb_vinfo) : Decidable (valid_buf M v) := by
  unfold valid_buf
  exact inferInstance

/-! ## A concrete platform and layout -/

/-- A platform with 8-byte pointers and little-endian byte order. -/
def lp64le : Machine := ⟨true, false⟩

/-- A platform with 4-byte pointers and little-endian byte order. -/
def ilp32le : Machine := ⟨false, false⟩

/-- A host header layout: 4-byte fields first, 2-byte fields after them. -/
def hostLayout : HostentLayout :=
  { NSS_H_ADDRTYPE := 0, NSS_H_LENGTH := 4, NSS_HE_MEM := 8, NSS_HE_MEM_STR := 10,
    NSS_HE_LST_STR := 12, NSS_HE_MEM_NUM := 14, NSS_HE_LST_NUM := 16, NSS_HE_HDRSZ := 20 }

/-- A network header layout. -/
def netLayout : NetentLayout :=
  { NSS_N_ADDRTYPE := 0, NSS_N_NET := 4, NSS_NE_MEM := 10, NSS_NE_MEM_STR := 12,
    NSS_NE_MEM_NUM := 14, NSS_NE_HDRSZ := 16 }

/-- A protocol header layout. -/
def protoLayout : ProtoentLayout :=
  { NSS_P_PROTO := 0, NSS_PE_MEM := 4, NSS_PE_MEM_STR := 6, NSS_PE_MEM_NUM := 8,
    NSS_PE_HDRSZ := 12 }

/-- An rpc header layout. -/
def rpcLayout : RpcentLayout :=
  { NSS_R_NUMBER := 0, NSS_RE_MEM := 4, NSS_RE_MEM_STR := 6, NSS_RE_MEM_NUM := 8,
    NSS_RE_HDRSZ := 12 }

/-- A service header layout. -/
def servLayout : ServentLayout :=
  { NSS_S_PORT := 0, NSS_S_NAME := 4, NSS_SE_MEM := 6, NSS_SE_MEM_STR := 8,
    NSS_SE_MEM_NUM := 10, NSS_SE_HDRSZ := 12 }

/-! ## Example inputs -/

/-- Buffer contents given by a list of bytes, 0 elsewhere. -/
def mem_of (bytes : List Nat) : Mem := fun i => bytes.getD i 0

/-- A call state: buffer contents `bytes`, zeroed output structure, cursor on the first of
the records `r :: rs`. -/
def ex_state {ε : Type} (e : ε) (bytes : List Nat) (r : List Nat) (rs : List (List Nat)) :
    State ε :=
  ⟨mem_of bytes, e, 0, 0, ⟨r, rs, 0⟩⟩

/-- A caller buffer of 64 bytes at address 4096. -/
def ex_v : nss_mcdb_vinfo := ⟨4096, 64, [], 0, 126⟩

/-- A buffer of 8 bytes at address 4096. -/
def ex_v8 : nss_mcdb_vinfo := ⟨4096, 8, [], 0, 126⟩

/-- A buffer of 55 bytes at address 4096: one byte short for `ex_host_rec`. -/
def ex_v55 : nss_mcdb_vinfo := ⟨4096, 55, [], 0, 126⟩

/-- A host record in `hostLayout` with address type `t`: name "ab", aliases "cd" and "e",
one address 10.0.0.1 of 4 bytes. -/
def ex_host_rec (t : Nat) : List Nat :=
  [0, 0, 0, t, 0, 0, 0, 4, 0, 12, 0, 3, 0, 8, 0, 2, 0, 1, 0, 0,
    97, 98, 0, 99, 100, 0, 101, 0, 10, 0, 0, 1]

/-- A network record in `netLayout`: name "lo", one alias "loop". -/
def ex_net_rec : List Nat :=
  [0, 0, 0, 2, 127, 0, 0, 0, 0, 4, 0, 8, 0, 3, 0, 1, 108, 111, 0, 108, 111, 111, 112, 0]

/-- A protocol record in `protoLayout`: number 6, name "tcp", one alias "TCP". -/
def ex_proto_rec : List Nat :=
  [0, 0, 0, 6, 0, 8, 0, 4, 0, 1, 0, 0, 116, 99, 112, 0, 84, 67, 80, 0]

/-- An rpc record in `rpcLayout`: number 100003, name "nfs", one alias "nfsd". -/
def ex_rpc_rec : List Nat :=
  [0, 1, 134, 163, 0, 9, 0, 4, 0, 1, 0, 0, 110, 102, 115, 0, 110, 102, 115, 100, 0]

/-- A service record in `servLayout` with port 7 and protocol string `proto`: name "echo",
one alias "ping". -/
def ex_serv_rec (proto : List Nat) : List Nat :=
  [0, 0, 0, 7, 0, proto.length + 1, 0, proto.length + 11, 0, proto.length + 6, 0, 1]
    ++ proto ++ [0, 101, 99, 104, 111, 0, 112, 105, 110, 103, 0]

/-- A protocol record in `protoLayout` whose header is inconsistent with its data: the array
offset is 0 although 12 bytes of strings follow the header; no alias. -/
def ex_overlong_rec : List Nat :=
  [0, 0, 0, 6, 0, 0, 0, 0, 0, 0, 0, 0, 116, 99, 112, 0, 84, 67, 80, 0, 0, 0, 0, 0]

/-- A protocol record in `protoLayout` whose first-alias offset, 1000, points far behind its
8 bytes of strings; one alias. -/
def ex_far_alias_rec : List Nat :=
  [0, 0, 0, 6, 0, 8, 3, 232, 0, 1, 0, 0, 116, 99, 112, 0, 84, 67, 80, 0]

/-- The example host lookup: "any" filter, 64-byte buffer, one record of address type 2. -/
def ex_host_call : State hostent :=
  ex_state (⟨0, 0, 0, 0, 0⟩ : hostent) [0, 0, 0, 0] (ex_host_rec 2) []

/-- The example network lookup. -/
def ex_net_call : State netent := ex_state (⟨0, 0, 0, 0⟩ : netent) [] ex_net_rec []

/-- The example protocol lookup. -/
def ex_proto_call : State protoent := ex_state (⟨0, 0, 0⟩ : protoent) [] ex_proto_rec []

/-- The example rpc lookup. -/
def ex_rpc_call : State rpcent := ex_state (⟨0, 0, 0⟩ : rpcent) [] ex_rpc_rec []

/-- The example service lookup: staged protocol "tcp", one record of protocol "tcp". -/
def ex_serv_call : State servent :=
  ex_state (⟨0, 0, 0, 0⟩ : servent) [116, 99, 112, 0] (ex_serv_rec [116, 99, 112]) []

/-- A call state whose buffer is filled with the byte 170. -/
def ex_poison_call : State hostent := ⟨fun _ => 170, ⟨0, 0, 0, 0, 0⟩, 0, 0, ⟨[], [], 0⟩⟩

/-- The bytes of `uint64_t addr[2]` after `inet_pton(AF_INET, "127.0.0.1", &addr)`. -/
def ex_addr : List Nat := [127, 0, 0, 1, 0, 0, 0, 0, 0, 0, 0, 0, 0, 0, 0, 0]

/-- The request of the literal "127.0.0.1": a 64-byte buffer at address 4096, the name as
key. -/
def ex_v_literal : nss_mcdb_vinfo :=
  ⟨4096, 64, [49, 50, 55, 46, 48, 46, 48, 46, 49], 9, 126⟩

/-! ## Size of the result -/

/-- The padding that rounds the address `a` up to a multiple of 8. -/
def pad8 (a : Nat) : Nat := (8 - a % 8) % 8

/-- The record at the cursor passes the staged address-family filter of a host lookup: the
filter is 0, or it is the big-endian address type of the record. -/
def host_matched (L : HostentLayout) (s : State hostent) : Prop :=
  staged_type s.mem = 0 ∨ be32 s.m.data L.NSS_H_ADDRTYPE = staged_type s.mem

/-- The record at the cursor passes the staged protocol filter of a service lookup: the
staged string is empty, or it is NUL-terminated inside the buffer and is the protocol string
of the record. -/
def serv_matched (L : ServentLayout) (v : nss_mcdb_vinfo) (s : State servent) : Prop :=
  s.mem 0 = 0 ∨ ∃ n, strlen_buf s.mem 0 v.bufsz = some n
      ∧ cstr_at s.m.data L.NSS_SE_HDRSZ = some (buf_bytes s.mem n)

/-- The size `m + pad + 8 * slots` a decode routine requires of a buffer at address `b`: the
array offset `m` of the header, the padding that rounds `b + m` up to a multiple of 8, and 8
bytes for each of the `slots` pointer slots. -/
def required_size (b m slots : Nat) : Nat := m + pad8 (b + m) + 8 * slots

/-! ## Further example buffers -/

/-- A buffer of 64 bytes at address `2 ^ 32 + 4096`. -/
def ex_v_high : nss_mcdb_vinfo := ⟨4294971392, 64, [], 0, 126⟩

/-- A buffer of 100000 bytes at address `2 ^ 32 + 4096`. -/
def ex_v_high_large : nss_mcdb_vinfo := ⟨4294971392, 100000, [], 0, 126⟩

/-- A buffer of 24 bytes at address 4096. -/
def ex_v24 : nss_mcdb_vinfo := ⟨4096, 24, [], 0, 126⟩

/-- A buffer of 23 bytes at address 4096. -/
def ex_v23 : nss_mcdb_vinfo := ⟨4096, 23, [], 0, 126⟩

/-! ## Results of host and network entry points -/

/-- Status of a result of a host or network entry point, when the call returns. -/
def host_status_of {ε : Type} (r : Option (nss_status_t × State ε × Int)) :
    Option nss_status_t :=
  r.map (fun x => x.1)

/-- The value of `*h_errnop` after a call of a host or network entry point, when the call
returns. -/
def h_errnop_of {ε : Type} (r : Option (nss_status_t × State ε × Int)) : Option Int :=
  r.map (fun x => x.2.2)

/-! ## Example requests and doubles of the library and the store -/

/-- The request of the literal "127.0.0.1" with a buffer of 30 bytes at address 4096: the
exact size of the synthesized entry. -/
def ex_v_literal30 : nss_mcdb_vinfo :=
  ⟨4096, 30, [49, 50, 55, 46, 48, 46, 48, 46, 49], 9, 126⟩

/-- The request of the literal "127.0.0.1" with a buffer of 31 bytes at address 4096. -/
def ex_v_literal31 : nss_mcdb_vinfo :=
  ⟨4096, 31, [49, 50, 55, 46, 48, 46, 48, 46, 49], 9, 126⟩

/-- The name "127.0.0.1". -/
def ex_name : List Nat := [49, 50, 55, 46, 48, 46, 48, 46, 49]

/-- An `inet_pton` that accepts every name as the address 127.0.0.1. -/
def ex_pton_accept : InetPton := fun _ _ => (1, ex_addr)

/-- An `inet_pton` that rejects every address family (`EAFNOSUPPORT`). -/
def ex_pton_nosupport : InetPton := fun _ _ => (-1, List.replicate 16 0)

/-- A store call that fails as unavailable. -/
def ex_store_unavail {ε : Type} : StoreCall ε := fun _ s => some (NSS_STATUS_UNAVAIL, s)

/-! ## Keys and header fields -/

/-- The 4-byte big-endian encoding of a 32-bit number. -/
def be32_bytes (u : Nat) : List Nat :=
  [u / 16777216 % 256, u / 65536 % 256, u / 256 % 256, u % 256]

/-- The 4-byte header field at offset `c` is an element of the array `hdr.u` of a header of
`hdrsz` bytes: `c` is a multiple of 4 and the field ends inside the header. -/
def field32 (hdrsz c : Nat) : Prop := c % 4 = 0 ∧ c + 4 ≤ hdrsz

/-- The 2-byte header field at offset `c` is an element of the array `hdr.h` of a header of
`hdrsz` bytes: `c` is a multiple of 2 and the field ends inside the header. -/
def field16 (hdrsz c : Nat) : Prop := c % 2 = 0 ∧ c + 2 ≤ hdrsz

instance (hdrsz c : Nat) : Decidable (field32 hdrsz c) := by
  unfold field32
  exact inferInstance

instance (hdrsz c : Nat) : Decidable (field16 hdrsz c) := by
  unfold field16
  exact inferInstance

/-- A store double that finds a record and leaves the request in the cursor: the key as the
record, the tag as the only duplicate, the key length as the count. -/
def ex_store_record {ε : Type} : StoreCall ε :=
  fun v s => some (NSS_STATUS_SUCCESS, { s with m := ⟨v.key, [[v.tagc]], v.klen⟩ })

/-- A platform with 8-byte pointers and big-endian byte order. -/
def lp64be : Machine := ⟨true, true⟩

/-- The host header constants make every field an element of `hdr.u` or `hdr.h`. -/
def host_fields (L : HostentLayout) : Prop :=
  field32 L.NSS_HE_HDRSZ L.NSS_H_ADDRTYPE ∧ field32 L.NSS_HE_HDRSZ L.NSS_H_LENGTH
    ∧ field16 L.NSS_HE_HDRSZ L.NSS_HE_MEM ∧ field16 L.NSS_HE_HDRSZ L.NSS_HE_MEM_STR
    ∧ field16 L.NSS_HE_HDRSZ L.NSS_HE_LST_STR ∧ field16 L.NSS_HE_HDRSZ L.NSS_HE_MEM_NUM
    ∧ field16 L.NSS_HE_HDRSZ L.NSS_HE_LST_NUM

/-- The network header constants make every field an element of `hdr.u` or `hdr.h`. -/
def net_fields (L : NetentLayout) : Prop :=
  field32 L.NSS_NE_HDRSZ L.NSS_N_ADDRTYPE ∧ field32 L.NSS_NE_HDRSZ L.NSS_N_NET
    ∧ field16 L.NSS_NE_HDRSZ L.NSS_NE_MEM ∧ field16 L.NSS_NE_HDRSZ L.NSS_NE_MEM_STR
    ∧ field16 L.NSS_NE_HDRSZ L.NSS_NE_MEM_NUM

/-- The protocol header constants make every field an element of `hdr.u` or `hdr.h`. -/
def proto_fields (L : ProtoentLayout) : Prop :=
  field32 L.NSS_PE_HDRSZ L.NSS_P_PROTO
    ∧ field16 L.NSS_PE_HDRSZ L.NSS_PE_MEM ∧ field16 L.NSS_PE_HDRSZ L.NSS_PE_MEM_STR
    ∧ field16 L.NSS_PE_HDRSZ L.NSS_PE_MEM_NUM

/-- The rpc header constants make every field an element of `hdr.u` or `hdr.h`. -/
def rpc_fields (L : RpcentLayout) : Prop :=
  field32 L.NSS_RE_HDRSZ L.NSS_R_NUMBER
    ∧ field16 L.NSS_RE_HDRSZ L.NSS_RE_MEM ∧ field16 L.NSS_RE_HDRSZ L.NSS_RE_MEM_STR
    ∧ field16 L.NSS_RE_HDRSZ L.NSS_RE_MEM_NUM

/-- The service header constants make every field an element of `hdr.u` or `hdr.h`. -/
def serv_fields (L : ServentLayout) : Prop :=
  field32 L.NSS_SE_HDRSZ L.NSS_S_PORT ∧ field16 L.NSS_SE_HDRSZ L.NSS_S_NAME
    ∧ field16 L.NSS_SE_HDRSZ L.NSS_SE_MEM ∧ field16 L.NSS_SE_HDRSZ L.NSS_SE_MEM_STR
    ∧ field16 L.NSS_SE_HDRSZ L.NSS_SE_MEM_NUM

instance (L : HostentLayout) : Decidable (host_fields L) := by
  unfold host_fields
  exact inferInstance

instance (L : NetentLayout) : Decidable (net_fields L) := by
  unfold net_fields
  exact inferInstance

instance (L : ProtoentLayout) : Decidable (proto_fields L) := by
  unfold proto_fields
  exact inferInstance

instance (L : RpcentLayout) : Decidable (rpc_fields L) := by
  unfold rpc_fields
  exact inferInstance

instance (L : ServentLayout) : Decidable (serv_fields L) := by
  unfold serv_fields
  exact inferInstance

/-- The statements of `hostent_fill` with every header field taken as the big-endian value of
its bytes in the record, the reading the specification gives of the header. -/
def hostent_fill_be (M : Machine) (L : HostentLayout) (v : nss_mcdb_vinfo) (s : State hostent) :
    Option (nss_status_t × State hostent) :=
  let dptr := s.m.data
  let he_mem_num := be16 dptr L.NSS_HE_MEM_NUM
  let he_lst_num := be16 dptr L.NSS_HE_LST_NUM
  let he0 : hostent :=
    { s.ent with
      h_addrtype := to_int (be32 dptr L.NSS_H_ADDRTYPE)
      h_length := to_int (be32 dptr L.NSS_H_LENGTH)
      h_name := v.buf
      h_aliases := align8u M v.buf (be16 dptr L.NSS_HE_MEM) }
  if (ptr_diff M he0.h_aliases v.buf + ((he_mem_num + 1 + he_lst_num + 1) <<< 3)) % M.umax
      ≤ v.bufsz then
    let he_mem := he0.h_aliases
    let he_lst := (he_mem + M.ptrsz * (he_mem_num + 1)) % M.umax
    let he : hostent := { he0 with h_addr_list := he_lst }
    match memcpy_buf v.bufsz s.mem 0 dptr L.NSS_HE_HDRSZ (var_len M dptr L.NSS_HE_HDRSZ) with
    | none => none
    | some mem0 =>
      match fill_aliases M v he_mem (be16 dptr L.NSS_HE_MEM_STR) he_mem_num mem0 with
      | none => none
      | some mem1 =>
        match fill_addrs M v he_lst (be16 dptr L.NSS_HE_LST_STR) he.h_length he_lst_num
            mem1 with
        | none => none
        | some mem2 => some (NSS_STATUS_SUCCESS, { s with mem := mem2, ent := he })
  else
    some (NSS_STATUS_TRYAGAIN, { s with ent := he0, errnop := ERANGE, errno := ERANGE })

/-! ## Further example records -/

/-- A host record in `hostLayout` with address type 2: name "ab", aliases "cd" and "e", the
two addresses 10.0.0.1 and 0.0.0.0 of 4 bytes. -/
def ex_host2_rec : List Nat :=
  [0, 0, 0, 2, 0, 0, 0, 4, 0, 16, 0, 3, 0, 8, 0, 2, 0, 2, 0, 0,
    97, 98, 0, 99, 100, 0, 101, 0, 10, 0, 0, 1, 0, 0, 0, 0]

/-- The lookup of `ex_host2_rec` under the "any" filter. -/
def ex_host2_call : State hostent :=
  ex_state (⟨0, 0, 0, 0, 0⟩ : hostent) [0, 0, 0, 0] ex_host2_rec []

/-! ## The copied variable region -/

/-- After a decode of the record `data` into the buffer of `v`, with `mem` the buffer before
the call and `mem'` after it: the pointer arrays, `slots` slots of at most 8 bytes from the
address `arr`, start at an offset `d` of the buffer that is not below the length of the
variable region and end inside the buffer; no byte from offset `bufsz` on has changed; the
bytes `[0, L)` of the buffer are the variable region of the record; and every
NUL-terminated string of the variable region is read at the same offset of the buffer. -/
def region_copied (v : nss_mcdb_vinfo) (data : List Nat) (hdrsz : Nat) (mem mem' : Mem)
    (arr slots : Nat) : Prop :=
  ∃ d, arr = v.buf + d ∧ data.length - hdrsz ≤ d ∧ d + 8 * slots ≤ v.bufsz
    ∧ (∀ x, v.bufsz ≤ x → mem' x = mem x)
    ∧ (∀ x, x < data.length - hdrsz → mem' x = rd data (hdrsz + x))
    ∧ (∀ off str, cstr_at data (hdrsz + off) = some str →
        cstr ((buf_bytes mem' v.bufsz).drop off) = some str)

/-! ## Reading the alias array -/

/-- Reading the alias array at address `arr` of the buffer `mem'` returns the `num` alias
strings of the record `data` in their order: there are start offsets `offs` of `num`
non-empty NUL-terminated strings stored back to back from offset `mem_str` of the variable
region, element `i` of the array is the address `v->buf + offs[i]`, and the string read there
is the string the record holds at offset `offs[i]` of its variable region. -/
def aliases_read (M : Machine) (v : nss_mcdb_vinfo) (data : List Nat) (hdrsz mem_str num : Nat)
    (mem' : Mem) (arr : Nat) : Prop :=
  ∃ offs, alias_offsets (data.drop hdrsz) mem_str num = some offs
    ∧ ∀ i, i < num →
        load_ptr M mem' (slot M v arr i) = v.buf + offs.getD i 0
          ∧ ∃ str, cstr_at data (hdrsz + offs.getD i 0) = some str
              ∧ cstr ((buf_bytes mem' v.bufsz).drop (offs.getD i 0)) = some str

/-- A protocol record in `protoLayout` whose first alias is the empty string: name "tcp",
aliases "" and "b" at offsets 4 and 5 of the variable region, array offset 8. -/
def ex_empty_alias_rec : List Nat :=
  [0, 0, 0, 6, 0, 8, 0, 4, 0, 2, 0, 0, 116, 99, 112, 0, 0, 98, 0]

/-- A service record in `servLayout` whose header is inconsistent with its data: protocol
"tcp", name "echo", no alias, and the array offset 0 although 9 bytes of strings follow the
header. -/
def ex_serv_overlap_rec : List Nat :=
  [0, 0, 0, 7, 0, 4, 0, 0, 0, 9, 0, 0, 116, 99, 112, 0, 101, 99, 104, 111, 0]

/-! ## Lists of bytes -/

theorem rd_drop (data : List Nat) (h i : Nat) : rd (data.drop h) i = rd data (h + i) := by
  simp [rd, List.getD_eq_getElem?_getD, List.getElem?_drop]

theorem rd_append_left (p q : List Nat) (i : Nat) (h : i < p.length) :
    rd (p ++ q) i = rd p i := by
  simp [rd, List.getD_eq_getElem?_getD, List.getElem?_append_left h]

theorem rd_append_right (p q : List Nat) (i : Nat) :
    rd (p ++ q) (p.length + i) = rd q i := by
  simp [rd, List.getD_eq_getElem?_getD, List.getElem?_append_right]

theorem rd_mem_of_lt (p : List Nat) (i : Nat) (h : i < p.length) : rd p i ∈ p := by
  simp [rd, List.getD_eq_getElem?_getD, List.getElem?_eq_getElem h]

theorem buf_bytes_length (mem : Mem) (n : Nat) : (buf_bytes mem n).length = n := by
  simp [buf_bytes]

theorem rd_buf_bytes (mem : Mem) (n i : Nat) (h : i < n) : rd (buf_bytes mem n) i = mem i := by
  simp [rd, buf_bytes, List.getD_eq_getElem?_getD, List.getElem?_map, List.getElem?_range h]

theorem list_eq_of_rd (p q : List Nat) (hl : p.length = q.length)
    (h : ∀ i, i < p.length → rd p i = rd q i) : p = q := by
  apply List.ext_getElem hl
  intro i h1 h2
  have := h i h1
  simpa [rd, List.getD_eq_getElem?_getD, List.getElem?_eq_getElem h1,
    List.getElem?_eq_getElem h2] using this

/-! ## Library calls -/

theorem memcmp_eq_zero_iff : ∀ (n : Nat) (a b : Nat → Nat),
    memcmp a b n = 0 ↔ ∀ i, i < n → a i = b i := by
  intro n
  induction n with
  | zero => intro a b; simp [memcmp]
  | succ k ih =>
    intro a b
    unfold memcmp
    by_cases h0 : a 0 = b 0
    · simp only [h0, if_true]
      rw [ih]
      constructor
      · intro h i hi
        cases i with
        | zero => exact h0
        | succ j => exact h j (by omega)
      · intro h i hi
        exact h (i + 1) (by omega)
    · simp only [h0, if_false]
      constructor
      · intro h
        exact absurd (by omega : a 0 = b 0) h0
      · intro h
        exact absurd (h 0 (by omega)) h0

theorem strlen_buf_spec (mem : Mem) : ∀ (room off n : Nat),
    strlen_buf mem off room = some n →
      n < room ∧ mem (off + n) = 0 ∧ ∀ i, i < n → mem (off + i) ≠ 0 := by
  intro room
  induction room with
  | zero => intro off n h; simp [strlen_buf] at h
  | succ r ih =>
    intro off n h
    unfold strlen_buf at h
    by_cases h0 : mem off = 0
    · simp [h0] at h
      subst h
      simp [h0]
    · simp [h0] at h
      obtain ⟨k, hk, rfl⟩ := h
      obtain ⟨h1, h2, h3⟩ := ih (off + 1) k hk
      refine ⟨by omega, ?_, ?_⟩
      · rw [← h2]; congr 1; omega
      · intro i hi
        cases i with
        | zero => simpa using h0
        | succ j =>
          have := h3 j (by omega)
          rw [show off + (j + 1) = off + 1 + j by omega]
          exact this

theorem cstr_eq_some_iff : ∀ (l p : List Nat),
    cstr l = some p ↔ (∀ c, c ∈ p → c ≠ 0) ∧ ∃ rest, l = p ++ 0 :: rest := by
  intro l
  induction l with
  | nil =>
    intro p
    simp [cstr]
  | cons c cs ih =>
    intro p
    unfold cstr
    by_cases hc : c = 0
    · subst hc
      simp only [if_true]
      constructor
      · intro h
        simp at h
        subst h
        simp
      · rintro ⟨hz, rest, hr⟩
        cases p with
        | nil => rfl
        | cons q qs =>
          simp at hr
          exact absurd hr.1.symm (hz q (by simp))
    · simp only [hc, if_false]
      constructor
      · intro h
        simp at h
        obtain ⟨t, ht, rfl⟩ := h
        obtain ⟨hz, rest, hr⟩ := (ih t).1 ht
        refine ⟨?_, rest, by simp [hr]⟩
        intro x hx
        simp at hx
        rcases hx with rfl | hx
        · exact hc
        · exact hz x hx
      · rintro ⟨hz, rest, hr⟩
        cases p with
        | nil =>
          simp at hr
          exact absurd hr.1 hc
        | cons q qs =>
          simp at hr
          obtain ⟨rfl, hcs⟩ := hr
          have : cstr cs = some qs := (ih qs).2 ⟨fun x hx => hz x (by simp [hx]), rest, hcs⟩
          simp [this]

/-! ## Duplicate scan of hosts -/

theorem hostent_scan_first (L : HostentLayout) (type : Nat) :
    ∀ (dups : List (List Nat)) (data : List Nat) (nexts i : Nat),
      be32 ((data :: dups).getD i []) L.NSS_H_ADDRTYPE = type →
      (∀ j, j < i → be32 ((data :: dups).getD j []) L.NSS_H_ADDRTYPE ≠ type) →
      i < (data :: dups).length →
      hostent_scan L type data nexts dups
        = (true, ⟨(data :: dups).getD i [], dups.drop i, nexts + i⟩) := by
  intro dups
  induction dups with
  | nil =>
    intro data nexts i hm hl hi
    have hi0 : i = 0 := by simpa using hi
    subst hi0
    simp at hm
    simp [hostent_scan, hm]
  | cons r rs ih =>
    intro data nexts i hm hl hi
    cases i with
    | zero =>
      simp at hm
      simp [hostent_scan, hm]
    | succ k =>
      have h0 := hl 0 (Nat.succ_pos k)
      simp at h0
      have hm1 : be32 ((r :: rs).getD k []) L.NSS_H_ADDRTYPE = type := by simpa using hm
      have hl1 : ∀ j, j < k → be32 ((r :: rs).getD j []) L.NSS_H_ADDRTYPE ≠ type := by
        intro j hj
        have := hl (j + 1) (Nat.succ_lt_succ hj)
        simpa using this
      have hi1 : k < (r :: rs).length := by simpa using hi
      have := ih r (nexts + 1) k hm1 hl1 hi1
      simp [hostent_scan, Ne.symm h0, this]
      omega

theorem hostent_scan_none (L : HostentLayout) (type : Nat) :
    ∀ (dups : List (List Nat)) (data : List Nat) (nexts : Nat),
      (∀ r, r ∈ data :: dups → be32 r L.NSS_H_ADDRTYPE ≠ type) →
      (hostent_scan L type data nexts dups).1 = false
        ∧ (hostent_scan L type data nexts dups).2.nexts = nexts + (data :: dups).length := by
  intro dups
  induction dups with
  | nil =>
    intro data nexts h
    have h0 := h data (by simp)
    simp [hostent_scan, Ne.symm h0]
  | cons r rs ih =>
    intro data nexts h
    have h0 := h data (by simp)
    have := ih r (nexts + 1) (fun x hx => h x (List.mem_cons_of_mem _ hx))
    simp [hostent_scan, Ne.symm h0, this]
    omega

theorem hostent_fill_cursor (M : Machine) (L : HostentLayout) (v : nss_mcdb_vinfo)
    (s : State hostent) (st : nss_status_t) (s' : State hostent)
    (h : hostent_fill M L v s = some (st, s')) : s'.m = s.m := by
  unfold hostent_fill at h
  simp only at h
  split at h
  · split at h
    · exact absurd h (by simp)
    · split at h
      · exact absurd h (by simp)
      · split at h
        · exact absurd h (by simp)
        · simp at h
          rw [← h.2]
  · simp at h
    rw [← h.2]

/-! ## Duplicate scan of services -/

/-- The loop condition of the service scan is false exactly on the records whose protocol string is the staged one. -/
theorem servent_match_iff (L : ServentLayout) (mem : Mem) (room n : Nat) (data : List Nat)
    (hlen : strlen_buf mem 0 room = some n)
    (hwf : (cstr_at data L.NSS_SE_HDRSZ).isSome = true) :
    (rd data L.NSS_SE_HDRSZ ≠ mem 0
        ∨ memcmp (fun i => rd data (L.NSS_SE_HDRSZ + i)) mem (1 + n) ≠ 0)
      ↔ cstr_at data L.NSS_SE_HDRSZ ≠ some (buf_bytes mem n) := by
  obtain ⟨_, hz, hnz⟩ := strlen_buf_spec mem room 0 n hlen
  simp only [Nat.zero_add] at hz hnz
  obtain ⟨q, hq⟩ := Option.isSome_iff_exists.1 hwf
  have hq' := hq
  unfold cstr_at at hq'
  obtain ⟨hqz, rest, hrest⟩ := (cstr_eq_some_iff _ _).1 hq'
  have hrd : ∀ i, rd data (L.NSS_SE_HDRSZ + i) = rd (q ++ 0 :: rest) i := by
    intro i
    rw [← rd_drop, hrest]
  have hcmp : memcmp (fun i => rd data (L.NSS_SE_HDRSZ + i)) mem (1 + n) = 0
      ↔ ∀ i, i < 1 + n → rd (q ++ 0 :: rest) i = mem i := by
    rw [memcmp_eq_zero_iff]
    constructor
    · intro h i hi
      rw [← hrd]
      exact h i hi
    · intro h i hi
      show rd data (L.NSS_SE_HDRSZ + i) = mem i
      rw [hrd]
      exact h i hi
  rw [hq]
  constructor
  · intro h heq
    have hqe : q = buf_bytes mem n := by simpa using heq
    have hall : ∀ i, i < 1 + n → rd (q ++ 0 :: rest) i = mem i := by
      intro i hi
      have hql : q.length = n := by rw [hqe, buf_bytes_length]
      by_cases hin : i < n
      · rw [rd_append_left _ _ _ (by omega), hqe, rd_buf_bytes _ _ _ hin]
      · have hi' : i = q.length + 0 := by omega
        rw [hi', rd_append_right]
        simp only [Nat.add_zero, hql, hz]
        simp [rd]
    rcases h with h | h
    · apply h
      have := hall 0 (by omega)
      rw [← hrd] at this
      simpa using this
    · exact h (hcmp.2 hall)
  · intro hne
    right
    intro h0
    have hall := hcmp.1 h0
    apply hne
    have hql : q.length = n := by
      rcases Nat.lt_trichotomy q.length n with hlt | heq | hgt
      · exfalso
        have h1 := hall q.length (by omega)
        have h2 : rd (q ++ 0 :: rest) (q.length + 0) = rd (0 :: rest) 0 := rd_append_right _ _ _
        simp only [Nat.add_zero] at h2
        rw [h2] at h1
        exact hnz q.length hlt (by rw [← h1]; simp [rd])
      · exact heq
      · exfalso
        have h1 := hall n (by omega)
        rw [rd_append_left _ _ _ hgt, hz] at h1
        exact hqz _ (rd_mem_of_lt q n hgt) h1
    congr 1
    apply list_eq_of_rd
    · rw [hql, buf_bytes_length]
    · intro i hi
      have h1 := hall i (by omega)
      rw [rd_append_left _ _ _ hi] at h1
      rw [h1, rd_buf_bytes _ _ _ (by omega)]

theorem servent_scan_first (L : ServentLayout) (mem : Mem) (room n : Nat)
    (hlen : strlen_buf mem 0 room = some n) :
    ∀ (dups : List (List Nat)) (data : List Nat) (nexts i : Nat),
      (∀ r, r ∈ data :: dups → (cstr_at r L.NSS_SE_HDRSZ).isSome = true) →
      cstr_at ((data :: dups).getD i []) L.NSS_SE_HDRSZ = some (buf_bytes mem n) →
      (∀ j, j < i →
        cstr_at ((data :: dups).getD j []) L.NSS_SE_HDRSZ ≠ some (buf_bytes mem n)) →
      i < (data :: dups).length →
      servent_scan L mem (1 + n) data nexts dups
        = (true, ⟨(data :: dups).getD i [], dups.drop i, nexts + i⟩) := by
  intro dups
  induction dups with
  | nil =>
    intro data nexts i hwf hm hl hi
    have hi0 : i = 0 := by simpa using hi
    subst hi0
    simp at hm
    have hc := (not_congr (servent_match_iff L mem room n data hlen (hwf data (by simp)))).2
      (not_not.2 hm)
    simp [servent_scan, hc]
  | cons r rs ih =>
    intro data nexts i hwf hm hl hi
    cases i with
    | zero =>
      simp at hm
      have hc := (not_congr (servent_match_iff L mem room n data hlen (hwf data (by simp)))).2
        (not_not.2 hm)
      simp [servent_scan, hc]
    | succ k =>
      have h0 := hl 0 (Nat.succ_pos k)
      simp only [List.getD_cons_zero] at h0
      have hc := (servent_match_iff L mem room n data hlen (hwf data (by simp))).2 h0
      have hm1 : cstr_at ((r :: rs).getD k []) L.NSS_SE_HDRSZ = some (buf_bytes mem n) := by
        simpa using hm
      have hl1 : ∀ j, j < k →
          cstr_at ((r :: rs).getD j []) L.NSS_SE_HDRSZ ≠ some (buf_bytes mem n) := by
        intro j hj
        have := hl (j + 1) (Nat.succ_lt_succ hj)
        simpa using this
      have hi1 : k < (r :: rs).length := by simpa using hi
      have := ih r (nexts + 1) k (fun x hx => hwf x (List.mem_cons_of_mem _ hx)) hm1 hl1 hi1
      rw [servent_scan, if_pos hc, this]
      simp
      omega

theorem servent_scan_none (L : ServentLayout) (mem : Mem) (room n : Nat)
    (hlen : strlen_buf mem 0 room = some n) :
    ∀ (dups : List (List Nat)) (data : List Nat) (nexts : Nat),
      (∀ r, r ∈ data :: dups → (cstr_at r L.NSS_SE_HDRSZ).isSome = true) →
      (∀ r, r ∈ data :: dups → cstr_at r L.NSS_SE_HDRSZ ≠ some (buf_bytes mem n)) →
      (servent_scan L mem (1 + n) data nexts dups).1 = false
        ∧ (servent_scan L mem (1 + n) data nexts dups).2.nexts
            = nexts + (data :: dups).length := by
  intro dups
  induction dups with
  | nil =>
    intro data nexts hwf h
    have hc := (servent_match_iff L mem room n data hlen (hwf data (by simp))).2
      (h data (by simp))
    rw [servent_scan, if_pos hc]
    simp
  | cons r rs ih =>
    intro data nexts hwf h
    have hc := (servent_match_iff L mem room n data hlen (hwf data (by simp))).2
      (h data (by simp))
    have := ih r (nexts + 1) (fun x hx => hwf x (List.mem_cons_of_mem _ hx))
      (fun x hx => h x (List.mem_cons_of_mem _ hx))
    rw [servent_scan, if_pos hc]
    simp [this]
    omega

/-! ## Duplicate resolution -/

theorem pack_aliases_cursor {ε : Type} (M : Machine) (v : nss_mcdb_vinfo)
    (hdrsz mem_str num : Nat) (s : State ε) (ent : ε) (aliases : Nat)
    (st : nss_status_t) (s' : State ε)
    (h : pack_aliases M v hdrsz mem_str num s ent aliases = some (st, s')) : s'.m = s.m := by
  unfold pack_aliases at h
  split at h
  · split at h
    · exact absurd h (by simp)
    · split at h
      · exact absurd h (by simp)
      · simp at h
        rw [← h.2]
  · simp at h
    rw [← h.2]

theorem servent_fill_cursor (M : Machine) (L : ServentLayout) (v : nss_mcdb_vinfo)
    (s : State servent) (st : nss_status_t) (s' : State servent)
    (h : servent_fill M L v s = some (st, s')) : s'.m = s.m :=
  pack_aliases_cursor M v _ _ _ s _ _ st s' h

/-- C1: with a non-zero staged family filter, the host decode routine decodes the first
record of the duplicate sequence whose big-endian address-type field equals the filter,
after exactly as many next-duplicate requests as records precede it. -/
theorem hostent_decode_first_match (M : Machine) (L : HostentLayout) (v : nss_mcdb_vinfo)
    (s : State hostent) (i : Nat)
    (hsz : 4 ≤ v.bufsz) (ht : staged_type s.mem ≠ 0)
    (hi : i < (s.m.data :: s.m.dups).length)
    (hmatch : be32 ((s.m.data :: s.m.dups).getD i []) L.NSS_H_ADDRTYPE = staged_type s.mem)
    (hleast : ∀ j, j < i →
      be32 ((s.m.data :: s.m.dups).getD j []) L.NSS_H_ADDRTYPE ≠ staged_type s.mem) :
    nss_mcdb_netdb_hostent_decode M L v s
        = hostent_fill M L v
            { s with m := ⟨(s.m.data :: s.m.dups).getD i [], s.m.dups.drop i, s.m.nexts + i⟩ }
      ∧ ∀ st s', nss_mcdb_netdb_hostent_decode M L v s = some (st, s') →
          s'.m.data = (s.m.data :: s.m.dups).getD i [] ∧ s'.m.nexts = s.m.nexts + i := by
  have hscan := hostent_scan_first L (staged_type s.mem) s.m.dups s.m.data s.m.nexts i
    hmatch hleast hi
  have heq : nss_mcdb_netdb_hostent_decode M L v s
        = hostent_fill M L v
            { s with m := ⟨(s.m.data :: s.m.dups).getD i [], s.m.dups.drop i, s.m.nexts + i⟩ } := by
    unfold nss_mcdb_netdb_hostent_decode
    simp only [hsz, if_true, ht, ne_eq, not_false_eq_true, hscan]
  refine ⟨heq, ?_⟩
  intro st s' h
  rw [heq] at h
  have := hostent_fill_cursor M L v _ st s' h
  rw [this]
  exact ⟨rfl, rfl⟩

/-- Instance of C1: filter 10 staged, records of address types 2, 2, 10, 10; the third record
is decoded after two next-duplicate requests. -/
theorem hostent_decode_first_match_witness :
    nss_mcdb_netdb_hostent_decode lp64le hostLayout ex_v
        (ex_state (⟨0, 0, 0, 0, 0⟩ : hostent) [0, 0, 0, 10] (ex_host_rec 2)
          [ex_host_rec 2, ex_host_rec 10, ex_host_rec 10])
      = hostent_fill lp64le hostLayout ex_v
          { ex_state (⟨0, 0, 0, 0, 0⟩ : hostent) [0, 0, 0, 10] (ex_host_rec 2)
              [ex_host_rec 2, ex_host_rec 10, ex_host_rec 10] with
            m := ⟨ex_host_rec 10, [ex_host_rec 10], 2⟩ }
      ∧ ∀ st s', nss_mcdb_netdb_hostent_decode lp64le hostLayout ex_v
          (ex_state (⟨0, 0, 0, 0, 0⟩ : hostent) [0, 0, 0, 10] (ex_host_rec 2)
            [ex_host_rec 2, ex_host_rec 10, ex_host_rec 10]) = some (st, s') →
          s'.m.data = ex_host_rec 10 ∧ s'.m.nexts = 2 :=
  hostent_decode_first_match lp64le hostLayout ex_v
    (ex_state (⟨0, 0, 0, 0, 0⟩ : hostent) [0, 0, 0, 10] (ex_host_rec 2)
      [ex_host_rec 2, ex_host_rec 10, ex_host_rec 10]) 2
    (by decide) (by decide) (by decide) (by decide) (by decide)

/-- C2: with a non-empty staged protocol string, the service decode routine decodes the
first record of the duplicate sequence whose NUL-terminated protocol string, stored right
after the header, is byte for byte the staged string. -/
theorem servent_decode_first_match (M : Machine) (L : ServentLayout) (v : nss_mcdb_vinfo)
    (s : State servent) (n i : Nat)
    (hlen : strlen_buf s.mem 0 v.bufsz = some n) (hn : 0 < n)
    (hwf : ∀ r, r ∈ s.m.data :: s.m.dups → (cstr_at r L.NSS_SE_HDRSZ).isSome = true)
    (hi : i < (s.m.data :: s.m.dups).length)
    (hmatch : cstr_at ((s.m.data :: s.m.dups).getD i []) L.NSS_SE_HDRSZ
      = some (buf_bytes s.mem n))
    (hleast : ∀ j, j < i →
      cstr_at ((s.m.data :: s.m.dups).getD j []) L.NSS_SE_HDRSZ ≠ some (buf_bytes s.mem n)) :
    nss_mcdb_netdb_servent_decode M L v s
        = servent_fill M L v
            { s with m := ⟨(s.m.data :: s.m.dups).getD i [], s.m.dups.drop i, s.m.nexts + i⟩ }
      ∧ ∀ st s', nss_mcdb_netdb_servent_decode M L v s = some (st, s') →
          s'.m.data = (s.m.data :: s.m.dups).getD i [] ∧ s'.m.nexts = s.m.nexts + i := by
  have hscan := servent_scan_first L s.mem v.bufsz n hlen s.m.dups s.m.data s.m.nexts i
    hwf hmatch hleast hi
  obtain ⟨hroom, _, hnz⟩ := strlen_buf_spec s.mem v.bufsz 0 n hlen
  have h0 : s.mem 0 ≠ 0 := by simpa using hnz 0 hn
  have hsz : 1 ≤ v.bufsz := by omega
  have heq : nss_mcdb_netdb_servent_decode M L v s
        = servent_fill M L v
            { s with m := ⟨(s.m.data :: s.m.dups).getD i [], s.m.dups.drop i, s.m.nexts + i⟩ } := by
    unfold nss_mcdb_netdb_servent_decode
    simp only [hsz, if_true, h0, ne_eq, not_false_eq_true, hlen, hscan]
  refine ⟨heq, ?_⟩
  intro st s' h
  rw [heq] at h
  have := servent_fill_cursor M L v _ st s' h
  rw [this]
  exact ⟨rfl, rfl⟩

/-- Instance of C2: "tcp" staged, records of protocols "TCP", "tc", "tcpx", "tcp"; the fourth
record is decoded after three next-duplicate requests. -/
theorem servent_decode_first_match_witness :
    nss_mcdb_netdb_servent_decode lp64le servLayout ex_v
        (ex_state (⟨0, 0, 0, 0⟩ : servent) [116, 99, 112, 0] (ex_serv_rec [84, 67, 80])
          [ex_serv_rec [116, 99], ex_serv_rec [116, 99, 112, 120], ex_serv_rec [116, 99, 112]])
      = servent_fill lp64le servLayout ex_v
          { ex_state (⟨0, 0, 0, 0⟩ : servent) [116, 99, 112, 0] (ex_serv_rec [84, 67, 80])
              [ex_serv_rec [116, 99], ex_serv_rec [116, 99, 112, 120],
                ex_serv_rec [116, 99, 112]] with
            m := ⟨ex_serv_rec [116, 99, 112], [], 3⟩ }
      ∧ ∀ st s', nss_mcdb_netdb_servent_decode lp64le servLayout ex_v
          (ex_state (⟨0, 0, 0, 0⟩ : servent) [116, 99, 112, 0] (ex_serv_rec [84, 67, 80])
            [ex_serv_rec [116, 99], ex_serv_rec [116, 99, 112, 120],
              ex_serv_rec [116, 99, 112]]) = some (st, s') →
          s'.m.data = ex_serv_rec [116, 99, 112] ∧ s'.m.nexts = 3 :=
  servent_decode_first_match lp64le servLayout ex_v
    (ex_state (⟨0, 0, 0, 0⟩ : servent) [116, 99, 112, 0] (ex_serv_rec [84, 67, 80])
      [ex_serv_rec [116, 99], ex_serv_rec [116, 99, 112, 120], ex_serv_rec [116, 99, 112]])
    3 3 (by decide) (by decide) (by decide) (by decide) (by decide) (by decide)

/-- C3: when no record of the duplicate sequence satisfies the staged predicate, the host and
the service decode routines return `NSS_STATUS_NOTFOUND` with `*errnop = ENOENT`, whatever
the buffer size: the exhausted scan is not reported as `NSS_STATUS_TRYAGAIN`. -/
theorem decode_exhausted_notfound (M : Machine) (LH : HostentLayout) (LS : ServentLayout) :
    (∀ (v : nss_mcdb_vinfo) (s : State hostent),
      4 ≤ v.bufsz → staged_type s.mem ≠ 0 →
      (∀ r, r ∈ s.m.data :: s.m.dups → be32 r LH.NSS_H_ADDRTYPE ≠ staged_type s.mem) →
      ∃ s', nss_mcdb_netdb_hostent_decode M LH v s = some (NSS_STATUS_NOTFOUND, s')
        ∧ s'.errnop = ENOENT ∧ s'.m.nexts = s.m.nexts + (s.m.dups.length + 1))
    ∧ (∀ (v : nss_mcdb_vinfo) (s : State servent) (n : Nat),
      strlen_buf s.mem 0 v.bufsz = some n → 0 < n →
      (∀ r, r ∈ s.m.data :: s.m.dups → (cstr_at r LS.NSS_SE_HDRSZ).isSome = true) →
      (∀ r, r ∈ s.m.data :: s.m.dups →
        cstr_at r LS.NSS_SE_HDRSZ ≠ some (buf_bytes s.mem n)) →
      ∃ s', nss_mcdb_netdb_servent_decode M LS v s = some (NSS_STATUS_NOTFOUND, s')
        ∧ s'.errnop = ENOENT ∧ s'.m.nexts = s.m.nexts + (s.m.dups.length + 1)) := by
  constructor
  · intro v s hsz ht hno
    obtain ⟨h1, h2⟩ := hostent_scan_none LH (staged_type s.mem) s.m.dups s.m.data s.m.nexts hno
    refine ⟨{ s with
        m := (hostent_scan LH (staged_type s.mem) s.m.data s.m.nexts s.m.dups).2
        errnop := ENOENT, errno := ENOENT }, ?_, rfl, ?_⟩
    · unfold nss_mcdb_netdb_hostent_decode
      simp [hsz, ht, h1]
    · simpa using h2
  · intro v s n hlen hn hwf hno
    obtain ⟨h1, h2⟩ := servent_scan_none LS s.mem v.bufsz n hlen s.m.dups s.m.data s.m.nexts
      hwf hno
    obtain ⟨hroom, _, hnz⟩ := strlen_buf_spec s.mem v.bufsz 0 n hlen
    have h0 : s.mem 0 ≠ 0 := by simpa using hnz 0 hn
    have hsz : 1 ≤ v.bufsz := by omega
    refine ⟨{ s with
        m := (servent_scan LS s.mem (1 + n) s.m.data s.m.nexts s.m.dups).2
        errnop := ENOENT, errno := ENOENT }, ?_, rfl, ?_⟩
    · unfold nss_mcdb_netdb_servent_decode
      simp [hsz, h0, hlen, h1]
    · simpa using h2

/-- Instance of C3: filter 7 against records of types 2 and 10, and "tcp" against records of
protocols "udp" and "tc". -/
theorem decode_exhausted_notfound_witness :
    (∃ s', nss_mcdb_netdb_hostent_decode lp64le hostLayout ex_v
        (ex_state (⟨0, 0, 0, 0, 0⟩ : hostent) [0, 0, 0, 7] (ex_host_rec 2) [ex_host_rec 10])
          = some (NSS_STATUS_NOTFOUND, s')
        ∧ s'.errnop = ENOENT ∧ s'.m.nexts = 0 + (1 + 1))
    ∧ (∃ s', nss_mcdb_netdb_servent_decode lp64le servLayout ex_v
        (ex_state (⟨0, 0, 0, 0⟩ : servent) [116, 99, 112, 0] (ex_serv_rec [117, 100, 112])
          [ex_serv_rec [116, 99]]) = some (NSS_STATUS_NOTFOUND, s')
        ∧ s'.errnop = ENOENT ∧ s'.m.nexts = 0 + (1 + 1)) :=
  ⟨(decode_exhausted_notfound lp64le hostLayout servLayout).1 ex_v
      (ex_state (⟨0, 0, 0, 0, 0⟩ : hostent) [0, 0, 0, 7] (ex_host_rec 2) [ex_host_rec 10])
      (by decide) (by decide) (by decide),
    (decode_exhausted_notfound lp64le hostLayout servLayout).2 ex_v
      (ex_state (⟨0, 0, 0, 0⟩ : servent) [116, 99, 112, 0] (ex_serv_rec [117, 100, 112])
        [ex_serv_rec [116, 99]]) 3
      (by decide) (by decide) (by decide) (by decide)⟩

/-- C4: when the staged predicate is "any" (hosts: the four filter bytes are zero; services:
the staged protocol string is empty), the decode routine decodes the record the cursor is at
and makes no next-duplicate request, whatever the address type or protocol of that record.
The host enumeration stages four zero bytes; the service enumeration and the service queries
with a `NULL` or empty `proto` stage an empty string. -/
theorem decode_any_takes_current (M : Machine) (LH : HostentLayout) (LS : ServentLayout) :
    (∀ (v : nss_mcdb_vinfo) (s : State hostent),
      4 ≤ v.bufsz → s.mem 0 = 0 → s.mem 1 = 0 → s.mem 2 = 0 → s.mem 3 = 0 →
      nss_mcdb_netdb_hostent_decode M LH v s = hostent_fill M LH v s
        ∧ ∀ st s', nss_mcdb_netdb_hostent_decode M LH v s = some (st, s') → s'.m = s.m)
    ∧ (∀ (v : nss_mcdb_vinfo) (s : State servent),
      1 ≤ v.bufsz → s.mem 0 = 0 →
      nss_mcdb_netdb_servent_decode M LS v s = servent_fill M LS v s
        ∧ ∀ st s', nss_mcdb_netdb_servent_decode M LS v s = some (st, s') → s'.m = s.m)
    ∧ (∀ (buf bufsz : Nat) (s : State hostent) (h_errnop : Int), 4 ≤ bufsz →
      ∃ s1 : State hostent, s1.mem 0 = 0 ∧ s1.mem 1 = 0 ∧ s1.mem 2 = 0 ∧ s1.mem 3 = 0
        ∧ ∀ getent : StoreCall hostent,
          _nss_mcdb_gethostent_r getent buf bufsz s h_errnop
            = host_return (getent ⟨buf, bufsz, [], 0, 0⟩ s1) h_errnop)
    ∧ (∀ (buf bufsz : Nat) (s : State servent), 1 ≤ bufsz →
      ∃ s1 : State servent, s1.mem 0 = 0
        ∧ ∀ getent : StoreCall servent,
          _nss_mcdb_getservent_r getent buf bufsz s = getent ⟨buf, bufsz, [], 0, 0⟩ s1)
    ∧ (∀ (name : List Nat) (proto : Option (List Nat)) (port : Int) (buf bufsz : Nat)
        (s : State servent), 1 ≤ bufsz → proto = none ∨ proto = some [] →
      ∃ s1 : State servent, s1.mem 0 = 0
        ∧ ∀ get_generic : StoreCall servent,
          _nss_mcdb_getservbyname_r get_generic name proto buf bufsz s
              = get_generic ⟨buf, bufsz, name, name.length, 126⟩ s1
            ∧ _nss_mcdb_getservbyport_r M get_generic port proto buf bufsz s
              = get_generic ⟨buf, bufsz, int_bytes M port, 4, 120⟩ s1) := by
  refine ⟨?_, ?_, ?_, ?_, ?_⟩
  · intro v s hsz h0 h1 h2 h3
    have heq : nss_mcdb_netdb_hostent_decode M LH v s = hostent_fill M LH v s := by
      unfold nss_mcdb_netdb_hostent_decode
      simp [hsz, staged_type, h0, h1, h2, h3]
    refine ⟨heq, ?_⟩
    intro st s' h
    rw [heq] at h
    exact hostent_fill_cursor M LH v s st s' h
  · intro v s hsz h0
    have heq : nss_mcdb_netdb_servent_decode M LS v s = servent_fill M LS v s := by
      unfold nss_mcdb_netdb_servent_decode
      simp [hsz, h0]
    refine ⟨heq, ?_⟩
    intro st s' h
    rw [heq] at h
    exact servent_fill_cursor M LS v s st s' h
  · intro buf bufsz s h_errnop hsz
    refine ⟨{ s with mem := fun i => if i < 4 then 0 else s.mem i }, by simp, by simp, by simp,
      by simp, ?_⟩
    intro getent
    unfold _nss_mcdb_gethostent_r
    simp only
    rw [if_pos (show bufsz > 3 by omega)]
  · intro buf bufsz s hsz
    refine ⟨{ s with mem := fun i => if i = 0 then 0 else s.mem i }, by simp, ?_⟩
    intro getent
    unfold _nss_mcdb_getservent_r
    simp only
    rw [if_pos (show bufsz > 0 by omega)]
  · intro name proto port buf bufsz s hsz hp
    have hl : (proto.getD []).length = 0 := by
      rcases hp with rfl | rfl <;> rfl
    refine ⟨{ s with mem := stage_proto s.mem proto }, ?_, ?_⟩
    · show stage_proto s.mem proto 0 = 0
      unfold stage_proto
      simp [hl]
    · intro g
      unfold _nss_mcdb_getservbyname_r _nss_mcdb_getservbyport_r
      simp only [hl]
      rw [if_pos (show bufsz > 0 by omega), if_pos (show bufsz > 0 by omega)]
      exact ⟨rfl, rfl⟩

/-- Instance of C4 on example records: an IPv6 host record and a "udp" service record are
decoded at once under the "any" predicate. -/
theorem decode_any_takes_current_witness :
    (nss_mcdb_netdb_hostent_decode lp64le hostLayout ex_v
        (ex_state (⟨0, 0, 0, 0, 0⟩ : hostent) [0, 0, 0, 0] (ex_host_rec 10) [ex_host_rec 2])
      = hostent_fill lp64le hostLayout ex_v
        (ex_state (⟨0, 0, 0, 0, 0⟩ : hostent) [0, 0, 0, 0] (ex_host_rec 10) [ex_host_rec 2])
      ∧ ∀ st s', nss_mcdb_netdb_hostent_decode lp64le hostLayout ex_v
          (ex_state (⟨0, 0, 0, 0, 0⟩ : hostent) [0, 0, 0, 0] (ex_host_rec 10) [ex_host_rec 2])
            = some (st, s') →
          s'.m = (ex_state (⟨0, 0, 0, 0, 0⟩ : hostent) [0, 0, 0, 0] (ex_host_rec 10)
            [ex_host_rec 2]).m)
    ∧ (nss_mcdb_netdb_servent_decode lp64le servLayout ex_v
        (ex_state (⟨0, 0, 0, 0⟩ : servent) [0] (ex_serv_rec [117, 100, 112])
          [ex_serv_rec [116, 99, 112]])
      = servent_fill lp64le servLayout ex_v
        (ex_state (⟨0, 0, 0, 0⟩ : servent) [0] (ex_serv_rec [117, 100, 112])
          [ex_serv_rec [116, 99, 112]])
      ∧ ∀ st s', nss_mcdb_netdb_servent_decode lp64le servLayout ex_v
          (ex_state (⟨0, 0, 0, 0⟩ : servent) [0] (ex_serv_rec [117, 100, 112])
            [ex_serv_rec [116, 99, 112]]) = some (st, s') →
          s'.m = (ex_state (⟨0, 0, 0, 0⟩ : servent) [0] (ex_serv_rec [117, 100, 112])
            [ex_serv_rec [116, 99, 112]]).m)
    ∧ (∃ s1 : State hostent, s1.mem 0 = 0 ∧ s1.mem 1 = 0 ∧ s1.mem 2 = 0 ∧ s1.mem 3 = 0
        ∧ ∀ getent : StoreCall hostent,
          _nss_mcdb_gethostent_r getent 4096 64 ex_poison_call 0
            = host_return (getent ⟨4096, 64, [], 0, 0⟩ s1) 0)
    ∧ (∃ s1 : State servent, s1.mem 0 = 0
        ∧ ∀ getent : StoreCall servent,
          _nss_mcdb_getservent_r getent 4096 64 ex_serv_call
            = getent ⟨4096, 64, [], 0, 0⟩ s1)
    ∧ (∃ s1 : State servent, s1.mem 0 = 0
        ∧ ∀ get_generic : StoreCall servent,
          _nss_mcdb_getservbyname_r get_generic [101, 99, 104, 111] none 4096 64 ex_serv_call
              = get_generic ⟨4096, 64, [101, 99, 104, 111], [101, 99, 104, 111].length, 126⟩ s1
            ∧ _nss_mcdb_getservbyport_r lp64le get_generic 1792 none 4096 64 ex_serv_call
              = get_generic ⟨4096, 64, int_bytes lp64le 1792, 4, 120⟩ s1) :=
  ⟨(decode_any_takes_current lp64le hostLayout servLayout).1 ex_v
      (ex_state (⟨0, 0, 0, 0, 0⟩ : hostent) [0, 0, 0, 0] (ex_host_rec 10) [ex_host_rec 2])
      (by decide) (by decide) (by decide) (by decide) (by decide),
    (decode_any_takes_current lp64le hostLayout servLayout).2.1 ex_v
      (ex_state (⟨0, 0, 0, 0⟩ : servent) [0] (ex_serv_rec [117, 100, 112])
        [ex_serv_rec [116, 99, 112]])
      (by decide) (by decide),
    (decode_any_takes_current lp64le hostLayout servLayout).2.2.1 4096 64 ex_poison_call 0
      (by decide),
    (decode_any_takes_current lp64le hostLayout servLayout).2.2.2.1 4096 64 ex_serv_call
      (by decide),
    (decode_any_takes_current lp64le hostLayout servLayout).2.2.2.2 [101, 99, 104, 111] none
      1792 4096 64 ex_serv_call (by decide) (Or.inl rfl)⟩

/-! ## Case analysis of the routines -/

theorem pack_aliases_cases {ε : Type} (M : Machine) (v : nss_mcdb_vinfo)
    (hdrsz mem_str num : Nat) (s : State ε) (ent : ε) (aliases : Nat)
    (st : nss_status_t) (s' : State ε)
    (h : pack_aliases M v hdrsz mem_str num s ent aliases = some (st, s')) :
    s'.ent = ent ∧ s'.m = s.m ∧
      ((st = NSS_STATUS_TRYAGAIN ∧ s'.mem = s.mem ∧ s'.errnop = ERANGE
          ∧ ¬ (ptr_diff M aliases v.buf + ((num + 1) <<< 3)) % M.umax ≤ v.bufsz)
        ∨ (st = NSS_STATUS_SUCCESS
          ∧ (ptr_diff M aliases v.buf + ((num + 1) <<< 3)) % M.umax ≤ v.bufsz
          ∧ ∃ mem0, memcpy_buf v.bufsz s.mem 0 s.m.data hdrsz (var_len M s.m.data hdrsz)
                = some mem0
              ∧ fill_aliases M v aliases mem_str num mem0 = some s'.mem)) := by
  unfold pack_aliases at h
  split at h
  next hc =>
    split at h
    · exact absurd h (by simp)
    next mem0 hm0 =>
      split at h
      · exact absurd h (by simp)
      next mem1 hm1 =>
        simp only [Option.some.injEq, Prod.mk.injEq] at h
        obtain ⟨h1, h2⟩ := h
        subst h2
        exact ⟨rfl, rfl, Or.inr ⟨h1.symm, hc, mem0, hm0, hm1⟩⟩
  next hc =>
    simp only [Option.some.injEq, Prod.mk.injEq] at h
    obtain ⟨h1, h2⟩ := h
    subst h2
    exact ⟨rfl, rfl, Or.inl ⟨h1.symm, rfl, rfl, hc⟩⟩

/-- The output structure as `hostent_fill` assigns it before the size check. -/
theorem hostent_fill_cases (M : Machine) (L : HostentLayout) (v : nss_mcdb_vinfo)
    (s : State hostent) (st : nss_status_t) (s' : State hostent)
    (h : hostent_fill M L v s = some (st, s')) :
    s'.m = s.m ∧ s'.ent.h_name = v.buf
      ∧ s'.ent.h_addrtype = to_int (hdr32 M s.m.data L.NSS_HE_HDRSZ L.NSS_H_ADDRTYPE)
      ∧ s'.ent.h_length = to_int (hdr32 M s.m.data L.NSS_HE_HDRSZ L.NSS_H_LENGTH)
      ∧ s'.ent.h_aliases = align8u M v.buf (hdr16 M s.m.data L.NSS_HE_HDRSZ L.NSS_HE_MEM)
      ∧ ((st = NSS_STATUS_TRYAGAIN ∧ s'.mem = s.mem ∧ s'.errnop = ERANGE
            ∧ s'.ent.h_addr_list = s.ent.h_addr_list
            ∧ ¬ (ptr_diff M (align8u M v.buf (hdr16 M s.m.data L.NSS_HE_HDRSZ L.NSS_HE_MEM))
                    v.buf
                  + ((hdr16 M s.m.data L.NSS_HE_HDRSZ L.NSS_HE_MEM_NUM + 1
                      + hdr16 M s.m.data L.NSS_HE_HDRSZ L.NSS_HE_LST_NUM + 1) <<< 3))
                % M.umax ≤ v.bufsz)
        ∨ (st = NSS_STATUS_SUCCESS
            ∧ (ptr_diff M (align8u M v.buf (hdr16 M s.m.data L.NSS_HE_HDRSZ L.NSS_HE_MEM))
                    v.buf
                  + ((hdr16 M s.m.data L.NSS_HE_HDRSZ L.NSS_HE_MEM_NUM + 1
                      + hdr16 M s.m.data L.NSS_HE_HDRSZ L.NSS_HE_LST_NUM + 1) <<< 3))
                % M.umax ≤ v.bufsz
            ∧ s'.ent.h_addr_list
                = (align8u M v.buf (hdr16 M s.m.data L.NSS_HE_HDRSZ L.NSS_HE_MEM)
                    + M.ptrsz * (hdr16 M s.m.data L.NSS_HE_HDRSZ L.NSS_HE_MEM_NUM + 1))
                  % M.umax
            ∧ ∃ mem0 mem1,
                memcpy_buf v.bufsz s.mem 0 s.m.data L.NSS_HE_HDRSZ
                    (var_len M s.m.data L.NSS_HE_HDRSZ) = some mem0
                ∧ fill_aliases M v
                    (align8u M v.buf (hdr16 M s.m.data L.NSS_HE_HDRSZ L.NSS_HE_MEM))
                    (hdr16 M s.m.data L.NSS_HE_HDRSZ L.NSS_HE_MEM_STR)
                    (hdr16 M s.m.data L.NSS_HE_HDRSZ L.NSS_HE_MEM_NUM) mem0 = some mem1
                ∧ fill_addrs M v
                    ((align8u M v.buf (hdr16 M s.m.data L.NSS_HE_HDRSZ L.NSS_HE_MEM)
                      + M.ptrsz * (hdr16 M s.m.data L.NSS_HE_HDRSZ L.NSS_HE_MEM_NUM + 1))
                      % M.umax)
                    (hdr16 M s.m.data L.NSS_HE_HDRSZ L.NSS_HE_LST_STR)
                    (to_int (hdr32 M s.m.data L.NSS_HE_HDRSZ L.NSS_H_LENGTH))
                    (hdr16 M s.m.data L.NSS_HE_HDRSZ L.NSS_HE_LST_NUM) mem1 = some s'.mem)) := by
  unfold hostent_fill at h
  simp only at h
  split at h
  next hc =>
    split at h
    · exact absurd h (by simp)
    next mem0 hm0 =>
      split at h
      · exact absurd h (by simp)
      next mem1 hm1 =>
        split at h
        · exact absurd h (by simp)
        next mem2 hm2 =>
          simp only [Option.some.injEq, Prod.mk.injEq] at h
          obtain ⟨h1, h2⟩ := h
          subst h2
          exact ⟨rfl, rfl, rfl, rfl, rfl, Or.inr ⟨h1.symm, hc, rfl, mem0, mem1, hm0, hm1, hm2⟩⟩
  next hc =>
    simp only [Option.some.injEq, Prod.mk.injEq] at h
    obtain ⟨h1, h2⟩ := h
    subst h2
    exact ⟨rfl, rfl, rfl, rfl, rfl, Or.inl ⟨h1.symm, rfl, rfl, rfl, hc⟩⟩

theorem hostent_scan_mem (L : HostentLayout) (type : Nat) :
    ∀ (dups : List (List Nat)) (data : List Nat) (nexts : Nat),
      (hostent_scan L type data nexts dups).2.data ∈ data :: dups := by
  intro dups
  induction dups with
  | nil =>
    intro data nexts
    unfold hostent_scan
    split <;> simp
  | cons r rs ih =>
    intro data nexts
    unfold hostent_scan
    split
    · exact List.mem_cons_of_mem _ (ih r (nexts + 1))
    · simp

theorem servent_scan_mem (L : ServentLayout) (mem : Mem) (protolen : Nat) :
    ∀ (dups : List (List Nat)) (data : List Nat) (nexts : Nat),
      (servent_scan L mem protolen data nexts dups).2.data ∈ data :: dups := by
  intro dups
  induction dups with
  | nil =>
    intro data nexts
    unfold servent_scan
    split <;> simp
  | cons r rs ih =>
    intro data nexts
    unfold servent_scan
    split
    · exact List.mem_cons_of_mem _ (ih r (nexts + 1))
    · simp

theorem hostent_decode_cases (M : Machine) (L : HostentLayout) (v : nss_mcdb_vinfo)
    (s : State hostent) (st : nss_status_t) (s' : State hostent)
    (h : nss_mcdb_netdb_hostent_decode M L v s = some (st, s')) :
    4 ≤ v.bufsz ∧
      ((st = NSS_STATUS_NOTFOUND ∧ s'.ent = s.ent ∧ s'.mem = s.mem ∧ s'.errnop = ENOENT
          ∧ staged_type s.mem ≠ 0)
        ∨ ∃ m', m'.data ∈ s.m.data :: s.m.dups
            ∧ hostent_fill M L v { s with m := m' } = some (st, s')) := by
  unfold nss_mcdb_netdb_hostent_decode at h
  split at h
  next hsz =>
    refine ⟨hsz, ?_⟩
    simp only at h
    split at h
    next ht =>
      split at h
      next hfound =>
        exact Or.inr ⟨_, hostent_scan_mem L _ _ _ _, h⟩
      next hfound =>
        simp only [Option.some.injEq, Prod.mk.injEq] at h
        obtain ⟨h1, h2⟩ := h
        subst h2
        exact Or.inl ⟨h1.symm, rfl, rfl, rfl, ht⟩
    next ht =>
      exact Or.inr ⟨s.m, by simp, h⟩
  · exact absurd h (by simp)

theorem servent_decode_cases (M : Machine) (L : ServentLayout) (v : nss_mcdb_vinfo)
    (s : State servent) (st : nss_status_t) (s' : State servent)
    (h : nss_mcdb_netdb_servent_decode M L v s = some (st, s')) :
    1 ≤ v.bufsz ∧
      ((st = NSS_STATUS_NOTFOUND ∧ s'.ent = s.ent ∧ s'.mem = s.mem ∧ s'.errnop = ENOENT
          ∧ s.mem 0 ≠ 0)
        ∨ ∃ m', m'.data ∈ s.m.data :: s.m.dups
            ∧ servent_fill M L v { s with m := m' } = some (st, s')) := by
  unfold nss_mcdb_netdb_servent_decode at h
  split at h
  next hsz =>
    refine ⟨hsz, ?_⟩
    split at h
    next ht =>
      split at h
      · exact absurd h (by simp)
      next len hlen =>
        simp only at h
        split at h
        next hfound =>
          exact Or.inr ⟨_, servent_scan_mem L _ _ _ _ _, h⟩
        next hfound =>
          simp only [Option.some.injEq, Prod.mk.injEq] at h
          obtain ⟨h1, h2⟩ := h
          subst h2
          exact Or.inl ⟨h1.symm, rfl, rfl, rfl, ht⟩
    next ht =>
      exact Or.inr ⟨s.m, by simp, h⟩
  · exact absurd h (by simp)

/-! ## Failure leaves the output -/

/-- C5, as stated, fails: on a buffer of 8 bytes the host decode routine returns
`NSS_STATUS_TRYAGAIN` after it has assigned `h_name`, `h_aliases`, `h_addrtype` and
`h_length` of the caller's `struct hostent`. -/
theorem hostent_decode_tryagain_changes_output :
    status_of (nss_mcdb_netdb_hostent_decode lp64le hostLayout ex_v8
        (ex_state (⟨0, 0, 0, 0, 0⟩ : hostent) [0, 0, 0, 0] (ex_host_rec 2) []))
      = some NSS_STATUS_TRYAGAIN
    ∧ ent_of (nss_mcdb_netdb_hostent_decode lp64le hostLayout ex_v8
        (ex_state (⟨0, 0, 0, 0, 0⟩ : hostent) [0, 0, 0, 0] (ex_host_rec 2) []))
      = some ⟨4096, 4112, 2, 4, 0⟩
    ∧ (ex_state (⟨0, 0, 0, 0, 0⟩ : hostent) [0, 0, 0, 0] (ex_host_rec 2) []).ent
      = ⟨0, 0, 0, 0, 0⟩ := by
  decide

/-- The state in which `hostent_fill` returns `NSS_STATUS_TRYAGAIN`. -/
theorem hostent_fill_tryagain (M : Machine) (L : HostentLayout) (v : nss_mcdb_vinfo)
    (s s' : State hostent) (h : hostent_fill M L v s = some (NSS_STATUS_TRYAGAIN, s')) :
    s' = { s with
      ent :=
        { h_name := v.buf
          h_aliases := align8u M v.buf (hdr16 M s.m.data L.NSS_HE_HDRSZ L.NSS_HE_MEM)
          h_addrtype := to_int (hdr32 M s.m.data L.NSS_HE_HDRSZ L.NSS_H_ADDRTYPE)
          h_length := to_int (hdr32 M s.m.data L.NSS_HE_HDRSZ L.NSS_H_LENGTH)
          h_addr_list := s.ent.h_addr_list }
      errnop := ERANGE, errno := ERANGE } := by
  unfold hostent_fill at h
  simp only at h
  split at h
  · split at h
    · exact absurd h (by simp)
    · split at h
      · exact absurd h (by simp)
      · split at h
        · exact absurd h (by simp)
        · simp only [Option.some.injEq, Prod.mk.injEq] at h
          exact absurd h.1 (by decide)
  · simp only [Option.some.injEq, Prod.mk.injEq] at h
    exact h.2.symm

/-- C5, amended: a decode routine that returns `NSS_STATUS_NOTFOUND` (only the host and the
service routine can) has changed no field of the output structure and no byte of the buffer;
a decode routine that returns `NSS_STATUS_TRYAGAIN` has written no byte of the buffer, has
left `h_addr_list` of a host as it was, and has assigned the other fields of the output
structure from the header of the record and the buffer address. -/
theorem decode_failure_leaves (M : Machine) (LH : HostentLayout) (LN : NetentLayout)
    (LP : ProtoentLayout) (LR : RpcentLayout) (LS : ServentLayout) (v : nss_mcdb_vinfo) :
    (∀ (s s' : State hostent) (st : nss_status_t),
      nss_mcdb_netdb_hostent_decode M LH v s = some (st, s') →
      (st = NSS_STATUS_NOTFOUND → s'.ent = s.ent ∧ s'.mem = s.mem)
        ∧ (st = NSS_STATUS_TRYAGAIN →
            s'.mem = s.mem
              ∧ s'.ent =
                { h_name := v.buf
                  h_aliases :=
                    align8u M v.buf (hdr16 M s'.m.data LH.NSS_HE_HDRSZ LH.NSS_HE_MEM)
                  h_addrtype := to_int (hdr32 M s'.m.data LH.NSS_HE_HDRSZ LH.NSS_H_ADDRTYPE)
                  h_length := to_int (hdr32 M s'.m.data LH.NSS_HE_HDRSZ LH.NSS_H_LENGTH)
                  h_addr_list := s.ent.h_addr_list }))
    ∧ (∀ (s s' : State servent) (st : nss_status_t),
      nss_mcdb_netdb_servent_decode M LS v s = some (st, s') →
      (st = NSS_STATUS_NOTFOUND → s'.ent = s.ent ∧ s'.mem = s.mem)
        ∧ (st = NSS_STATUS_TRYAGAIN →
            s'.mem = s.mem
              ∧ s'.ent =
                { s_port :=
                    to_int (load32 M (s'.m.data.take LS.NSS_SE_HDRSZ) (LS.NSS_S_PORT >>> 2))
                  s_proto := v.buf
                  s_name :=
                    ptr_add M v.buf (hdr16 M s'.m.data LS.NSS_SE_HDRSZ LS.NSS_S_NAME : Nat)
                  s_aliases :=
                    align8u M v.buf (hdr16 M s'.m.data LS.NSS_SE_HDRSZ LS.NSS_SE_MEM) }))
    ∧ (∀ (s s' : State netent) (st : nss_status_t),
      nss_mcdb_netdb_netent_decode M LN v s = some (st, s') →
      st ≠ NSS_STATUS_NOTFOUND
        ∧ (st = NSS_STATUS_TRYAGAIN →
            s'.mem = s.mem
              ∧ s'.ent =
                { n_addrtype := to_int (hdr32 M s.m.data LN.NSS_NE_HDRSZ LN.NSS_N_ADDRTYPE)
                  n_net := hdr32 M s.m.data LN.NSS_NE_HDRSZ LN.NSS_N_NET
                  n_name := v.buf
                  n_aliases :=
                    align8u M v.buf (hdr16 M s.m.data LN.NSS_NE_HDRSZ LN.NSS_NE_MEM) }))
    ∧ (∀ (s s' : State protoent) (st : nss_status_t),
      nss_mcdb_netdb_protoent_decode M LP v s = some (st, s') →
      st ≠ NSS_STATUS_NOTFOUND
        ∧ (st = NSS_STATUS_TRYAGAIN →
            s'.mem = s.mem
              ∧ s'.ent =
                { p_proto := to_int (hdr32 M s.m.data LP.NSS_PE_HDRSZ LP.NSS_P_PROTO)
                  p_name := v.buf
                  p_aliases :=
                    align8u M v.buf (hdr16 M s.m.data LP.NSS_PE_HDRSZ LP.NSS_PE_MEM) }))
    ∧ (∀ (s s' : State rpcent) (st : nss_status_t),
      nss_mcdb_netdb_rpcent_decode M LR v s = some (st, s') →
      st ≠ NSS_STATUS_NOTFOUND
        ∧ (st = NSS_STATUS_TRYAGAIN →
            s'.mem = s.mem
              ∧ s'.ent =
                { r_number := to_int (hdr32 M s.m.data LR.NSS_RE_HDRSZ LR.NSS_R_NUMBER)
                  r_name := v.buf
                  r_aliases :=
                    align8u M v.buf (hdr16 M s.m.data LR.NSS_RE_HDRSZ LR.NSS_RE_MEM) })) := by
  have hSN : NSS_STATUS_SUCCESS ≠ NSS_STATUS_NOTFOUND := by decide
  have hTN : NSS_STATUS_TRYAGAIN ≠ NSS_STATUS_NOTFOUND := by decide
  have hST : NSS_STATUS_SUCCESS ≠ NSS_STATUS_TRYAGAIN := by decide
  have hpack : ∀ {ε : Type} (hdrsz mem_str num : Nat) (s s' : State ε) (ent : ε)
      (aliases : Nat) (st : nss_status_t),
      pack_aliases M v hdrsz mem_str num s ent aliases = some (st, s') →
      st ≠ NSS_STATUS_NOTFOUND ∧ (st = NSS_STATUS_TRYAGAIN → s'.mem = s.mem ∧ s'.ent = ent) := by
    intro ε hdrsz mem_str num s s' ent aliases st h
    obtain ⟨he, _, hc⟩ := pack_aliases_cases M v hdrsz mem_str num s ent aliases st s' h
    rcases hc with ⟨h1, h2, _⟩ | ⟨h1, _⟩
    · exact ⟨by rw [h1]; exact hTN, fun _ => ⟨h2, he⟩⟩
    · exact ⟨by rw [h1]; exact hSN, fun ht => absurd (h1.symm.trans ht) hST⟩
  refine ⟨?_, ?_, ?_, ?_, ?_⟩
  · intro s s' st h
    obtain ⟨_, hc⟩ := hostent_decode_cases M LH v s st s' h
    rcases hc with ⟨h1, h2, h3, _⟩ | ⟨m', _, hf⟩
    · exact ⟨fun _ => ⟨h2, h3⟩, fun ht => absurd (ht.symm.trans h1) hTN⟩
    · refine ⟨fun hn => ?_, fun ht => ?_⟩
      · obtain ⟨_, _, _, _, _, hc⟩ := hostent_fill_cases M LH v _ st s' hf
        rcases hc with ⟨h1, _⟩ | ⟨h1, _⟩
        · exact absurd (h1.symm.trans hn) hTN
        · exact absurd (h1.symm.trans hn) hSN
      · subst ht
        have := hostent_fill_tryagain M LH v _ s' hf
        rw [this]
        exact ⟨rfl, rfl⟩
  · intro s s' st h
    obtain ⟨_, hc⟩ := servent_decode_cases M LS v s st s' h
    rcases hc with ⟨h1, h2, h3, _⟩ | ⟨m', _, hf⟩
    · exact ⟨fun _ => ⟨h2, h3⟩, fun ht => absurd (ht.symm.trans h1) hTN⟩
    · have := hpack _ _ _ _ s' _ _ st hf
      have hm := pack_aliases_cursor M v _ _ _ _ _ _ st s' hf
      refine ⟨fun hn => absurd hn this.1, fun ht => ?_⟩
      obtain ⟨h1, h2⟩ := this.2 ht
      rw [hm]
      exact ⟨h1, h2⟩
  · intro s s' st h
    exact hpack _ _ _ s s' _ _ st h
  · intro s s' st h
    exact hpack _ _ _ s s' _ _ st h
  · intro s s' st h
    exact hpack _ _ _ s s' _ _ st h

/-- Instance of C5, amended: a host decode into 55 bytes returns `NSS_STATUS_TRYAGAIN` and a
service decode of "tcp" against a "udp" record returns `NSS_STATUS_NOTFOUND`. -/
theorem decode_failure_leaves_witness :
    ((state_of (nss_mcdb_netdb_hostent_decode lp64le hostLayout ex_v55 ex_host_call)
          ex_host_call).mem = ex_host_call.mem
      ∧ (state_of (nss_mcdb_netdb_hostent_decode lp64le hostLayout ex_v55 ex_host_call)
          ex_host_call).ent = ⟨4096, 4112, 2, 4, 0⟩)
    ∧ ((state_of (nss_mcdb_netdb_servent_decode lp64le servLayout ex_v55
          (ex_state (⟨0, 0, 0, 0⟩ : servent) [116, 99, 112, 0] (ex_serv_rec [117, 100, 112])
            []))
          (ex_state (⟨0, 0, 0, 0⟩ : servent) [116, 99, 112, 0] (ex_serv_rec [117, 100, 112])
            [])).ent = (⟨0, 0, 0, 0⟩ : servent)
      ∧ (state_of (nss_mcdb_netdb_servent_decode lp64le servLayout ex_v55
          (ex_state (⟨0, 0, 0, 0⟩ : servent) [116, 99, 112, 0] (ex_serv_rec [117, 100, 112])
            []))
          (ex_state (⟨0, 0, 0, 0⟩ : servent) [116, 99, 112, 0] (ex_serv_rec [117, 100, 112])
            [])).mem = mem_of [116, 99, 112, 0]) :=
  ⟨((decode_failure_leaves lp64le hostLayout netLayout protoLayout rpcLayout servLayout
      ex_v55).1 ex_host_call _ NSS_STATUS_TRYAGAIN rfl).2 rfl,
    ((decode_failure_leaves lp64le hostLayout netLayout protoLayout rpcLayout servLayout
      ex_v55).2.1 (ex_state (⟨0, 0, 0, 0⟩ : servent) [116, 99, 112, 0]
        (ex_serv_rec [117, 100, 112]) []) _ NSS_STATUS_NOTFOUND rfl).1 rfl⟩

/-! ## Address arithmetic -/

theorem land_shifted_mask (x k : Nat) :
    x &&& ((2 ^ k - 1) <<< 3) = (x / 8 % 2 ^ k) * 8 := by
  have h : (x / 8 % 2 ^ k) * 8 = ((x >>> 3) &&& (2 ^ k - 1)) <<< 3 := by
    rw [Nat.and_pow_two_sub_one_eq_mod, Nat.shiftLeft_eq, Nat.shiftRight_eq_div_pow]
  rw [h]
  apply Nat.eq_of_testBit_eq
  intro i
  simp only [Nat.testBit_and, Nat.testBit_shiftLeft, Nat.testBit_shiftRight]
  by_cases hi : 3 ≤ i
  · have : 3 + (i - 3) = i := by omega
    simp [hi, this]
  · simp [hi]

theorem land_mask_u (x : Nat) : x &&& 4294967288 = x % 4294967296 - x % 8 := by
  have h := land_shifted_mask x 29
  have e : (2 ^ 29 - 1) <<< 3 = 4294967288 := by decide
  rw [e] at h
  rw [h]
  omega

theorem land_mask_64 (x : Nat) :
    x &&& 18446744073709551608 = x % 18446744073709551616 - x % 8 := by
  have h := land_shifted_mask x 61
  have e : (2 ^ 61 - 1) <<< 3 = 18446744073709551608 := by decide
  rw [e] at h
  rw [h]
  omega

theorem shl3 (n : Nat) : n <<< 3 = n * 8 := by
  rw [Nat.shiftLeft_eq]

theorem umax_cases (M : Machine) : M.umax = 4294967296 ∨ M.umax = 18446744073709551616 := by
  unfold Machine.umax
  cases M.ptr64 <;> simp

theorem ptrsz_cases (M : Machine) :
    (M.ptrsz = 4 ∧ M.umax = 4294967296) ∨ (M.ptrsz = 8 ∧ M.umax = 18446744073709551616) := by
  unfold Machine.umax Machine.ptrsz
  cases M.ptr64 <;> simp

theorem align8u_mod8 (M : Machine) (buf m : Nat) : align8u M buf m % 8 = 0 := by
  unfold align8u
  rw [land_mask_u]
  omega

/-- When the size check passes on a valid buffer, the alias array starts at the round-up of
`buf + m`, inside the buffer. -/
theorem align_check (M : Machine) (buf bufsz m cnt : Nat)
    (hb : buf < M.umax) (hbs : buf + bufsz ≤ M.umax) (hm : m < 65536)
    (hc : 0 < cnt) (hcnt : cnt ≤ 131072)
    (h : (ptr_diff M (align8u M buf m) buf + (cnt <<< 3)) % M.umax ≤ bufsz) :
    align8u M buf m = (buf + m + 7) / 8 * 8
      ∧ ptr_diff M (align8u M buf m) buf = (buf + m + 7) / 8 * 8 - buf
      ∧ (buf + m + 7) / 8 * 8 - buf + 8 * cnt ≤ bufsz := by
  unfold ptr_diff align8u at *
  rw [land_mask_u] at *
  rw [shl3] at h
  have hu := umax_cases M
  generalize M.umax = U at *
  rcases hu with hu | hu <;> subst hu <;> omega

/-! ## Pointer slots in the buffer -/

theorem store_ptr_some (M : Machine) (bufsz : Nat) (mem mem' : Mem) (off val : Nat)
    (h : store_ptr M bufsz mem off val = some mem') :
    off + M.ptrsz ≤ bufsz
      ∧ (∀ x, ¬ (off ≤ x ∧ x < off + M.ptrsz) → mem' x = mem x)
      ∧ (∀ j, j < M.ptrsz → mem' (off + j) = ptr_byte M val j) := by
  unfold store_ptr at h
  split at h
  next hb =>
    simp only [Option.some.injEq] at h
    subst h
    refine ⟨hb, ?_, ?_⟩
    · intro x hx
      simp only [hx, if_false]
    · intro j hj
      have : off ≤ off + j ∧ off + j < off + M.ptrsz := by omega
      simp only [this, and_self, if_true, Nat.add_sub_cancel_left]
  · exact absurd h (by simp)

theorem load_ptr_congr (M : Machine) (m1 m2 : Mem) (off : Nat)
    (h : ∀ j, j < M.ptrsz → m1 (off + j) = m2 (off + j)) :
    load_ptr M m1 off = load_ptr M m2 off := by
  obtain ⟨p64, be⟩ := M
  cases p64 <;> cases be <;>
    simp only [load_ptr, Machine.ptrsz, if_true, if_false, Bool.false_eq_true, le_val,
      be_val] at h ⊢
  all_goals
    have e0 := h 0 (by omega)
    have e1 := h 1 (by omega)
    have e2 := h 2 (by omega)
    have e3 := h 3 (by omega)
    simp only [Nat.add_zero] at e0
    try have e4 := h 4 (by omega)
    try have e5 := h 5 (by omega)
    try have e6 := h 6 (by omega)
    try have e7 := h 7 (by omega)
    simp only [Nat.add_zero, *]

theorem le_bytes4 (v : Nat) :
    v % 256 + 256 * (v / 256 % 256 + 256 * (v / 65536 % 256 + 256 * (v / 16777216 % 256)))
      = v % 4294967296 := by
  omega

theorem be_bytes4 (v : Nat) :
    ((v / 16777216 % 256 * 256 + v / 65536 % 256) * 256 + v / 256 % 256) * 256 + v % 256
      = v % 4294967296 := by
  omega

theorem le_bytes8 (v : Nat) :
    v % 256 + 256 * (v / 256 % 256 + 256 * (v / 65536 % 256 + 256 * (v / 16777216 % 256
      + 256 * (v / 4294967296 % 256 + 256 * (v / 1099511627776 % 256
      + 256 * (v / 281474976710656 % 256 + 256 * (v / 72057594037927936 % 256)))))))
      = v % 18446744073709551616 := by
  omega

theorem be_bytes8 (v : Nat) :
    ((((((v / 72057594037927936 % 256 * 256 + v / 281474976710656 % 256) * 256
      + v / 1099511627776 % 256) * 256 + v / 4294967296 % 256) * 256
      + v / 16777216 % 256) * 256 + v / 65536 % 256) * 256 + v / 256 % 256) * 256 + v % 256
      = v % 18446744073709551616 := by
  omega

theorem load_ptr_of_bytes (M : Machine) (mem : Mem) (off val : Nat)
    (h : ∀ j, j < M.ptrsz → mem (off + j) = ptr_byte M val j) :
    load_ptr M mem off = val % M.umax := by
  obtain ⟨p64, be⟩ := M
  cases p64 <;> cases be <;>
    simp only [load_ptr, ptr_byte, Machine.ptrsz, Machine.umax, if_true, if_false,
      Bool.false_eq_true, le_val, be_val] at h ⊢
  · have e0 := h 0 (by omega)
    have e1 := h 1 (by omega)
    have e2 := h 2 (by omega)
    have e3 := h 3 (by omega)
    simp only [Nat.add_zero] at e0
    simp only [Nat.add_zero, e0, e1, e2, e3]
    clear h e0 e1 e2 e3
    norm_num
    exact le_bytes4 val
  · have e0 := h 0 (by omega)
    have e1 := h 1 (by omega)
    have e2 := h 2 (by omega)
    have e3 := h 3 (by omega)
    simp only [Nat.add_zero] at e0
    simp only [Nat.add_zero, e0, e1, e2, e3]
    clear h e0 e1 e2 e3
    norm_num
    exact be_bytes4 val
  · have e0 := h 0 (by omega)
    have e1 := h 1 (by omega)
    have e2 := h 2 (by omega)
    have e3 := h 3 (by omega)
    have e4 := h 4 (by omega)
    have e5 := h 5 (by omega)
    have e6 := h 6 (by omega)
    have e7 := h 7 (by omega)
    simp only [Nat.add_zero] at e0
    simp only [Nat.add_zero, e0, e1, e2, e3, e4, e5, e6, e7]
    clear h e0 e1 e2 e3 e4 e5 e6 e7
    norm_num
    exact le_bytes8 val
  · have e0 := h 0 (by omega)
    have e1 := h 1 (by omega)
    have e2 := h 2 (by omega)
    have e3 := h 3 (by omega)
    have e4 := h 4 (by omega)
    have e5 := h 5 (by omega)
    have e6 := h 6 (by omega)
    have e7 := h 7 (by omega)
    simp only [Nat.add_zero] at e0
    simp only [Nat.add_zero, e0, e1, e2, e3, e4, e5, e6, e7]
    clear h e0 e1 e2 e3 e4 e5 e6 e7
    norm_num
    exact be_bytes8 val

theorem load_store_same (M : Machine) (bufsz : Nat) (mem mem' : Mem) (off val : Nat)
    (h : store_ptr M bufsz mem off val = some mem') :
    load_ptr M mem' off = val % M.umax :=
  load_ptr_of_bytes M mem' off val (store_ptr_some M bufsz mem mem' off val h).2.2

/-- The alias loop writes nothing but the slots `i, ..., i + cnt - 1` of the array. -/
theorem alias_loop_frame (M : Machine) (v : nss_mcdb_vinfo) (arr : Nat) :
    ∀ (cnt i off : Nat) (mem mem' : Mem),
      alias_loop M v arr cnt i off mem = some mem' →
      ∀ x, (∀ j, i ≤ j → j < i + cnt →
          ¬ (slot M v arr j ≤ x ∧ x < slot M v arr j + M.ptrsz)) →
        mem' x = mem x := by
  intro cnt
  induction cnt with
  | zero =>
    intro i off mem mem' h x _
    simp only [alias_loop, Option.some.injEq] at h
    rw [h]
  | succ c ih =>
    intro i off mem mem' h x hx
    unfold alias_loop at h
    split at h
    · exact absurd h (by simp)
    next z hz =>
      split at h
      · exact absurd h (by simp)
      next mem1 hm1 =>
        have h1 := ih (i + 1) (z + 1) mem1 mem' h x
          (fun j hj1 hj2 => hx j (by omega) (by omega))
        rw [h1]
        exact (store_ptr_some M v.bufsz mem mem1 _ _ hm1).2.1 x (hx i (by omega) (by omega))

/-- The address loop writes nothing but the slots `i, ..., i + cnt - 1` of the array. -/
theorem addr_loop_frame (M : Machine) (v : nss_mcdb_vinfo) (lst : Nat) (hl : Int) :
    ∀ (cnt i cur : Nat) (mem mem' : Mem),
      addr_loop M v lst hl cnt i cur mem = some mem' →
      ∀ x, (∀ j, i ≤ j → j < i + cnt →
          ¬ (slot M v lst j ≤ x ∧ x < slot M v lst j + M.ptrsz)) →
        mem' x = mem x := by
  intro cnt
  induction cnt with
  | zero =>
    intro i cur mem mem' h x _
    simp only [addr_loop, Option.some.injEq] at h
    rw [h]
  | succ c ih =>
    intro i cur mem mem' h x hx
    unfold addr_loop at h
    split at h
    · exact absurd h (by simp)
    next mem1 hm1 =>
      have h1 := ih (i + 1) _ mem1 mem' h x (fun j hj1 hj2 => hx j (by omega) (by omega))
      rw [h1]
      exact (store_ptr_some M v.bufsz mem mem1 _ _ hm1).2.1 x (hx i (by omega) (by omega))

theorem fill_aliases_some (M : Machine) (v : nss_mcdb_vinfo) (arr mem_str num : Nat)
    (mem mem' : Mem) (h : fill_aliases M v arr mem_str num mem = some mem') :
    ∃ mem0 mem1,
      store_ptr M v.bufsz mem (slot M v arr 0) (ptr_add M v.buf (mem_str : Int)) = some mem0
        ∧ alias_loop M v arr (num - 1) 1 mem_str mem0 = some mem1
        ∧ store_ptr M v.bufsz mem1 (slot M v arr num) 0 = some mem' := by
  unfold fill_aliases at h
  split at h
  · exact absurd h (by simp)
  next mem0 hm0 =>
    split at h
    · exact absurd h (by simp)
    next mem1 hm1 => exact ⟨mem0, mem1, hm0, hm1, h⟩

theorem fill_addrs_some (M : Machine) (v : nss_mcdb_vinfo) (lst lst_str : Nat) (hl : Int)
    (num : Nat) (mem mem' : Mem) (h : fill_addrs M v lst lst_str hl num mem = some mem') :
    ∃ mem0 mem1,
      store_ptr M v.bufsz mem (slot M v lst 0) (ptr_add M v.buf (lst_str : Int)) = some mem0
        ∧ addr_loop M v lst hl (num - 1) 1 (ptr_add M v.buf (lst_str : Int)) mem0 = some mem1
        ∧ store_ptr M v.bufsz mem1 (slot M v lst num) 0 = some mem' := by
  unfold fill_addrs at h
  split at h
  · exact absurd h (by simp)
  next mem0 hm0 =>
    split at h
    · exact absurd h (by simp)
    next mem1 hm1 => exact ⟨mem0, mem1, hm0, hm1, h⟩

theorem zero_mod_umax (M : Machine) : 0 % M.umax = 0 := Nat.zero_mod _

/-- After `fill_aliases`, slot `num` of the array holds the null pointer. -/
theorem fill_aliases_null (M : Machine) (v : nss_mcdb_vinfo) (arr mem_str num : Nat)
    (mem mem' : Mem) (h : fill_aliases M v arr mem_str num mem = some mem') :
    load_ptr M mem' (slot M v arr num) = 0 := by
  obtain ⟨mem0, mem1, _, _, h3⟩ := fill_aliases_some M v arr mem_str num mem mem' h
  rw [load_store_same M v.bufsz mem1 mem' _ 0 h3, zero_mod_umax]

/-- After `fill_addrs`, slot `num` of the array holds the null pointer. -/
theorem fill_addrs_null (M : Machine) (v : nss_mcdb_vinfo) (lst lst_str : Nat) (hl : Int)
    (num : Nat) (mem mem' : Mem) (h : fill_addrs M v lst lst_str hl num mem = some mem') :
    load_ptr M mem' (slot M v lst num) = 0 := by
  obtain ⟨mem0, mem1, _, _, h3⟩ := fill_addrs_some M v lst lst_str hl num mem mem' h
  rw [load_store_same M v.bufsz mem1 mem' _ 0 h3, zero_mod_umax]

/-- The statements `fill_addrs` write nothing but the slots `0, ..., num` of the array. -/
theorem fill_addrs_frame (M : Machine) (v : nss_mcdb_vinfo) (lst lst_str : Nat) (hl : Int)
    (num : Nat) (mem mem' : Mem) (h : fill_addrs M v lst lst_str hl num mem = some mem')
    (x : Nat)
    (hx : ∀ j, j ≤ num → ¬ (slot M v lst j ≤ x ∧ x < slot M v lst j + M.ptrsz)) :
    mem' x = mem x := by
  obtain ⟨mem0, mem1, h1, h2, h3⟩ := fill_addrs_some M v lst lst_str hl num mem mem' h
  rw [(store_ptr_some M v.bufsz mem1 mem' _ _ h3).2.1 x (hx num (Nat.le_refl _)),
    addr_loop_frame M v lst hl (num - 1) 1 _ mem0 mem1 h2 x
      (fun j hj1 hj2 => hx j (by omega)),
    (store_ptr_some M v.bufsz mem mem0 _ _ h1).2.1 x (hx 0 (Nat.zero_le _))]

/-- The statements `fill_aliases` write nothing but the slots `0, ..., num` of the array. -/
theorem fill_aliases_frame (M : Machine) (v : nss_mcdb_vinfo) (arr mem_str num : Nat)
    (mem mem' : Mem) (h : fill_aliases M v arr mem_str num mem = some mem')
    (x : Nat)
    (hx : ∀ j, j ≤ num → ¬ (slot M v arr j ≤ x ∧ x < slot M v arr j + M.ptrsz)) :
    mem' x = mem x := by
  obtain ⟨mem0, mem1, h1, h2, h3⟩ := fill_aliases_some M v arr mem_str num mem mem' h
  rw [(store_ptr_some M v.bufsz mem1 mem' _ _ h3).2.1 x (hx num (Nat.le_refl _)),
    alias_loop_frame M v arr (num - 1) 1 _ mem0 mem1 h2 x
      (fun j hj1 hj2 => hx j (by omega)),
    (store_ptr_some M v.bufsz mem mem0 _ _ h1).2.1 x (hx 0 (Nat.zero_le _))]

/-- Slot `n` of the alias array and the slots of the address array, which starts `n + 1`
slots further, do not overlap. -/
theorem slot_disjoint (M : Machine) (v : nss_mcdb_vinfo) (arr n j x : Nat)
    (hj : j < 65536)
    (hx : slot M v arr n ≤ x ∧ x < slot M v arr n + M.ptrsz) :
    ¬ (slot M v ((arr + M.ptrsz * (n + 1)) % M.umax) j ≤ x
        ∧ x < slot M v ((arr + M.ptrsz * (n + 1)) % M.umax) j + M.ptrsz) := by
  unfold slot ptr_diff at *
  have hp := ptrsz_cases M
  generalize M.umax = U at *
  generalize M.ptrsz = P at *
  rcases hp with ⟨hp, hu⟩ | ⟨hp, hu⟩ <;> subst hp <;> subst hu <;> omega

/-! ## Null termination -/

theorem hdr16_lt (M : Machine) (d : List Nat) (h c : Nat) : hdr16 M d h c < 65536 := by
  unfold hdr16 ntohs
  split <;> omega

theorem pack_aliases_null {ε : Type} (M : Machine) (v : nss_mcdb_vinfo)
    (hdrsz mem_str num : Nat) (s : State ε) (ent : ε) (aliases : Nat) (s' : State ε)
    (h : pack_aliases M v hdrsz mem_str num s ent aliases = some (NSS_STATUS_SUCCESS, s')) :
    load_ptr M s'.mem (slot M v aliases num) = 0 := by
  obtain ⟨_, _, hc⟩ := pack_aliases_cases M v hdrsz mem_str num s ent aliases _ s' h
  rcases hc with ⟨h1, _⟩ | ⟨_, _, mem0, _, hf⟩
  · exact absurd h1 (by decide)
  · exact fill_aliases_null M v aliases mem_str num mem0 s'.mem hf

/-- C7: after a successful decode of a record with alias count `n` (hosts: and address count
`k`), slot `n` of the alias pointer array holds the null pointer and, for hosts, slot `k` of
the address pointer array holds the null pointer. -/
theorem decode_success_null_terminated (M : Machine) (LH : HostentLayout) (LN : NetentLayout)
    (LP : ProtoentLayout) (LR : RpcentLayout) (LS : ServentLayout) (v : nss_mcdb_vinfo) :
    (∀ (s s' : State hostent),
      nss_mcdb_netdb_hostent_decode M LH v s = some (NSS_STATUS_SUCCESS, s') →
      load_ptr M s'.mem
          (slot M v s'.ent.h_aliases (hdr16 M s'.m.data LH.NSS_HE_HDRSZ LH.NSS_HE_MEM_NUM)) = 0
        ∧ load_ptr M s'.mem
          (slot M v s'.ent.h_addr_list
            (hdr16 M s'.m.data LH.NSS_HE_HDRSZ LH.NSS_HE_LST_NUM)) = 0)
    ∧ (∀ (s s' : State netent),
      nss_mcdb_netdb_netent_decode M LN v s = some (NSS_STATUS_SUCCESS, s') →
      load_ptr M s'.mem
          (slot M v s'.ent.n_aliases (hdr16 M s'.m.data LN.NSS_NE_HDRSZ LN.NSS_NE_MEM_NUM)) = 0)
    ∧ (∀ (s s' : State protoent),
      nss_mcdb_netdb_protoent_decode M LP v s = some (NSS_STATUS_SUCCESS, s') →
      load_ptr M s'.mem
          (slot M v s'.ent.p_aliases (hdr16 M s'.m.data LP.NSS_PE_HDRSZ LP.NSS_PE_MEM_NUM)) = 0)
    ∧ (∀ (s s' : State rpcent),
      nss_mcdb_netdb_rpcent_decode M LR v s = some (NSS_STATUS_SUCCESS, s') →
      load_ptr M s'.mem
          (slot M v s'.ent.r_aliases (hdr16 M s'.m.data LR.NSS_RE_HDRSZ LR.NSS_RE_MEM_NUM)) = 0)
    ∧ (∀ (s s' : State servent),
      nss_mcdb_netdb_servent_decode M LS v s = some (NSS_STATUS_SUCCESS, s') →
      load_ptr M s'.mem
          (slot M v s'.ent.s_aliases (hdr16 M s'.m.data LS.NSS_SE_HDRSZ LS.NSS_SE_MEM_NUM))
        = 0) := by
  refine ⟨?_, ?_, ?_, ?_, ?_⟩
  · intro s s' h
    obtain ⟨_, hc⟩ := hostent_decode_cases M LH v s _ s' h
    rcases hc with ⟨h1, _⟩ | ⟨m', _, hf⟩
    · exact absurd h1 (by decide)
    · obtain ⟨hm, _, _, _, hal, hc⟩ := hostent_fill_cases M LH v _ _ s' hf
      rcases hc with ⟨h1, _⟩ | ⟨_, _, hlst, mem0, mem1, _, hfa, hfl⟩
      · exact absurd h1 (by decide)
      · simp only at hm hal hlst hfa hfl
        rw [hm, hal, hlst]
        constructor
        · rw [← fill_aliases_null M v _ _ _ mem0 mem1 hfa]
          apply load_ptr_congr
          intro j hj
          apply fill_addrs_frame M v _ _ _ _ mem1 s'.mem hfl
          intro i hi
          exact slot_disjoint M v _ _ i _
            (Nat.lt_of_le_of_lt hi (hdr16_lt M _ _ _)) ⟨by omega, by omega⟩
        · exact fill_addrs_null M v _ _ _ _ mem1 s'.mem hfl
  · intro s s' h
    have hm := pack_aliases_cursor M v _ _ _ s _ _ _ s' h
    have he := (pack_aliases_cases M v _ _ _ s _ _ _ s' h).1
    rw [hm, he]
    exact pack_aliases_null M v _ _ _ s _ _ s' h
  · intro s s' h
    have hm := pack_aliases_cursor M v _ _ _ s _ _ _ s' h
    have he := (pack_aliases_cases M v _ _ _ s _ _ _ s' h).1
    rw [hm, he]
    exact pack_aliases_null M v _ _ _ s _ _ s' h
  · intro s s' h
    have hm := pack_aliases_cursor M v _ _ _ s _ _ _ s' h
    have he := (pack_aliases_cases M v _ _ _ s _ _ _ s' h).1
    rw [hm, he]
    exact pack_aliases_null M v _ _ _ s _ _ s' h
  · intro s s' h
    obtain ⟨_, hc⟩ := servent_decode_cases M LS v s _ s' h
    rcases hc with ⟨h1, _⟩ | ⟨m', _, hf⟩
    · exact absurd h1 (by decide)
    · have hm := pack_aliases_cursor M v _ _ _ _ _ _ _ s' hf
      have he := (pack_aliases_cases M v _ _ _ _ _ _ _ s' hf).1
      rw [hm, he]
      exact pack_aliases_null M v _ _ _ _ _ _ s' hf

/-- Instance of C7 on the example records of the five kinds. -/
theorem decode_success_null_terminated_witness :
    (load_ptr lp64le
        (state_of (nss_mcdb_netdb_hostent_decode lp64le hostLayout ex_v ex_host_call)
          ex_host_call).mem
        (slot lp64le ex_v 4112 2) = 0
      ∧ load_ptr lp64le
        (state_of (nss_mcdb_netdb_hostent_decode lp64le hostLayout ex_v ex_host_call)
          ex_host_call).mem
        (slot lp64le ex_v 4136 1) = 0)
    ∧ load_ptr lp64le
        (state_of (nss_mcdb_netdb_netent_decode lp64le netLayout ex_v ex_net_call)
          ex_net_call).mem
        (slot lp64le ex_v 4104 1) = 0
    ∧ load_ptr lp64le
        (state_of (nss_mcdb_netdb_protoent_decode lp64le protoLayout ex_v ex_proto_call)
          ex_proto_call).mem
        (slot lp64le ex_v 4104 1) = 0
    ∧ load_ptr lp64le
        (state_of (nss_mcdb_netdb_rpcent_decode lp64le rpcLayout ex_v ex_rpc_call)
          ex_rpc_call).mem
        (slot lp64le ex_v 4112 1) = 0
    ∧ load_ptr lp64le
        (state_of (nss_mcdb_netdb_servent_decode lp64le servLayout ex_v ex_serv_call)
          ex_serv_call).mem
        (slot lp64le ex_v 4112 1) = 0 :=
  ⟨(decode_success_null_terminated lp64le hostLayout netLayout protoLayout rpcLayout
      servLayout ex_v).1 ex_host_call _ rfl,
    (decode_success_null_terminated lp64le hostLayout netLayout protoLayout rpcLayout
      servLayout ex_v).2.1 ex_net_call _ rfl,
    (decode_success_null_terminated lp64le hostLayout netLayout protoLayout rpcLayout
      servLayout ex_v).2.2.1 ex_proto_call _ rfl,
    (decode_success_null_terminated lp64le hostLayout netLayout protoLayout rpcLayout
      servLayout ex_v).2.2.2.1 ex_rpc_call _ rfl,
    (decode_success_null_terminated lp64le hostLayout netLayout protoLayout rpcLayout
      servLayout ex_v).2.2.2.2 ex_serv_call _ rfl⟩

/-! ## Address literals and alignment -/

/-- C8 fails on the code: for the literal "127.0.0.1" the shortcut returns
`NSS_STATUS_SUCCESS` with `h_addr_list[0]` pointing at the address, but `h_addr_list[1]` is
not null: with 8-byte pointers it is read from the address bytes and the name, with 4-byte
pointers from buffer bytes the routine never wrote. -/
theorem filladdr_addr_list_not_terminated :
    filladdr_view lp64le ex_v_literal
        (nss_mcdb_netdb_gethost_filladdr lp64le ex_addr AF_INET ex_v_literal ex_poison_call 0)
      = some (NSS_STATUS_SUCCESS, ⟨4116, 4096, 2, 4, 4104⟩, 4112, 3330185635515334783)
    ∧ filladdr_view ilp32le ex_v_literal
        (nss_mcdb_netdb_gethost_filladdr ilp32le ex_addr AF_INET ex_v_literal ex_poison_call 0)
      = some (NSS_STATUS_SUCCESS, ⟨4116, 4096, 2, 4, 4104⟩, 4112, 2863311530) := by
  decide

/-- C10, as stated, fails: with 4-byte pointers a successful host decode of a record with two
aliases puts `h_addr_list` at an address that is 4 modulo 8. -/
theorem hostent_addr_list_not_8_aligned :
    status_of (nss_mcdb_netdb_hostent_decode ilp32le hostLayout ex_v ex_host_call)
      = some NSS_STATUS_SUCCESS
    ∧ ent_of (nss_mcdb_netdb_hostent_decode ilp32le hostLayout ex_v ex_host_call)
      = some ⟨4096, 4112, 2, 4, 4124⟩
    ∧ 4124 % 8 = 4 := by
  decide

theorem filladdr_success (M : Machine) (addr : List Nat) (type : Int) (v : nss_mcdb_vinfo)
    (s s' : State hostent) (h_errnop h' : Int)
    (h : nss_mcdb_netdb_gethost_filladdr M addr type v s h_errnop
      = some (NSS_STATUS_SUCCESS, s', h')) :
    s'.ent.h_aliases = ((v.buf + 7) % M.umax) &&& (M.umax - 8)
      ∧ s'.ent.h_addr_list = ((((v.buf + 7) % M.umax) &&& (M.umax - 8)) + 8) % M.umax := by
  unfold nss_mcdb_netdb_gethost_filladdr at h
  simp only at h
  repeat' split at h
  all_goals first
    | (simp only [Option.some.injEq, Prod.mk.injEq] at h
       obtain ⟨_, h2, _⟩ := h
       subst h2
       exact ⟨rfl, rfl⟩)
    | (simp [nss_mcdb_netdb_gethost_fill_h_errnop, NSS_STATUS_TRYAGAIN, NSS_STATUS_SUCCESS,
        NSS_STATUS_UNAVAIL, NSS_STATUS_NOTFOUND] at h)

/-- C10, amended: after every successful decode the alias pointer array starts at a multiple
of 8; the address pointer array of a host starts `sizeof(char *) * (n + 1)` bytes further,
`n` the alias count, hence at a multiple of 8 with 8-byte pointers and at a multiple of 4
with 4-byte pointers; after a successful address-literal shortcut both arrays start at
multiples of 8. -/
theorem pointer_arrays_aligned (M : Machine) (LH : HostentLayout) (LN : NetentLayout)
    (LP : ProtoentLayout) (LR : RpcentLayout) (LS : ServentLayout) (v : nss_mcdb_vinfo) :
    (∀ (s s' : State hostent),
      nss_mcdb_netdb_hostent_decode M LH v s = some (NSS_STATUS_SUCCESS, s') →
      s'.ent.h_aliases % 8 = 0
        ∧ s'.ent.h_addr_list % 8
            = M.ptrsz * (hdr16 M s'.m.data LH.NSS_HE_HDRSZ LH.NSS_HE_MEM_NUM + 1) % 8
        ∧ s'.ent.h_addr_list % M.ptrsz = 0
        ∧ (M.ptr64 = true → s'.ent.h_addr_list % 8 = 0))
    ∧ (∀ (s s' : State netent),
      nss_mcdb_netdb_netent_decode M LN v s = some (NSS_STATUS_SUCCESS, s') →
      s'.ent.n_aliases % 8 = 0)
    ∧ (∀ (s s' : State protoent),
      nss_mcdb_netdb_protoent_decode M LP v s = some (NSS_STATUS_SUCCESS, s') →
      s'.ent.p_aliases % 8 = 0)
    ∧ (∀ (s s' : State rpcent),
      nss_mcdb_netdb_rpcent_decode M LR v s = some (NSS_STATUS_SUCCESS, s') →
      s'.ent.r_aliases % 8 = 0)
    ∧ (∀ (s s' : State servent),
      nss_mcdb_netdb_servent_decode M LS v s = some (NSS_STATUS_SUCCESS, s') →
      s'.ent.s_aliases % 8 = 0)
    ∧ (∀ (addr : List Nat) (type : Int) (s s' : State hostent) (h_errnop h' : Int),
      nss_mcdb_netdb_gethost_filladdr M addr type v s h_errnop
          = some (NSS_STATUS_SUCCESS, s', h') →
      s'.ent.h_aliases % 8 = 0 ∧ s'.ent.h_addr_list % 8 = 0) := by
  refine ⟨?_, ?_, ?_, ?_, ?_, ?_⟩
  · intro s s' h
    obtain ⟨_, hc⟩ := hostent_decode_cases M LH v s _ s' h
    rcases hc with ⟨h1, _⟩ | ⟨m', _, hf⟩
    · exact absurd h1 (by decide)
    · obtain ⟨hm, _, _, _, hal, hc⟩ := hostent_fill_cases M LH v _ _ s' hf
      rcases hc with ⟨h1, _⟩ | ⟨_, _, hlst, _⟩
      · exact absurd h1 (by decide)
      · simp only at hm hal hlst
        rw [hm, hal, hlst]
        have h8 := align8u_mod8 M v.buf (hdr16 M m'.data LH.NSS_HE_HDRSZ LH.NSS_HE_MEM)
        generalize align8u M v.buf (hdr16 M m'.data LH.NSS_HE_HDRSZ LH.NSS_HE_MEM) = al at *
        generalize hdr16 M m'.data LH.NSS_HE_HDRSZ LH.NSS_HE_MEM_NUM = n at *
        obtain ⟨p64, be⟩ := M
        cases p64 <;> simp only [Machine.ptrsz, Machine.umax, if_true, if_false,
          Bool.false_eq_true] <;> refine ⟨h8, ?_, ?_, ?_⟩ <;> first | omega | simp
  · intro s s' h
    rw [(pack_aliases_cases M v _ _ _ s _ _ _ s' h).1]
    exact align8u_mod8 M v.buf _
  · intro s s' h
    rw [(pack_aliases_cases M v _ _ _ s _ _ _ s' h).1]
    exact align8u_mod8 M v.buf _
  · intro s s' h
    rw [(pack_aliases_cases M v _ _ _ s _ _ _ s' h).1]
    exact align8u_mod8 M v.buf _
  · intro s s' h
    obtain ⟨_, hc⟩ := servent_decode_cases M LS v s _ s' h
    rcases hc with ⟨h1, _⟩ | ⟨m', _, hf⟩
    · exact absurd h1 (by decide)
    · rw [(pack_aliases_cases M v _ _ _ _ _ _ _ s' hf).1]
      exact align8u_mod8 M v.buf _
  · intro addr type s s' h_errnop h' h
    obtain ⟨h1, h2⟩ := filladdr_success M addr type v s s' h_errnop h' h
    rw [h1, h2]
    obtain ⟨p64, be⟩ := M
    cases p64 <;> simp only [Machine.umax, if_true, if_false, Bool.false_eq_true]
    · rw [show 4294967296 - 8 = 4294967288 from rfl, land_mask_u]
      omega
    · rw [show 18446744073709551616 - 8 = 18446744073709551608 from rfl, land_mask_64]
      omega

/-- Instance of C10, amended, on the example records and the literal "127.0.0.1" with 8-byte
pointers. -/
theorem pointer_arrays_aligned_witness :
    ((state_of (nss_mcdb_netdb_hostent_decode lp64le hostLayout ex_v ex_host_call)
          ex_host_call).ent.h_aliases % 8 = 0
      ∧ (state_of (nss_mcdb_netdb_hostent_decode lp64le hostLayout ex_v ex_host_call)
          ex_host_call).ent.h_addr_list % 8
        = lp64le.ptrsz * (hdr16 lp64le
            (state_of (nss_mcdb_netdb_hostent_decode lp64le hostLayout ex_v ex_host_call)
              ex_host_call).m.data hostLayout.NSS_HE_HDRSZ hostLayout.NSS_HE_MEM_NUM + 1) % 8
      ∧ (state_of (nss_mcdb_netdb_hostent_decode lp64le hostLayout ex_v ex_host_call)
          ex_host_call).ent.h_addr_list % lp64le.ptrsz = 0
      ∧ (lp64le.ptr64 = true →
          (state_of (nss_mcdb_netdb_hostent_decode lp64le hostLayout ex_v ex_host_call)
            ex_host_call).ent.h_addr_list % 8 = 0))
    ∧ (state_of (nss_mcdb_netdb_netent_decode lp64le netLayout ex_v ex_net_call)
        ex_net_call).ent.n_aliases % 8 = 0
    ∧ (state_of (nss_mcdb_netdb_protoent_decode lp64le protoLayout ex_v ex_proto_call)
        ex_proto_call).ent.p_aliases % 8 = 0
    ∧ (state_of (nss_mcdb_netdb_rpcent_decode lp64le rpcLayout ex_v ex_rpc_call)
        ex_rpc_call).ent.r_aliases % 8 = 0
    ∧ (state_of (nss_mcdb_netdb_servent_decode lp64le servLayout ex_v ex_serv_call)
        ex_serv_call).ent.s_aliases % 8 = 0
    ∧ ((filladdr_state (nss_mcdb_netdb_gethost_filladdr lp64le ex_addr AF_INET ex_v_literal
          ex_poison_call 0) ex_poison_call).ent.h_aliases % 8 = 0
      ∧ (filladdr_state (nss_mcdb_netdb_gethost_filladdr lp64le ex_addr AF_INET ex_v_literal
          ex_poison_call 0) ex_poison_call).ent.h_addr_list % 8 = 0) :=
  ⟨(pointer_arrays_aligned lp64le hostLayout netLayout protoLayout rpcLayout servLayout
      ex_v).1 ex_host_call _ rfl,
    (pointer_arrays_aligned lp64le hostLayout netLayout protoLayout rpcLayout servLayout
      ex_v).2.1 ex_net_call _ rfl,
    (pointer_arrays_aligned lp64le hostLayout netLayout protoLayout rpcLayout servLayout
      ex_v).2.2.1 ex_proto_call _ rfl,
    (pointer_arrays_aligned lp64le hostLayout netLayout protoLayout rpcLayout servLayout
      ex_v).2.2.2.1 ex_rpc_call _ rfl,
    (pointer_arrays_aligned lp64le hostLayout netLayout protoLayout rpcLayout servLayout
      ex_v).2.2.2.2.1 ex_serv_call _ rfl,
    (pointer_arrays_aligned lp64le hostLayout netLayout protoLayout rpcLayout servLayout
      ex_v_literal).2.2.2.2.2 ex_addr AF_INET ex_poison_call _ 0 0 rfl⟩

/-! ## Consistent records -/

theorem memcpy_buf_some (bufsz : Nat) (mem mem' : Mem) (off : Nat) (src : List Nat)
    (start len : Nat) (h : memcpy_buf bufsz mem off src start len = some mem') :
    off + len ≤ bufsz
      ∧ (∀ x, ¬ (off ≤ x ∧ x < off + len) → mem' x = mem x)
      ∧ (∀ j, j < len → mem' (off + j) = rd src (start + j)) := by
  unfold memcpy_buf at h
  split at h
  next hb =>
    simp only [Option.some.injEq] at h
    subst h
    refine ⟨hb, ?_, ?_⟩
    · intro x hx
      simp only [hx, if_false]
    · intro j hj
      have : off ≤ off + j ∧ off + j < off + len := by omega
      simp only [this, and_self, if_true, Nat.add_sub_cancel_left]
  · exact absurd h (by simp)

theorem memcpy_buf_ok (bufsz : Nat) (mem : Mem) (off : Nat) (src : List Nat)
    (start len : Nat) (h : off + len ≤ bufsz) :
    ∃ mem', memcpy_buf bufsz mem off src start len = some mem' := by
  unfold memcpy_buf
  simp [h]

theorem store_ptr_ok (M : Machine) (bufsz : Nat) (mem : Mem) (off val : Nat)
    (h : off + M.ptrsz ≤ bufsz) : ∃ mem', store_ptr M bufsz mem off val = some mem' := by
  unfold store_ptr
  simp [h]

theorem var_len_eq (M : Machine) (data : List Nat) (hdrsz : Nat)
    (h1 : hdrsz ≤ data.length) (h2 : data.length < 4294967296) :
    var_len M data hdrsz = data.length - hdrsz := by
  unfold var_len
  have hu := umax_cases M
  generalize M.umax = U at *
  rcases hu with hu | hu <;> subst hu <;> omega

/-- Slot `i` of an array that starts `d` bytes into the buffer lies `d + sizeof(char *) * i`
bytes into the buffer. -/
theorem slot_eq (M : Machine) (v : nss_mcdb_vinfo) (d i : Nat)
    (hb : v.buf + d + M.ptrsz * i < M.umax) :
    slot M v (v.buf + d) i = d + M.ptrsz * i := by
  unfold slot ptr_diff
  have hu := umax_cases M
  generalize M.umax = U at *
  generalize M.ptrsz * i = q at *
  rcases hu with hu | hu <;> subst hu <;> omega

theorem ptr_add_nat (M : Machine) (p d : Nat) (h : p + d < M.umax) :
    ptr_add M p (d : Int) = p + d := by
  unfold ptr_add
  have hu := umax_cases M
  generalize M.umax = U at *
  rcases hu with hu | hu <;> subst hu <;> omega

/-- The scan `while (*++buf != 0) ;` stops at the first NUL behind the start. -/
theorem scan_nul_finds (mem : Mem) : ∀ (len off room : Nat),
    1 ≤ len → (∀ j, 1 ≤ j → j < len → mem (off + j) ≠ 0) → mem (off + len) = 0 →
    len ≤ room → scan_nul mem off room = some (off + len) := by
  intro len
  induction len with
  | zero => intro off room h; omega
  | succ l ih =>
    intro off room _ hnz hz hroom
    cases room with
    | zero => omega
    | succ r =>
      unfold scan_nul
      by_cases hl : l = 0
      · subst hl
        simp only [Nat.zero_add] at hz
        simp [hz]
      · have h1 : mem (off + 1) ≠ 0 := hnz 1 (by omega) (by omega)
        rw [if_pos h1]
        have := ih (off + 1) r (by omega)
          (fun j hj1 hj2 => by
            have := hnz (j + 1) (by omega) (by omega)
            rwa [show off + (j + 1) = off + 1 + j by omega] at this)
          (by rwa [show off + (l + 1) = off + 1 + l by omega] at hz)
          (by omega)
        rw [this]
        congr 1
        omega

/-- What `alias_offsets` says about the first of the strings. -/
theorem alias_offsets_succ (var : List Nat) (off n : Nat) (offs : List Nat)
    (h : alias_offsets var off (n + 1) = some offs) :
    ∃ len rest, 1 ≤ len ∧ off + len < var.length
      ∧ (∀ j, j < len → rd var (off + j) ≠ 0) ∧ rd var (off + len) = 0
      ∧ offs = off :: rest ∧ alias_offsets var (off + len + 1) n = some rest := by
  unfold alias_offsets at h
  split at h
  · exact absurd h (by simp)
  next str hstr =>
    split at h
    · exact absurd h (by simp)
    next hne =>
      simp only [Option.map_eq_some'] at h
      obtain ⟨rest, hrest, rfl⟩ := h
      obtain ⟨hz, tail, htail⟩ := (cstr_eq_some_iff _ _).1 hstr
      have hlen : 1 ≤ str.length := by
        cases str with
        | nil => exact absurd rfl hne
        | cons a b => simp
      have hdl : (List.drop off var).length = str.length + (tail.length + 1) := by
        rw [htail]; simp
      rw [List.length_drop] at hdl
      refine ⟨str.length, rest, hlen, by omega, ?_, ?_, rfl, hrest⟩
      · intro j hj
        rw [← rd_drop, htail, rd_append_left _ _ _ hj]
        exact hz _ (rd_mem_of_lt str j hj)
      · rw [← rd_drop, htail]
        have := rd_append_right str (0 :: tail) 0
        simp only [Nat.add_zero] at this
        rw [this]
        simp [rd]

theorem ptrsz_pos (M : Machine) : 4 ≤ M.ptrsz ∧ M.ptrsz ≤ 8 := by
  rcases ptrsz_cases M with ⟨h, _⟩ | ⟨h, _⟩ <;> omega

/-- On a consistent variable region the alias loop stays inside the copied strings and
stores, for each further string, the address of its first byte. -/
theorem alias_loop_ok (M : Machine) (v : nss_mcdb_vinfo) (d : Nat) (var : List Nat)
    (hv : valid_buf M v) (hvar : var.length ≤ d) :
    ∀ (cnt i off : Nat) (mem : Mem) (offs : List Nat),
      alias_offsets var off (cnt + 1) = some offs →
      (∀ x, x < var.length → mem x = rd var x) →
      d + M.ptrsz * (i + cnt) ≤ v.bufsz →
      ∃ mem', alias_loop M v (v.buf + d) cnt i off mem = some mem'
        ∧ (∀ x, x < d + M.ptrsz * i → mem' x = mem x)
        ∧ (∀ t, t < cnt →
            load_ptr M mem' (d + M.ptrsz * (i + t)) = v.buf + offs.getD (t + 1) 0
              ∧ offs.getD (t + 1) 0 < var.length) := by
  obtain ⟨hb1, hb2⟩ := hv
  have hP := ptrsz_pos M
  intro cnt
  induction cnt with
  | zero =>
    intro i off mem offs _ _ _
    exact ⟨mem, rfl, fun _ _ => rfl, fun t ht => absurd ht (Nat.not_lt_zero _)⟩
  | succ c ih =>
    intro i off mem offs ho hmem hsz
    obtain ⟨len, rest, hlen, hin, hnz, hz, hoffs, hrest⟩ := alias_offsets_succ var off _ offs ho
    obtain ⟨len2, rest2, _, hin2, _, _, hrest2, _⟩ :=
      alias_offsets_succ var (off + len + 1) _ rest hrest
    have e1 : M.ptrsz * (i + (c + 1)) = M.ptrsz * i + M.ptrsz * c + M.ptrsz := by ring
    have e2 : M.ptrsz * (i + 1 + c) = M.ptrsz * i + M.ptrsz * c + M.ptrsz := by ring
    have e3 : M.ptrsz * (i + 1) = M.ptrsz * i + M.ptrsz := by ring
    have hscan : scan_nul mem off (v.bufsz - (off + 1)) = some (off + len) := by
      apply scan_nul_finds mem len off _ hlen
      · intro j hj1 hj2
        rw [hmem _ (by omega)]
        exact hnz j hj2
      · rw [hmem _ (by omega)]
        exact hz
      · omega
    have hslot : slot M v (v.buf + d) i = d + M.ptrsz * i := slot_eq M v d i (by omega)
    obtain ⟨mem1, hm1⟩ := store_ptr_ok M v.bufsz mem (d + M.ptrsz * i)
      (ptr_add M v.buf ((off + len + 1 : Nat) : Int)) (by omega)
    obtain ⟨_, hfr1, _⟩ := store_ptr_some M v.bufsz mem mem1 _ _ hm1
    obtain ⟨mem', hl, hA, hB⟩ := ih (i + 1) (off + len + 1) mem1 rest hrest
      (fun x hx => by rw [hfr1 x (by omega)]; exact hmem x hx) (by omega)
    refine ⟨mem', ?_, ?_, ?_⟩
    · rw [alias_loop, hscan]
      simp only
      rw [hslot, hm1]
      exact hl
    · intro x hx
      rw [hA x (by omega), hfr1 x (by omega)]
    · intro t ht
      cases t with
      | zero =>
        have hval : ptr_add M v.buf ((off + len + 1 : Nat) : Int) = v.buf + (off + len + 1) :=
          ptr_add_nat M v.buf _ (by omega)
        have hg : offs.getD (0 + 1) 0 = off + len + 1 := by
          rw [hoffs, hrest2]; rfl
        rw [hg]
        refine ⟨?_, by omega⟩
        have hcg : load_ptr M mem' (d + M.ptrsz * (i + 0)) = load_ptr M mem1 (d + M.ptrsz * i) := by
          rw [Nat.add_zero]
          apply load_ptr_congr
          intro j hj
          exact hA _ (by omega)
        rw [hcg, load_store_same M v.bufsz mem mem1 _ _ hm1, hval]
        exact Nat.mod_eq_of_lt (by omega)
      | succ t' =>
        have := hB t' (by omega)
        rw [show i + (t' + 1) = i + 1 + t' by omega, hoffs]
        exact this

/-- On a consistent variable region `fill_aliases` succeeds, leaves the bytes before the array
as they are, makes slot `t` point at the `t`-th alias string and slot `num` null. -/
theorem fill_aliases_ok (M : Machine) (v : nss_mcdb_vinfo) (d : Nat) (var : List Nat)
    (hv : valid_buf M v) (hvar : var.length ≤ d) (mem_str num : Nat) (mem : Mem)
    (offs : List Nat) (ho : alias_offsets var mem_str num = some offs)
    (hmem : ∀ x, x < var.length → mem x = rd var x)
    (hsz : d + M.ptrsz * (num + 1) ≤ v.bufsz) :
    ∃ mem', fill_aliases M v (v.buf + d) mem_str num mem = some mem'
      ∧ (∀ x, x < d → mem' x = mem x)
      ∧ (∀ t, t < num →
          load_ptr M mem' (d + M.ptrsz * t) = v.buf + offs.getD t 0
            ∧ offs.getD t 0 < var.length)
      ∧ load_ptr M mem' (d + M.ptrsz * num) = 0 := by
  have hv' := hv
  obtain ⟨hb1, hb2⟩ := hv'
  have hP := ptrsz_pos M
  have e1 : M.ptrsz * (num + 1) = M.ptrsz * num + M.ptrsz := by ring
  have e0 : M.ptrsz * 0 = 0 := Nat.mul_zero _
  have hs0 : slot M v (v.buf + d) 0 = d := by
    have := slot_eq M v d 0 (by omega)
    rw [this, e0, Nat.add_zero]
  have hsn : slot M v (v.buf + d) num = d + M.ptrsz * num := slot_eq M v d num (by omega)
  obtain ⟨mem0, hm0⟩ := store_ptr_ok M v.bufsz mem d (ptr_add M v.buf (mem_str : Int))
    (by omega)
  obtain ⟨_, hfr0, _⟩ := store_ptr_some M v.bufsz mem mem0 _ _ hm0
  cases num with
  | zero =>
    obtain ⟨mem1, hm1⟩ := store_ptr_ok M v.bufsz mem0 d 0 (by omega)
    obtain ⟨_, hfr1, _⟩ := store_ptr_some M v.bufsz mem0 mem1 _ _ hm1
    refine ⟨mem1, ?_, ?_, ?_, ?_⟩
    · unfold fill_aliases
      rw [hs0, hm0]
      simp only [Nat.sub_self, Nat.zero_sub, alias_loop]
      exact hm1
    · intro x hx
      rw [hfr1 x (by omega), hfr0 x (by omega)]
    · intro t ht
      exact absurd ht (Nat.not_lt_zero _)
    · rw [e0, Nat.add_zero, load_store_same M v.bufsz mem0 mem1 _ _ hm1, zero_mod_umax]
  | succ n =>
    obtain ⟨len, rest, hlen, hin, _, _, hoffs, _⟩ := alias_offsets_succ var mem_str n offs ho
    have e2 : M.ptrsz * (1 + n) = M.ptrsz * n + M.ptrsz := by ring
    have e3 : M.ptrsz * (n + 1) = M.ptrsz * n + M.ptrsz := by ring
    have e4 : M.ptrsz * 1 = M.ptrsz := Nat.mul_one _
    obtain ⟨mem1, hl, hA, hB⟩ := alias_loop_ok M v d var hv hvar n 1 mem_str mem0 offs ho
      (fun x hx => by rw [hfr0 x (by omega)]; exact hmem x hx) (by omega)
    obtain ⟨mem2, hm2⟩ := store_ptr_ok M v.bufsz mem1 (d + M.ptrsz * (n + 1)) 0 (by omega)
    obtain ⟨_, hfr2, _⟩ := store_ptr_some M v.bufsz mem1 mem2 _ _ hm2
    refine ⟨mem2, ?_, ?_, ?_, ?_⟩
    · unfold fill_aliases
      rw [hs0, hm0]
      simp only [Nat.add_sub_cancel]
      rw [hl]
      simp only
      rw [hsn]
      exact hm2
    · intro x hx
      rw [hfr2 x (by omega), hA x (by omega), hfr0 x (by omega)]
    · intro t ht
      have hcg : load_ptr M mem2 (d + M.ptrsz * t) = load_ptr M mem1 (d + M.ptrsz * t) := by
        apply load_ptr_congr
        intro j hj
        apply hfr2
        have : M.ptrsz * t + M.ptrsz ≤ M.ptrsz * (n + 1) := by
          have := Nat.mul_le_mul_left M.ptrsz (show t + 1 ≤ n + 1 by omega)
          rw [Nat.mul_add, Nat.mul_one] at this
          exact this
        omega
      rw [hcg]
      cases t with
      | zero =>
        have hval : ptr_add M v.buf (mem_str : Int) = v.buf + mem_str :=
          ptr_add_nat M v.buf _ (by omega)
        have hg : offs.getD 0 0 = mem_str := by rw [hoffs]; rfl
        rw [hg]
        refine ⟨?_, by omega⟩
        have hcg2 : load_ptr M mem1 (d + M.ptrsz * 0) = load_ptr M mem0 d := by
          rw [e0, Nat.add_zero]
          apply load_ptr_congr
          intro j hj
          exact hA _ (by omega)
        rw [hcg2, load_store_same M v.bufsz mem mem0 _ _ hm0, hval]
        exact Nat.mod_eq_of_lt (by omega)
      | succ t' =>
        have := hB t' (by omega)
        rw [show 1 + t' = t' + 1 by omega] at this
        exact this
    · rw [load_store_same M v.bufsz mem1 mem2 _ _ hm2, zero_mod_umax]

/-- The copy of the variable region and the alias array of a consistent record, once the size
check for `cnt` slots has passed: the array starts `d` bytes into the buffer, behind the
copied region; slot `t` points at the `t`-th alias string. -/
theorem copy_and_fill_ok (M : Machine) (v : nss_mcdb_vinfo) (hv : valid_buf M v)
    (data : List Nat) (hdrsz m mem_str num cnt : Nat) (mem : Mem)
    (hm : m < 65536) (hcnt : cnt ≤ 131072) (hnc : num + 1 ≤ cnt)
    (hc : consistent data hdrsz m mem_str num)
    (hchk : (ptr_diff M (align8u M v.buf m) v.buf + (cnt <<< 3)) % M.umax ≤ v.bufsz) :
    ∃ d offs mem0 mem1,
      align8u M v.buf m = v.buf + d ∧ m ≤ d ∧ d + 8 * cnt ≤ v.bufsz
        ∧ alias_offsets (data.drop hdrsz) mem_str num = some offs
        ∧ memcpy_buf v.bufsz mem 0 data hdrsz (var_len M data hdrsz) = some mem0
        ∧ fill_aliases M v (align8u M v.buf m) mem_str num mem0 = some mem1
        ∧ (∀ x, x < data.length - hdrsz → mem1 x = rd data (hdrsz + x))
        ∧ (∀ x, data.length - hdrsz ≤ x → x < d → mem1 x = mem x)
        ∧ (∀ t, t < num →
            load_ptr M mem1 (d + M.ptrsz * t) = v.buf + offs.getD t 0
              ∧ offs.getD t 0 < data.length - hdrsz)
        ∧ load_ptr M mem1 (d + M.ptrsz * num) = 0 := by
  obtain ⟨hc1, hc2, hc3, hc4⟩ := hc
  obtain ⟨offs, hoffs⟩ := Option.isSome_iff_exists.1 hc4
  obtain ⟨ha1, ha2, ha3⟩ := align_check M v.buf v.bufsz m cnt hv.1 hv.2 hm (by omega) hcnt hchk
  have hP := ptrsz_pos M
  have hvl := var_len_eq M data hdrsz hc1 hc2
  have hd : (v.buf + m + 7) / 8 * 8 = v.buf + ((v.buf + m + 7) / 8 * 8 - v.buf) := by omega
  obtain ⟨mem0, hm0⟩ := memcpy_buf_ok v.bufsz mem 0 data hdrsz (var_len M data hdrsz)
    (by omega)
  obtain ⟨_, hfr0, hcp0⟩ := memcpy_buf_some v.bufsz mem mem0 0 data hdrsz _ hm0
  have hlen : (data.drop hdrsz).length = data.length - hdrsz := List.length_drop _ _
  have hPn : M.ptrsz * (num + 1) ≤ 8 * cnt :=
    Nat.le_trans (Nat.mul_le_mul_right _ hP.2) (Nat.mul_le_mul_left _ hnc)
  obtain ⟨mem1, hf, hA, hB, hN⟩ := fill_aliases_ok M v ((v.buf + m + 7) / 8 * 8 - v.buf)
    (data.drop hdrsz) hv (by omega) mem_str num mem0 offs hoffs
    (fun x hx => by
      have := hcp0 x (by omega)
      rw [Nat.zero_add] at this
      rw [this, rd_drop])
    (by omega)
  refine ⟨(v.buf + m + 7) / 8 * 8 - v.buf, offs, mem0, mem1, ?_, by omega, by omega, hoffs,
    hm0, ?_, ?_, ?_, ?_, hN⟩
  · rw [ha1]; exact hd
  · rw [ha1, hd]; exact hf
  · intro x hx
    rw [hA x (by omega)]
    have := hcp0 x (by omega)
    rw [Nat.zero_add] at this
    exact this
  · intro x hx1 hx2
    rw [hA x hx2]
    exact hfr0 x (by omega)
  · intro t ht
    have := hB t ht
    rw [hlen] at this
    exact this

/-- On a consistent record `pack_aliases` returns: no access leaves the buffer. -/
theorem pack_aliases_ok {ε : Type} (M : Machine) (v : nss_mcdb_vinfo) (hv : valid_buf M v)
    (hdrsz m mem_str num : Nat) (s : State ε) (ent : ε)
    (hm : m < 65536) (hnum : num < 65536)
    (hc : consistent s.m.data hdrsz m mem_str num) :
    (pack_aliases M v hdrsz mem_str num s ent (align8u M v.buf m)).isSome = true := by
  unfold pack_aliases
  split
  next hchk =>
    obtain ⟨d, offs, mem0, mem1, _, _, _, _, hm0, hf, _⟩ :=
      copy_and_fill_ok M v hv s.m.data hdrsz m mem_str num (num + 1) s.mem hm (by omega)
        (Nat.le_refl _) hc hchk
    rw [hm0]
    simp only
    rw [hf]
    rfl
  · rfl

/-- After a successful `pack_aliases` on a consistent record, the alias pointers lie inside
the buffer. -/
theorem pack_aliases_inside {ε : Type} (M : Machine) (v : nss_mcdb_vinfo) (hv : valid_buf M v)
    (hdrsz m mem_str num : Nat) (s s' : State ε) (ent : ε)
    (hm : m < 65536) (hnum : num < 65536)
    (hc : consistent s.m.data hdrsz m mem_str num)
    (h : pack_aliases M v hdrsz mem_str num s ent (align8u M v.buf m)
      = some (NSS_STATUS_SUCCESS, s')) :
    ∀ t, t < num →
      v.buf ≤ load_ptr M s'.mem (slot M v (align8u M v.buf m) t)
        ∧ load_ptr M s'.mem (slot M v (align8u M v.buf m) t) < v.buf + v.bufsz := by
  obtain ⟨_, _, hcase⟩ := pack_aliases_cases M v hdrsz mem_str num s ent _ _ s' h
  rcases hcase with ⟨h1, _⟩ | ⟨_, hchk, mem0', hm0', hf'⟩
  · exact absurd h1 (by decide)
  · obtain ⟨d, offs, mem0, mem1, hal, hmd, hsz, _, hm0, hf, _, _, hB, _⟩ :=
      copy_and_fill_ok M v hv s.m.data hdrsz m mem_str num (num + 1) s.mem hm (by omega)
        (Nat.le_refl _) hc hchk
    rw [hm0] at hm0'
    simp only [Option.some.injEq] at hm0'
    subst hm0'
    rw [hf] at hf'
    simp only [Option.some.injEq] at hf'
    intro t ht
    have hP := ptrsz_pos M
    have hPt : M.ptrsz * (t + 1) ≤ 8 * (num + 1) :=
      Nat.le_trans (Nat.mul_le_mul_right _ hP.2) (Nat.mul_le_mul_left _ (by omega))
    rw [Nat.mul_add, Nat.mul_one] at hPt
    have hs : slot M v (align8u M v.buf m) t = d + M.ptrsz * t := by
      rw [hal]
      exact slot_eq M v d t (by have := hv.2; omega)
    obtain ⟨hb1, hb2⟩ := hB t ht
    obtain ⟨hc1, _, hc3, _⟩ := hc
    rw [hs, ← hf', hb1]
    omega

theorem ptr_add_lt (M : Machine) (p : Nat) (d : Int) : ptr_add M p d < M.umax := by
  unfold ptr_add
  have hu := umax_cases M
  generalize M.umax = U at *
  rcases hu with hu | hu <;> subst hu <;> omega

theorem ptr_add_int (M : Machine) (p : Nat) (d : Int) (h0 : 0 ≤ (p : Int) + d)
    (h1 : (p : Int) + d < M.umax) : ((ptr_add M p d : Nat) : Int) = p + d := by
  unfold ptr_add
  have hu := umax_cases M
  generalize M.umax = U at *
  rcases hu with hu | hu <;> subst hu <;> omega

/-- Without wrap-around, `t` steps of `buf += h_length` add `t * h_length`. -/
theorem iter_ptr_add (M : Machine) (p : Nat) (hl : Int) (h0 : 0 ≤ hl) :
    ∀ t : Nat, (p : Int) + t * hl < M.umax →
      ((((fun q => ptr_add M q hl)^[t]) p : Nat) : Int) = p + t * hl := by
  intro t
  induction t with
  | zero => intro _; simp
  | succ k ih =>
    intro hb
    have e : ((k + 1 : Nat) : Int) * hl = k * hl + hl := by push_cast; ring
    rw [e] at hb ⊢
    have hk : (0 : Int) ≤ k * hl := Int.mul_nonneg (Int.ofNat_nonneg k) h0
    have ih' := ih (by omega)
    rw [Function.iterate_succ_apply']
    rw [ptr_add_int M _ hl (by omega) (by omega), ih']
    omega

/-- The address loop stays inside its slots and stores the successive values of `buf`. -/
theorem addr_loop_ok (M : Machine) (v : nss_mcdb_vinfo) (dl : Nat) (hl : Int)
    (hv : valid_buf M v) :
    ∀ (cnt i cur : Nat) (mem : Mem),
      dl + M.ptrsz * (i + cnt) ≤ v.bufsz →
      ∃ mem', addr_loop M v (v.buf + dl) hl cnt i cur mem = some mem'
        ∧ (∀ x, x < dl + M.ptrsz * i → mem' x = mem x)
        ∧ (∀ t, t < cnt →
            load_ptr M mem' (dl + M.ptrsz * (i + t))
              = ((fun q => ptr_add M q hl)^[t + 1]) cur) := by
  obtain ⟨hb1, hb2⟩ := hv
  have hP := ptrsz_pos M
  intro cnt
  induction cnt with
  | zero =>
    intro i cur mem _
    exact ⟨mem, rfl, fun _ _ => rfl, fun t ht => absurd ht (Nat.not_lt_zero _)⟩
  | succ c ih =>
    intro i cur mem hsz
    have e1 : M.ptrsz * (i + (c + 1)) = M.ptrsz * i + M.ptrsz * c + M.ptrsz := by ring
    have e2 : M.ptrsz * (i + 1 + c) = M.ptrsz * i + M.ptrsz * c + M.ptrsz := by ring
    have e3 : M.ptrsz * (i + 1) = M.ptrsz * i + M.ptrsz := by ring
    have hslot : slot M v (v.buf + dl) i = dl + M.ptrsz * i := slot_eq M v dl i (by omega)
    obtain ⟨mem1, hm1⟩ := store_ptr_ok M v.bufsz mem (dl + M.ptrsz * i)
      (ptr_add M cur hl) (by omega)
    obtain ⟨_, hfr1, _⟩ := store_ptr_some M v.bufsz mem mem1 _ _ hm1
    obtain ⟨mem', hl', hA, hB⟩ := ih (i + 1) (ptr_add M cur hl) mem1 (by omega)
    refine ⟨mem', ?_, ?_, ?_⟩
    · rw [addr_loop, hslot, hm1]
      exact hl'
    · intro x hx
      rw [hA x (by omega), hfr1 x (by omega)]
    · intro t ht
      cases t with
      | zero =>
        have hcg : load_ptr M mem' (dl + M.ptrsz * (i + 0))
            = load_ptr M mem1 (dl + M.ptrsz * i) := by
          rw [Nat.add_zero]
          apply load_ptr_congr
          intro j hj
          exact hA _ (by omega)
        rw [hcg, load_store_same M v.bufsz mem mem1 _ _ hm1]
        exact Nat.mod_eq_of_lt (ptr_add_lt M cur hl)
      | succ t' =>
        have := hB t' (by omega)
        rw [show i + (t' + 1) = i + 1 + t' by omega, this]
        rfl

/-- The statements `fill_addrs` succeed inside their slots, leave the bytes before the array as
they are, make slot `t` hold `v->buf + lst_str` advanced `t` times by `h_length`, and slot
`num` null. -/
theorem fill_addrs_ok (M : Machine) (v : nss_mcdb_vinfo) (dl : Nat) (hl : Int)
    (hv : valid_buf M v) (lst_str num : Nat) (mem : Mem)
    (hsz : dl + M.ptrsz * (num + 1) ≤ v.bufsz) :
    ∃ mem', fill_addrs M v (v.buf + dl) lst_str hl num mem = some mem'
      ∧ (∀ x, x < dl → mem' x = mem x)
      ∧ (∀ t, t < num →
          load_ptr M mem' (dl + M.ptrsz * t)
            = ((fun q => ptr_add M q hl)^[t]) (ptr_add M v.buf (lst_str : Int)))
      ∧ load_ptr M mem' (dl + M.ptrsz * num) = 0 := by
  have hv' := hv
  obtain ⟨hb1, hb2⟩ := hv'
  have hP := ptrsz_pos M
  have e1 : M.ptrsz * (num + 1) = M.ptrsz * num + M.ptrsz := by ring
  have e0 : M.ptrsz * 0 = 0 := Nat.mul_zero _
  have hs0 : slot M v (v.buf + dl) 0 = dl := by
    have := slot_eq M v dl 0 (by omega)
    rw [this, e0, Nat.add_zero]
  have hsn : slot M v (v.buf + dl) num = dl + M.ptrsz * num := slot_eq M v dl num (by omega)
  obtain ⟨mem0, hm0⟩ := store_ptr_ok M v.bufsz mem dl (ptr_add M v.buf (lst_str : Int))
    (by omega)
  obtain ⟨_, hfr0, _⟩ := store_ptr_some M v.bufsz mem mem0 _ _ hm0
  have e4 : M.ptrsz * 1 = M.ptrsz := Nat.mul_one _
  have e5 : M.ptrsz * (1 + (num - 1)) ≤ M.ptrsz * num + M.ptrsz := by
    rw [← e1]
    exact Nat.mul_le_mul_left _ (by omega)
  obtain ⟨mem1, hl', hA, hB⟩ := addr_loop_ok M v dl hl hv (num - 1) 1
    (ptr_add M v.buf (lst_str : Int)) mem0 (by omega)
  obtain ⟨mem2, hm2⟩ := store_ptr_ok M v.bufsz mem1 (dl + M.ptrsz * num) 0 (by omega)
  obtain ⟨_, hfr2, _⟩ := store_ptr_some M v.bufsz mem1 mem2 _ _ hm2
  refine ⟨mem2, ?_, ?_, ?_, ?_⟩
  · unfold fill_addrs
    rw [hs0, hm0]
    simp only
    rw [hl']
    simp only
    rw [hsn]
    exact hm2
  · intro x hx
    rw [hfr2 x (by omega), hA x (by omega), hfr0 x (by omega)]
  · intro t ht
    have hcg : load_ptr M mem2 (dl + M.ptrsz * t) = load_ptr M mem1 (dl + M.ptrsz * t) := by
      apply load_ptr_congr
      intro j hj
      apply hfr2
      have : M.ptrsz * t + M.ptrsz ≤ M.ptrsz * num := by
        have := Nat.mul_le_mul_left M.ptrsz (show t + 1 ≤ num by omega)
        rw [Nat.mul_add, Nat.mul_one] at this
        exact this
      omega
    rw [hcg]
    cases t with
    | zero =>
      have hcg2 : load_ptr M mem1 (dl + M.ptrsz * 0) = load_ptr M mem0 dl := by
        rw [e0, Nat.add_zero]
        apply load_ptr_congr
        intro j hj
        exact hA _ (by omega)
      rw [hcg2, load_store_same M v.bufsz mem mem0 _ _ hm0]
      exact Nat.mod_eq_of_lt (ptr_add_lt M _ _)
    | succ t' =>
      have := hB t' (by omega)
      rw [show 1 + t' = t' + 1 by omega] at this
      exact this
  · rw [load_store_same M v.bufsz mem1 mem2 _ _ hm2, zero_mod_umax]

/-- The host routine on a consistent record: it returns, and when it succeeds the copied
region, the alias array and the address array are as the header describes them. -/
theorem hostent_fill_ok (M : Machine) (L : HostentLayout) (v : nss_mcdb_vinfo)
    (hv : valid_buf M v) (s : State hostent)
    (hc : consistent s.m.data L.NSS_HE_HDRSZ (hdr16 M s.m.data L.NSS_HE_HDRSZ L.NSS_HE_MEM)
      (hdr16 M s.m.data L.NSS_HE_HDRSZ L.NSS_HE_MEM_STR)
      (hdr16 M s.m.data L.NSS_HE_HDRSZ L.NSS_HE_MEM_NUM)) :
    ∃ st s', hostent_fill M L v s = some (st, s')
      ∧ (st = NSS_STATUS_SUCCESS → ∃ d offs,
          s'.ent.h_aliases = v.buf + d
            ∧ s'.ent.h_addr_list
                = v.buf + (d + M.ptrsz * (hdr16 M s.m.data L.NSS_HE_HDRSZ L.NSS_HE_MEM_NUM + 1))
            ∧ hdr16 M s.m.data L.NSS_HE_HDRSZ L.NSS_HE_MEM ≤ d
            ∧ d + 8 * (hdr16 M s.m.data L.NSS_HE_HDRSZ L.NSS_HE_MEM_NUM + 1
                + hdr16 M s.m.data L.NSS_HE_HDRSZ L.NSS_HE_LST_NUM + 1) ≤ v.bufsz
            ∧ alias_offsets (s.m.data.drop L.NSS_HE_HDRSZ)
                (hdr16 M s.m.data L.NSS_HE_HDRSZ L.NSS_HE_MEM_STR)
                (hdr16 M s.m.data L.NSS_HE_HDRSZ L.NSS_HE_MEM_NUM) = some offs
            ∧ (∀ x, x < s.m.data.length - L.NSS_HE_HDRSZ →
                s'.mem x = rd s.m.data (L.NSS_HE_HDRSZ + x))
            ∧ (∀ t, t < hdr16 M s.m.data L.NSS_HE_HDRSZ L.NSS_HE_MEM_NUM →
                load_ptr M s'.mem (d + M.ptrsz * t) = v.buf + offs.getD t 0
                  ∧ offs.getD t 0 < s.m.data.length - L.NSS_HE_HDRSZ)
            ∧ load_ptr M s'.mem
                (d + M.ptrsz * hdr16 M s.m.data L.NSS_HE_HDRSZ L.NSS_HE_MEM_NUM) = 0
            ∧ (∀ t, t < hdr16 M s.m.data L.NSS_HE_HDRSZ L.NSS_HE_LST_NUM →
                load_ptr M s'.mem
                    (d + M.ptrsz * (hdr16 M s.m.data L.NSS_HE_HDRSZ L.NSS_HE_MEM_NUM + 1)
                      + M.ptrsz * t)
                  = ((fun q => ptr_add M q
                        (to_int (hdr32 M s.m.data L.NSS_HE_HDRSZ L.NSS_H_LENGTH)))^[t])
                      (ptr_add M v.buf
                        (hdr16 M s.m.data L.NSS_HE_HDRSZ L.NSS_HE_LST_STR : Nat)))
            ∧ load_ptr M s'.mem
                (d + M.ptrsz * (hdr16 M s.m.data L.NSS_HE_HDRSZ L.NSS_HE_MEM_NUM + 1)
                  + M.ptrsz * hdr16 M s.m.data L.NSS_HE_HDRSZ L.NSS_HE_LST_NUM) = 0) := by
  have hm := hdr16_lt M s.m.data L.NSS_HE_HDRSZ L.NSS_HE_MEM
  have hn := hdr16_lt M s.m.data L.NSS_HE_HDRSZ L.NSS_HE_MEM_NUM
  have hk := hdr16_lt M s.m.data L.NSS_HE_HDRSZ L.NSS_HE_LST_NUM
  have hP := ptrsz_pos M
  unfold hostent_fill
  simp only
  generalize hdr16 M s.m.data L.NSS_HE_HDRSZ L.NSS_HE_MEM = m at *
  generalize hdr16 M s.m.data L.NSS_HE_HDRSZ L.NSS_HE_MEM_NUM = n at *
  generalize hdr16 M s.m.data L.NSS_HE_HDRSZ L.NSS_HE_LST_NUM = k at *
  generalize hdr16 M s.m.data L.NSS_HE_HDRSZ L.NSS_HE_MEM_STR = mem_str at *
  generalize hdr16 M s.m.data L.NSS_HE_HDRSZ L.NSS_HE_LST_STR = lst_str at *
  generalize to_int (hdr32 M s.m.data L.NSS_HE_HDRSZ L.NSS_H_LENGTH) = hl at *
  split
  next hchk =>
    obtain ⟨d, offs, mem0, mem1, hal, hmd, hsz, hoffs, hm0, hf, hcp, _, hB, hN⟩ :=
      copy_and_fill_ok M v hv s.m.data L.NSS_HE_HDRSZ m mem_str n (n + 1 + k + 1) s.mem hm
        (by omega) (by omega) hc hchk
    have e1 : M.ptrsz * (n + 1) + M.ptrsz * (k + 1) ≤ 8 * (n + 1 + k + 1) := by
      have h1 := Nat.mul_le_mul_right (n + 1) hP.2
      have h2 := Nat.mul_le_mul_right (k + 1) hP.2
      omega
    have e2 : M.ptrsz * (k + 1) = M.ptrsz * k + M.ptrsz := by ring
    have e3 : M.ptrsz * (n + 1) = M.ptrsz * n + M.ptrsz := by ring
    have hlst : (align8u M v.buf m + M.ptrsz * (n + 1)) % M.umax
        = v.buf + (d + M.ptrsz * (n + 1)) := by
      rw [hal, Nat.add_assoc]
      exact Nat.mod_eq_of_lt (by have := hv.2; omega)
    obtain ⟨mem2, hfa, hA2, hB2, hN2⟩ := fill_addrs_ok M v (d + M.ptrsz * (n + 1)) hl hv
      lst_str k mem1 (by omega)
    rw [hm0]
    simp only
    rw [hf]
    simp only
    rw [hlst, hfa]
    refine ⟨_, _, rfl, fun _ => ⟨d, offs, hal, rfl, hmd, hsz, hoffs, ?_, ?_, ?_, hB2, hN2⟩⟩
    · intro x hx
      have hc3 := hc.2.2.1
      show mem2 x = _
      rw [hA2 x (by omega)]
      exact hcp x hx
    · intro t ht
      have hcg : load_ptr M mem2 (d + M.ptrsz * t) = load_ptr M mem1 (d + M.ptrsz * t) := by
        apply load_ptr_congr
        intro j hj
        apply hA2
        have := Nat.mul_le_mul_left M.ptrsz (show t + 1 ≤ n by omega)
        rw [Nat.mul_add, Nat.mul_one] at this
        omega
      show load_ptr M mem2 (d + M.ptrsz * t) = _ ∧ _
      rw [hcg]
      exact hB t ht
    · have hcg : load_ptr M mem2 (d + M.ptrsz * n) = load_ptr M mem1 (d + M.ptrsz * n) := by
        apply load_ptr_congr
        intro j hj
        apply hA2
        omega
      show load_ptr M mem2 (d + M.ptrsz * n) = 0
      rw [hcg]
      exact hN
  next hchk =>
    exact ⟨_, _, rfl, fun h => absurd h (by decide)⟩

/-! ## Buffer bounds -/

/-- C6, as stated, fails: the protocol routine copies the 12 bytes that follow the header of
an inconsistent record into a buffer of 8 bytes; the size check, which only looks at the
alias array (offset 0, one slot of 8 bytes), has passed. -/
theorem protoent_decode_overruns_buffer :
    status_of (nss_mcdb_netdb_protoent_decode lp64le protoLayout ex_v8
        (ex_state (⟨0, 0, 0⟩ : protoent) [] ex_overlong_rec [])) = none
    ∧ (ptr_diff lp64le (align8u lp64le ex_v8.buf
          (hdr16 lp64le ex_overlong_rec protoLayout.NSS_PE_HDRSZ protoLayout.NSS_PE_MEM))
          ex_v8.buf
        + ((hdr16 lp64le ex_overlong_rec protoLayout.NSS_PE_HDRSZ protoLayout.NSS_PE_MEM_NUM
            + 1) <<< 3)) % lp64le.umax = 8
    ∧ var_len lp64le ex_overlong_rec protoLayout.NSS_PE_HDRSZ = 12
    ∧ ex_v8.bufsz = 8 := by
  decide

theorem isSome_of_eq {α : Type} (o : Option α) (h : ∃ a, o = some a) : o.isSome = true := by
  obtain ⟨a, rfl⟩ := h
  rfl

/-- C6, amended: on consistent records and a buffer that is an object of the address space
and holds the staged predicate, every decode routine returns, that is, all its accesses to
the caller buffer are at offsets in `[0, bufsz)`. -/
theorem decode_in_bounds (M : Machine) (LH : HostentLayout) (LN : NetentLayout)
    (LP : ProtoentLayout) (LR : RpcentLayout) (LS : ServentLayout) (v : nss_mcdb_vinfo)
    (hv : valid_buf M v) :
    (∀ s : State hostent, 4 ≤ v.bufsz →
      (∀ r, r ∈ s.m.data :: s.m.dups →
        consistent r LH.NSS_HE_HDRSZ (hdr16 M r LH.NSS_HE_HDRSZ LH.NSS_HE_MEM)
          (hdr16 M r LH.NSS_HE_HDRSZ LH.NSS_HE_MEM_STR)
          (hdr16 M r LH.NSS_HE_HDRSZ LH.NSS_HE_MEM_NUM)) →
      (nss_mcdb_netdb_hostent_decode M LH v s).isSome = true)
    ∧ (∀ s : State netent,
      consistent s.m.data LN.NSS_NE_HDRSZ (hdr16 M s.m.data LN.NSS_NE_HDRSZ LN.NSS_NE_MEM)
        (hdr16 M s.m.data LN.NSS_NE_HDRSZ LN.NSS_NE_MEM_STR)
        (hdr16 M s.m.data LN.NSS_NE_HDRSZ LN.NSS_NE_MEM_NUM) →
      (nss_mcdb_netdb_netent_decode M LN v s).isSome = true)
    ∧ (∀ s : State protoent,
      consistent s.m.data LP.NSS_PE_HDRSZ (hdr16 M s.m.data LP.NSS_PE_HDRSZ LP.NSS_PE_MEM)
        (hdr16 M s.m.data LP.NSS_PE_HDRSZ LP.NSS_PE_MEM_STR)
        (hdr16 M s.m.data LP.NSS_PE_HDRSZ LP.NSS_PE_MEM_NUM) →
      (nss_mcdb_netdb_protoent_decode M LP v s).isSome = true)
    ∧ (∀ s : State rpcent,
      consistent s.m.data LR.NSS_RE_HDRSZ (hdr16 M s.m.data LR.NSS_RE_HDRSZ LR.NSS_RE_MEM)
        (hdr16 M s.m.data LR.NSS_RE_HDRSZ LR.NSS_RE_MEM_STR)
        (hdr16 M s.m.data LR.NSS_RE_HDRSZ LR.NSS_RE_MEM_NUM) →
      (nss_mcdb_netdb_rpcent_decode M LR v s).isSome = true)
    ∧ (∀ s : State servent, (strlen_buf s.mem 0 v.bufsz).isSome = true →
      (∀ r, r ∈ s.m.data :: s.m.dups →
        consistent r LS.NSS_SE_HDRSZ (hdr16 M r LS.NSS_SE_HDRSZ LS.NSS_SE_MEM)
          (hdr16 M r LS.NSS_SE_HDRSZ LS.NSS_SE_MEM_STR)
          (hdr16 M r LS.NSS_SE_HDRSZ LS.NSS_SE_MEM_NUM)) →
      (nss_mcdb_netdb_servent_decode M LS v s).isSome = true) := by
  refine ⟨?_, ?_, ?_, ?_, ?_⟩
  · intro s hsz hc
    unfold nss_mcdb_netdb_hostent_decode
    rw [if_pos hsz]
    simp only
    split
    · split
      · obtain ⟨st, s', h, _⟩ := hostent_fill_ok M LH v hv
          { s with m := (hostent_scan LH (staged_type s.mem) s.m.data s.m.nexts s.m.dups).2 }
          (hc _ (hostent_scan_mem LH _ _ _ _))
        exact isSome_of_eq _ ⟨_, h⟩
      · rfl
    · obtain ⟨st, s', h, _⟩ := hostent_fill_ok M LH v hv s (hc _ (List.mem_cons_self _ _))
      exact isSome_of_eq _ ⟨_, h⟩
  · intro s hc
    exact pack_aliases_ok M v hv _ _ _ _ s _ (hdr16_lt _ _ _ _) (hdr16_lt _ _ _ _) hc
  · intro s hc
    exact pack_aliases_ok M v hv _ _ _ _ s _ (hdr16_lt _ _ _ _) (hdr16_lt _ _ _ _) hc
  · intro s hc
    exact pack_aliases_ok M v hv _ _ _ _ s _ (hdr16_lt _ _ _ _) (hdr16_lt _ _ _ _) hc
  · intro s hp hc
    obtain ⟨n, hn⟩ := Option.isSome_iff_exists.1 hp
    have hsz : 1 ≤ v.bufsz := by
      have := (strlen_buf_spec s.mem v.bufsz 0 n hn).1
      omega
    unfold nss_mcdb_netdb_servent_decode
    rw [if_pos hsz]
    split
    · rw [hn]
      simp only
      split
      · exact pack_aliases_ok M v hv _ _ _ _ _ _ (hdr16_lt _ _ _ _) (hdr16_lt _ _ _ _)
          (hc _ (servent_scan_mem LS _ _ _ _ _))
      · rfl
    · exact pack_aliases_ok M v hv _ _ _ _ s _ (hdr16_lt _ _ _ _) (hdr16_lt _ _ _ _)
        (hc _ (List.mem_cons_self _ _))

/-- Instance of C6, amended, on the example records of the five kinds. -/
theorem decode_in_bounds_witness :
    (nss_mcdb_netdb_hostent_decode lp64le hostLayout ex_v
        (ex_state (⟨0, 0, 0, 0, 0⟩ : hostent) [0, 0, 0, 10] (ex_host_rec 2)
          [ex_host_rec 10])).isSome = true
    ∧ (nss_mcdb_netdb_netent_decode lp64le netLayout ex_v ex_net_call).isSome = true
    ∧ (nss_mcdb_netdb_protoent_decode lp64le protoLayout ex_v ex_proto_call).isSome = true
    ∧ (nss_mcdb_netdb_rpcent_decode lp64le rpcLayout ex_v ex_rpc_call).isSome = true
    ∧ (nss_mcdb_netdb_servent_decode lp64le servLayout ex_v ex_serv_call).isSome = true :=
  ⟨(decode_in_bounds lp64le hostLayout netLayout protoLayout rpcLayout servLayout ex_v
      (by decide)).1 _ (by decide) (by decide),
    (decode_in_bounds lp64le hostLayout netLayout protoLayout rpcLayout servLayout ex_v
      (by decide)).2.1 ex_net_call (by decide),
    (decode_in_bounds lp64le hostLayout netLayout protoLayout rpcLayout servLayout ex_v
      (by decide)).2.2.1 ex_proto_call (by decide),
    (decode_in_bounds lp64le hostLayout netLayout protoLayout rpcLayout servLayout ex_v
      (by decide)).2.2.2.1 ex_rpc_call (by decide),
    (decode_in_bounds lp64le hostLayout netLayout protoLayout rpcLayout servLayout ex_v
      (by decide)).2.2.2.2 ex_serv_call (by decide) (by decide)⟩

/-- C9, as stated, fails: the protocol routine succeeds on a record whose first-alias offset
is 1000 and stores `buf + 1000 = 5096` into slot 0 of the alias array of a buffer that ends at
address 4160. -/
theorem protoent_alias_outside_buffer :
    status_of (nss_mcdb_netdb_protoent_decode lp64le protoLayout ex_v
        (ex_state (⟨0, 0, 0⟩ : protoent) [] ex_far_alias_rec [])) = some NSS_STATUS_SUCCESS
    ∧ ent_of (nss_mcdb_netdb_protoent_decode lp64le protoLayout ex_v
        (ex_state (⟨0, 0, 0⟩ : protoent) [] ex_far_alias_rec [])) = some ⟨4096, 4104, 6⟩
    ∧ load_ptr lp64le
        (state_of (nss_mcdb_netdb_protoent_decode lp64le protoLayout ex_v
          (ex_state (⟨0, 0, 0⟩ : protoent) [] ex_far_alias_rec []))
          (ex_state (⟨0, 0, 0⟩ : protoent) [] ex_far_alias_rec [])).mem
        (slot lp64le ex_v 4104 0) = 5096
    ∧ ¬ 5096 < ex_v.buf + ex_v.bufsz := by
  decide

/-- After a successful `hostent_fill` on a consistent record the alias pointers lie inside
the buffer, and so do the address pointers when the addresses lie inside the record. -/
theorem host_pointers_inside (M : Machine) (L : HostentLayout) (v : nss_mcdb_vinfo)
    (hv : valid_buf M v) (s s' : State hostent)
    (hc : consistent s.m.data L.NSS_HE_HDRSZ (hdr16 M s.m.data L.NSS_HE_HDRSZ L.NSS_HE_MEM)
      (hdr16 M s.m.data L.NSS_HE_HDRSZ L.NSS_HE_MEM_STR)
      (hdr16 M s.m.data L.NSS_HE_HDRSZ L.NSS_HE_MEM_NUM))
    (h : hostent_fill M L v s = some (NSS_STATUS_SUCCESS, s')) :
    (∀ t, t < hdr16 M s.m.data L.NSS_HE_HDRSZ L.NSS_HE_MEM_NUM →
        v.buf ≤ load_ptr M s'.mem (slot M v s'.ent.h_aliases t)
          ∧ load_ptr M s'.mem (slot M v s'.ent.h_aliases t) < v.buf + v.bufsz)
      ∧ (addrs_inside s.m.data L.NSS_HE_HDRSZ
            (hdr16 M s.m.data L.NSS_HE_HDRSZ L.NSS_HE_LST_STR)
            (hdr16 M s.m.data L.NSS_HE_HDRSZ L.NSS_HE_LST_NUM)
            (to_int (hdr32 M s.m.data L.NSS_HE_HDRSZ L.NSS_H_LENGTH)) →
          ∀ t, t < hdr16 M s.m.data L.NSS_HE_HDRSZ L.NSS_HE_LST_NUM →
            v.buf ≤ load_ptr M s'.mem (slot M v s'.ent.h_addr_list t)
              ∧ load_ptr M s'.mem (slot M v s'.ent.h_addr_list t) < v.buf + v.bufsz) := by
  obtain ⟨st, s'', h2, hok⟩ := hostent_fill_ok M L v hv s hc
  rw [h] at h2
  simp only [Option.some.injEq, Prod.mk.injEq] at h2
  obtain ⟨hst, hs⟩ := h2
  subst hs
  obtain ⟨d, offs, hal, hlst, hmd, hsz, _, _, hB, _, hB2, _⟩ := hok hst.symm
  have hn := hdr16_lt M s.m.data L.NSS_HE_HDRSZ L.NSS_HE_MEM_NUM
  have hk := hdr16_lt M s.m.data L.NSS_HE_HDRSZ L.NSS_HE_LST_NUM
  have hP := ptrsz_pos M
  obtain ⟨hc1, _, hc3, _⟩ := hc
  obtain ⟨hb1, hb2⟩ := hv
  generalize hdr16 M s.m.data L.NSS_HE_HDRSZ L.NSS_HE_MEM = m at *
  generalize hdr16 M s.m.data L.NSS_HE_HDRSZ L.NSS_HE_MEM_NUM = n at *
  generalize hdr16 M s.m.data L.NSS_HE_HDRSZ L.NSS_HE_LST_NUM = k at *
  generalize hdr16 M s.m.data L.NSS_HE_HDRSZ L.NSS_HE_LST_STR = lst_str at *
  generalize to_int (hdr32 M s.m.data L.NSS_HE_HDRSZ L.NSS_H_LENGTH) = hl at *
  have e1 : M.ptrsz * (n + 1) + M.ptrsz * (k + 1) ≤ 8 * (n + 1 + k + 1) := by
    have h1 := Nat.mul_le_mul_right (n + 1) hP.2
    have h2 := Nat.mul_le_mul_right (k + 1) hP.2
    omega
  constructor
  · intro t ht
    have hPt := Nat.mul_le_mul_left M.ptrsz (show t + 1 ≤ n + 1 by omega)
    rw [Nat.mul_add M.ptrsz t, Nat.mul_one] at hPt
    have hs : slot M v s'.ent.h_aliases t = d + M.ptrsz * t := by
      rw [hal]
      exact slot_eq M v d t (by omega)
    obtain ⟨hv1, hv2⟩ := hB t ht
    rw [hs, hv1]
    omega
  · rintro ⟨hpos, hin⟩ t ht
    have hPt := Nat.mul_le_mul_left M.ptrsz (show t + 1 ≤ k + 1 by omega)
    rw [Nat.mul_add M.ptrsz t, Nat.mul_one] at hPt
    have hs : slot M v s'.ent.h_addr_list t = d + M.ptrsz * (n + 1) + M.ptrsz * t := by
      rw [hlst]
      exact slot_eq M v _ t (by omega)
    have hkt : (t : Int) * hl + hl ≤ (k : Int) * hl := by
      have : ((t + 1 : Nat) : Int) * hl ≤ (k : Int) * hl :=
        Int.mul_le_mul_of_nonneg_right (by exact_mod_cast ht) (by omega)
      push_cast at this
      linarith
    have ht0 : (0 : Int) ≤ t * hl := Int.mul_nonneg (Int.ofNat_nonneg t) (by omega)
    have hstart : ptr_add M v.buf (lst_str : Int) = v.buf + lst_str :=
      ptr_add_nat M v.buf lst_str (by omega)
    have hU : ((v.buf + lst_str : Nat) : Int) + t * hl < M.umax := by
      push_cast
      omega
    have hit := iter_ptr_add M (v.buf + lst_str) hl (by omega) t hU
    rw [hs, hB2 t ht, hstart]
    push_cast at hit
    omega

/-- C9, amended: after a successful decode of a consistent record into a buffer that is an
object of the address space, every element of the alias pointer array before the terminating
null is an address inside the caller buffer; for hosts whose addresses lie inside the record,
so is every element of the address pointer array before the terminating null. -/
theorem pointers_inside_buffer (M : Machine) (LH : HostentLayout) (LN : NetentLayout)
    (LP : ProtoentLayout) (LR : RpcentLayout) (LS : ServentLayout) (v : nss_mcdb_vinfo)
    (hv : valid_buf M v) :
    (∀ s s' : State hostent,
      (∀ r, r ∈ s.m.data :: s.m.dups →
        consistent r LH.NSS_HE_HDRSZ (hdr16 M r LH.NSS_HE_HDRSZ LH.NSS_HE_MEM)
          (hdr16 M r LH.NSS_HE_HDRSZ LH.NSS_HE_MEM_STR)
          (hdr16 M r LH.NSS_HE_HDRSZ LH.NSS_HE_MEM_NUM)) →
      nss_mcdb_netdb_hostent_decode M LH v s = some (NSS_STATUS_SUCCESS, s') →
      (∀ t, t < hdr16 M s'.m.data LH.NSS_HE_HDRSZ LH.NSS_HE_MEM_NUM →
          v.buf ≤ load_ptr M s'.mem (slot M v s'.ent.h_aliases t)
            ∧ load_ptr M s'.mem (slot M v s'.ent.h_aliases t) < v.buf + v.bufsz)
        ∧ (addrs_inside s'.m.data LH.NSS_HE_HDRSZ
              (hdr16 M s'.m.data LH.NSS_HE_HDRSZ LH.NSS_HE_LST_STR)
              (hdr16 M s'.m.data LH.NSS_HE_HDRSZ LH.NSS_HE_LST_NUM)
              (to_int (hdr32 M s'.m.data LH.NSS_HE_HDRSZ LH.NSS_H_LENGTH)) →
            ∀ t, t < hdr16 M s'.m.data LH.NSS_HE_HDRSZ LH.NSS_HE_LST_NUM →
              v.buf ≤ load_ptr M s'.mem (slot M v s'.ent.h_addr_list t)
                ∧ load_ptr M s'.mem (slot M v s'.ent.h_addr_list t) < v.buf + v.bufsz))
    ∧ (∀ s s' : State netent,
      consistent s.m.data LN.NSS_NE_HDRSZ (hdr16 M s.m.data LN.NSS_NE_HDRSZ LN.NSS_NE_MEM)
        (hdr16 M s.m.data LN.NSS_NE_HDRSZ LN.NSS_NE_MEM_STR)
        (hdr16 M s.m.data LN.NSS_NE_HDRSZ LN.NSS_NE_MEM_NUM) →
      nss_mcdb_netdb_netent_decode M LN v s = some (NSS_STATUS_SUCCESS, s') →
      ∀ t, t < hdr16 M s'.m.data LN.NSS_NE_HDRSZ LN.NSS_NE_MEM_NUM →
        v.buf ≤ load_ptr M s'.mem (slot M v s'.ent.n_aliases t)
          ∧ load_ptr M s'.mem (slot M v s'.ent.n_aliases t) < v.buf + v.bufsz)
    ∧ (∀ s s' : State protoent,
      consistent s.m.data LP.NSS_PE_HDRSZ (hdr16 M s.m.data LP.NSS_PE_HDRSZ LP.NSS_PE_MEM)
        (hdr16 M s.m.data LP.NSS_PE_HDRSZ LP.NSS_PE_MEM_STR)
        (hdr16 M s.m.data LP.NSS_PE_HDRSZ LP.NSS_PE_MEM_NUM) →
      nss_mcdb_netdb_protoent_decode M LP v s = some (NSS_STATUS_SUCCESS, s') →
      ∀ t, t < hdr16 M s'.m.data LP.NSS_PE_HDRSZ LP.NSS_PE_MEM_NUM →
        v.buf ≤ load_ptr M s'.mem (slot M v s'.ent.p_aliases t)
          ∧ load_ptr M s'.mem (slot M v s'.ent.p_aliases t) < v.buf + v.bufsz)
    ∧ (∀ s s' : State rpcent,
      consistent s.m.data LR.NSS_RE_HDRSZ (hdr16 M s.m.data LR.NSS_RE_HDRSZ LR.NSS_RE_MEM)
        (hdr16 M s.m.data LR.NSS_RE_HDRSZ LR.NSS_RE_MEM_STR)
        (hdr16 M s.m.data LR.NSS_RE_HDRSZ LR.NSS_RE_MEM_NUM) →
      nss_mcdb_netdb_rpcent_decode M LR v s = some (NSS_STATUS_SUCCESS, s') →
      ∀ t, t < hdr16 M s'.m.data LR.NSS_RE_HDRSZ LR.NSS_RE_MEM_NUM →
        v.buf ≤ load_ptr M s'.mem (slot M v s'.ent.r_aliases t)
          ∧ load_ptr M s'.mem (slot M v s'.ent.r_aliases t) < v.buf + v.bufsz)
    ∧ (∀ s s' : State servent,
      (∀ r, r ∈ s.m.data :: s.m.dups →
        consistent r LS.NSS_SE_HDRSZ (hdr16 M r LS.NSS_SE_HDRSZ LS.NSS_SE_MEM)
          (hdr16 M r LS.NSS_SE_HDRSZ LS.NSS_SE_MEM_STR)
          (hdr16 M r LS.NSS_SE_HDRSZ LS.NSS_SE_MEM_NUM)) →
      nss_mcdb_netdb_servent_decode M LS v s = some (NSS_STATUS_SUCCESS, s') →
      ∀ t, t < hdr16 M s'.m.data LS.NSS_SE_HDRSZ LS.NSS_SE_MEM_NUM →
        v.buf ≤ load_ptr M s'.mem (slot M v s'.ent.s_aliases t)
          ∧ load_ptr M s'.mem (slot M v s'.ent.s_aliases t) < v.buf + v.bufsz) := by
  refine ⟨?_, ?_, ?_, ?_, ?_⟩
  · intro s s' hc h
    obtain ⟨_, hcase⟩ := hostent_decode_cases M LH v s _ s' h
    rcases hcase with ⟨h1, _⟩ | ⟨m', hm', hf⟩
    · exact absurd h1 (by decide)
    · have hm := (hostent_fill_cases M LH v _ _ s' hf).1
      simp only at hm
      rw [hm]
      exact host_pointers_inside M LH v hv { s with m := m' } s' (hc _ hm') hf
  · intro s s' hc h
    rw [pack_aliases_cursor M v _ _ _ s _ _ _ s' h, (pack_aliases_cases M v _ _ _ s _ _ _ s' h).1]
    exact pack_aliases_inside M v hv _ _ _ _ s s' _ (hdr16_lt _ _ _ _) (hdr16_lt _ _ _ _) hc h
  · intro s s' hc h
    rw [pack_aliases_cursor M v _ _ _ s _ _ _ s' h, (pack_aliases_cases M v _ _ _ s _ _ _ s' h).1]
    exact pack_aliases_inside M v hv _ _ _ _ s s' _ (hdr16_lt _ _ _ _) (hdr16_lt _ _ _ _) hc h
  · intro s s' hc h
    rw [pack_aliases_cursor M v _ _ _ s _ _ _ s' h, (pack_aliases_cases M v _ _ _ s _ _ _ s' h).1]
    exact pack_aliases_inside M v hv _ _ _ _ s s' _ (hdr16_lt _ _ _ _) (hdr16_lt _ _ _ _) hc h
  · intro s s' hc h
    obtain ⟨_, hcase⟩ := servent_decode_cases M LS v s _ s' h
    rcases hcase with ⟨h1, _⟩ | ⟨m', hm', hf⟩
    · exact absurd h1 (by decide)
    · rw [pack_aliases_cursor M v _ _ _ _ _ _ _ s' hf,
        (pack_aliases_cases M v _ _ _ _ _ _ _ s' hf).1]
      exact pack_aliases_inside M v hv _ _ _ _ { s with m := m' } s' _ (hdr16_lt _ _ _ _)
        (hdr16_lt _ _ _ _) (hc _ hm') hf

/-- Instance of C9, amended, on the example host, protocol and service records. -/
theorem pointers_inside_buffer_witness :
    ((∀ t, t < 2 →
        ex_v.buf ≤ load_ptr lp64le
            (state_of (nss_mcdb_netdb_hostent_decode lp64le hostLayout ex_v ex_host_call)
              ex_host_call).mem (slot lp64le ex_v 4112 t)
          ∧ load_ptr lp64le
            (state_of (nss_mcdb_netdb_hostent_decode lp64le hostLayout ex_v ex_host_call)
              ex_host_call).mem (slot lp64le ex_v 4112 t) < ex_v.buf + ex_v.bufsz)
      ∧ (∀ t, t < 1 →
        ex_v.buf ≤ load_ptr lp64le
            (state_of (nss_mcdb_netdb_hostent_decode lp64le hostLayout ex_v ex_host_call)
              ex_host_call).mem (slot lp64le ex_v 4136 t)
          ∧ load_ptr lp64le
            (state_of (nss_mcdb_netdb_hostent_decode lp64le hostLayout ex_v ex_host_call)
              ex_host_call).mem (slot lp64le ex_v 4136 t) < ex_v.buf + ex_v.bufsz))
    ∧ (∀ t, t < 1 →
        ex_v.buf ≤ load_ptr lp64le
            (state_of (nss_mcdb_netdb_protoent_decode lp64le protoLayout ex_v ex_proto_call)
              ex_proto_call).mem (slot lp64le ex_v 4104 t)
          ∧ load_ptr lp64le
            (state_of (nss_mcdb_netdb_protoent_decode lp64le protoLayout ex_v ex_proto_call)
              ex_proto_call).mem (slot lp64le ex_v 4104 t) < ex_v.buf + ex_v.bufsz)
    ∧ (∀ t, t < 1 →
        ex_v.buf ≤ load_ptr lp64le
            (state_of (nss_mcdb_netdb_servent_decode lp64le servLayout ex_v ex_serv_call)
              ex_serv_call).mem (slot lp64le ex_v 4112 t)
          ∧ load_ptr lp64le
            (state_of (nss_mcdb_netdb_servent_decode lp64le servLayout ex_v ex_serv_call)
              ex_serv_call).mem (slot lp64le ex_v 4112 t) < ex_v.buf + ex_v.bufsz) :=
  ⟨⟨((pointers_inside_buffer lp64le hostLayout netLayout protoLayout rpcLayout servLayout ex_v
        (by decide)).1 ex_host_call _ (by decide) rfl).1,
      ((pointers_inside_buffer lp64le hostLayout netLayout protoLayout rpcLayout servLayout
        ex_v (by decide)).1 ex_host_call _ (by decide) rfl).2 (by decide)⟩,
    (pointers_inside_buffer lp64le hostLayout netLayout protoLayout rpcLayout servLayout ex_v
      (by decide)).2.2.1 ex_proto_call _ (by decide) rfl,
    (pointers_inside_buffer lp64le hostLayout netLayout protoLayout rpcLayout servLayout ex_v
      (by decide)).2.2.2.2 ex_serv_call _ (by decide) rfl⟩

/-! ## The size check -/

/-- Offset of the alias array when the address `buf + m + 7` lies below `2 ^ 32`. -/
theorem ptr_diff_align8u (M : Machine) (b m : Nat) (hb : b < M.umax) (hm : m < 65536)
    (ht : (b + m + 7) % M.umax < 4294967296) :
    ptr_diff M (align8u M b m) b = m + pad8 (b + m) := by
  unfold ptr_diff align8u pad8
  rw [land_mask_u]
  have hu := umax_cases M
  generalize M.umax = U at *
  rcases hu with hu | hu <;> subst hu <;> omega

theorem size_check_iff (M : Machine) (b bufsz m cnt : Nat) (hb : b < M.umax) (hm : m < 65536)
    (hcnt : cnt ≤ 131072) (ht : (b + m + 7) % M.umax < 4294967296) :
    (ptr_diff M (align8u M b m) b + (cnt <<< 3)) % M.umax ≤ bufsz
      ↔ m + pad8 (b + m) + 8 * cnt ≤ bufsz := by
  rw [ptr_diff_align8u M b m hb hm ht, shl3]
  have hp : pad8 (b + m) < 8 := by unfold pad8; omega
  have hu := umax_cases M
  generalize M.umax = U at *
  rcases hu with hu | hu <;> subst hu <;> omega

/-- A buffer at or above `2 ^ 32` never passes the size check. -/
theorem size_check_truncated (M : Machine) (b bufsz m cnt : Nat)
    (hb : b < M.umax) (hbs : b + bufsz ≤ M.umax) (hm : m < 65536)
    (hc : 0 < cnt) (hcnt : cnt ≤ 131072) (hhigh : 4294967296 ≤ b) :
    ¬ (ptr_diff M (align8u M b m) b + (cnt <<< 3)) % M.umax ≤ bufsz := by
  intro h
  have h1 := (align_check M b bufsz m cnt hb hbs hm hc hcnt h).1
  have h2 : align8u M b m < 4294967296 := by
    unfold align8u
    rw [land_mask_u]
    omega
  omega

theorem hostent_decode_matched (M : Machine) (L : HostentLayout) (v : nss_mcdb_vinfo)
    (s : State hostent) (hsz : 4 ≤ v.bufsz) (hm : host_matched L s) :
    nss_mcdb_netdb_hostent_decode M L v s = hostent_fill M L v s := by
  unfold nss_mcdb_netdb_hostent_decode
  by_cases ht : staged_type s.mem = 0
  · simp only [hsz, if_true, ht, ne_eq, not_true_eq_false, if_false]
  · have hmatch : be32 s.m.data L.NSS_H_ADDRTYPE = staged_type s.mem := by
      rcases hm with h | h
      · exact absurd h ht
      · exact h
    have hscan := hostent_scan_first L (staged_type s.mem) s.m.dups s.m.data s.m.nexts 0
      (by simpa using hmatch) (fun j hj => absurd hj (Nat.not_lt_zero j)) (by simp)
    simp only [hsz, if_true, ht, ne_eq, not_false_eq_true, hscan]
    obtain ⟨mem, ent, e1, e2, ⟨d, ds, nx⟩⟩ := s
    simp

theorem servent_decode_matched (M : Machine) (L : ServentLayout) (v : nss_mcdb_vinfo)
    (s : State servent) (hsz : 1 ≤ v.bufsz) (hm : serv_matched L v s) :
    nss_mcdb_netdb_servent_decode M L v s = servent_fill M L v s := by
  unfold nss_mcdb_netdb_servent_decode
  by_cases ht : s.mem 0 = 0
  · simp only [hsz, if_true, ht, ne_eq, not_true_eq_false, if_false]
  · rcases hm with h | ⟨n, hlen, hc⟩
    · exact absurd h ht
    · have hcond : ¬ (rd s.m.data L.NSS_SE_HDRSZ ≠ s.mem 0
          ∨ memcmp (fun i => rd s.m.data (L.NSS_SE_HDRSZ + i)) s.mem (1 + n) ≠ 0) := by
        rw [servent_match_iff L s.mem v.bufsz n s.m.data hlen (by rw [hc]; rfl)]
        simp [hc]
      have hscan : servent_scan L s.mem (1 + n) s.m.data s.m.nexts s.m.dups = (true, s.m) := by
        obtain ⟨mem, ent, e1, e2, ⟨d, ds, nx⟩⟩ := s
        cases ds with
        | nil => unfold servent_scan; rw [if_neg hcond]
        | cons r rs => unfold servent_scan; rw [if_neg hcond]
      simp only [hsz, if_true, ht, ne_eq, not_false_eq_true, hlen, hscan]

theorem status_of_eq_some {ε : Type} (r : Option (nss_status_t × State ε)) (st : nss_status_t) :
    status_of r = some st ↔ ∃ s', r = some (st, s') := by
  unfold status_of
  cases r with
  | none => simp
  | some x =>
    obtain ⟨a, b⟩ := x
    simp

/-- Status of `pack_aliases` by the size of the buffer, when the address `buf + m + 7` lies
below `2 ^ 32`. -/
theorem pack_aliases_status {ε : Type} (M : Machine) (v : nss_mcdb_vinfo)
    (hdrsz m mem_str num : Nat) (s : State ε) (ent : ε)
    (hb : v.buf < M.umax) (hm : m < 65536) (hn : num < 65536)
    (ht : (v.buf + m + 7) % M.umax < 4294967296) :
    (valid_buf M v → consistent s.m.data hdrsz m mem_str num →
        m + pad8 (v.buf + m) + 8 * (num + 1) ≤ v.bufsz →
        status_of (pack_aliases M v hdrsz mem_str num s ent (align8u M v.buf m))
          = some NSS_STATUS_SUCCESS)
      ∧ (status_of (pack_aliases M v hdrsz mem_str num s ent (align8u M v.buf m))
          = some NSS_STATUS_SUCCESS → m + pad8 (v.buf + m) + 8 * (num + 1) ≤ v.bufsz)
      ∧ (¬ m + pad8 (v.buf + m) + 8 * (num + 1) ≤ v.bufsz →
          pack_aliases M v hdrsz mem_str num s ent (align8u M v.buf m)
            = some (NSS_STATUS_TRYAGAIN,
                { s with ent := ent, errnop := ERANGE, errno := ERANGE }))
      ∧ (status_of (pack_aliases M v hdrsz mem_str num s ent (align8u M v.buf m))
          = some NSS_STATUS_TRYAGAIN → ¬ m + pad8 (v.buf + m) + 8 * (num + 1) ≤ v.bufsz) := by
  have hiff := size_check_iff M v.buf v.bufsz m (num + 1) hb hm (by omega) ht
  refine ⟨?_, ?_, ?_, ?_⟩
  · intro hv hc hfit
    have hchk := hiff.2 hfit
    obtain ⟨d, offs, mem0, mem1, _, _, _, _, hm0, hf, _⟩ :=
      copy_and_fill_ok M v hv s.m.data hdrsz m mem_str num (num + 1) s.mem hm (by omega)
        (Nat.le_refl _) hc hchk
    unfold pack_aliases
    rw [if_pos hchk, hm0]
    simp only
    rw [hf]
    rfl
  · intro h
    obtain ⟨s', hs'⟩ := (status_of_eq_some _ _).1 h
    obtain ⟨_, _, hcase⟩ := pack_aliases_cases M v hdrsz mem_str num s ent _ _ s' hs'
    rcases hcase with ⟨h1, _⟩ | ⟨_, hchk, _⟩
    · exact absurd h1 (by decide)
    · exact hiff.1 hchk
  · intro hnf
    unfold pack_aliases
    rw [if_neg (fun h => hnf (hiff.1 h))]
  · intro h
    obtain ⟨s', hs'⟩ := (status_of_eq_some _ _).1 h
    obtain ⟨_, _, hcase⟩ := pack_aliases_cases M v hdrsz mem_str num s ent _ _ s' hs'
    rcases hcase with ⟨_, _, _, hchk⟩ | ⟨h1, _⟩
    · exact fun hfit => hchk (hiff.2 hfit)
    · exact absurd h1 (by decide)

/-- Status of `hostent_fill` by the size of the buffer, when the address `buf + m + 7` lies
below `2 ^ 32`. -/
theorem hostent_fill_status (M : Machine) (L : HostentLayout) (v : nss_mcdb_vinfo)
    (s : State hostent) (hb : v.buf < M.umax)
    (ht : (v.buf + hdr16 M s.m.data L.NSS_HE_HDRSZ L.NSS_HE_MEM + 7) % M.umax < 4294967296) :
    (valid_buf M v →
        consistent s.m.data L.NSS_HE_HDRSZ (hdr16 M s.m.data L.NSS_HE_HDRSZ L.NSS_HE_MEM)
          (hdr16 M s.m.data L.NSS_HE_HDRSZ L.NSS_HE_MEM_STR)
          (hdr16 M s.m.data L.NSS_HE_HDRSZ L.NSS_HE_MEM_NUM) →
        hdr16 M s.m.data L.NSS_HE_HDRSZ L.NSS_HE_MEM
            + pad8 (v.buf + hdr16 M s.m.data L.NSS_HE_HDRSZ L.NSS_HE_MEM)
            + 8 * (hdr16 M s.m.data L.NSS_HE_HDRSZ L.NSS_HE_MEM_NUM + 1
                + hdr16 M s.m.data L.NSS_HE_HDRSZ L.NSS_HE_LST_NUM + 1) ≤ v.bufsz →
        status_of (hostent_fill M L v s) = some NSS_STATUS_SUCCESS)
      ∧ (status_of (hostent_fill M L v s) = some NSS_STATUS_SUCCESS →
          hdr16 M s.m.data L.NSS_HE_HDRSZ L.NSS_HE_MEM
            + pad8 (v.buf + hdr16 M s.m.data L.NSS_HE_HDRSZ L.NSS_HE_MEM)
            + 8 * (hdr16 M s.m.data L.NSS_HE_HDRSZ L.NSS_HE_MEM_NUM + 1
                + hdr16 M s.m.data L.NSS_HE_HDRSZ L.NSS_HE_LST_NUM + 1) ≤ v.bufsz)
      ∧ (¬ hdr16 M s.m.data L.NSS_HE_HDRSZ L.NSS_HE_MEM
            + pad8 (v.buf + hdr16 M s.m.data L.NSS_HE_HDRSZ L.NSS_HE_MEM)
            + 8 * (hdr16 M s.m.data L.NSS_HE_HDRSZ L.NSS_HE_MEM_NUM + 1
                + hdr16 M s.m.data L.NSS_HE_HDRSZ L.NSS_HE_LST_NUM + 1) ≤ v.bufsz →
          status_of (hostent_fill M L v s) = some NSS_STATUS_TRYAGAIN
            ∧ (state_of (hostent_fill M L v s) s).errnop = ERANGE)
      ∧ (status_of (hostent_fill M L v s) = some NSS_STATUS_TRYAGAIN →
          ¬ hdr16 M s.m.data L.NSS_HE_HDRSZ L.NSS_HE_MEM
            + pad8 (v.buf + hdr16 M s.m.data L.NSS_HE_HDRSZ L.NSS_HE_MEM)
            + 8 * (hdr16 M s.m.data L.NSS_HE_HDRSZ L.NSS_HE_MEM_NUM + 1
                + hdr16 M s.m.data L.NSS_HE_HDRSZ L.NSS_HE_LST_NUM + 1) ≤ v.bufsz) := by
  have hm := hdr16_lt M s.m.data L.NSS_HE_HDRSZ L.NSS_HE_MEM
  have hn := hdr16_lt M s.m.data L.NSS_HE_HDRSZ L.NSS_HE_MEM_NUM
  have hk := hdr16_lt M s.m.data L.NSS_HE_HDRSZ L.NSS_HE_LST_NUM
  have hiff := size_check_iff M v.buf v.bufsz (hdr16 M s.m.data L.NSS_HE_HDRSZ L.NSS_HE_MEM)
    (hdr16 M s.m.data L.NSS_HE_HDRSZ L.NSS_HE_MEM_NUM + 1
      + hdr16 M s.m.data L.NSS_HE_HDRSZ L.NSS_HE_LST_NUM + 1) hb hm (by omega) ht
  refine ⟨?_, ?_, ?_, ?_⟩
  · intro hv hc hfit
    obtain ⟨st, s', hs', _⟩ := hostent_fill_ok M L v hv s hc
    obtain ⟨_, _, _, _, _, hcase⟩ := hostent_fill_cases M L v s st s' hs'
    rcases hcase with ⟨_, _, _, _, hchk⟩ | ⟨h1, _⟩
    · exact absurd (hiff.2 hfit) hchk
    · rw [hs', h1]
      rfl
  · intro h
    obtain ⟨s', hs'⟩ := (status_of_eq_some _ _).1 h
    obtain ⟨_, _, _, _, _, hcase⟩ := hostent_fill_cases M L v s _ s' hs'
    rcases hcase with ⟨h1, _⟩ | ⟨_, hchk, _⟩
    · exact absurd h1 (by decide)
    · exact hiff.1 hchk
  · intro hnf
    unfold hostent_fill
    simp only
    rw [if_neg (fun h => hnf (hiff.1 h))]
    exact ⟨rfl, rfl⟩
  · intro h
    obtain ⟨s', hs'⟩ := (status_of_eq_some _ _).1 h
    obtain ⟨_, _, _, _, _, hcase⟩ := hostent_fill_cases M L v s _ s' hs'
    rcases hcase with ⟨_, _, _, _, hchk⟩ | ⟨h1, _⟩
    · exact fun hfit => hchk (hiff.2 hfit)
    · exact absurd h1 (by decide)

/-! ## Alias array address and size check, claims -/

/-- Where the address `b + m + 7` lies below `2 ^ 32`, the alias array starts at the least
multiple of 8 that is not below `b + m`. -/
theorem align8u_rounds_up (M : Machine) (b m : Nat) (ht : b + m + 7 < 4294967296) :
    align8u M b m = b + m + pad8 (b + m) ∧ align8u M b m % 8 = 0
      ∧ ∀ a, a % 8 = 0 → b + m ≤ a → align8u M b m ≤ a := by
  have h : align8u M b m = b + m + pad8 (b + m) := by
    unfold align8u pad8
    rw [land_mask_u]
    have hu := umax_cases M
    generalize M.umax = U at *
    rcases hu with hu | hu <;> subst hu <;> omega
  refine ⟨h, align8u_mod8 M b m, ?_⟩
  intro a ha hle
  rw [h]
  unfold pad8
  omega

/-- C11 fails on the code with 8-byte pointers and a buffer at or above `2 ^ 32`: the mask
`~0x7u` is an `unsigned int`, so the alias-array address keeps only the low 32 bits.  For a
buffer at `2 ^ 32 + 4096` the five routines compute alias arrays at 4104 and 4112, far below
the buffer, where the round-up of `buf + m` is `2 ^ 32 + 4104` and `2 ^ 32 + 4112`. -/
theorem alias_start_truncated :
    align8u lp64le 4294971392 8 = 4104
      ∧ ent_of (nss_mcdb_netdb_hostent_decode lp64le hostLayout ex_v_high ex_host_call)
        = some ⟨4294971392, 4112, 2, 4, 0⟩
      ∧ ent_of (nss_mcdb_netdb_netent_decode lp64le netLayout ex_v_high ex_net_call)
        = some ⟨4294971392, 4104, 2, 2130706432⟩
      ∧ ent_of (nss_mcdb_netdb_protoent_decode lp64le protoLayout ex_v_high ex_proto_call)
        = some ⟨4294971392, 4104, 6⟩
      ∧ ent_of (nss_mcdb_netdb_rpcent_decode lp64le rpcLayout ex_v_high ex_rpc_call)
        = some ⟨4294971392, 4112, 100003⟩
      ∧ ent_of (nss_mcdb_netdb_servent_decode lp64le servLayout ex_v_high ex_serv_call)
        = some ⟨4294971396, 4112, 117440512, 4294971392⟩ := by
  decide

/-- C12 holds where the address `buf + m + 7` lies below `2 ^ 32`, and fails above: for a
record that has passed the predicate match and is consistent, in a buffer that is an object of
the address space, a decode routine returns `NSS_STATUS_SUCCESS` exactly when
`m + pad + 8 * slots <= bufsz` and otherwise `NSS_STATUS_TRYAGAIN` with `*errnop = ERANGE`;
but for a buffer at or above `2 ^ 32` (8-byte pointers) no decode routine returns
`NSS_STATUS_SUCCESS`, whatever the size of the buffer. -/
theorem decode_success_iff_fits (M : Machine) (LH : HostentLayout) (LN : NetentLayout)
    (LP : ProtoentLayout) (LR : RpcentLayout) (LS : ServentLayout) (v : nss_mcdb_vinfo)
    (hv : valid_buf M v) :
    (∀ s : State hostent, 4 ≤ v.bufsz → host_matched LH s →
        consistent s.m.data LH.NSS_HE_HDRSZ (hdr16 M s.m.data LH.NSS_HE_HDRSZ LH.NSS_HE_MEM)
          (hdr16 M s.m.data LH.NSS_HE_HDRSZ LH.NSS_HE_MEM_STR)
          (hdr16 M s.m.data LH.NSS_HE_HDRSZ LH.NSS_HE_MEM_NUM) →
        (v.buf + hdr16 M s.m.data LH.NSS_HE_HDRSZ LH.NSS_HE_MEM + 7) % M.umax < 4294967296 →
        (status_of (nss_mcdb_netdb_hostent_decode M LH v s) = some NSS_STATUS_SUCCESS
            ↔ required_size v.buf (hdr16 M s.m.data LH.NSS_HE_HDRSZ LH.NSS_HE_MEM)
                (hdr16 M s.m.data LH.NSS_HE_HDRSZ LH.NSS_HE_MEM_NUM + 1
                  + hdr16 M s.m.data LH.NSS_HE_HDRSZ LH.NSS_HE_LST_NUM + 1) ≤ v.bufsz)
          ∧ (¬ required_size v.buf (hdr16 M s.m.data LH.NSS_HE_HDRSZ LH.NSS_HE_MEM)
                (hdr16 M s.m.data LH.NSS_HE_HDRSZ LH.NSS_HE_MEM_NUM + 1
                  + hdr16 M s.m.data LH.NSS_HE_HDRSZ LH.NSS_HE_LST_NUM + 1) ≤ v.bufsz →
              status_of (nss_mcdb_netdb_hostent_decode M LH v s) = some NSS_STATUS_TRYAGAIN
                ∧ (state_of (nss_mcdb_netdb_hostent_decode M LH v s) s).errnop = ERANGE))
      ∧ (∀ s : State netent,
        consistent s.m.data LN.NSS_NE_HDRSZ (hdr16 M s.m.data LN.NSS_NE_HDRSZ LN.NSS_NE_MEM)
          (hdr16 M s.m.data LN.NSS_NE_HDRSZ LN.NSS_NE_MEM_STR)
          (hdr16 M s.m.data LN.NSS_NE_HDRSZ LN.NSS_NE_MEM_NUM) →
        (v.buf + hdr16 M s.m.data LN.NSS_NE_HDRSZ LN.NSS_NE_MEM + 7) % M.umax < 4294967296 →
        (status_of (nss_mcdb_netdb_netent_decode M LN v s) = some NSS_STATUS_SUCCESS
            ↔ required_size v.buf (hdr16 M s.m.data LN.NSS_NE_HDRSZ LN.NSS_NE_MEM)
                (hdr16 M s.m.data LN.NSS_NE_HDRSZ LN.NSS_NE_MEM_NUM + 1) ≤ v.bufsz)
          ∧ (¬ required_size v.buf (hdr16 M s.m.data LN.NSS_NE_HDRSZ LN.NSS_NE_MEM)
                (hdr16 M s.m.data LN.NSS_NE_HDRSZ LN.NSS_NE_MEM_NUM + 1) ≤ v.bufsz →
              status_of (nss_mcdb_netdb_netent_decode M LN v s) = some NSS_STATUS_TRYAGAIN
                ∧ (state_of (nss_mcdb_netdb_netent_decode M LN v s) s).errnop = ERANGE))
      ∧ (∀ s : State protoent,
        consistent s.m.data LP.NSS_PE_HDRSZ (hdr16 M s.m.data LP.NSS_PE_HDRSZ LP.NSS_PE_MEM)
          (hdr16 M s.m.data LP.NSS_PE_HDRSZ LP.NSS_PE_MEM_STR)
          (hdr16 M s.m.data LP.NSS_PE_HDRSZ LP.NSS_PE_MEM_NUM) →
        (v.buf + hdr16 M s.m.data LP.NSS_PE_HDRSZ LP.NSS_PE_MEM + 7) % M.umax < 4294967296 →
        (status_of (nss_mcdb_netdb_protoent_decode M LP v s) = some NSS_STATUS_SUCCESS
            ↔ required_size v.buf (hdr16 M s.m.data LP.NSS_PE_HDRSZ LP.NSS_PE_MEM)
                (hdr16 M s.m.data LP.NSS_PE_HDRSZ LP.NSS_PE_MEM_NUM + 1) ≤ v.bufsz)
          ∧ (¬ required_size v.buf (hdr16 M s.m.data LP.NSS_PE_HDRSZ LP.NSS_PE_MEM)
                (hdr16 M s.m.data LP.NSS_PE_HDRSZ LP.NSS_PE_MEM_NUM + 1) ≤ v.bufsz →
              status_of (nss_mcdb_netdb_protoent_decode M LP v s) = some NSS_STATUS_TRYAGAIN
                ∧ (state_of (nss_mcdb_netdb_protoent_decode M LP v s) s).errnop = ERANGE))
      ∧ (∀ s : State rpcent,
        consistent s.m.data LR.NSS_RE_HDRSZ (hdr16 M s.m.data LR.NSS_RE_HDRSZ LR.NSS_RE_MEM)
          (hdr16 M s.m.data LR.NSS_RE_HDRSZ LR.NSS_RE_MEM_STR)
          (hdr16 M s.m.data LR.NSS_RE_HDRSZ LR.NSS_RE_MEM_NUM) →
        (v.buf + hdr16 M s.m.data LR.NSS_RE_HDRSZ LR.NSS_RE_MEM + 7) % M.umax < 4294967296 →
        (status_of (nss_mcdb_netdb_rpcent_decode M LR v s) = some NSS_STATUS_SUCCESS
            ↔ required_size v.buf (hdr16 M s.m.data LR.NSS_RE_HDRSZ LR.NSS_RE_MEM)
                (hdr16 M s.m.data LR.NSS_RE_HDRSZ LR.NSS_RE_MEM_NUM + 1) ≤ v.bufsz)
          ∧ (¬ required_size v.buf (hdr16 M s.m.data LR.NSS_RE_HDRSZ LR.NSS_RE_MEM)
                (hdr16 M s.m.data LR.NSS_RE_HDRSZ LR.NSS_RE_MEM_NUM + 1) ≤ v.bufsz →
              status_of (nss_mcdb_netdb_rpcent_decode M LR v s) = some NSS_STATUS_TRYAGAIN
                ∧ (state_of (nss_mcdb_netdb_rpcent_decode M LR v s) s).errnop = ERANGE))
      ∧ (∀ s : State servent, 1 ≤ v.bufsz → serv_matched LS v s →
        consistent s.m.data LS.NSS_SE_HDRSZ (hdr16 M s.m.data LS.NSS_SE_HDRSZ LS.NSS_SE_MEM)
          (hdr16 M s.m.data LS.NSS_SE_HDRSZ LS.NSS_SE_MEM_STR)
          (hdr16 M s.m.data LS.NSS_SE_HDRSZ LS.NSS_SE_MEM_NUM) →
        (v.buf + hdr16 M s.m.data LS.NSS_SE_HDRSZ LS.NSS_SE_MEM + 7) % M.umax < 4294967296 →
        (status_of (nss_mcdb_netdb_servent_decode M LS v s) = some NSS_STATUS_SUCCESS
            ↔ required_size v.buf (hdr16 M s.m.data LS.NSS_SE_HDRSZ LS.NSS_SE_MEM)
                (hdr16 M s.m.data LS.NSS_SE_HDRSZ LS.NSS_SE_MEM_NUM + 1) ≤ v.bufsz)
          ∧ (¬ required_size v.buf (hdr16 M s.m.data LS.NSS_SE_HDRSZ LS.NSS_SE_MEM)
                (hdr16 M s.m.data LS.NSS_SE_HDRSZ LS.NSS_SE_MEM_NUM + 1) ≤ v.bufsz →
              status_of (nss_mcdb_netdb_servent_decode M LS v s) = some NSS_STATUS_TRYAGAIN
                ∧ (state_of (nss_mcdb_netdb_servent_decode M LS v s) s).errnop = ERANGE))
      ∧ (4294967296 ≤ v.buf →
          (∀ s, status_of (nss_mcdb_netdb_hostent_decode M LH v s) ≠ some NSS_STATUS_SUCCESS)
            ∧ (∀ s, status_of (nss_mcdb_netdb_netent_decode M LN v s)
                ≠ some NSS_STATUS_SUCCESS)
            ∧ (∀ s, status_of (nss_mcdb_netdb_protoent_decode M LP v s)
                ≠ some NSS_STATUS_SUCCESS)
            ∧ (∀ s, status_of (nss_mcdb_netdb_rpcent_decode M LR v s)
                ≠ some NSS_STATUS_SUCCESS)
            ∧ (∀ s, status_of (nss_mcdb_netdb_servent_decode M LS v s)
                ≠ some NSS_STATUS_SUCCESS)) := by
  have pa : ∀ {ε : Type} (hdrsz m mem_str num : Nat) (s : State ε) (ent : ε),
      m < 65536 → num < 65536 → consistent s.m.data hdrsz m mem_str num →
      (v.buf + m + 7) % M.umax < 4294967296 →
      (status_of (pack_aliases M v hdrsz mem_str num s ent (align8u M v.buf m))
            = some NSS_STATUS_SUCCESS ↔ required_size v.buf m (num + 1) ≤ v.bufsz)
        ∧ (¬ required_size v.buf m (num + 1) ≤ v.bufsz →
            status_of (pack_aliases M v hdrsz mem_str num s ent (align8u M v.buf m))
                = some NSS_STATUS_TRYAGAIN
              ∧ (state_of (pack_aliases M v hdrsz mem_str num s ent (align8u M v.buf m))
                  s).errnop = ERANGE) := by
    intro ε hdrsz m mem_str num s ent hm hn hc ht
    obtain ⟨h1, h2, h3, _⟩ := pack_aliases_status M v hdrsz m mem_str num s ent hv.1 hm hn ht
    unfold required_size
    refine ⟨⟨h2, h1 hv hc⟩, ?_⟩
    intro hnf
    rw [h3 hnf]
    exact ⟨rfl, rfl⟩
  have pb : ∀ {ε : Type} (hdrsz m mem_str num : Nat) (s : State ε) (ent : ε),
      m < 65536 → num < 65536 → 4294967296 ≤ v.buf →
      status_of (pack_aliases M v hdrsz mem_str num s ent (align8u M v.buf m))
        ≠ some NSS_STATUS_SUCCESS := by
    intro ε hdrsz m mem_str num s ent hm hn hhigh h
    obtain ⟨s', hs'⟩ := (status_of_eq_some _ _).1 h
    obtain ⟨_, _, hcase⟩ := pack_aliases_cases M v hdrsz mem_str num s ent _ _ s' hs'
    rcases hcase with ⟨h1, _⟩ | ⟨_, hchk, _⟩
    · exact absurd h1 (by decide)
    · exact size_check_truncated M v.buf v.bufsz m (num + 1) hv.1 hv.2 hm (by omega)
        (by omega) hhigh hchk
  refine ⟨?_, ?_, ?_, ?_, ?_, ?_⟩
  · intro s hsz hmt hc ht
    rw [hostent_decode_matched M LH v s hsz hmt]
    obtain ⟨h1, h2, h3, _⟩ := hostent_fill_status M LH v s hv.1 ht
    unfold required_size
    exact ⟨⟨h2, h1 hv hc⟩, h3⟩
  · intro s hc ht
    exact pa _ _ _ _ s _ (hdr16_lt _ _ _ _) (hdr16_lt _ _ _ _) hc ht
  · intro s hc ht
    exact pa _ _ _ _ s _ (hdr16_lt _ _ _ _) (hdr16_lt _ _ _ _) hc ht
  · intro s hc ht
    exact pa _ _ _ _ s _ (hdr16_lt _ _ _ _) (hdr16_lt _ _ _ _) hc ht
  · intro s hsz hmt hc ht
    rw [servent_decode_matched M LS v s hsz hmt]
    exact pa _ _ _ _ s _ (hdr16_lt _ _ _ _) (hdr16_lt _ _ _ _) hc ht
  · intro hhigh
    refine ⟨?_, ?_, ?_, ?_, ?_⟩
    · intro s h
      obtain ⟨s', hs'⟩ := (status_of_eq_some _ _).1 h
      obtain ⟨_, hcase⟩ := hostent_decode_cases M LH v s _ s' hs'
      rcases hcase with ⟨h1, _⟩ | ⟨m', _, hf⟩
      · exact absurd h1 (by decide)
      · obtain ⟨_, _, _, _, _, hcase2⟩ := hostent_fill_cases M LH v _ _ s' hf
        rcases hcase2 with ⟨h1, _⟩ | ⟨_, hchk, _⟩
        · exact absurd h1 (by decide)
        · have hn := hdr16_lt M m'.data LH.NSS_HE_HDRSZ LH.NSS_HE_MEM_NUM
          have hk := hdr16_lt M m'.data LH.NSS_HE_HDRSZ LH.NSS_HE_LST_NUM
          exact size_check_truncated M v.buf v.bufsz _ _ hv.1 hv.2 (hdr16_lt _ _ _ _)
            (by omega) (by simp only at hn hk ⊢; omega) hhigh hchk
    · intro s
      exact pb _ _ _ _ s _ (hdr16_lt _ _ _ _) (hdr16_lt _ _ _ _) hhigh
    · intro s
      exact pb _ _ _ _ s _ (hdr16_lt _ _ _ _) (hdr16_lt _ _ _ _) hhigh
    · intro s
      exact pb _ _ _ _ s _ (hdr16_lt _ _ _ _) (hdr16_lt _ _ _ _) hhigh
    · intro s h
      obtain ⟨s', hs'⟩ := (status_of_eq_some _ _).1 h
      obtain ⟨_, hcase⟩ := servent_decode_cases M LS v s _ s' hs'
      rcases hcase with ⟨h1, _⟩ | ⟨m', _, hf⟩
      · exact absurd h1 (by decide)
      · exact pb _ _ _ _ _ _ (hdr16_lt _ _ _ _) (hdr16_lt _ _ _ _) hhigh
          ((status_of_eq_some _ _).2 ⟨s', hf⟩)


/-- Instance of C12: the example host record needs 56 bytes at address 4096 and is decoded
into 64 bytes but not into 55; at address `2 ^ 32 + 4096` the example protocol record, which
needs 24 bytes, is decoded neither into 64 nor into 100000 bytes. -/
theorem decode_success_iff_fits_witness :
    valid_buf lp64le ex_v ∧ valid_buf lp64le ex_v55 ∧ valid_buf lp64le ex_v_high
      ∧ valid_buf lp64le ex_v_high_large
      ∧ (status_of (nss_mcdb_netdb_hostent_decode lp64le hostLayout ex_v ex_host_call)
          = some NSS_STATUS_SUCCESS ↔ required_size 4096 12 5 ≤ 64)
      ∧ ¬ required_size 4096 12 5 ≤ 55
      ∧ status_of (nss_mcdb_netdb_hostent_decode lp64le hostLayout ex_v55 ex_host_call)
          = some NSS_STATUS_TRYAGAIN
      ∧ (state_of (nss_mcdb_netdb_hostent_decode lp64le hostLayout ex_v55 ex_host_call)
          ex_host_call).errnop = ERANGE
      ∧ required_size 4294971392 8 2 = 24
      ∧ status_of (nss_mcdb_netdb_protoent_decode lp64le protoLayout ex_v_high ex_proto_call)
          ≠ some NSS_STATUS_SUCCESS
      ∧ status_of
          (nss_mcdb_netdb_protoent_decode lp64le protoLayout ex_v_high_large ex_proto_call)
          ≠ some NSS_STATUS_SUCCESS :=
  ⟨by decide, by decide, by decide, by decide,
    ((decode_success_iff_fits lp64le hostLayout netLayout protoLayout rpcLayout servLayout
      ex_v (by decide)).1 ex_host_call (by decide) (Or.inl (by decide)) (by decide)
      (by decide)).1,
    by decide,
    (((decode_success_iff_fits lp64le hostLayout netLayout protoLayout rpcLayout servLayout
      ex_v55 (by decide)).1 ex_host_call (by decide) (Or.inl (by decide)) (by decide)
      (by decide)).2 (by decide)).1,
    (((decode_success_iff_fits lp64le hostLayout netLayout protoLayout rpcLayout servLayout
      ex_v55 (by decide)).1 ex_host_call (by decide) (Or.inl (by decide)) (by decide)
      (by decide)).2 (by decide)).2,
    by decide,
    ((decode_success_iff_fits lp64le hostLayout netLayout protoLayout rpcLayout servLayout
      ex_v_high (by decide)).2.2.2.2.2 (by decide)).2.2.1 ex_proto_call,
    ((decode_success_iff_fits lp64le hostLayout netLayout protoLayout rpcLayout servLayout
      ex_v_high_large (by decide)).2.2.2.2.2 (by decide)).2.2.1 ex_proto_call⟩

theorem pack_aliases_tryagain_iff {ε : Type} (M : Machine) (v : nss_mcdb_vinfo)
    (hdrsz mem_str num : Nat) (s : State ε) (ent : ε) (aliases : Nat) :
    status_of (pack_aliases M v hdrsz mem_str num s ent aliases) = some NSS_STATUS_TRYAGAIN
      ↔ v.bufsz < (ptr_diff M aliases v.buf + 8 * (num + 1)) % M.umax := by
  have e : (num + 1) <<< 3 = 8 * (num + 1) := by rw [shl3, Nat.mul_comm]
  constructor
  · intro h
    obtain ⟨s', hs'⟩ := (status_of_eq_some _ _).1 h
    obtain ⟨_, _, hcase⟩ := pack_aliases_cases M v hdrsz mem_str num s ent _ _ s' hs'
    rcases hcase with ⟨_, _, _, hchk⟩ | ⟨h1, _⟩
    · rw [e] at hchk
      omega
    · exact absurd h1 (by decide)
  · intro h
    unfold pack_aliases
    rw [if_neg (by rw [e]; omega)]
    rfl

theorem hostent_fill_tryagain_iff (M : Machine) (L : HostentLayout) (v : nss_mcdb_vinfo)
    (s : State hostent) :
    status_of (hostent_fill M L v s) = some NSS_STATUS_TRYAGAIN
      ↔ v.bufsz < (ptr_diff M (align8u M v.buf (hdr16 M s.m.data L.NSS_HE_HDRSZ L.NSS_HE_MEM))
            v.buf
          + 8 * (hdr16 M s.m.data L.NSS_HE_HDRSZ L.NSS_HE_MEM_NUM + 1
              + hdr16 M s.m.data L.NSS_HE_HDRSZ L.NSS_HE_LST_NUM + 1)) % M.umax := by
  have e : (hdr16 M s.m.data L.NSS_HE_HDRSZ L.NSS_HE_MEM_NUM + 1
        + hdr16 M s.m.data L.NSS_HE_HDRSZ L.NSS_HE_LST_NUM + 1) <<< 3
      = 8 * (hdr16 M s.m.data L.NSS_HE_HDRSZ L.NSS_HE_MEM_NUM + 1
        + hdr16 M s.m.data L.NSS_HE_HDRSZ L.NSS_HE_LST_NUM + 1) := by
    rw [shl3, Nat.mul_comm]
  constructor
  · intro h
    obtain ⟨s', hs'⟩ := (status_of_eq_some _ _).1 h
    obtain ⟨_, _, _, _, _, hcase⟩ := hostent_fill_cases M L v s _ s' hs'
    rcases hcase with ⟨_, _, _, _, hchk⟩ | ⟨h1, _⟩
    · rw [e] at hchk
      omega
    · exact absurd h1 (by decide)
  · intro h
    unfold hostent_fill
    simp only
    rw [if_neg (by rw [e]; omega)]
    rfl

/-- C13, as stated, fails: the example protocol record (array offset 8, one alias, 8 bytes
of variable region) is decoded with `NSS_STATUS_SUCCESS` into a buffer of 24 bytes at an
aligned address, although the offset of the alias array, 8, plus 8 bytes for each of the 2
slots plus the 8 bytes of the variable region is 32. -/
theorem protoent_decode_fits_without_region :
    status_of (nss_mcdb_netdb_protoent_decode lp64le protoLayout ex_v24 ex_proto_call)
        = some NSS_STATUS_SUCCESS
      ∧ ent_of (nss_mcdb_netdb_protoent_decode lp64le protoLayout ex_v24 ex_proto_call)
        = some ⟨4096, 4104, 6⟩
      ∧ var_len lp64le ex_proto_rec protoLayout.NSS_PE_HDRSZ = 8
      ∧ ex_v24.bufsz < (4104 - 4096) + 8 * (1 + 1) + 8 := by
  decide

/-- C13, amended: for a record that has passed the predicate match, a decode routine returns
`NSS_STATUS_TRYAGAIN` exactly when `bufsz` is less than the offset of the aligned alias array
from the buffer start plus 8 bytes for every slot of the alias array, terminator included,
plus for hosts 8 bytes for every slot of the address array, terminator included (the sum taken
in `size_t`); the length of the copied variable region is not added.  Where the address
`buf + m + 7` lies below `2 ^ 32` that sum is `m + pad + 8 * slots`. -/
theorem decode_tryagain_iff_short (M : Machine) (LH : HostentLayout) (LN : NetentLayout)
    (LP : ProtoentLayout) (LR : RpcentLayout) (LS : ServentLayout) (v : nss_mcdb_vinfo)
    (hb : v.buf < M.umax) :
    (∀ s : State hostent, 4 ≤ v.bufsz → host_matched LH s →
        (status_of (nss_mcdb_netdb_hostent_decode M LH v s) = some NSS_STATUS_TRYAGAIN
          ↔ v.bufsz < (ptr_diff M
                (align8u M v.buf (hdr16 M s.m.data LH.NSS_HE_HDRSZ LH.NSS_HE_MEM)) v.buf
              + 8 * (hdr16 M s.m.data LH.NSS_HE_HDRSZ LH.NSS_HE_MEM_NUM + 1
                  + hdr16 M s.m.data LH.NSS_HE_HDRSZ LH.NSS_HE_LST_NUM + 1)) % M.umax))
      ∧ (∀ s : State netent,
        (status_of (nss_mcdb_netdb_netent_decode M LN v s) = some NSS_STATUS_TRYAGAIN
          ↔ v.bufsz < (ptr_diff M
                (align8u M v.buf (hdr16 M s.m.data LN.NSS_NE_HDRSZ LN.NSS_NE_MEM)) v.buf
              + 8 * (hdr16 M s.m.data LN.NSS_NE_HDRSZ LN.NSS_NE_MEM_NUM + 1)) % M.umax))
      ∧ (∀ s : State protoent,
        (status_of (nss_mcdb_netdb_protoent_decode M LP v s) = some NSS_STATUS_TRYAGAIN
          ↔ v.bufsz < (ptr_diff M
                (align8u M v.buf (hdr16 M s.m.data LP.NSS_PE_HDRSZ LP.NSS_PE_MEM)) v.buf
              + 8 * (hdr16 M s.m.data LP.NSS_PE_HDRSZ LP.NSS_PE_MEM_NUM + 1)) % M.umax))
      ∧ (∀ s : State rpcent,
        (status_of (nss_mcdb_netdb_rpcent_decode M LR v s) = some NSS_STATUS_TRYAGAIN
          ↔ v.bufsz < (ptr_diff M
                (align8u M v.buf (hdr16 M s.m.data LR.NSS_RE_HDRSZ LR.NSS_RE_MEM)) v.buf
              + 8 * (hdr16 M s.m.data LR.NSS_RE_HDRSZ LR.NSS_RE_MEM_NUM + 1)) % M.umax))
      ∧ (∀ s : State servent, 1 ≤ v.bufsz → serv_matched LS v s →
        (status_of (nss_mcdb_netdb_servent_decode M LS v s) = some NSS_STATUS_TRYAGAIN
          ↔ v.bufsz < (ptr_diff M
                (align8u M v.buf (hdr16 M s.m.data LS.NSS_SE_HDRSZ LS.NSS_SE_MEM)) v.buf
              + 8 * (hdr16 M s.m.data LS.NSS_SE_HDRSZ LS.NSS_SE_MEM_NUM + 1)) % M.umax))
      ∧ (∀ m cnt, m < 65536 → cnt ≤ 131072 → (v.buf + m + 7) % M.umax < 4294967296 →
          (ptr_diff M (align8u M v.buf m) v.buf + 8 * cnt) % M.umax
            = required_size v.buf m cnt) := by
  refine ⟨?_, ?_, ?_, ?_, ?_, ?_⟩
  · intro s hsz hmt
    rw [hostent_decode_matched M LH v s hsz hmt]
    exact hostent_fill_tryagain_iff M LH v s
  · intro s
    exact pack_aliases_tryagain_iff M v _ _ _ s _ _
  · intro s
    exact pack_aliases_tryagain_iff M v _ _ _ s _ _
  · intro s
    exact pack_aliases_tryagain_iff M v _ _ _ s _ _
  · intro s hsz hmt
    rw [servent_decode_matched M LS v s hsz hmt]
    exact pack_aliases_tryagain_iff M v _ _ _ s _ _
  · intro m cnt hm hcnt ht
    rw [ptr_diff_align8u M v.buf m hb hm ht]
    unfold required_size
    have hp : pad8 (v.buf + m) < 8 := by unfold pad8; omega
    have hu := umax_cases M
    generalize M.umax = U at *
    rcases hu with hu | hu <;> subst hu <;> omega

/-- Instance of C13: the example protocol record at address 4096 is rejected with 23 bytes
and not with 24. -/
theorem decode_tryagain_iff_short_witness :
    ex_v23.buf < lp64le.umax
      ∧ (status_of (nss_mcdb_netdb_protoent_decode lp64le protoLayout ex_v23 ex_proto_call)
          = some NSS_STATUS_TRYAGAIN ↔ 23 < (8 + 8 * (1 + 1)) % 18446744073709551616)
      ∧ (status_of (nss_mcdb_netdb_protoent_decode lp64le protoLayout ex_v24 ex_proto_call)
          = some NSS_STATUS_TRYAGAIN ↔ 24 < (8 + 8 * (1 + 1)) % 18446744073709551616)
      ∧ (8 + 8 * 2) % 18446744073709551616 = required_size 4096 8 2 :=
  ⟨by decide,
    (decode_tryagain_iff_short lp64le hostLayout netLayout protoLayout rpcLayout servLayout
      ex_v23 (by decide)).2.2.1 ex_proto_call,
    (decode_tryagain_iff_short lp64le hostLayout netLayout protoLayout rpcLayout servLayout
      ex_v24 (by decide)).2.2.1 ex_proto_call,
    (decode_tryagain_iff_short lp64le hostLayout netLayout protoLayout rpcLayout servLayout
      ex_v24 (by decide)).2.2.2.2.2 8 2 (by decide) (by decide) (by decide)⟩

/-! ## The address-literal routine -/

/-- Offsets from the buffer start of the addresses `aligned + d` of the address-literal
routine. -/
theorem filladdr_offset (M : Machine) (b d : Nat) (hb : b < M.umax) (hd : d + 8 ≤ 4294967296) :
    ptr_diff M ((((b + 7) % M.umax) &&& (M.umax - 8)) + d) b = pad8 b + d := by
  unfold ptr_diff pad8
  rcases umax_cases M with hu | hu
  · rw [hu] at hb ⊢
    rw [show (4294967296 - 8 : Nat) = 4294967288 from rfl, land_mask_u]
    omega
  · rw [hu] at hb ⊢
    rw [show (18446744073709551616 - 8 : Nat) = 18446744073709551608 from rfl, land_mask_64]
    omega

/-- The aligned address of the address-literal routine, when the padded start lies in the
address space. -/
theorem filladdr_aligned (M : Machine) (b : Nat) (hb : b + 7 < M.umax) :
    ((b + 7) % M.umax) &&& (M.umax - 8) = b + pad8 b := by
  unfold pad8
  rcases umax_cases M with hu | hu
  · rw [hu] at hb ⊢
    rw [show (4294967296 - 8 : Nat) = 4294967288 from rfl, land_mask_u]
    omega
  · rw [hu] at hb ⊢
    rw [show (18446744073709551616 - 8 : Nat) = 18446744073709551608 from rfl, land_mask_64]
    omega

/-- The address-literal routine for a supported family: rejected unless the entry fits with
a byte to spare, otherwise the entry is laid out behind the padding. -/
theorem filladdr_cases (M : Machine) (addr : List Nat) (type : Int) (v : nss_mcdb_vinfo)
    (s : State hostent) (h_errnop : Int) (hv : valid_buf M v) (hk : v.klen + 40 < M.umax)
    (hl : Nat) (ht : (type = AF_INET ∧ hl = 4) ∨ (type = AF_INET6 ∧ hl = 16)) :
    (¬ pad8 v.buf + 8 + 8 + hl + v.klen + 1 < v.bufsz →
        nss_mcdb_netdb_gethost_filladdr M addr type v s h_errnop
          = some (NSS_STATUS_TRYAGAIN, { s with errnop := ERANGE, errno := ERANGE },
              TRY_AGAIN))
      ∧ (pad8 v.buf + 8 + 8 + hl + v.klen + 1 < v.bufsz →
        ∃ mem', nss_mcdb_netdb_gethost_filladdr M addr type v s h_errnop
            = some (NSS_STATUS_SUCCESS,
                { s with
                  mem := mem'
                  ent := ⟨v.buf + pad8 v.buf + 16 + hl, v.buf + pad8 v.buf, type, (hl : Int),
                    v.buf + pad8 v.buf + 8⟩ },
                h_errnop)
          ∧ load_ptr M mem' (pad8 v.buf) = 0
          ∧ load_ptr M mem' (pad8 v.buf + 8) = v.buf + pad8 v.buf + 16
          ∧ (∀ i, i < hl → mem' (pad8 v.buf + 16 + i) = rd addr i)
          ∧ (∀ i, i < v.klen + 1 → mem' (pad8 v.buf + 16 + hl + i) = rd v.key i)
          ∧ (∀ x, (x < pad8 v.buf ∨ (pad8 v.buf + M.ptrsz ≤ x ∧ x < pad8 v.buf + 8)
                ∨ (pad8 v.buf + 8 + M.ptrsz ≤ x ∧ x < pad8 v.buf + 16)
                ∨ pad8 v.buf + 16 + hl + v.klen + 1 ≤ x) → mem' x = s.mem x)) := by
  obtain ⟨hb, hbs⟩ := hv
  have hp : pad8 v.buf < 8 := by unfold pad8; omega
  have hP := ptrsz_pos M
  have hu := umax_cases M
  have hH : (if type = AF_INET then 4 else 16 : Nat) = hl := by
    rcases ht with ⟨rfl, rfl⟩ | ⟨rfl, rfl⟩
    · rfl
    · rfl
  have hT : type = AF_INET ∨ type = AF_INET6 := by
    rcases ht with ⟨h, _⟩ | ⟨h, _⟩
    · exact Or.inl h
    · exact Or.inr h
  have hl16 : hl ≤ 16 := by
    rcases ht with ⟨_, h⟩ | ⟨_, h⟩ <;> omega
  have o0 := filladdr_offset M v.buf 0 hb (by omega)
  have o8 := filladdr_offset M v.buf 8 hb (by omega)
  have o16 := filladdr_offset M v.buf 16 hb (by omega)
  have oN : ptr_diff M ((((v.buf + 7) % M.umax) &&& (M.umax - 8)) + 16 + hl) v.buf
      = pad8 v.buf + 16 + hl := by
    rw [Nat.add_assoc _ 16 hl, filladdr_offset M v.buf (16 + hl) hb (by omega), Nat.add_assoc]
  simp only [Nat.add_zero] at o0
  have hneed : (pad8 v.buf + 8 + 8 + hl + v.klen + 1) % M.umax
      = pad8 v.buf + 8 + 8 + hl + v.klen + 1 := by
    apply Nat.mod_eq_of_lt
    omega
  have hklen : (v.klen + 1) % M.umax = v.klen + 1 := by
    apply Nat.mod_eq_of_lt
    omega
  unfold nss_mcdb_netdb_gethost_filladdr
  simp only [hT, if_true, hH]
  rw [o0, o8, o16, oN, hneed, hklen]
  constructor
  · intro hnf
    rw [if_pos (by omega)]
    rfl
  · intro hfit
    rw [if_neg (by omega)]
    have hal := filladdr_aligned M v.buf (by omega)
    obtain ⟨mem0, hm0⟩ := memcpy_buf_ok v.bufsz s.mem (pad8 v.buf + 16 + hl) v.key 0
      (v.klen + 1) (by omega)
    obtain ⟨_, f0, c0⟩ := memcpy_buf_some _ _ _ _ _ _ _ hm0
    obtain ⟨mem1, hm1⟩ := store_ptr_ok M v.bufsz mem0 (pad8 v.buf) 0 (by omega)
    obtain ⟨_, f1, c1⟩ := store_ptr_some _ _ _ _ _ _ hm1
    obtain ⟨mem2, hm2⟩ := memcpy_buf_ok v.bufsz mem1 (pad8 v.buf + 16) addr 0 hl (by omega)
    obtain ⟨_, f2, c2⟩ := memcpy_buf_some _ _ _ _ _ _ _ hm2
    obtain ⟨mem3, hm3⟩ := store_ptr_ok M v.bufsz mem2 (pad8 v.buf + 8)
      (((v.buf + 7) % M.umax &&& (M.umax - 8)) + 16) (by omega)
    obtain ⟨_, f3, c3⟩ := store_ptr_some _ _ _ _ _ _ hm3
    have hm3' : store_ptr M v.bufsz mem2 (pad8 v.buf + 8)
        ((((v.buf + 7) % M.umax &&& (M.umax - 8)) + 16) % M.umax) = some mem3 := by
      rw [Nat.mod_eq_of_lt (by rw [hal]; omega)]
      exact hm3
    refine ⟨mem3, ?_, ?_, ?_, ?_, ?_, ?_⟩
    · rw [hm0]
      simp only
      rw [hm1]
      simp only
      rw [hm2]
      simp only
      rw [hm3']
      simp only
      rw [hal, Nat.mod_eq_of_lt (by omega), Nat.mod_eq_of_lt (by omega)]
    · have : load_ptr M mem3 (pad8 v.buf) = load_ptr M mem1 (pad8 v.buf) := by
        apply load_ptr_congr
        intro j hj
        rw [f3 _ (by omega), f2 _ (by omega)]
      rw [this, load_store_same M v.bufsz mem0 mem1 _ _ hm1, zero_mod_umax]
    · rw [load_store_same M v.bufsz mem2 mem3 _ _ hm3, hal, Nat.mod_eq_of_lt (by omega)]
    · intro i hi
      rw [f3 _ (by omega), c2 i hi, Nat.zero_add]
    · intro i hi
      rw [f3 _ (by omega), f2 _ (by omega), f1 _ (by omega), c0 i hi, Nat.zero_add]
    · intro x hx
      rw [f3 _ (by omega), f2 _ (by omega), f1 _ (by omega), f0 _ (by omega)]

/-! ## Address literals and the secondary error code, claims -/

theorem host_status_of_eq_some {ε : Type} (r : Option (nss_status_t × State ε × Int))
    (st : nss_status_t) : host_status_of r = some st ↔ ∃ s' h', r = some (st, s', h') := by
  unfold host_status_of
  cases r with
  | none => simp
  | some x =>
    obtain ⟨a, b, c⟩ := x
    simp

/-- C15 holds but for the exact fit, where it fails on the code: for `AF_INET` and
`AF_INET6`, a buffer that is an object of the address space and a name shorter than the
address space, `nss_mcdb_netdb_gethost_filladdr` returns `NSS_STATUS_SUCCESS` exactly when
`pad + 8 + 8 + h_length + klen + 1 < bufsz`; with `bufsz` equal to that size, or smaller, it
returns `NSS_STATUS_TRYAGAIN` with `*errnop = ERANGE` and `*h_errnop = TRY_AGAIN`, the
output structure, the buffer and the cursor as they were. -/
theorem filladdr_rejects_exact_fit (M : Machine) (addr : List Nat) (type : Int)
    (v : nss_mcdb_vinfo) (s : State hostent) (h_errnop : Int) (hv : valid_buf M v)
    (hk : v.klen + 40 < M.umax) (hl : Nat)
    (ht : (type = AF_INET ∧ hl = 4) ∨ (type = AF_INET6 ∧ hl = 16)) :
    (host_status_of (nss_mcdb_netdb_gethost_filladdr M addr type v s h_errnop)
        = some NSS_STATUS_SUCCESS ↔ pad8 v.buf + 8 + 8 + hl + v.klen + 1 < v.bufsz)
      ∧ (v.bufsz ≤ pad8 v.buf + 8 + 8 + hl + v.klen + 1 →
          nss_mcdb_netdb_gethost_filladdr M addr type v s h_errnop
            = some (NSS_STATUS_TRYAGAIN, { s with errnop := ERANGE, errno := ERANGE },
                TRY_AGAIN)) := by
  obtain ⟨h1, h2⟩ := filladdr_cases M addr type v s h_errnop hv hk hl ht
  refine ⟨⟨?_, ?_⟩, ?_⟩
  · intro h
    by_cases hfit : pad8 v.buf + 8 + 8 + hl + v.klen + 1 < v.bufsz
    · exact hfit
    · rw [h1 hfit] at h
      simp [host_status_of, NSS_STATUS_TRYAGAIN, NSS_STATUS_SUCCESS] at h
  · intro hfit
    obtain ⟨mem', he, _⟩ := h2 hfit
    rw [he]
    rfl
  · intro hnf
    exact h1 (by omega)

/-- Instance of C15: the entry of the literal "127.0.0.1" takes 30 bytes of an aligned
buffer; with `bufsz = 30` the routine returns `NSS_STATUS_TRYAGAIN`, with `bufsz = 31`
`NSS_STATUS_SUCCESS`. -/
theorem filladdr_rejects_exact_fit_witness :
    valid_buf lp64le ex_v_literal30 ∧ ex_v_literal30.klen + 40 < lp64le.umax
      ∧ pad8 ex_v_literal30.buf + 8 + 8 + 4 + ex_v_literal30.klen + 1 = ex_v_literal30.bufsz
      ∧ nss_mcdb_netdb_gethost_filladdr lp64le ex_addr AF_INET ex_v_literal30 ex_poison_call 0
        = some (NSS_STATUS_TRYAGAIN,
            { ex_poison_call with errnop := ERANGE, errno := ERANGE }, TRY_AGAIN)
      ∧ (host_status_of
          (nss_mcdb_netdb_gethost_filladdr lp64le ex_addr AF_INET ex_v_literal31
            ex_poison_call 0) = some NSS_STATUS_SUCCESS
          ↔ pad8 ex_v_literal31.buf + 8 + 8 + 4 + ex_v_literal31.klen + 1
            < ex_v_literal31.bufsz) :=
  ⟨by decide, by decide, by decide,
    (filladdr_rejects_exact_fit lp64le ex_addr AF_INET ex_v_literal30 ex_poison_call 0
      (by decide) (by decide) 4 (Or.inl ⟨rfl, rfl⟩)).2 (by decide),
    (filladdr_rejects_exact_fit lp64le ex_addr AF_INET ex_v_literal31 ex_poison_call 0
      (by decide) (by decide) 4 (Or.inl ⟨rfl, rfl⟩)).1⟩

/-- C14: after a successful `nss_mcdb_netdb_gethost_filladdr` for `AF_INET` or `AF_INET6`,
`h_addrtype` is the type and `h_length` 4 or 16; `h_aliases` is at offset `pad` and
`h_aliases[0]` is null; `h_addr_list` is at offset `pad + 8` and `h_addr_list[0]` points at
offset `pad + 16`, where the `h_length` bytes of the address are; `h_name` points at offset
`pad + 16 + h_length`, where the `klen` bytes of the name are, followed by a NUL; the four
regions follow one another and end inside the buffer; the store cursor, `*errnop`, `errno`
and `*h_errnop` are as they were.  When `inet_pton` accepts the name, the result of
`_nss_mcdb_gethostbyname2_r` is that of the routine, whatever the store. -/
theorem filladdr_success_layout (M : Machine) (addr : List Nat) (type : Int)
    (v : nss_mcdb_vinfo) (s s' : State hostent) (h_errnop h' : Int) (hv : valid_buf M v)
    (hk : v.klen + 40 < M.umax) (hkey : v.key.length = v.klen) (hl : Nat)
    (ht : (type = AF_INET ∧ hl = 4) ∨ (type = AF_INET6 ∧ hl = 16))
    (h : nss_mcdb_netdb_gethost_filladdr M addr type v s h_errnop
      = some (NSS_STATUS_SUCCESS, s', h')) :
    s'.ent.h_addrtype = type ∧ s'.ent.h_length = (hl : Int)
      ∧ s'.ent.h_aliases = v.buf + pad8 v.buf
      ∧ load_ptr M s'.mem (pad8 v.buf) = 0
      ∧ s'.ent.h_addr_list = v.buf + (pad8 v.buf + 8)
      ∧ load_ptr M s'.mem (pad8 v.buf + 8) = v.buf + (pad8 v.buf + 16)
      ∧ (∀ i, i < hl → s'.mem (pad8 v.buf + 16 + i) = rd addr i)
      ∧ s'.ent.h_name = v.buf + (pad8 v.buf + 16 + hl)
      ∧ (∀ i, i < v.klen → s'.mem (pad8 v.buf + 16 + hl + i) = rd v.key i)
      ∧ s'.mem (pad8 v.buf + 16 + hl + v.klen) = 0
      ∧ pad8 v.buf < 8 ∧ M.ptrsz ≤ 8
      ∧ pad8 v.buf + 16 + hl + v.klen + 1 < v.bufsz
      ∧ s'.m = s.m ∧ s'.errnop = s.errnop ∧ s'.errno = s.errno ∧ h' = h_errnop
      ∧ ∀ (inet_pton : InetPton) (get_generic : StoreCall hostent) (name : List Nat)
          (buf bufsz : Nat),
          0 < (inet_pton type name).1 →
          _nss_mcdb_gethostbyname2_r M inet_pton get_generic name type buf bufsz s h_errnop
            = nss_mcdb_netdb_gethost_filladdr M (inet_pton type name).2 type
                ⟨buf, bufsz, name, name.length, 126⟩ s h_errnop := by
  obtain ⟨h1, h2⟩ := filladdr_cases M addr type v s h_errnop hv hk hl ht
  have hfit : pad8 v.buf + 8 + 8 + hl + v.klen + 1 < v.bufsz := by
    by_cases hfit : pad8 v.buf + 8 + 8 + hl + v.klen + 1 < v.bufsz
    · exact hfit
    · rw [h1 hfit] at h
      simp only [Option.some.injEq, Prod.mk.injEq] at h
      exact absurd h.1 (by decide)
  obtain ⟨mem', he, hA, hL, hD, hN, _⟩ := h2 hfit
  rw [he] at h
  simp only [Option.some.injEq, Prod.mk.injEq] at h
  obtain ⟨_, hs, hh⟩ := h
  subst hs
  subst hh
  have hp : pad8 v.buf < 8 := by unfold pad8; omega
  refine ⟨rfl, rfl, rfl, hA, by simp only [Nat.add_assoc], ?_, hD, by simp only [Nat.add_assoc],
    fun i hi => hN i (by omega), ?_, hp, (ptrsz_pos M).2, by omega, rfl, rfl, rfl, rfl, ?_⟩
  · rw [hL, Nat.add_assoc]
  · show mem' (pad8 v.buf + 16 + hl + v.klen) = 0
    rw [hN v.klen (by omega)]
    unfold rd
    rw [List.getD_eq_default _ _ (by omega)]
  · intro inet_pton get_generic name buf bufsz hpos
    unfold _nss_mcdb_gethostbyname2_r
    simp only
    rw [if_neg (by omega), if_pos hpos]


/-- Instance of C14: the literal "127.0.0.1" with `AF_INET` in a buffer of 64 bytes at
address 4096 gives the address bytes 127, 0, 0, 1 at offset 16 and the name at offset 20. -/
theorem filladdr_success_layout_witness :
    valid_buf lp64le ex_v_literal ∧ ex_v_literal.klen + 40 < lp64le.umax
      ∧ ex_v_literal.key.length = ex_v_literal.klen
      ∧ host_status_of
          (nss_mcdb_netdb_gethost_filladdr lp64le ex_addr AF_INET ex_v_literal ex_poison_call 0)
        = some NSS_STATUS_SUCCESS
      ∧ (filladdr_state
          (nss_mcdb_netdb_gethost_filladdr lp64le ex_addr AF_INET ex_v_literal ex_poison_call 0)
          ex_poison_call).ent = ⟨4116, 4096, 2, 4, 4104⟩
      ∧ load_ptr lp64le (filladdr_state
          (nss_mcdb_netdb_gethost_filladdr lp64le ex_addr AF_INET ex_v_literal ex_poison_call 0)
          ex_poison_call).mem (pad8 ex_v_literal.buf) = 0
      ∧ load_ptr lp64le (filladdr_state
          (nss_mcdb_netdb_gethost_filladdr lp64le ex_addr AF_INET ex_v_literal ex_poison_call 0)
          ex_poison_call).mem (pad8 ex_v_literal.buf + 8)
        = ex_v_literal.buf + (pad8 ex_v_literal.buf + 16)
      ∧ (filladdr_state
          (nss_mcdb_netdb_gethost_filladdr lp64le ex_addr AF_INET ex_v_literal ex_poison_call 0)
          ex_poison_call).mem (pad8 ex_v_literal.buf + 16 + 0) = rd ex_addr 0
      ∧ (filladdr_state
          (nss_mcdb_netdb_gethost_filladdr lp64le ex_addr AF_INET ex_v_literal ex_poison_call 0)
          ex_poison_call).mem (pad8 ex_v_literal.buf + 16 + 3) = rd ex_addr 3
      ∧ rd ex_addr 0 = 127 ∧ rd ex_addr 3 = 1
      ∧ _nss_mcdb_gethostbyname2_r lp64le ex_pton_accept ex_store_unavail ex_name AF_INET
          4096 64 ex_poison_call 0
        = nss_mcdb_netdb_gethost_filladdr lp64le (ex_pton_accept AF_INET ex_name).2 AF_INET
            ⟨4096, 64, ex_name, ex_name.length, 126⟩ ex_poison_call 0 :=
  ⟨by decide, by decide, by decide, by decide, by decide,
    (filladdr_success_layout lp64le ex_addr AF_INET ex_v_literal ex_poison_call
      (filladdr_state
        (nss_mcdb_netdb_gethost_filladdr lp64le ex_addr AF_INET ex_v_literal ex_poison_call 0)
        ex_poison_call) 0 0 (by decide) (by decide) (by decide) 4 (Or.inl ⟨rfl, rfl⟩)
      rfl).2.2.2.1,
    (filladdr_success_layout lp64le ex_addr AF_INET ex_v_literal ex_poison_call
      (filladdr_state
        (nss_mcdb_netdb_gethost_filladdr lp64le ex_addr AF_INET ex_v_literal ex_poison_call 0)
        ex_poison_call) 0 0 (by decide) (by decide) (by decide) 4 (Or.inl ⟨rfl, rfl⟩)
      rfl).2.2.2.2.2.1,
    (filladdr_success_layout lp64le ex_addr AF_INET ex_v_literal ex_poison_call
      (filladdr_state
        (nss_mcdb_netdb_gethost_filladdr lp64le ex_addr AF_INET ex_v_literal ex_poison_call 0)
        ex_poison_call) 0 0 (by decide) (by decide) (by decide) 4 (Or.inl ⟨rfl, rfl⟩)
      rfl).2.2.2.2.2.2.1 0 (by decide),
    (filladdr_success_layout lp64le ex_addr AF_INET ex_v_literal ex_poison_call
      (filladdr_state
        (nss_mcdb_netdb_gethost_filladdr lp64le ex_addr AF_INET ex_v_literal ex_poison_call 0)
        ex_poison_call) 0 0 (by decide) (by decide) (by decide) 4 (Or.inl ⟨rfl, rfl⟩)
      rfl).2.2.2.2.2.2.1 3 (by decide),
    by decide, by decide,
    (filladdr_success_layout lp64le ex_addr AF_INET ex_v_literal ex_poison_call
      (filladdr_state
        (nss_mcdb_netdb_gethost_filladdr lp64le ex_addr AF_INET ex_v_literal ex_poison_call 0)
        ex_poison_call) 0 0 (by decide) (by decide) (by decide) 4 (Or.inl ⟨rfl, rfl⟩)
      rfl).2.2.2.2.2.2.2.2.2.2.2.2.2.2.2.2.2 ex_pton_accept ex_store_unavail ex_name 4096 64
      (by decide)⟩

theorem host_return_h_errnop {ε : Type} (r : Option (nss_status_t × State ε)) (h_errnop : Int)
    (st : nss_status_t) (s' : State ε) (h' : Int)
    (h : host_return r h_errnop = some (st, s', h')) :
    h' = (nss_mcdb_netdb_gethost_fill_h_errnop st h_errnop).2
      ∧ ∃ st0, r = some (st0, s') ∧ st = st0 := by
  unfold host_return at h
  split at h
  · exact absurd h (by simp)
  next status s0 =>
    split at h
    next hs =>
      simp only [Option.some.injEq, Prod.mk.injEq] at h
      obtain ⟨h1, h2, h3⟩ := h
      subst h1 h2 h3
      exact ⟨by simp [nss_mcdb_netdb_gethost_fill_h_errnop, NSS_STATUS_SUCCESS,
        NSS_STATUS_TRYAGAIN, NSS_STATUS_NOTFOUND], _, by rw [hs], hs.symm⟩
    next hs =>
      simp only [Option.some.injEq, Prod.mk.injEq] at h
      obtain ⟨h1, h2, h3⟩ := h
      have e1 : (nss_mcdb_netdb_gethost_fill_h_errnop status h_errnop).1 = status := by
        unfold nss_mcdb_netdb_gethost_fill_h_errnop
        split
        · rfl
        · split
          · rfl
          · split <;> rfl
      rw [e1] at h1
      subst h1 h2
      exact ⟨h3.symm, _, rfl, rfl⟩

theorem fill_h_errnop_fst (status : nss_status_t) (h_errnop : Int) :
    (nss_mcdb_netdb_gethost_fill_h_errnop status h_errnop).1 = status := by
  unfold nss_mcdb_netdb_gethost_fill_h_errnop
  split
  · rfl
  · split
    · rfl
    · split <;> rfl

theorem filladdr_h_errnop (M : Machine) (addr : List Nat) (type : Int) (v : nss_mcdb_vinfo)
    (s s' : State hostent) (h_errnop h' : Int) (st : nss_status_t)
    (h : nss_mcdb_netdb_gethost_filladdr M addr type v s h_errnop = some (st, s', h')) :
    h' = (nss_mcdb_netdb_gethost_fill_h_errnop st h_errnop).2 := by
  unfold nss_mcdb_netdb_gethost_filladdr at h
  simp only at h
  repeat' split at h
  all_goals first
    | (simp only [Option.some.injEq, Prod.mk.injEq] at h
       obtain ⟨h1, _, h3⟩ := h
       subst h1 h3
       simp [nss_mcdb_netdb_gethost_fill_h_errnop, NSS_STATUS_SUCCESS, NSS_STATUS_TRYAGAIN,
         NSS_STATUS_NOTFOUND, NSS_STATUS_UNAVAIL])
    | exact absurd h (by simp)


/-- C16: `nss_mcdb_netdb_gethost_fill_h_errnop` returns its status argument and maps it to
`*h_errnop`: `TRY_AGAIN` for `NSS_STATUS_TRYAGAIN`, `HOST_NOT_FOUND` for
`NSS_STATUS_NOTFOUND`, `NO_RECOVERY` for every other status but `NSS_STATUS_SUCCESS`, for
which `*h_errnop` is left as it was; whatever a host or network entry point returns,
`*h_errnop` after the call is that mapping of the status returned, hence untouched on
`NSS_STATUS_SUCCESS`. -/
theorem h_errnop_mapping (M : Machine) (h_errnop : Int) :
    (∀ status : nss_status_t,
        (nss_mcdb_netdb_gethost_fill_h_errnop status h_errnop).1 = status
          ∧ (status = NSS_STATUS_TRYAGAIN →
              (nss_mcdb_netdb_gethost_fill_h_errnop status h_errnop).2 = TRY_AGAIN)
          ∧ (status = NSS_STATUS_NOTFOUND →
              (nss_mcdb_netdb_gethost_fill_h_errnop status h_errnop).2 = HOST_NOT_FOUND)
          ∧ (status ≠ NSS_STATUS_TRYAGAIN → status ≠ NSS_STATUS_NOTFOUND →
              status ≠ NSS_STATUS_SUCCESS →
              (nss_mcdb_netdb_gethost_fill_h_errnop status h_errnop).2 = NO_RECOVERY)
          ∧ (status = NSS_STATUS_SUCCESS →
              (nss_mcdb_netdb_gethost_fill_h_errnop status h_errnop).2 = h_errnop))
      ∧ (∀ (getent : StoreCall hostent) (buf bufsz : Nat) (s s' : State hostent)
          (st : nss_status_t) (h' : Int),
          _nss_mcdb_gethostent_r getent buf bufsz s h_errnop = some (st, s', h') →
          h' = (nss_mcdb_netdb_gethost_fill_h_errnop st h_errnop).2)
      ∧ (∀ (inet_pton : InetPton) (get_generic : StoreCall hostent) (name : List Nat)
          (type : Int) (buf bufsz : Nat) (s s' : State hostent) (st : nss_status_t) (h' : Int),
          _nss_mcdb_gethostbyname2_r M inet_pton get_generic name type buf bufsz s h_errnop
            = some (st, s', h') →
          h' = (nss_mcdb_netdb_gethost_fill_h_errnop st h_errnop).2)
      ∧ (∀ (inet_pton : InetPton) (get_generic : StoreCall hostent) (name : List Nat)
          (buf bufsz : Nat) (s s' : State hostent) (st : nss_status_t) (h' : Int),
          _nss_mcdb_gethostbyname_r M inet_pton get_generic name buf bufsz s h_errnop
            = some (st, s', h') →
          h' = (nss_mcdb_netdb_gethost_fill_h_errnop st h_errnop).2)
      ∧ (∀ (get_generic : StoreCall hostent) (addr : List Nat) (len : Nat) (type : Int)
          (buf bufsz : Nat) (s s' : State hostent) (st : nss_status_t) (h' : Int),
          _nss_mcdb_gethostbyaddr_r get_generic addr len type buf bufsz s h_errnop
            = some (st, s', h') →
          h' = (nss_mcdb_netdb_gethost_fill_h_errnop st h_errnop).2)
      ∧ (∀ (getent : StoreCall netent) (buf bufsz : Nat) (s s' : State netent)
          (st : nss_status_t) (h' : Int),
          _nss_mcdb_getnetent_r getent buf bufsz s h_errnop = some (st, s', h') →
          h' = (nss_mcdb_netdb_gethost_fill_h_errnop st h_errnop).2)
      ∧ (∀ (get_generic : StoreCall netent) (name : List Nat) (buf bufsz : Nat)
          (s s' : State netent) (st : nss_status_t) (h' : Int),
          _nss_mcdb_getnetbyname_r get_generic name buf bufsz s h_errnop = some (st, s', h') →
          h' = (nss_mcdb_netdb_gethost_fill_h_errnop st h_errnop).2)
      ∧ (∀ (get_generic : StoreCall netent) (net : Nat) (type : Int) (buf bufsz : Nat)
          (s s' : State netent) (st : nss_status_t) (h' : Int),
          _nss_mcdb_getnetbyaddr_r M get_generic net type buf bufsz s h_errnop
            = some (st, s', h') →
          h' = (nss_mcdb_netdb_gethost_fill_h_errnop st h_errnop).2) := by
  have hq : ∀ (get_generic : StoreCall hostent) (type : Nat) (v : nss_mcdb_vinfo)
      (s s' : State hostent) (st : nss_status_t) (h' : Int),
      nss_mcdb_netdb_gethost_query get_generic type v s h_errnop = some (st, s', h') →
      h' = (nss_mcdb_netdb_gethost_fill_h_errnop st h_errnop).2 := by
    intro get_generic type v s s' st h' h
    unfold nss_mcdb_netdb_gethost_query at h
    split at h
    · exact (host_return_h_errnop _ _ _ _ _ h).1
    · exact (host_return_h_errnop _ _ _ _ _ h).1
  have h2 : ∀ (inet_pton : InetPton) (get_generic : StoreCall hostent) (name : List Nat)
      (type : Int) (buf bufsz : Nat) (s s' : State hostent) (st : nss_status_t) (h' : Int),
      _nss_mcdb_gethostbyname2_r M inet_pton get_generic name type buf bufsz s h_errnop
        = some (st, s', h') →
      h' = (nss_mcdb_netdb_gethost_fill_h_errnop st h_errnop).2 := by
    intro inet_pton get_generic name type buf bufsz s s' st h' h
    unfold _nss_mcdb_gethostbyname2_r at h
    simp only at h
    split at h
    · exact hq _ _ _ _ _ _ _ h
    · split at h
      · exact filladdr_h_errnop M _ _ _ _ _ _ _ _ h
      · simp only [Option.some.injEq, Prod.mk.injEq] at h
        obtain ⟨h1, _, h3⟩ := h
        rw [fill_h_errnop_fst] at h1
        subst h1
        exact h3.symm
  refine ⟨?_, ?_, h2, ?_, ?_, ?_, ?_, ?_⟩
  · intro status
    refine ⟨fill_h_errnop_fst status h_errnop, ?_, ?_, ?_, ?_⟩
    · intro h
      subst h
      rfl
    · intro h
      subst h
      rfl
    · intro h1 h2 h3
      unfold nss_mcdb_netdb_gethost_fill_h_errnop
      rw [if_neg (fun e => h1 e.symm), if_neg (fun e => h2 e.symm), if_pos (fun e => h3 e.symm)]
    · intro h
      subst h
      rfl
  · intro getent buf bufsz s s' st h' h
    unfold _nss_mcdb_gethostent_r at h
    simp only at h
    split at h
    · exact (host_return_h_errnop _ _ _ _ _ h).1
    · exact (host_return_h_errnop _ _ _ _ _ h).1
  · intro inet_pton get_generic name buf bufsz s s' st h' h
    exact h2 inet_pton get_generic name AF_INET buf bufsz s s' st h' h
  · intro get_generic addr len type buf bufsz s s' st h' h
    exact hq _ _ _ _ _ _ _ h
  · intro getent buf bufsz s s' st h' h
    exact (host_return_h_errnop _ _ _ _ _ h).1
  · intro get_generic name buf bufsz s s' st h' h
    exact (host_return_h_errnop _ _ _ _ _ h).1
  · intro get_generic net type buf bufsz s s' st h' h
    exact (host_return_h_errnop _ _ _ _ _ h).1

/-- C17, as stated, fails: given the address family 1 (`AF_UNIX`),
`nss_mcdb_netdb_gethost_filladdr` returns `NSS_STATUS_UNAVAIL`, the status of an unavailable
store, not `NSS_STATUS_RETURN`. -/
theorem filladdr_unsupported_family_unavail :
    host_status_of
        (nss_mcdb_netdb_gethost_filladdr lp64le ex_addr 1 ex_v_literal ex_poison_call 0)
      = some NSS_STATUS_UNAVAIL
    ∧ NSS_STATUS_UNAVAIL ≠ NSS_STATUS_RETURN := by
  decide

/-- C17, amended: an address family that `inet_pton` rejects makes
`_nss_mcdb_gethostbyname2_r` return `NSS_STATUS_RETURN`, distinct from not-found and from
store-unavailable, with `*h_errnop = NO_RECOVERY`, whatever the store, and with the buffer,
the output structure, `*errnop` and the cursor as they were; a type other than `AF_INET` and
`AF_INET6` makes `nss_mcdb_netdb_gethost_filladdr` return `NSS_STATUS_UNAVAIL` with
`*errnop = errno = ENOENT` and `*h_errnop = NO_RECOVERY`, the buffer, the output structure
and the cursor as they were. -/
theorem unsupported_family_status (M : Machine) (type : Int) (s : State hostent)
    (h_errnop : Int) :
    (∀ (inet_pton : InetPton) (get_generic : StoreCall hostent) (name : List Nat)
        (buf bufsz : Nat), (inet_pton type name).1 < 0 →
        _nss_mcdb_gethostbyname2_r M inet_pton get_generic name type buf bufsz s h_errnop
          = some (NSS_STATUS_RETURN, s, NO_RECOVERY))
      ∧ (∀ (addr : List Nat) (v : nss_mcdb_vinfo), type ≠ AF_INET → type ≠ AF_INET6 →
        nss_mcdb_netdb_gethost_filladdr M addr type v s h_errnop
          = some (NSS_STATUS_UNAVAIL, { s with errnop := ENOENT, errno := ENOENT },
              NO_RECOVERY))
      ∧ (∀ (inet_pton : InetPton) (get_generic : StoreCall hostent) (name : List Nat)
        (buf bufsz : Nat), 0 < (inet_pton type name).1 → type ≠ AF_INET → type ≠ AF_INET6 →
        _nss_mcdb_gethostbyname2_r M inet_pton get_generic name type buf bufsz s h_errnop
          = some (NSS_STATUS_UNAVAIL, { s with errnop := ENOENT, errno := ENOENT },
              NO_RECOVERY))
      ∧ NSS_STATUS_RETURN ≠ NSS_STATUS_NOTFOUND ∧ NSS_STATUS_RETURN ≠ NSS_STATUS_UNAVAIL := by
  have hf : ∀ (addr : List Nat) (v : nss_mcdb_vinfo), type ≠ AF_INET → type ≠ AF_INET6 →
      nss_mcdb_netdb_gethost_filladdr M addr type v s h_errnop
        = some (NSS_STATUS_UNAVAIL, { s with errnop := ENOENT, errno := ENOENT },
            NO_RECOVERY) := by
    intro addr v h4 h6
    unfold nss_mcdb_netdb_gethost_filladdr
    simp only
    rw [if_neg (by simp [h4, h6])]
    rfl
  refine ⟨?_, hf, ?_, by decide, by decide⟩
  · intro inet_pton get_generic name buf bufsz hneg
    unfold _nss_mcdb_gethostbyname2_r
    simp only
    rw [if_neg (by omega), if_neg (by omega)]
    rfl
  · intro inet_pton get_generic name buf bufsz hpos h4 h6
    unfold _nss_mcdb_gethostbyname2_r
    simp only
    rw [if_neg (by omega), if_pos hpos]
    exact hf _ _ h4 h6

/-- Instance of C17: family 1 with an `inet_pton` that rejects it, and the routine
`nss_mcdb_netdb_gethost_filladdr` given family 1. -/
theorem unsupported_family_status_witness :
    (ex_pton_nosupport 1 ex_name).1 < 0
      ∧ _nss_mcdb_gethostbyname2_r lp64le ex_pton_nosupport ex_store_unavail ex_name 1 4096 64
          ex_poison_call 0
        = some (NSS_STATUS_RETURN, ex_poison_call, NO_RECOVERY)
      ∧ nss_mcdb_netdb_gethost_filladdr lp64le ex_addr 1 ex_v_literal ex_poison_call 0
        = some (NSS_STATUS_UNAVAIL, { ex_poison_call with errnop := ENOENT, errno := ENOENT },
            NO_RECOVERY) :=
  ⟨by decide,
    (unsupported_family_status lp64le 1 ex_poison_call 0).1 ex_pton_nosupport
      ex_store_unavail ex_name 4096 64 (by decide),
    (unsupported_family_status lp64le 1 ex_poison_call 0).2.1 ex_addr ex_v_literal
      (by decide) (by decide)⟩

/-- Instance of C16: a network query on an unavailable store returns `NO_RECOVERY`; the
literal "127.0.0.1" succeeds and leaves the value 7 of `*h_errnop`. -/
theorem h_errnop_mapping_witness :
    _nss_mcdb_getnetbyname_r (ex_store_unavail : StoreCall netent) [108, 111] 4096 64
        ex_net_call 0
      = some (NSS_STATUS_UNAVAIL, ex_net_call, NO_RECOVERY)
    ∧ NO_RECOVERY = (nss_mcdb_netdb_gethost_fill_h_errnop NSS_STATUS_UNAVAIL 0).2
    ∧ host_status_of (_nss_mcdb_gethostbyname2_r lp64le ex_pton_accept ex_store_unavail
        ex_name AF_INET 4096 64 ex_poison_call 7) = some NSS_STATUS_SUCCESS
    ∧ h_errnop_of (_nss_mcdb_gethostbyname2_r lp64le ex_pton_accept ex_store_unavail
        ex_name AF_INET 4096 64 ex_poison_call 7) = some 7
    ∧ 7 = (nss_mcdb_netdb_gethost_fill_h_errnop NSS_STATUS_SUCCESS 7).2 :=
  ⟨rfl,
    (h_errnop_mapping lp64le 0).2.2.2.2.2.2.1 ex_store_unavail [108, 111] 4096 64 ex_net_call
      ex_net_call NSS_STATUS_UNAVAIL NO_RECOVERY rfl,
    by decide, by decide,
    (h_errnop_mapping lp64le 7).2.2.1 ex_pton_accept ex_store_unavail ex_name AF_INET 4096 64
      ex_poison_call
      (filladdr_state (_nss_mcdb_gethostbyname2_r lp64le ex_pton_accept ex_store_unavail
        ex_name AF_INET 4096 64 ex_poison_call 7) ex_poison_call)
      NSS_STATUS_SUCCESS 7 rfl⟩

/-! ## Byte order -/

theorem swap_bytes (b0 b1 b2 b3 : Nat) (h0 : b0 < 256) (h1 : b1 < 256) (h2 : b2 < 256)
    (h3 : b3 < 256) :
    (b0 * 16777216 + b1 * 65536 + b2 * 256 + b3) % 256 = b3
      ∧ (b0 * 16777216 + b1 * 65536 + b2 * 256 + b3) / 256 % 256 = b2
      ∧ (b0 * 16777216 + b1 * 65536 + b2 * 256 + b3) / 65536 % 256 = b1
      ∧ (b0 * 16777216 + b1 * 65536 + b2 * 256 + b3) / 16777216 % 256 = b0 := by
  refine ⟨?_, ?_, ?_, ?_⟩ <;> omega

theorem u32_bytes_htonl (M : Machine) (u : Nat) (hu : u < 4294967296) :
    u32_bytes M (htonl M u) = be32_bytes u := by
  unfold u32_bytes htonl be32_bytes
  cases M.big_endian
  · simp only [Bool.false_eq_true, if_false]
    obtain ⟨e3, e2, e1, e0⟩ := swap_bytes (u % 256) (u / 256 % 256) (u / 65536 % 256)
      (u / 16777216 % 256) (Nat.mod_lt _ (by decide)) (Nat.mod_lt _ (by decide))
      (Nat.mod_lt _ (by decide)) (Nat.mod_lt _ (by decide))
    rw [e3, e2, e1, e0]
  · simp only [if_true]
    rw [Nat.mod_eq_of_lt hu]

theorem to_u32_lt (x : Int) : to_u32 x < 4294967296 := by
  unfold to_u32
  omega

theorem be32_bytes_to_u32 (x : Int) :
    be32_bytes (to_u32 x)
      = [(x / 16777216 % 256).toNat, (x / 65536 % 256).toNat, (x / 256 % 256).toNat,
          (x % 256).toNat] := by
  unfold be32_bytes to_u32
  simp only [List.cons.injEq, and_true]
  refine ⟨?_, ?_, ?_, ?_⟩ <;> omega

theorem be32_be32_bytes (u : Nat) (hu : u < 4294967296) : be32 (be32_bytes u) 0 = u := by
  unfold be32 be32_bytes rd
  simp only [List.getD_cons_zero, List.getD_cons_succ, Nat.zero_add]
  omega

theorem rd_take (d : List Nat) (n i : Nat) (h : i < n) : rd (d.take n) i = rd d i := by
  simp [rd, List.getD_eq_getElem?_getD, List.getElem?_take, h]

theorem hdr32_eq_be32 (M : Machine) (d : List Nat) (hdrsz c : Nat) (h : field32 hdrsz c) :
    hdr32 M d hdrsz c = be32 d c := by
  obtain ⟨h4, hc⟩ := h
  have hi : 4 * (c >>> 2) = c := by
    rw [Nat.shiftRight_eq_div_pow]
    omega
  unfold hdr32 ntohl load32 be32
  rw [hi, rd_take d hdrsz c (by omega), rd_take d hdrsz (c + 1) (by omega),
    rd_take d hdrsz (c + 2) (by omega), rd_take d hdrsz (c + 3) (by omega)]
  have b0 : rd d c % 256 < 256 := Nat.mod_lt _ (by decide)
  have b1 : rd d (c + 1) % 256 < 256 := Nat.mod_lt _ (by decide)
  have b2 : rd d (c + 2) % 256 < 256 := Nat.mod_lt _ (by decide)
  have b3 : rd d (c + 3) % 256 < 256 := Nat.mod_lt _ (by decide)
  cases M.big_endian
  · simp only [Bool.false_eq_true, if_false]
    obtain ⟨e3, e2, e1, e0⟩ := swap_bytes _ _ _ _ b3 b2 b1 b0
    rw [e3, e2, e1, e0]
  · simp only [if_true]
    omega

theorem hdr16_eq_be16 (M : Machine) (d : List Nat) (hdrsz c : Nat) (h : field16 hdrsz c) :
    hdr16 M d hdrsz c = be16 d c := by
  obtain ⟨h2, hc⟩ := h
  have hi : 2 * (c >>> 1) = c := by
    rw [Nat.shiftRight_eq_div_pow]
    omega
  unfold hdr16 ntohs load16 be16
  rw [hi, rd_take d hdrsz c (by omega), rd_take d hdrsz (c + 1) (by omega)]
  cases M.big_endian
  · simp only [Bool.false_eq_true, if_false]
    omega
  · simp only [if_true]
    omega

/-- The memory of the `int` that holds `hdr.u[c>>2]` is the four header bytes. -/
theorem int_bytes_load32 (M : Machine) (d : List Nat) (hdrsz c : Nat) (h : field32 hdrsz c) :
    int_bytes M (to_int (load32 M (d.take hdrsz) (c >>> 2)))
      = [rd d c % 256, rd d (c + 1) % 256, rd d (c + 2) % 256, rd d (c + 3) % 256] := by
  obtain ⟨h4, hc⟩ := h
  have hi : 4 * (c >>> 2) = c := by
    rw [Nat.shiftRight_eq_div_pow]
    omega
  have b0 : rd d c % 256 < 256 := Nat.mod_lt _ (by decide)
  have b1 : rd d (c + 1) % 256 < 256 := Nat.mod_lt _ (by decide)
  have b2 : rd d (c + 2) % 256 < 256 := Nat.mod_lt _ (by decide)
  have b3 : rd d (c + 3) % 256 < 256 := Nat.mod_lt _ (by decide)
  have key : ∀ x : Nat, x < 4294967296 → (to_int x % 4294967296).toNat = x := by
    intro x hx
    unfold to_int
    split <;> omega
  unfold int_bytes load32
  rw [hi, rd_take d hdrsz c (by omega), rd_take d hdrsz (c + 1) (by omega),
    rd_take d hdrsz (c + 2) (by omega), rd_take d hdrsz (c + 3) (by omega)]
  cases M.big_endian
  · simp only [Bool.false_eq_true, if_false]
    rw [key _ (by omega)]
    obtain ⟨e3, e2, e1, e0⟩ := swap_bytes _ _ _ _ b3 b2 b1 b0
    rw [e3, e2, e1, e0]
  · simp only [if_true]
    rw [key _ (by omega)]
    obtain ⟨e3, e2, e1, e0⟩ := swap_bytes _ _ _ _ b0 b1 b2 b3
    rw [e3, e2, e1, e0]

/-! ## Keys and header conversion, claims -/

/-- C18: on either host byte order the by-number queries of protocols and rpc pass the store
the 4-byte big-endian encoding of the number as key, with key length 4 and tag 'x' (120), the
network by-address query the 8 bytes made of the big-endian encodings of `net` and of the
address family, with tag 'x'; the by-name queries pass the bytes of the name, its `strlen`
as key length and tag '~' (126). -/
theorem numeric_keys_big_endian (M : Machine) :
    (∀ (g : StoreCall protoent) (proto : Int) (buf bufsz : Nat) (s : State protoent),
        _nss_mcdb_getprotobynumber_r M g proto buf bufsz s
          = g ⟨buf, bufsz, be32_bytes (to_u32 proto), 4, 120⟩ s)
      ∧ (∀ (g : StoreCall rpcent) (number : Int) (buf bufsz : Nat) (s : State rpcent),
        _nss_mcdb_getrpcbynumber_r M g number buf bufsz s
          = g ⟨buf, bufsz, be32_bytes (to_u32 number), 4, 120⟩ s)
      ∧ (∀ (g : StoreCall netent) (net : Nat) (type : Int) (buf bufsz : Nat) (s : State netent)
          (h_errnop : Int),
        _nss_mcdb_getnetbyaddr_r M g net type buf bufsz s h_errnop
          = host_return
              (g ⟨buf, bufsz, be32_bytes (net % 4294967296) ++ be32_bytes (to_u32 type), 8,
                120⟩ s) h_errnop)
      ∧ (∀ x : Int,
          be32_bytes (to_u32 x)
              = [(x / 16777216 % 256).toNat, (x / 65536 % 256).toNat, (x / 256 % 256).toNat,
                  (x % 256).toNat]
            ∧ (be32_bytes (to_u32 x)).length = 4
            ∧ be32 (be32_bytes (to_u32 x)) 0 = to_u32 x)
      ∧ (∀ net : Nat, ∀ type : Int,
          (be32_bytes (net % 4294967296) ++ be32_bytes (to_u32 type)).length = 8
            ∧ be32 (be32_bytes (net % 4294967296) ++ be32_bytes (to_u32 type)) 0
              = net % 4294967296
            ∧ be32 (be32_bytes (net % 4294967296) ++ be32_bytes (to_u32 type)) 4
              = to_u32 type)
      ∧ (∀ (g : StoreCall netent) (name : List Nat) (buf bufsz : Nat) (s : State netent)
          (h_errnop : Int),
        _nss_mcdb_getnetbyname_r g name buf bufsz s h_errnop
          = host_return (g ⟨buf, bufsz, name, name.length, 126⟩ s) h_errnop)
      ∧ (∀ (g : StoreCall protoent) (name : List Nat) (buf bufsz : Nat) (s : State protoent),
        _nss_mcdb_getprotobyname_r g name buf bufsz s
          = g ⟨buf, bufsz, name, name.length, 126⟩ s)
      ∧ (∀ (g : StoreCall rpcent) (name : List Nat) (buf bufsz : Nat) (s : State rpcent),
        _nss_mcdb_getrpcbyname_r g name buf bufsz s
          = g ⟨buf, bufsz, name, name.length, 126⟩ s)
      ∧ (∀ (g : StoreCall servent) (name : List Nat) (proto : Option (List Nat))
          (buf bufsz : Nat) (s : State servent), bufsz > (proto.getD []).length →
        _nss_mcdb_getservbyname_r g name proto buf bufsz s
          = g ⟨buf, bufsz, name, name.length, 126⟩ { s with mem := stage_proto s.mem proto })
      ∧ (∀ (inet_pton : InetPton) (g : StoreCall hostent) (name : List Nat) (type : Int)
          (buf bufsz : Nat) (s : State hostent) (h_errnop : Int),
          (inet_pton type name).1 = 0 →
        _nss_mcdb_gethostbyname2_r M inet_pton g name type buf bufsz s h_errnop
          = nss_mcdb_netdb_gethost_query g (to_u32 type) ⟨buf, bufsz, name, name.length, 126⟩
              s h_errnop) := by
  refine ⟨?_, ?_, ?_, ?_, ?_, ?_, ?_, ?_, ?_, ?_⟩
  · intro g proto buf bufsz s
    unfold _nss_mcdb_getprotobynumber_r
    simp only
    rw [u32_bytes_htonl M _ (to_u32_lt proto)]
  · intro g number buf bufsz s
    unfold _nss_mcdb_getrpcbynumber_r
    simp only
    rw [u32_bytes_htonl M _ (to_u32_lt number)]
  · intro g net type buf bufsz s h_errnop
    unfold _nss_mcdb_getnetbyaddr_r
    simp only
    rw [u32_bytes_htonl M _ (to_u32_lt type),
      u32_bytes_htonl M _ (Nat.mod_lt _ (by decide))]
  · intro x
    exact ⟨be32_bytes_to_u32 x, rfl, be32_be32_bytes _ (to_u32_lt x)⟩
  · intro net type
    refine ⟨rfl, ?_, ?_⟩
    · have := be32_be32_bytes (net % 4294967296) (Nat.mod_lt _ (by decide))
      unfold be32 at this ⊢
      rw [rd_append_left _ _ _ (by simp [be32_bytes]), rd_append_left _ _ _ (by simp [be32_bytes]),
        rd_append_left _ _ _ (by simp [be32_bytes]), rd_append_left _ _ _ (by simp [be32_bytes])]
      exact this
    · have := be32_be32_bytes (to_u32 type) (to_u32_lt type)
      unfold be32 at this ⊢
      have hl : (be32_bytes (net % 4294967296)).length = 4 := rfl
      have e0 := rd_append_right (be32_bytes (net % 4294967296)) (be32_bytes (to_u32 type)) 0
      have e1 := rd_append_right (be32_bytes (net % 4294967296)) (be32_bytes (to_u32 type)) 1
      have e2 := rd_append_right (be32_bytes (net % 4294967296)) (be32_bytes (to_u32 type)) 2
      have e3 := rd_append_right (be32_bytes (net % 4294967296)) (be32_bytes (to_u32 type)) 3
      rw [hl] at e0 e1 e2 e3
      simp only [Nat.add_zero, Nat.zero_add] at e0 e1 e2 e3 this
      rw [show (4 : Nat) + 1 = 5 from rfl, show (4 : Nat) + 2 = 6 from rfl,
        show (4 : Nat) + 3 = 7 from rfl] at *
      rw [e0, e1, e2, e3]
      exact this
  · intro g name buf bufsz s h_errnop
    rfl
  · intro g name buf bufsz s
    rfl
  · intro g name buf bufsz s
    rfl
  · intro g name proto buf bufsz s hsz
    unfold _nss_mcdb_getservbyname_r
    simp only
    rw [if_pos hsz]
  · intro inet_pton g name type buf bufsz s h_errnop h0
    unfold _nss_mcdb_gethostbyname2_r
    simp only
    rw [if_pos h0]


/-- Instance of C18: protocol number 6 on a little-endian and on a big-endian host, and the
protocol name "tcp". -/
theorem numeric_keys_big_endian_witness :
    _nss_mcdb_getprotobynumber_r lp64le ex_store_record 6 4096 64 ex_proto_call
        = ex_store_record ⟨4096, 64, be32_bytes (to_u32 6), 4, 120⟩ ex_proto_call
      ∧ _nss_mcdb_getprotobynumber_r lp64be ex_store_record 6 4096 64 ex_proto_call
        = ex_store_record ⟨4096, 64, be32_bytes (to_u32 6), 4, 120⟩ ex_proto_call
      ∧ be32_bytes (to_u32 6) = [0, 0, 0, 6]
      ∧ 64 > ((some [116, 99, 112] : Option (List Nat)).getD []).length
      ∧ _nss_mcdb_getservbyname_r ex_store_record [101, 99, 104, 111] (some [116, 99, 112])
          4096 64 ex_serv_call
        = ex_store_record ⟨4096, 64, [101, 99, 104, 111], [101, 99, 104, 111].length, 126⟩
            { ex_serv_call with mem := stage_proto ex_serv_call.mem (some [116, 99, 112]) } :=
  ⟨(numeric_keys_big_endian lp64le).1 ex_store_record 6 4096 64 ex_proto_call,
    (numeric_keys_big_endian lp64be).1 ex_store_record 6 4096 64 ex_proto_call,
    by decide, by decide,
    (numeric_keys_big_endian lp64le).2.2.2.2.2.2.2.2.1 ex_store_record [101, 99, 104, 111]
      (some [116, 99, 112]) 4096 64 ex_serv_call (by decide)⟩

/-- C19, as stated, fails on a little-endian host: for port 7 the argument is
`htons(7) = 1792` and the key handed to the store is the memory of that `int`, the bytes
0, 7, 0, 0, where the 4-byte big-endian encoding of 7 is 0, 0, 0, 7. -/
theorem servbyport_key_not_big_endian :
    htons lp64le 7 = 1792
      ∧ (state_of (_nss_mcdb_getservbyport_r lp64le ex_store_record 1792 none 4096 64
          ex_serv_call) ex_serv_call).m.data = [0, 7, 0, 0]
      ∧ (state_of (_nss_mcdb_getservbyport_r lp64le ex_store_record 1792 none 4096 64
          ex_serv_call) ex_serv_call).m.nexts = 4
      ∧ (state_of (_nss_mcdb_getservbyport_r lp64le ex_store_record 1792 none 4096 64
          ex_serv_call) ex_serv_call).m.dups = [[120]]
      ∧ be32_bytes 7 = [0, 0, 0, 7] := by
  decide

/-- C19, amended: the key of `_nss_mcdb_getservbyport_r` is the four bytes of its `int`
argument as they lie in memory, with key length 4 and tag 'x' (120); for a port number `p`
in `[0, 65535]` passed as `htons(p)` these are `0, 0, p >> 8, p & 255` on a big-endian host
and `p >> 8, p & 255, 0, 0` on a little-endian host. -/
theorem servbyport_key_host_order (M : Machine) (g : StoreCall servent)
    (proto : Option (List Nat)) (buf bufsz : Nat) (s : State servent)
    (hsz : bufsz > (proto.getD []).length) :
    (∀ port : Int,
        _nss_mcdb_getservbyport_r M g port proto buf bufsz s
          = g ⟨buf, bufsz, int_bytes M port, 4, 120⟩ { s with mem := stage_proto s.mem proto })
      ∧ (∀ p : Nat, p < 65536 →
          int_bytes M (htons M p : Nat)
            = if M.big_endian then [0, 0, p / 256, p % 256] else [p / 256, p % 256, 0, 0]) := by
  constructor
  · intro port
    unfold _nss_mcdb_getservbyport_r
    simp only
    rw [if_pos hsz]
  · intro p hp
    have key : ∀ x : Nat, x < 4294967296 → (((x : Nat) : Int) % 4294967296).toNat = x := by
      intro x hx
      omega
    have hlo : p % 256 < 256 := Nat.mod_lt _ (by decide)
    have hhi : p / 256 < 256 := by omega
    have e1 : p / 256 % 256 = p / 256 := Nat.mod_eq_of_lt hhi
    unfold int_bytes htons
    cases M.big_endian
    · simp only [Bool.false_eq_true, if_false]
      rw [e1, key _ (by omega)]
      generalize p % 256 = lo at *
      generalize p / 256 = hi at *
      simp only [List.cons.injEq, and_true]
      refine ⟨?_, ?_, ?_, ?_⟩ <;> omega
    · simp only [if_true]
      rw [Nat.mod_eq_of_lt (by omega : p < 65536), key _ (by omega)]
      simp only [List.cons.injEq, and_true]
      refine ⟨?_, ?_, ?_⟩ <;> omega

/-- Instance of C19: port 7 on a little-endian and on a big-endian host. -/
theorem servbyport_key_host_order_witness :
    ex_v.bufsz > ((none : Option (List Nat)).getD []).length
      ∧ _nss_mcdb_getservbyport_r lp64le ex_store_record (htons lp64le 7 : Nat) none 4096 64
          ex_serv_call
        = ex_store_record ⟨4096, 64, int_bytes lp64le (htons lp64le 7 : Nat), 4, 120⟩
            { ex_serv_call with mem := stage_proto ex_serv_call.mem none }
      ∧ int_bytes lp64le (htons lp64le 7 : Nat) = [0, 7, 0, 0]
      ∧ int_bytes lp64be (htons lp64be 7 : Nat) = [0, 0, 0, 7] :=
  ⟨by decide,
    (servbyport_key_host_order lp64le ex_store_record none 4096 64 ex_serv_call
      (by decide)).1 (htons lp64le 7 : Nat),
    (servbyport_key_host_order lp64le ex_store_record none 4096 64 ex_serv_call
      (by decide)).2 7 (by decide),
    (servbyport_key_host_order lp64be ex_store_record none 4096 64 ex_serv_call
      (by decide)).2 7 (by decide)⟩


/-- Each routine written with big-endian header values. -/
theorem hostent_fill_eq_be (M : Machine) (L : HostentLayout) (v : nss_mcdb_vinfo)
    (h : host_fields L) (s : State hostent) :
    hostent_fill M L v s = hostent_fill_be M L v s := by
  obtain ⟨h1, h2, h3, h4, h5, h6, h7⟩ := h
  unfold hostent_fill hostent_fill_be
  simp only [hdr32_eq_be32 M _ _ _ h1, hdr32_eq_be32 M _ _ _ h2, hdr16_eq_be16 M _ _ _ h3,
    hdr16_eq_be16 M _ _ _ h4, hdr16_eq_be16 M _ _ _ h5, hdr16_eq_be16 M _ _ _ h6,
    hdr16_eq_be16 M _ _ _ h7]

theorem netent_decode_eq_be (M : Machine) (L : NetentLayout) (v : nss_mcdb_vinfo)
    (h : net_fields L) (s : State netent) :
    nss_mcdb_netdb_netent_decode M L v s
      = pack_aliases M v L.NSS_NE_HDRSZ (be16 s.m.data L.NSS_NE_MEM_STR)
          (be16 s.m.data L.NSS_NE_MEM_NUM) s
          ⟨v.buf, align8u M v.buf (be16 s.m.data L.NSS_NE_MEM),
            to_int (be32 s.m.data L.NSS_N_ADDRTYPE), be32 s.m.data L.NSS_N_NET⟩
          (align8u M v.buf (be16 s.m.data L.NSS_NE_MEM)) := by
  obtain ⟨h1, h2, h3, h4, h5⟩ := h
  unfold nss_mcdb_netdb_netent_decode
  simp only [hdr32_eq_be32 M _ _ _ h1, hdr32_eq_be32 M _ _ _ h2, hdr16_eq_be16 M _ _ _ h3,
    hdr16_eq_be16 M _ _ _ h4, hdr16_eq_be16 M _ _ _ h5]

theorem protoent_decode_eq_be (M : Machine) (L : ProtoentLayout) (v : nss_mcdb_vinfo)
    (h : proto_fields L) (s : State protoent) :
    nss_mcdb_netdb_protoent_decode M L v s
      = pack_aliases M v L.NSS_PE_HDRSZ (be16 s.m.data L.NSS_PE_MEM_STR)
          (be16 s.m.data L.NSS_PE_MEM_NUM) s
          ⟨v.buf, align8u M v.buf (be16 s.m.data L.NSS_PE_MEM),
            to_int (be32 s.m.data L.NSS_P_PROTO)⟩
          (align8u M v.buf (be16 s.m.data L.NSS_PE_MEM)) := by
  obtain ⟨h1, h3, h4, h5⟩ := h
  unfold nss_mcdb_netdb_protoent_decode
  simp only [hdr32_eq_be32 M _ _ _ h1, hdr16_eq_be16 M _ _ _ h3,
    hdr16_eq_be16 M _ _ _ h4, hdr16_eq_be16 M _ _ _ h5]

theorem rpcent_decode_eq_be (M : Machine) (L : RpcentLayout) (v : nss_mcdb_vinfo)
    (h : rpc_fields L) (s : State rpcent) :
    nss_mcdb_netdb_rpcent_decode M L v s
      = pack_aliases M v L.NSS_RE_HDRSZ (be16 s.m.data L.NSS_RE_MEM_STR)
          (be16 s.m.data L.NSS_RE_MEM_NUM) s
          ⟨v.buf, align8u M v.buf (be16 s.m.data L.NSS_RE_MEM),
            to_int (be32 s.m.data L.NSS_R_NUMBER)⟩
          (align8u M v.buf (be16 s.m.data L.NSS_RE_MEM)) := by
  obtain ⟨h1, h3, h4, h5⟩ := h
  unfold nss_mcdb_netdb_rpcent_decode
  simp only [hdr32_eq_be32 M _ _ _ h1, hdr16_eq_be16 M _ _ _ h3,
    hdr16_eq_be16 M _ _ _ h4, hdr16_eq_be16 M _ _ _ h5]

theorem servent_fill_eq_be (M : Machine) (L : ServentLayout) (v : nss_mcdb_vinfo)
    (h : serv_fields L) (s : State servent) :
    servent_fill M L v s
      = pack_aliases M v L.NSS_SE_HDRSZ (be16 s.m.data L.NSS_SE_MEM_STR)
          (be16 s.m.data L.NSS_SE_MEM_NUM) s
          ⟨ptr_add M v.buf (be16 s.m.data L.NSS_S_NAME : Nat),
            align8u M v.buf (be16 s.m.data L.NSS_SE_MEM),
            to_int (load32 M (s.m.data.take L.NSS_SE_HDRSZ) (L.NSS_S_PORT >>> 2)), v.buf⟩
          (align8u M v.buf (be16 s.m.data L.NSS_SE_MEM)) := by
  obtain ⟨h1, h2, h3, h4, h5⟩ := h
  unfold servent_fill
  simp only [hdr16_eq_be16 M _ _ _ h2, hdr16_eq_be16 M _ _ _ h3,
    hdr16_eq_be16 M _ _ _ h4, hdr16_eq_be16 M _ _ _ h5]


/-- C20: where the header constants make each field an element of `hdr.u` or `hdr.h`, on
either host byte order every decode routine is the same routine with each count and offset
taken as the big-endian value of the two header bytes of its field and each of `h_addrtype`,
`h_length`, `n_addrtype`, `n_net`, `p_proto`, `r_number` as the big-endian value of the four
header bytes of its field; the expressions `ntohs(hdr.h[c>>1])` and `ntohl(hdr.u[c>>2])` are
those big-endian values; only `s_port` is loaded without conversion, and its memory holds
the four header bytes of the port field as they are. -/
theorem header_fields_converted (M : Machine) (LH : HostentLayout) (LN : NetentLayout)
    (LP : ProtoentLayout) (LR : RpcentLayout) (LS : ServentLayout) (v : nss_mcdb_vinfo)
    (hH : host_fields LH) (hN : net_fields LN) (hP : proto_fields LP) (hR : rpc_fields LR)
    (hS : serv_fields LS) :
    (∀ s : State hostent, hostent_fill M LH v s = hostent_fill_be M LH v s)
      ∧ (∀ (s s' : State hostent) (st : nss_status_t),
        nss_mcdb_netdb_hostent_decode M LH v s = some (st, s') → st ≠ NSS_STATUS_NOTFOUND →
        s'.ent.h_addrtype = to_int (be32 s'.m.data LH.NSS_H_ADDRTYPE)
          ∧ s'.ent.h_length = to_int (be32 s'.m.data LH.NSS_H_LENGTH))
      ∧ (∀ s : State netent,
        nss_mcdb_netdb_netent_decode M LN v s
          = pack_aliases M v LN.NSS_NE_HDRSZ (be16 s.m.data LN.NSS_NE_MEM_STR)
              (be16 s.m.data LN.NSS_NE_MEM_NUM) s
              ⟨v.buf, align8u M v.buf (be16 s.m.data LN.NSS_NE_MEM),
                to_int (be32 s.m.data LN.NSS_N_ADDRTYPE), be32 s.m.data LN.NSS_N_NET⟩
              (align8u M v.buf (be16 s.m.data LN.NSS_NE_MEM)))
      ∧ (∀ (s s' : State netent) (st : nss_status_t),
        nss_mcdb_netdb_netent_decode M LN v s = some (st, s') →
        s'.ent.n_addrtype = to_int (be32 s'.m.data LN.NSS_N_ADDRTYPE)
          ∧ s'.ent.n_net = be32 s'.m.data LN.NSS_N_NET)
      ∧ (∀ s : State protoent,
        nss_mcdb_netdb_protoent_decode M LP v s
          = pack_aliases M v LP.NSS_PE_HDRSZ (be16 s.m.data LP.NSS_PE_MEM_STR)
              (be16 s.m.data LP.NSS_PE_MEM_NUM) s
              ⟨v.buf, align8u M v.buf (be16 s.m.data LP.NSS_PE_MEM),
                to_int (be32 s.m.data LP.NSS_P_PROTO)⟩
              (align8u M v.buf (be16 s.m.data LP.NSS_PE_MEM)))
      ∧ (∀ (s s' : State protoent) (st : nss_status_t),
        nss_mcdb_netdb_protoent_decode M LP v s = some (st, s') →
        s'.ent.p_proto = to_int (be32 s'.m.data LP.NSS_P_PROTO))
      ∧ (∀ s : State rpcent,
        nss_mcdb_netdb_rpcent_decode M LR v s
          = pack_aliases M v LR.NSS_RE_HDRSZ (be16 s.m.data LR.NSS_RE_MEM_STR)
              (be16 s.m.data LR.NSS_RE_MEM_NUM) s
              ⟨v.buf, align8u M v.buf (be16 s.m.data LR.NSS_RE_MEM),
                to_int (be32 s.m.data LR.NSS_R_NUMBER)⟩
              (align8u M v.buf (be16 s.m.data LR.NSS_RE_MEM)))
      ∧ (∀ (s s' : State rpcent) (st : nss_status_t),
        nss_mcdb_netdb_rpcent_decode M LR v s = some (st, s') →
        s'.ent.r_number = to_int (be32 s'.m.data LR.NSS_R_NUMBER))
      ∧ (∀ s : State servent,
        servent_fill M LS v s
          = pack_aliases M v LS.NSS_SE_HDRSZ (be16 s.m.data LS.NSS_SE_MEM_STR)
              (be16 s.m.data LS.NSS_SE_MEM_NUM) s
              ⟨ptr_add M v.buf (be16 s.m.data LS.NSS_S_NAME : Nat),
                align8u M v.buf (be16 s.m.data LS.NSS_SE_MEM),
                to_int (load32 M (s.m.data.take LS.NSS_SE_HDRSZ) (LS.NSS_S_PORT >>> 2)),
                v.buf⟩
              (align8u M v.buf (be16 s.m.data LS.NSS_SE_MEM)))
      ∧ (∀ (s s' : State servent) (st : nss_status_t),
        nss_mcdb_netdb_servent_decode M LS v s = some (st, s') → st ≠ NSS_STATUS_NOTFOUND →
        int_bytes M s'.ent.s_port
          = [rd s'.m.data LS.NSS_S_PORT % 256, rd s'.m.data (LS.NSS_S_PORT + 1) % 256,
              rd s'.m.data (LS.NSS_S_PORT + 2) % 256, rd s'.m.data (LS.NSS_S_PORT + 3) % 256])
      ∧ (∀ (d : List Nat) (hdrsz c : Nat), field16 hdrsz c → hdr16 M d hdrsz c = be16 d c)
      ∧ (∀ (d : List Nat) (hdrsz c : Nat), field32 hdrsz c → hdr32 M d hdrsz c = be32 d c) := by
  refine ⟨hostent_fill_eq_be M LH v hH, ?_, netent_decode_eq_be M LN v hN, ?_,
    protoent_decode_eq_be M LP v hP, ?_, rpcent_decode_eq_be M LR v hR, ?_,
    servent_fill_eq_be M LS v hS, ?_, fun d hdrsz c h => hdr16_eq_be16 M d hdrsz c h,
    fun d hdrsz c h => hdr32_eq_be32 M d hdrsz c h⟩
  · intro s s' st h hnf
    obtain ⟨_, hcase⟩ := hostent_decode_cases M LH v s st s' h
    rcases hcase with ⟨h1, _⟩ | ⟨m', _, hf⟩
    · exact absurd h1 hnf
    · obtain ⟨hm, _, ha, hl, _⟩ := hostent_fill_cases M LH v _ st s' hf
      simp only at hm ha hl
      rw [← hm] at ha hl
      rw [hdr32_eq_be32 M _ _ _ hH.1] at ha
      rw [hdr32_eq_be32 M _ _ _ hH.2.1] at hl
      exact ⟨ha, hl⟩
  · intro s s' st h
    obtain ⟨he, hm, _⟩ := pack_aliases_cases M v _ _ _ s _ _ st s' h
    rw [he, hm]
    refine ⟨?_, ?_⟩
    · show to_int (hdr32 M s.m.data LN.NSS_NE_HDRSZ LN.NSS_N_ADDRTYPE) = _
      rw [hdr32_eq_be32 M _ _ _ hN.1]
    · show hdr32 M s.m.data LN.NSS_NE_HDRSZ LN.NSS_N_NET = _
      rw [hdr32_eq_be32 M _ _ _ hN.2.1]
  · intro s s' st h
    obtain ⟨he, hm, _⟩ := pack_aliases_cases M v _ _ _ s _ _ st s' h
    rw [he, hm]
    show to_int (hdr32 M s.m.data LP.NSS_PE_HDRSZ LP.NSS_P_PROTO) = _
    rw [hdr32_eq_be32 M _ _ _ hP.1]
  · intro s s' st h
    obtain ⟨he, hm, _⟩ := pack_aliases_cases M v _ _ _ s _ _ st s' h
    rw [he, hm]
    show to_int (hdr32 M s.m.data LR.NSS_RE_HDRSZ LR.NSS_R_NUMBER) = _
    rw [hdr32_eq_be32 M _ _ _ hR.1]
  · intro s s' st h hnf
    obtain ⟨_, hcase⟩ := servent_decode_cases M LS v s st s' h
    rcases hcase with ⟨h1, _⟩ | ⟨m', _, hf⟩
    · exact absurd h1 hnf
    · obtain ⟨he, hm, _⟩ := pack_aliases_cases M v _ _ _ _ _ _ st s' hf
      simp only at he hm
      rw [he, hm]
      show int_bytes M (to_int (load32 M (m'.data.take LS.NSS_SE_HDRSZ)
        (LS.NSS_S_PORT >>> 2))) = _
      exact int_bytes_load32 M _ _ _ hS.1

/-- Instance of C20: the example host record on a big-endian and the example service record
on a little-endian host. -/
theorem header_fields_converted_witness :
    host_fields hostLayout ∧ net_fields netLayout ∧ proto_fields protoLayout
      ∧ rpc_fields rpcLayout ∧ serv_fields servLayout
      ∧ (state_of (nss_mcdb_netdb_hostent_decode lp64be hostLayout ex_v ex_host_call)
          ex_host_call).ent.h_addrtype = to_int (be32 (ex_host_rec 2) hostLayout.NSS_H_ADDRTYPE)
      ∧ to_int (be32 (ex_host_rec 2) hostLayout.NSS_H_ADDRTYPE) = 2
      ∧ int_bytes lp64le (state_of
          (nss_mcdb_netdb_servent_decode lp64le servLayout ex_v ex_serv_call)
          ex_serv_call).ent.s_port
        = [rd (ex_serv_rec [116, 99, 112]) servLayout.NSS_S_PORT % 256,
            rd (ex_serv_rec [116, 99, 112]) (servLayout.NSS_S_PORT + 1) % 256,
            rd (ex_serv_rec [116, 99, 112]) (servLayout.NSS_S_PORT + 2) % 256,
            rd (ex_serv_rec [116, 99, 112]) (servLayout.NSS_S_PORT + 3) % 256]
      ∧ hdr16 lp64le (ex_host_rec 2) 20 14 = be16 (ex_host_rec 2) 14
      ∧ hostent_fill lp64le hostLayout ex_v ex_host_call
        = hostent_fill_be lp64le hostLayout ex_v ex_host_call :=
  ⟨by decide, by decide, by decide, by decide, by decide,
    ((header_fields_converted lp64be hostLayout netLayout protoLayout rpcLayout servLayout ex_v
      (by decide) (by decide) (by decide) (by decide) (by decide)).2.1
      ex_host_call
      (state_of (nss_mcdb_netdb_hostent_decode lp64be hostLayout ex_v ex_host_call)
        ex_host_call) NSS_STATUS_SUCCESS rfl (by decide)).1,
    by decide,
    (header_fields_converted lp64le hostLayout netLayout protoLayout rpcLayout servLayout ex_v
      (by decide) (by decide) (by decide) (by decide) (by decide)).2.2.2.2.2.2.2.2.2.1
      ex_serv_call
      (state_of (nss_mcdb_netdb_servent_decode lp64le servLayout ex_v ex_serv_call)
        ex_serv_call) NSS_STATUS_SUCCESS rfl (by decide),
    (header_fields_converted lp64le hostLayout netLayout protoLayout rpcLayout servLayout ex_v
      (by decide) (by decide) (by decide) (by decide) (by decide)).2.2.2.2.2.2.2.2.2.2.1
      (ex_host_rec 2) 20 14 (by decide),
    (header_fields_converted lp64le hostLayout netLayout protoLayout rpcLayout servLayout ex_v
      (by decide) (by decide) (by decide) (by decide) (by decide)).1 ex_host_call⟩

/-! ## Buffers too small for the predicate -/

theorem host_return_tryagain {ε : Type} (s : State ε) (h_errnop : Int) :
    host_return (some (NSS_STATUS_TRYAGAIN, s)) h_errnop
      = some (NSS_STATUS_TRYAGAIN, s, TRY_AGAIN) := by
  rfl

theorem gethost_query_short (g : StoreCall hostent) (type : Nat) (v : nss_mcdb_vinfo)
    (s : State hostent) (h_errnop : Int) (h : v.bufsz < 4) :
    nss_mcdb_netdb_gethost_query g type v s h_errnop
      = some (NSS_STATUS_TRYAGAIN, { s with errnop := ERANGE, errno := ERANGE }, TRY_AGAIN) := by
  unfold nss_mcdb_netdb_gethost_query
  rw [if_neg (by omega), host_return_tryagain]

theorem gethost_query_staged (g : StoreCall hostent) (type : Nat) (v : nss_mcdb_vinfo)
    (s : State hostent) (h_errnop : Int) (h : 4 ≤ v.bufsz) :
    ∃ mem1 : Mem, (∀ i, 4 ≤ i → mem1 i = s.mem i)
      ∧ nss_mcdb_netdb_gethost_query g type v s h_errnop
          = host_return (g v { s with mem := mem1 }) h_errnop := by
  unfold nss_mcdb_netdb_gethost_query
  rw [if_pos (by omega)]
  refine ⟨_, ?_, rfl⟩
  intro i hi
  show (if i = 0 then _ else if i = 1 then _ else if i = 2 then _ else if i = 3 then _
    else s.mem i) = s.mem i
  rw [if_neg (by omega), if_neg (by omega), if_neg (by omega), if_neg (by omega)]

/-- C21: an entry point that stages a predicate refuses a buffer that cannot hold it, with
`NSS_STATUS_TRYAGAIN` and `*errnop = ERANGE`, the same result for every store call (the store
is not consulted) and the buffer as the caller left it: the host enumeration,
`nss_mcdb_netdb_gethost_query` and the host queries that reach it (by address, and by name
when `inet_pton` returns 0) when `bufsz < 4`, with `*h_errnop = TRY_AGAIN`; the service
queries by name and by port when `bufsz < strlen(proto) + 1`, a `NULL` `proto` counting as
empty; the service enumeration when `bufsz = 0`.  When the buffer can hold the predicate the
result is that of the store call on the request, made on the buffer with the predicate
staged. -/
theorem staging_guard (M : Machine) (buf bufsz : Nat) (sh : State hostent)
    (ss : State servent) (h_errnop : Int) :
    (bufsz < 4 →
      (∀ getent : StoreCall hostent,
        _nss_mcdb_gethostent_r getent buf bufsz sh h_errnop
          = some (NSS_STATUS_TRYAGAIN, { sh with errnop := ERANGE, errno := ERANGE },
              TRY_AGAIN))
      ∧ (∀ (g : StoreCall hostent) (type : Nat) (key : List Nat) (klen tagc : Nat),
        nss_mcdb_netdb_gethost_query g type ⟨buf, bufsz, key, klen, tagc⟩ sh h_errnop
          = some (NSS_STATUS_TRYAGAIN, { sh with errnop := ERANGE, errno := ERANGE },
              TRY_AGAIN))
      ∧ (∀ (g : StoreCall hostent) (addr : List Nat) (len : Nat) (type : Int),
        _nss_mcdb_gethostbyaddr_r g addr len type buf bufsz sh h_errnop
          = some (NSS_STATUS_TRYAGAIN, { sh with errnop := ERANGE, errno := ERANGE },
              TRY_AGAIN))
      ∧ (∀ (inet_pton : InetPton) (g : StoreCall hostent) (name : List Nat) (type : Int),
        (inet_pton type name).1 = 0 →
        _nss_mcdb_gethostbyname2_r M inet_pton g name type buf bufsz sh h_errnop
          = some (NSS_STATUS_TRYAGAIN, { sh with errnop := ERANGE, errno := ERANGE },
              TRY_AGAIN))
      ∧ (∀ (inet_pton : InetPton) (g : StoreCall hostent) (name : List Nat),
        (inet_pton AF_INET name).1 = 0 →
        _nss_mcdb_gethostbyname_r M inet_pton g name buf bufsz sh h_errnop
          = some (NSS_STATUS_TRYAGAIN, { sh with errnop := ERANGE, errno := ERANGE },
              TRY_AGAIN)))
    ∧ (∀ (proto : Option (List Nat)), bufsz < (proto.getD []).length + 1 →
        ∀ (g : StoreCall servent) (name : List Nat) (port : Int),
          _nss_mcdb_getservbyname_r g name proto buf bufsz ss
              = some (NSS_STATUS_TRYAGAIN, { ss with errnop := ERANGE, errno := ERANGE })
            ∧ _nss_mcdb_getservbyport_r M g port proto buf bufsz ss
              = some (NSS_STATUS_TRYAGAIN, { ss with errnop := ERANGE, errno := ERANGE }))
    ∧ (bufsz = 0 → ∀ getent : StoreCall servent,
        _nss_mcdb_getservent_r getent buf bufsz ss
          = some (NSS_STATUS_TRYAGAIN, { ss with errnop := ERANGE, errno := ERANGE }))
    ∧ (4 ≤ bufsz →
      (∀ getent : StoreCall hostent,
        _nss_mcdb_gethostent_r getent buf bufsz sh h_errnop
          = host_return
              (getent ⟨buf, bufsz, [], 0, 0⟩
                { sh with mem := fun i => if i < 4 then 0 else sh.mem i }) h_errnop)
      ∧ (∀ (g : StoreCall hostent) (type : Nat) (key : List Nat) (klen tagc : Nat),
        ∃ mem1 : Mem, (∀ i, 4 ≤ i → mem1 i = sh.mem i)
          ∧ nss_mcdb_netdb_gethost_query g type ⟨buf, bufsz, key, klen, tagc⟩ sh h_errnop
              = host_return (g ⟨buf, bufsz, key, klen, tagc⟩ { sh with mem := mem1 })
                  h_errnop)
      ∧ (∀ (g : StoreCall hostent) (addr : List Nat) (len : Nat) (type : Int),
        ∃ mem1 : Mem, (∀ i, 4 ≤ i → mem1 i = sh.mem i)
          ∧ _nss_mcdb_gethostbyaddr_r g addr len type buf bufsz sh h_errnop
              = host_return (g ⟨buf, bufsz, addr, len, 98⟩ { sh with mem := mem1 })
                  h_errnop)
      ∧ (∀ (inet_pton : InetPton) (g : StoreCall hostent) (name : List Nat) (type : Int),
        (inet_pton type name).1 = 0 →
        ∃ mem1 : Mem, (∀ i, 4 ≤ i → mem1 i = sh.mem i)
          ∧ _nss_mcdb_gethostbyname2_r M inet_pton g name type buf bufsz sh h_errnop
              = host_return
                  (g ⟨buf, bufsz, name, name.length, 126⟩ { sh with mem := mem1 })
                  h_errnop))
    ∧ (∀ (proto : Option (List Nat)), (proto.getD []).length + 1 ≤ bufsz →
        ∀ (g : StoreCall servent) (name : List Nat) (port : Int),
          _nss_mcdb_getservbyname_r g name proto buf bufsz ss
              = g ⟨buf, bufsz, name, name.length, 126⟩
                  { ss with mem := stage_proto ss.mem proto }
            ∧ _nss_mcdb_getservbyport_r M g port proto buf bufsz ss
              = g ⟨buf, bufsz, int_bytes M port, 4, 120⟩
                  { ss with mem := stage_proto ss.mem proto })
    ∧ (1 ≤ bufsz → ∀ getent : StoreCall servent,
        _nss_mcdb_getservent_r getent buf bufsz ss
          = getent ⟨buf, bufsz, [], 0, 0⟩
              { ss with mem := fun i => if i = 0 then 0 else ss.mem i }) := by
  refine ⟨?_, ?_, ?_, ?_, ?_, ?_⟩
  · intro hsz
    refine ⟨?_, ?_, ?_, ?_, ?_⟩
    · intro getent
      unfold _nss_mcdb_gethostent_r
      simp only
      rw [if_neg (by omega), host_return_tryagain]
    · intro g type key klen tagc
      exact gethost_query_short g type _ sh h_errnop hsz
    · intro g addr len type
      unfold _nss_mcdb_gethostbyaddr_r
      exact gethost_query_short g _ _ sh h_errnop hsz
    · intro inet_pton g name type h0
      unfold _nss_mcdb_gethostbyname2_r
      simp only
      rw [if_pos h0]
      exact gethost_query_short g _ _ sh h_errnop hsz
    · intro inet_pton g name h0
      unfold _nss_mcdb_gethostbyname_r _nss_mcdb_gethostbyname2_r
      simp only
      rw [if_pos h0]
      exact gethost_query_short g _ _ sh h_errnop hsz
  · intro proto hsz g name port
    unfold _nss_mcdb_getservbyname_r _nss_mcdb_getservbyport_r
    simp only
    rw [if_neg (by omega), if_neg (by omega)]
    exact ⟨rfl, rfl⟩
  · intro hsz getent
    unfold _nss_mcdb_getservent_r
    simp only
    rw [if_neg (by omega)]
  · intro hsz
    refine ⟨?_, ?_, ?_, ?_⟩
    · intro getent
      unfold _nss_mcdb_gethostent_r
      simp only
      rw [if_pos (by omega)]
    · intro g type key klen tagc
      exact gethost_query_staged g type _ sh h_errnop hsz
    · intro g addr len type
      unfold _nss_mcdb_gethostbyaddr_r
      exact gethost_query_staged g _ _ sh h_errnop hsz
    · intro inet_pton g name type h0
      unfold _nss_mcdb_gethostbyname2_r
      simp only
      rw [if_pos h0]
      exact gethost_query_staged g _ _ sh h_errnop hsz
  · intro proto hsz g name port
    unfold _nss_mcdb_getservbyname_r _nss_mcdb_getservbyport_r
    simp only
    rw [if_pos (by omega), if_pos (by omega)]
    exact ⟨rfl, rfl⟩
  · intro hsz getent
    unfold _nss_mcdb_getservent_r
    simp only
    rw [if_pos (by omega)]

/-- Instance of C21: buffers of 3 and 0 bytes are refused although the store double would
find a record; buffers of 64 bytes reach the store. -/
theorem staging_guard_witness :
    (_nss_mcdb_gethostent_r ex_store_record 4096 3 ex_poison_call 0
        = some (NSS_STATUS_TRYAGAIN, { ex_poison_call with errnop := ERANGE, errno := ERANGE },
            TRY_AGAIN)
      ∧ _nss_mcdb_gethostbyaddr_r ex_store_record [10, 0, 0, 1] 4 2 4096 3 ex_poison_call 0
        = some (NSS_STATUS_TRYAGAIN, { ex_poison_call with errnop := ERANGE, errno := ERANGE },
            TRY_AGAIN))
    ∧ (_nss_mcdb_getservbyname_r ex_store_record [101, 99, 104, 111] (some [116, 99, 112])
          4096 3 ex_serv_call
        = some (NSS_STATUS_TRYAGAIN, { ex_serv_call with errnop := ERANGE, errno := ERANGE })
      ∧ _nss_mcdb_getservbyport_r lp64le ex_store_record 1792 (some [116, 99, 112])
          4096 3 ex_serv_call
        = some (NSS_STATUS_TRYAGAIN, { ex_serv_call with errnop := ERANGE, errno := ERANGE }))
    ∧ _nss_mcdb_getservent_r ex_store_record 4096 0 ex_serv_call
        = some (NSS_STATUS_TRYAGAIN, { ex_serv_call with errnop := ERANGE, errno := ERANGE })
    ∧ _nss_mcdb_gethostent_r ex_store_record 4096 64 ex_poison_call 0
        = host_return
            (ex_store_record ⟨4096, 64, [], 0, 0⟩
              { ex_poison_call with
                mem := fun i => if i < 4 then 0 else ex_poison_call.mem i }) 0
    ∧ (_nss_mcdb_getservbyname_r ex_store_record [101, 99, 104, 111] (some [116, 99, 112])
          4096 4 ex_serv_call
        = ex_store_record ⟨4096, 4, [101, 99, 104, 111], [101, 99, 104, 111].length, 126⟩
            { ex_serv_call with mem := stage_proto ex_serv_call.mem (some [116, 99, 112]) }
      ∧ _nss_mcdb_getservbyport_r lp64le ex_store_record 1792 (some [116, 99, 112])
          4096 4 ex_serv_call
        = ex_store_record ⟨4096, 4, int_bytes lp64le 1792, 4, 120⟩
            { ex_serv_call with mem := stage_proto ex_serv_call.mem (some [116, 99, 112]) })
    ∧ _nss_mcdb_getservent_r ex_store_record 4096 1 ex_serv_call
        = ex_store_record ⟨4096, 1, [], 0, 0⟩
            { ex_serv_call with mem := fun i => if i = 0 then 0 else ex_serv_call.mem i } :=
  ⟨⟨((staging_guard lp64le 4096 3 ex_poison_call ex_serv_call 0).1 (by decide)).1
        ex_store_record,
      ((staging_guard lp64le 4096 3 ex_poison_call ex_serv_call 0).1 (by decide)).2.2.1
        ex_store_record [10, 0, 0, 1] 4 2⟩,
    (staging_guard lp64le 4096 3 ex_poison_call ex_serv_call 0).2.1 (some [116, 99, 112])
      (by decide) ex_store_record [101, 99, 104, 111] 1792,
    (staging_guard lp64le 4096 0 ex_poison_call ex_serv_call 0).2.2.1 rfl ex_store_record,
    ((staging_guard lp64le 4096 64 ex_poison_call ex_serv_call 0).2.2.2.1 (by decide)).1
      ex_store_record,
    (staging_guard lp64le 4096 4 ex_poison_call ex_serv_call 0).2.2.2.2.1
      (some [116, 99, 112]) (by decide) ex_store_record [101, 99, 104, 111] 1792,
    (staging_guard lp64le 4096 1 ex_poison_call ex_serv_call 0).2.2.2.2.2 (by decide)
      ex_store_record⟩

/-! ## The staged address-family filter -/

theorem land_byte_mask (x k j : Nat) :
    x &&& ((2 ^ k - 1) <<< j) = (x / 2 ^ j % 2 ^ k) * 2 ^ j := by
  have h : (x / 2 ^ j % 2 ^ k) * 2 ^ j = ((x >>> j) &&& (2 ^ k - 1)) <<< j := by
    rw [Nat.and_pow_two_sub_one_eq_mod, Nat.shiftLeft_eq, Nat.shiftRight_eq_div_pow]
  rw [h]
  apply Nat.eq_of_testBit_eq
  intro i
  simp only [Nat.testBit_and, Nat.testBit_shiftLeft, Nat.testBit_shiftRight]
  by_cases hi : j ≤ i
  · have : j + (i - j) = i := by omega
    simp [hi, this]
  · simp [hi]

theorem staged_bytes (t : Nat) :
    t % 4294967296 / 16777216 % 256 = t / 16777216 % 256
      ∧ (t &&& 16711680) / 65536 % 256 = t / 65536 % 256
      ∧ (t &&& 65280) / 256 % 256 = t / 256 % 256
      ∧ (t &&& 255) % 256 = t % 256 := by
  have h2 := land_byte_mask t 8 16
  have h1 := land_byte_mask t 8 8
  have h0 := land_byte_mask t 8 0
  have e2 : (2 ^ 8 - 1) <<< 16 = 16711680 := by decide
  have e1 : (2 ^ 8 - 1) <<< 8 = 65280 := by decide
  have e0 : (2 ^ 8 - 1) <<< 0 = 255 := by decide
  have p16 : (2 : Nat) ^ 16 = 65536 := by decide
  have p8 : (2 : Nat) ^ 8 = 256 := by decide
  have p0 : (2 : Nat) ^ 0 = 1 := by decide
  rw [e2, p16, p8] at h2
  rw [e1, p8] at h1
  rw [e0, p0, p8] at h0
  rw [h2, h1, h0]
  refine ⟨?_, ?_, ?_, ?_⟩ <;> omega

/-- The bytes that `nss_mcdb_netdb_gethost_query` stages are those of the big-endian encoding
of `type`, and the buffer behind them is untouched. -/
theorem gethost_query_bytes (t : Nat) (v : nss_mcdb_vinfo)
    (s : State hostent) (h_errnop : Int) (hsz : 4 ≤ v.bufsz) :
    ∃ mem1 : Mem,
      (∀ g : StoreCall hostent, nss_mcdb_netdb_gethost_query g t v s h_errnop
          = host_return (g v { s with mem := mem1 }) h_errnop)
        ∧ mem1 0 = t / 16777216 % 256 ∧ mem1 1 = t / 65536 % 256
        ∧ mem1 2 = t / 256 % 256 ∧ mem1 3 = t % 256
        ∧ (∀ i, 4 ≤ i → mem1 i = s.mem i) := by
  obtain ⟨b0, b1, b2, b3⟩ := staged_bytes t
  refine ⟨fun i =>
      if i = 0 then t % 4294967296 / 16777216 % 256
      else if i = 1 then (t &&& 16711680) / 65536 % 256
      else if i = 2 then (t &&& 65280) / 256 % 256
      else if i = 3 then (t &&& 255) % 256
      else s.mem i, ?_, ?_, ?_, ?_, ?_, ?_⟩
  · intro g
    unfold nss_mcdb_netdb_gethost_query
    rw [if_pos (by omega)]
  · simpa using b0
  · simpa using b1
  · simpa using b2
  · simpa using b3
  · intro i hi
    show (if i = 0 then _ else if i = 1 then _ else if i = 2 then _ else if i = 3 then _
      else s.mem i) = s.mem i
    rw [if_neg (by omega), if_neg (by omega), if_neg (by omega), if_neg (by omega)]

theorem staged_type_of_bytes (mem : Mem) (t : Nat)
    (h0 : mem 0 = t / 16777216 % 256) (h1 : mem 1 = t / 65536 % 256)
    (h2 : mem 2 = t / 256 % 256) (h3 : mem 3 = t % 256) :
    staged_type mem = t % 4294967296 := by
  unfold staged_type
  rw [h0, h1, h2, h3]
  omega

/-- The routine `nss_mcdb_netdb_hostent_decode` on a buffer whose first four bytes hold the
filter `t`. -/
theorem hostent_decode_filter (M : Machine) (L : HostentLayout) (v : nss_mcdb_vinfo)
    (s : State hostent) (t : Nat) (hsz : 4 ≤ v.bufsz) (ht : staged_type s.mem = t) :
    nss_mcdb_netdb_hostent_decode M L v s
      = if t ≠ 0 then
          if (hostent_scan L t s.m.data s.m.nexts s.m.dups).1 then
            hostent_fill M L v { s with m := (hostent_scan L t s.m.data s.m.nexts s.m.dups).2 }
          else
            some (NSS_STATUS_NOTFOUND,
              { s with
                m := (hostent_scan L t s.m.data s.m.nexts s.m.dups).2
                errnop := ENOENT, errno := ENOENT })
        else hostent_fill M L v s := by
  unfold nss_mcdb_netdb_hostent_decode
  rw [if_pos hsz]
  simp only [ht]

/-- C22: for every 32-bit value `t`, `nss_mcdb_netdb_gethost_query` hands the store a buffer
whose bytes 0..3 are the big-endian encoding of `t` (byte 0 the most significant) and whose
other bytes are the caller's; the filter `nss_mcdb_netdb_hostent_decode` reads from such a
buffer is `t`, so the routine scans for address type `t` when `t` is not 0 and takes the
current record when it is.  `_nss_mcdb_gethostent_r` hands the store four zero bytes, the
filter 0. -/
theorem filter_staged_big_endian (M : Machine) (L : HostentLayout) (t : Nat)
    (v : nss_mcdb_vinfo) (s : State hostent) (h_errnop : Int)
    (ht : t < 4294967296) (hsz : 4 ≤ v.bufsz) :
    (∃ mem1 : Mem,
      (∀ g : StoreCall hostent, nss_mcdb_netdb_gethost_query g t v s h_errnop
          = host_return (g v { s with mem := mem1 }) h_errnop)
      ∧ [mem1 0, mem1 1, mem1 2, mem1 3] = be32_bytes t
      ∧ (∀ i, 4 ≤ i → mem1 i = s.mem i)
      ∧ staged_type mem1 = t
      ∧ ∀ s1 : State hostent, s1.mem = mem1 →
          nss_mcdb_netdb_hostent_decode M L v s1
            = if t ≠ 0 then
                if (hostent_scan L t s1.m.data s1.m.nexts s1.m.dups).1 then
                  hostent_fill M L v
                    { s1 with m := (hostent_scan L t s1.m.data s1.m.nexts s1.m.dups).2 }
                else
                  some (NSS_STATUS_NOTFOUND,
                    { s1 with
                      m := (hostent_scan L t s1.m.data s1.m.nexts s1.m.dups).2
                      errnop := ENOENT, errno := ENOENT })
              else hostent_fill M L v s1)
    ∧ (∃ mem0 : Mem,
      (∀ getent : StoreCall hostent, _nss_mcdb_gethostent_r getent v.buf v.bufsz s h_errnop
          = host_return (getent ⟨v.buf, v.bufsz, [], 0, 0⟩ { s with mem := mem0 }) h_errnop)
      ∧ [mem0 0, mem0 1, mem0 2, mem0 3] = be32_bytes 0
      ∧ (∀ i, 4 ≤ i → mem0 i = s.mem i)
      ∧ staged_type mem0 = 0) := by
  refine ⟨?_, ?_⟩
  · obtain ⟨mem1, hq, b0, b1, b2, b3, hrest⟩ := gethost_query_bytes t v s h_errnop hsz
    have hst : staged_type mem1 = t := by
      rw [staged_type_of_bytes mem1 t b0 b1 b2 b3]
      exact Nat.mod_eq_of_lt ht
    refine ⟨mem1, hq, ?_, hrest, hst, ?_⟩
    · unfold be32_bytes
      rw [b0, b1, b2, b3]
    · intro s1 hs1
      exact hostent_decode_filter M L v s1 t hsz (by rw [hs1, hst])
  · refine ⟨fun i => if i < 4 then 0 else s.mem i, ?_, ?_, ?_, ?_⟩
    · intro getent
      unfold _nss_mcdb_gethostent_r
      simp only
      rw [if_pos (show v.bufsz > 3 by omega)]
    · simp [be32_bytes]
    · intro i hi
      show (if i < 4 then 0 else s.mem i) = s.mem i
      rw [if_neg (by omega)]
    · simp [staged_type]

/-- Instance of C22: the filter `AF_INET6` staged into a poisoned buffer of 64 bytes. -/
theorem filter_staged_big_endian_witness :
    (∃ mem1 : Mem,
      (∀ g : StoreCall hostent, nss_mcdb_netdb_gethost_query g 10 ex_v ex_poison_call 0
          = host_return (g ex_v { ex_poison_call with mem := mem1 }) 0)
      ∧ [mem1 0, mem1 1, mem1 2, mem1 3] = be32_bytes 10
      ∧ (∀ i, 4 ≤ i → mem1 i = ex_poison_call.mem i)
      ∧ staged_type mem1 = 10
      ∧ ∀ s1 : State hostent, s1.mem = mem1 →
          nss_mcdb_netdb_hostent_decode lp64le hostLayout ex_v s1
            = if 10 ≠ 0 then
                if (hostent_scan hostLayout 10 s1.m.data s1.m.nexts s1.m.dups).1 then
                  hostent_fill lp64le hostLayout ex_v
                    { s1 with
                      m := (hostent_scan hostLayout 10 s1.m.data s1.m.nexts s1.m.dups).2 }
                else
                  some (NSS_STATUS_NOTFOUND,
                    { s1 with
                      m := (hostent_scan hostLayout 10 s1.m.data s1.m.nexts s1.m.dups).2
                      errnop := ENOENT, errno := ENOENT })
              else hostent_fill lp64le hostLayout ex_v s1)
    ∧ (∃ mem0 : Mem,
      (∀ getent : StoreCall hostent,
        _nss_mcdb_gethostent_r getent ex_v.buf ex_v.bufsz ex_poison_call 0
          = host_return (getent ⟨ex_v.buf, ex_v.bufsz, [], 0, 0⟩
              { ex_poison_call with mem := mem0 }) 0)
      ∧ [mem0 0, mem0 1, mem0 2, mem0 3] = be32_bytes 0
      ∧ (∀ i, 4 ≤ i → mem0 i = ex_poison_call.mem i)
      ∧ staged_type mem0 = 0) :=
  filter_staged_big_endian lp64le hostLayout 10 ex_v ex_poison_call 0 (by decide) (by decide)

/-! ## Filter and port through the header -/

/-- A record the host scan stops at has the address type asked for. -/
theorem hostent_scan_found (L : HostentLayout) (type : Nat) :
    ∀ (dups : List (List Nat)) (data : List Nat) (nexts : Nat),
      (hostent_scan L type data nexts dups).1 = true →
        be32 (hostent_scan L type data nexts dups).2.data L.NSS_H_ADDRTYPE = type := by
  intro dups
  induction dups with
  | nil =>
    intro data nexts h
    unfold hostent_scan at h ⊢
    by_cases hc : type ≠ be32 data L.NSS_H_ADDRTYPE
    · rw [if_pos hc] at h
      exact absurd h (by simp)
    · rw [if_neg hc]
      exact (not_not.mp hc).symm
  | cons r rs ih =>
    intro data nexts h
    unfold hostent_scan at h ⊢
    by_cases hc : type ≠ be32 data L.NSS_H_ADDRTYPE
    · rw [if_pos hc] at h
      rw [if_pos hc]
      exact ih r (nexts + 1) h
    · rw [if_neg hc]
      exact (not_not.mp hc).symm

/-- A successful host decode under a non-zero filter ends on a record of that address type. -/
theorem hostent_decode_found (M : Machine) (L : HostentLayout) (v : nss_mcdb_vinfo)
    (s s' : State hostent) (st : nss_status_t)
    (h : nss_mcdb_netdb_hostent_decode M L v s = some (st, s'))
    (hst : st ≠ NSS_STATUS_NOTFOUND) (ht : staged_type s.mem ≠ 0) :
    be32 s'.m.data L.NSS_H_ADDRTYPE = staged_type s.mem
      ∧ s'.ent.h_addrtype = to_int (hdr32 M s'.m.data L.NSS_HE_HDRSZ L.NSS_H_ADDRTYPE) := by
  unfold nss_mcdb_netdb_hostent_decode at h
  split at h
  · simp only [ht, ne_eq, not_false_eq_true, if_true] at h
    split at h
    next hr =>
      have hc := hostent_fill_cases M L v _ st s' h
      obtain ⟨hm, _, hat, _⟩ := hc
      have hf := hostent_scan_found L (staged_type s.mem) s.m.dups s.m.data s.m.nexts hr
      simp only at hm hat
      rw [hm]
      exact ⟨hf, hat⟩
    next hr =>
      simp only [Option.some.injEq, Prod.mk.injEq] at h
      exact absurd h.1.symm hst
  · exact absurd h (by simp)

theorem to_int_to_u32 (x : Int) (h0 : -2147483648 ≤ x) (h1 : x < 2147483648) :
    to_int (to_u32 x) = x := by
  unfold to_int to_u32
  split <;> omega

/-- C27: after a successful host decode under a non-zero staged filter `t`, on either byte
order, the value `ntohl(hdr.u[NSS_H_ADDRTYPE>>2])` the output is taken from is the
big-endian value of the four header bytes the match compared, that value is `t`, and
`h_addrtype` is `t` converted to `int`: `t` itself when `t < 2^31`, and the `int` family
`type` whenever `t` is `(uint32_t)type`.  The header constant `NSS_H_ADDRTYPE` is a multiple
of 4 inside the header. -/
theorem decoded_addrtype_is_filter (M : Machine) (L : HostentLayout) (v : nss_mcdb_vinfo)
    (s s' : State hostent)
    (hL : field32 L.NSS_HE_HDRSZ L.NSS_H_ADDRTYPE)
    (h : nss_mcdb_netdb_hostent_decode M L v s = some (NSS_STATUS_SUCCESS, s'))
    (ht : staged_type s.mem ≠ 0) :
    hdr32 M s'.m.data L.NSS_HE_HDRSZ L.NSS_H_ADDRTYPE = be32 s'.m.data L.NSS_H_ADDRTYPE
      ∧ be32 s'.m.data L.NSS_H_ADDRTYPE = staged_type s.mem
      ∧ s'.ent.h_addrtype = to_int (staged_type s.mem)
      ∧ (staged_type s.mem < 2147483648 → s'.ent.h_addrtype = (staged_type s.mem : Int))
      ∧ (∀ type : Int, -2147483648 ≤ type → type < 2147483648 →
          staged_type s.mem = to_u32 type → s'.ent.h_addrtype = type) := by
  obtain ⟨hf, hat⟩ := hostent_decode_found M L v s s' NSS_STATUS_SUCCESS h (by decide) ht
  have hh := hdr32_eq_be32 M s'.m.data L.NSS_HE_HDRSZ L.NSS_H_ADDRTYPE hL
  have e : s'.ent.h_addrtype = to_int (staged_type s.mem) := by
    rw [hat, hh, hf]
  refine ⟨hh, hf, e, ?_, ?_⟩
  · intro hlt
    rw [e]
    unfold to_int
    split <;> omega
  · intro type h0 h1 hty
    rw [e, hty]
    exact to_int_to_u32 type h0 h1

/-- The `int` loaded from four header bytes that are the memory of `port` is `port`. -/
theorem load32_int_bytes (M : Machine) (d : List Nat) (hdrsz c : Nat) (port : Int)
    (h : field32 hdrsz c) (h0 : -2147483648 ≤ port) (h1 : port < 2147483648)
    (hkey : [rd d c, rd d (c + 1), rd d (c + 2), rd d (c + 3)] = int_bytes M port) :
    to_int (load32 M (d.take hdrsz) (c >>> 2)) = port := by
  obtain ⟨h4, hc⟩ := h
  have hi : 4 * (c >>> 2) = c := by
    rw [Nat.shiftRight_eq_div_pow]
    omega
  have hu : (port % 4294967296).toNat < 4294967296 := by omega
  have hback : to_int (port % 4294967296).toNat = port := to_int_to_u32 port h0 h1
  unfold load32
  rw [hi, rd_take d hdrsz c (by omega), rd_take d hdrsz (c + 1) (by omega),
    rd_take d hdrsz (c + 2) (by omega), rd_take d hdrsz (c + 3) (by omega)]
  unfold int_bytes at hkey
  generalize (port % 4294967296).toNat = u at *
  cases hb : M.big_endian
  · rw [hb] at hkey
    simp only [Bool.false_eq_true, if_false, List.cons.injEq, and_true] at hkey ⊢
    obtain ⟨e0, e1, e2, e3⟩ := hkey
    rw [e0, e1, e2, e3]
    have : u / 16777216 % 256 % 256 * 16777216 + u / 65536 % 256 % 256 * 65536
        + u / 256 % 256 % 256 * 256 + u % 256 % 256 = u := by omega
    rw [this]
    exact hback
  · rw [hb] at hkey
    simp only [if_true, List.cons.injEq, and_true] at hkey ⊢
    obtain ⟨e0, e1, e2, e3⟩ := hkey
    rw [e0, e1, e2, e3]
    have : u / 16777216 % 256 % 256 * 16777216 + u / 65536 % 256 % 256 * 65536
        + u / 256 % 256 % 256 * 256 + u % 256 % 256 = u := by omega
    rw [this]
    exact hback

/-- A service decode that does not end in "not found" takes `s_port` from the record the
cursor is left at, which is one of the records of the key. -/
theorem servent_decode_port (M : Machine) (L : ServentLayout) (v : nss_mcdb_vinfo)
    (s s' : State servent) (st : nss_status_t)
    (h : nss_mcdb_netdb_servent_decode M L v s = some (st, s'))
    (hst : st ≠ NSS_STATUS_NOTFOUND) :
    s'.m.data ∈ s.m.data :: s.m.dups
      ∧ s'.ent.s_port
          = to_int (load32 M (s'.m.data.take L.NSS_SE_HDRSZ) (L.NSS_S_PORT >>> 2)) := by
  obtain ⟨_, hc⟩ := servent_decode_cases M L v s st s' h
  rcases hc with ⟨hnf, _⟩ | ⟨m', hmem, hfill⟩
  · exact absurd hnf hst
  · unfold servent_fill at hfill
    obtain ⟨hent, hm, _⟩ := pack_aliases_cases M v _ _ _ _ _ _ st s' hfill
    simp only at hm
    rw [hm, hent]
    exact ⟨hmem, rfl⟩

/-- C28: for every `int` value `port`, on either byte order: when the four header bytes at
`NSS_S_PORT` of the record a successful `nss_mcdb_netdb_servent_decode` ends on are the four
key bytes `_nss_mcdb_getservbyport_r` builds from `port`, then `s_port = port`; so a by-port
query whose store call runs the decode routine on records that all hold the key bytes in
their port field returns, on success, an entry with `s_port = port`.  The header constant
`NSS_S_PORT` is a multiple of 4 inside the header. -/
theorem servent_port_round_trip (M : Machine) (L : ServentLayout) (v : nss_mcdb_vinfo)
    (port : Int) (hL : field32 L.NSS_SE_HDRSZ L.NSS_S_PORT)
    (h0 : -2147483648 ≤ port) (h1 : port < 2147483648) :
    (∀ (s s' : State servent),
      nss_mcdb_netdb_servent_decode M L v s = some (NSS_STATUS_SUCCESS, s') →
      [rd s'.m.data L.NSS_S_PORT, rd s'.m.data (L.NSS_S_PORT + 1),
          rd s'.m.data (L.NSS_S_PORT + 2), rd s'.m.data (L.NSS_S_PORT + 3)]
        = int_bytes M port →
      s'.ent.s_port = port)
    ∧ (∀ (found : mcdb) (proto : Option (List Nat)) (s s' : State servent),
      (∀ r, r ∈ found.data :: found.dups →
        [rd r L.NSS_S_PORT, rd r (L.NSS_S_PORT + 1), rd r (L.NSS_S_PORT + 2),
            rd r (L.NSS_S_PORT + 3)] = int_bytes M port) →
      _nss_mcdb_getservbyport_r M
          (fun w t => nss_mcdb_netdb_servent_decode M L w { t with m := found })
          port proto v.buf v.bufsz s = some (NSS_STATUS_SUCCESS, s') →
      s'.ent.s_port = port) := by
  refine ⟨?_, ?_⟩
  · intro s s' h hkey
    obtain ⟨_, hp⟩ := servent_decode_port M L v s s' NSS_STATUS_SUCCESS h (by decide)
    rw [hp]
    exact load32_int_bytes M s'.m.data L.NSS_SE_HDRSZ L.NSS_S_PORT port hL h0 h1 hkey
  · intro found proto s s' hall h
    unfold _nss_mcdb_getservbyport_r at h
    simp only at h
    split at h
    · obtain ⟨hmem, hp⟩ := servent_decode_port M L _ _ s' NSS_STATUS_SUCCESS h (by decide)
      rw [hp]
      exact load32_int_bytes M s'.m.data L.NSS_SE_HDRSZ L.NSS_S_PORT port hL h0 h1
        (hall _ hmem)
    · simp only [Option.some.injEq, Prod.mk.injEq] at h
      exact absurd h.1 (by decide)

/-- Instance of C27: the filter `AF_INET6` skips an IPv4 record and decodes the IPv6 one. -/
theorem decoded_addrtype_is_filter_witness :
    hdr32 lp64le (ex_host_rec 10) hostLayout.NSS_HE_HDRSZ hostLayout.NSS_H_ADDRTYPE
        = be32 (ex_host_rec 10) hostLayout.NSS_H_ADDRTYPE
      ∧ be32 (ex_host_rec 10) hostLayout.NSS_H_ADDRTYPE = 10
      ∧ (state_of (nss_mcdb_netdb_hostent_decode lp64le hostLayout ex_v
            (ex_state (⟨0, 0, 0, 0, 0⟩ : hostent) [0, 0, 0, 10] (ex_host_rec 2)
              [ex_host_rec 10]))
          (ex_state (⟨0, 0, 0, 0, 0⟩ : hostent) [0, 0, 0, 10] (ex_host_rec 2)
              [ex_host_rec 10])).ent.h_addrtype = 10 := by
  have h := decoded_addrtype_is_filter lp64le hostLayout ex_v
    (ex_state (⟨0, 0, 0, 0, 0⟩ : hostent) [0, 0, 0, 10] (ex_host_rec 2) [ex_host_rec 10])
    (state_of (nss_mcdb_netdb_hostent_decode lp64le hostLayout ex_v
        (ex_state (⟨0, 0, 0, 0, 0⟩ : hostent) [0, 0, 0, 10] (ex_host_rec 2)
          [ex_host_rec 10]))
      (ex_state (⟨0, 0, 0, 0, 0⟩ : hostent) [0, 0, 0, 10] (ex_host_rec 2) [ex_host_rec 10]))
    (by decide) rfl (by decide)
  exact ⟨h.1, h.2.1, h.2.2.2.1 (by decide)⟩

/-- Instance of C28 on a little-endian platform: the record whose port field holds the bytes
0, 0, 0, 7 is decoded to `s_port = 117440512`, the `int` whose memory is these bytes. -/
theorem servent_port_round_trip_witness :
    (state_of (nss_mcdb_netdb_servent_decode lp64le servLayout ex_v ex_serv_call)
        ex_serv_call).ent.s_port = 117440512
      ∧ (state_of
          (_nss_mcdb_getservbyport_r lp64le
            (fun w t => nss_mcdb_netdb_servent_decode lp64le servLayout w
              { t with m := ⟨ex_serv_rec [116, 99, 112], [], 0⟩ })
            117440512 (some [116, 99, 112]) ex_v.buf ex_v.bufsz ex_serv_call)
          ex_serv_call).ent.s_port = 117440512 :=
  ⟨(servent_port_round_trip lp64le servLayout ex_v 117440512 (by decide) (by decide)
      (by decide)).1 ex_serv_call
      (state_of (nss_mcdb_netdb_servent_decode lp64le servLayout ex_v ex_serv_call)
        ex_serv_call) rfl (by decide),
    (servent_port_round_trip lp64le servLayout ex_v 117440512 (by decide) (by decide)
      (by decide)).2 ⟨ex_serv_rec [116, 99, 112], [], 0⟩ (some [116, 99, 112]) ex_serv_call
      (state_of
        (_nss_mcdb_getservbyport_r lp64le
          (fun w t => nss_mcdb_netdb_servent_decode lp64le servLayout w
            { t with m := ⟨ex_serv_rec [116, 99, 112], [], 0⟩ })
          117440512 (some [116, 99, 112]) ex_v.buf ex_v.bufsz ex_serv_call)
        ex_serv_call) (by decide) rfl⟩

/-! ## Layout of a successful decode -/

/-- Two steps of pointer arithmetic are one step by the sum. -/
theorem ptr_add_add (M : Machine) (p : Nat) (a b : Int) :
    ptr_add M (ptr_add M p a) b = ptr_add M p (a + b) := by
  unfold ptr_add
  have hu : (0 : Int) < (M.umax : Int) := by
    have := umax_cases M
    omega
  rw [Int.toNat_of_nonneg (Int.emod_nonneg _ (by omega)), Int.emod_add_emod, Int.add_assoc]

/-- In `uintptr_t`, `t` steps of `buf += h_length` from `v->buf + a` reach
`v->buf + a + t * h_length`. -/
theorem iter_ptr_add_mod (M : Machine) (p : Nat) (a hl : Int) :
    ∀ t : Nat, ((fun q => ptr_add M q hl)^[t]) (ptr_add M p a) = ptr_add M p (a + t * hl) := by
  intro t
  induction t with
  | zero => simp
  | succ n ih =>
    rw [Function.iterate_succ_apply', ih, ptr_add_add]
    congr 1
    push_cast
    ring

/-- The statements `fill_aliases` on an array inside the buffer write nothing outside it. -/
theorem fill_aliases_outside (M : Machine) (v : nss_mcdb_vinfo) (hv : valid_buf M v)
    (d mem_str num : Nat) (mem mem' : Mem) (hsz : d + M.ptrsz * (num + 1) ≤ v.bufsz)
    (h : fill_aliases M v (v.buf + d) mem_str num mem = some mem') (x : Nat)
    (hx : x < d ∨ d + M.ptrsz * (num + 1) ≤ x) : mem' x = mem x := by
  apply fill_aliases_frame M v _ mem_str num mem mem' h x
  intro j hj
  have hP := ptrsz_pos M
  have hmul := Nat.mul_le_mul_left M.ptrsz (show j + 1 ≤ num + 1 by omega)
  rw [Nat.mul_add, Nat.mul_one] at hmul
  rw [slot_eq M v d j (by have := hv.2; omega)]
  omega

/-- The statements `fill_addrs` on an array inside the buffer write nothing outside it. -/
theorem fill_addrs_outside (M : Machine) (v : nss_mcdb_vinfo) (hv : valid_buf M v)
    (d lst_str : Nat) (hl : Int) (num : Nat) (mem mem' : Mem)
    (hsz : d + M.ptrsz * (num + 1) ≤ v.bufsz)
    (h : fill_addrs M v (v.buf + d) lst_str hl num mem = some mem') (x : Nat)
    (hx : x < d ∨ d + M.ptrsz * (num + 1) ≤ x) : mem' x = mem x := by
  apply fill_addrs_frame M v _ lst_str hl num mem mem' h x
  intro j hj
  have hP := ptrsz_pos M
  have hmul := Nat.mul_le_mul_left M.ptrsz (show j + 1 ≤ num + 1 by omega)
  rw [Nat.mul_add, Nat.mul_one] at hmul
  rw [slot_eq M v d j (by have := hv.2; omega)]
  omega

/-- A size check that passed on a buffer of the address space: the array starts at an offset
`d` not below `m`, and its `cnt` slots of 8 bytes end inside the buffer. -/
theorem check_layout (M : Machine) (v : nss_mcdb_vinfo) (hv : valid_buf M v) (m cnt : Nat)
    (hm : m < 65536) (hc : 0 < cnt) (hcnt : cnt ≤ 131072)
    (h : (ptr_diff M (align8u M v.buf m) v.buf + (cnt <<< 3)) % M.umax ≤ v.bufsz) :
    ∃ d, align8u M v.buf m = v.buf + d ∧ m ≤ d ∧ d + 8 * cnt ≤ v.bufsz := by
  obtain ⟨h1, _, h3⟩ := align_check M v.buf v.bufsz m cnt hv.1 hv.2 hm hc hcnt h
  refine ⟨(v.buf + m + 7) / 8 * 8 - v.buf, ?_, ?_, h3⟩
  · rw [h1]
    omega
  · omega

/-- What a successful `pack_aliases` leaves in a buffer of the address space: the alias array
at an offset `d` not below `m`, inside the buffer; the bytes of the variable region below `d`;
the caller's bytes everywhere else outside the array. -/
theorem pack_aliases_copy {ε : Type} (M : Machine) (v : nss_mcdb_vinfo) (hv : valid_buf M v)
    (hdrsz m mem_str num : Nat) (s s' : State ε) (ent : ε)
    (hm : m < 65536) (hnum : num < 65536)
    (h : pack_aliases M v hdrsz mem_str num s ent (align8u M v.buf m)
      = some (NSS_STATUS_SUCCESS, s')) :
    ∃ d, align8u M v.buf m = v.buf + d ∧ m ≤ d ∧ d + 8 * (num + 1) ≤ v.bufsz
      ∧ var_len M s.m.data hdrsz ≤ v.bufsz
      ∧ (∀ x, x < d → x < var_len M s.m.data hdrsz → s'.mem x = rd s.m.data (hdrsz + x))
      ∧ (∀ x, x < d ∨ d + M.ptrsz * (num + 1) ≤ x → var_len M s.m.data hdrsz ≤ x →
          s'.mem x = s.mem x)
      ∧ ∃ mem0, memcpy_buf v.bufsz s.mem 0 s.m.data hdrsz (var_len M s.m.data hdrsz)
            = some mem0
          ∧ fill_aliases M v (v.buf + d) mem_str num mem0 = some s'.mem := by
  obtain ⟨_, _, hc⟩ := pack_aliases_cases M v hdrsz mem_str num s ent _ _ s' h
  rcases hc with ⟨h1, _⟩ | ⟨_, hchk, mem0, hm0, hf⟩
  · exact absurd h1 (by decide)
  · obtain ⟨d, hal, hmd, hsz⟩ := check_layout M v hv m (num + 1) hm (by omega) (by omega) hchk
    have hP := ptrsz_pos M
    have hmul := Nat.mul_le_mul_right (num + 1) hP.2
    rw [hal] at hf
    obtain ⟨c1, c2, c3⟩ := memcpy_buf_some _ _ _ _ _ _ _ hm0
    refine ⟨d, hal, hmd, hsz, by omega, ?_, ?_, mem0, hm0, hf⟩
    · intro x hx hxl
      rw [fill_aliases_outside M v hv d mem_str num mem0 s'.mem (by omega) hf x (Or.inl hx)]
      have := c3 x hxl
      rw [Nat.zero_add] at this
      exact this
    · intro x hx hxl
      rw [fill_aliases_outside M v hv d mem_str num mem0 s'.mem (by omega) hf x hx]
      exact c2 x (by omega)

/-- What a successful `hostent_fill` leaves in a buffer of the address space. -/
theorem hostent_fill_copy (M : Machine) (L : HostentLayout) (v : nss_mcdb_vinfo)
    (hv : valid_buf M v) (s s' : State hostent)
    (h : hostent_fill M L v s = some (NSS_STATUS_SUCCESS, s')) :
    ∃ d, s'.ent.h_aliases = v.buf + d
      ∧ s'.ent.h_addr_list
          = v.buf + (d + M.ptrsz * (hdr16 M s.m.data L.NSS_HE_HDRSZ L.NSS_HE_MEM_NUM + 1))
      ∧ hdr16 M s.m.data L.NSS_HE_HDRSZ L.NSS_HE_MEM ≤ d
      ∧ d + 8 * (hdr16 M s.m.data L.NSS_HE_HDRSZ L.NSS_HE_MEM_NUM + 1
          + hdr16 M s.m.data L.NSS_HE_HDRSZ L.NSS_HE_LST_NUM + 1) ≤ v.bufsz
      ∧ var_len M s.m.data L.NSS_HE_HDRSZ ≤ v.bufsz
      ∧ (∀ x, x < d → x < var_len M s.m.data L.NSS_HE_HDRSZ →
          s'.mem x = rd s.m.data (L.NSS_HE_HDRSZ + x))
      ∧ (∀ x, x < d ∨ d + M.ptrsz * (hdr16 M s.m.data L.NSS_HE_HDRSZ L.NSS_HE_MEM_NUM + 1
              + hdr16 M s.m.data L.NSS_HE_HDRSZ L.NSS_HE_LST_NUM + 1) ≤ x →
          var_len M s.m.data L.NSS_HE_HDRSZ ≤ x → s'.mem x = s.mem x)
      ∧ (∀ t, t < hdr16 M s.m.data L.NSS_HE_HDRSZ L.NSS_HE_LST_NUM →
          load_ptr M s'.mem
              (d + M.ptrsz * (hdr16 M s.m.data L.NSS_HE_HDRSZ L.NSS_HE_MEM_NUM + 1)
                + M.ptrsz * t)
            = ptr_add M v.buf
                ((hdr16 M s.m.data L.NSS_HE_HDRSZ L.NSS_HE_LST_STR : Nat)
                  + (t : Int) * s'.ent.h_length))
      ∧ load_ptr M s'.mem
          (d + M.ptrsz * (hdr16 M s.m.data L.NSS_HE_HDRSZ L.NSS_HE_MEM_NUM + 1)
            + M.ptrsz * hdr16 M s.m.data L.NSS_HE_HDRSZ L.NSS_HE_LST_NUM) = 0 := by
  obtain ⟨_, _, _, hlen, hali, hc⟩ := hostent_fill_cases M L v s _ s' h
  have hm := hdr16_lt M s.m.data L.NSS_HE_HDRSZ L.NSS_HE_MEM
  have hn := hdr16_lt M s.m.data L.NSS_HE_HDRSZ L.NSS_HE_MEM_NUM
  have hk := hdr16_lt M s.m.data L.NSS_HE_HDRSZ L.NSS_HE_LST_NUM
  have hP := ptrsz_pos M
  rcases hc with ⟨h1, _⟩ | ⟨_, hchk, hlst, mem0, mem1, hm0, hf, hfa⟩
  · exact absurd h1 (by decide)
  · rw [hlen]
    generalize hdr16 M s.m.data L.NSS_HE_HDRSZ L.NSS_HE_MEM = m at *
    generalize hdr16 M s.m.data L.NSS_HE_HDRSZ L.NSS_HE_MEM_NUM = n at *
    generalize hdr16 M s.m.data L.NSS_HE_HDRSZ L.NSS_HE_LST_NUM = k at *
    generalize hdr16 M s.m.data L.NSS_HE_HDRSZ L.NSS_HE_MEM_STR = mem_str at *
    generalize hdr16 M s.m.data L.NSS_HE_HDRSZ L.NSS_HE_LST_STR = lst_str at *
    generalize to_int (hdr32 M s.m.data L.NSS_HE_HDRSZ L.NSS_H_LENGTH) = hl at *
    obtain ⟨d, hal, hmd, hsz⟩ :=
      check_layout M v hv m (n + 1 + k + 1) hm (by omega) (by omega) hchk
    have e1 : M.ptrsz * (n + 1) + M.ptrsz * (k + 1) ≤ 8 * (n + 1 + k + 1) := by
      have h1 := Nat.mul_le_mul_right (n + 1) hP.2
      have h2 := Nat.mul_le_mul_right (k + 1) hP.2
      omega
    have e4 : M.ptrsz * (n + 1 + k + 1) = M.ptrsz * (n + 1) + M.ptrsz * (k + 1) := by ring
    have e5 : 0 < M.ptrsz * (k + 1) := Nat.mul_pos (by omega) (by omega)
    have hlst2 : (align8u M v.buf m + M.ptrsz * (n + 1)) % M.umax
        = v.buf + (d + M.ptrsz * (n + 1)) := by
      rw [hal, Nat.add_assoc]
      exact Nat.mod_eq_of_lt (by have := hv.2; omega)
    rw [hal] at hf
    rw [hlst2] at hfa hlst
    obtain ⟨c1, c2, c3⟩ := memcpy_buf_some _ _ _ _ _ _ _ hm0
    obtain ⟨mem2, hfa2, hA2, hB2, hN2⟩ := fill_addrs_ok M v (d + M.ptrsz * (n + 1)) hl hv
      lst_str k mem1 (by omega)
    have hmem2 : mem2 = s'.mem := by
      rw [hfa2] at hfa
      exact Option.some.inj hfa
    subst hmem2
    refine ⟨d, by rw [hali, hal], hlst, hmd, hsz, by omega, ?_, ?_, ?_, hN2⟩
    · intro x hx hxl
      rw [fill_addrs_outside M v hv _ lst_str hl k mem1 _ (by omega) hfa x
          (Or.inl (by omega)),
        fill_aliases_outside M v hv d mem_str n mem0 mem1 (by omega) hf x (Or.inl hx)]
      have := c3 x hxl
      rw [Nat.zero_add] at this
      exact this
    · intro x hx hxl
      rw [fill_addrs_outside M v hv _ lst_str hl k mem1 _ (by omega) hfa x (by omega),
        fill_aliases_outside M v hv d mem_str n mem0 mem1 (by omega) hf x (by omega)]
      exact c2 x (by omega)
    · intro t ht
      rw [hB2 t ht]
      exact iter_ptr_add_mod M v.buf lst_str hl t

/-! ## Address pointers of a host -/

/-- A successful host decode is a successful `hostent_fill` on the record the cursor ends
on. -/
theorem hostent_decode_fill (M : Machine) (L : HostentLayout) (v : nss_mcdb_vinfo)
    (s s' : State hostent)
    (h : nss_mcdb_netdb_hostent_decode M L v s = some (NSS_STATUS_SUCCESS, s')) :
    hostent_fill M L v { s with m := s'.m } = some (NSS_STATUS_SUCCESS, s') := by
  obtain ⟨_, hcase⟩ := hostent_decode_cases M L v s _ s' h
  rcases hcase with ⟨h1, _⟩ | ⟨m', _, hf⟩
  · exact absurd h1 (by decide)
  · have hm := (hostent_fill_cases M L v _ _ s' hf).1
    simp only at hm
    rw [hm]
    exact hf

/-- C24: after a successful host decode into a buffer of the address space, with address
count `k`, address length `h_length` as decoded and first-address offset `a` of the header,
element `i` of the address pointer array is, for every `i < k`, the address
`v->buf + a + i * h_length` of `uintptr_t` arithmetic, the plain sum when it does not wrap
around: the value depends on the header alone, not on the bytes of the addresses. -/
theorem addr_pointers_fixed_stride (M : Machine) (L : HostentLayout) (v : nss_mcdb_vinfo)
    (s s' : State hostent) (hv : valid_buf M v)
    (h : nss_mcdb_netdb_hostent_decode M L v s = some (NSS_STATUS_SUCCESS, s')) :
    ∀ i, i < hdr16 M s'.m.data L.NSS_HE_HDRSZ L.NSS_HE_LST_NUM →
      load_ptr M s'.mem (slot M v s'.ent.h_addr_list i)
          = ptr_add M v.buf
              ((hdr16 M s'.m.data L.NSS_HE_HDRSZ L.NSS_HE_LST_STR : Nat)
                + (i : Int) * s'.ent.h_length)
        ∧ (0 ≤ (v.buf : Int) + (hdr16 M s'.m.data L.NSS_HE_HDRSZ L.NSS_HE_LST_STR : Nat)
              + (i : Int) * s'.ent.h_length →
            (v.buf : Int) + (hdr16 M s'.m.data L.NSS_HE_HDRSZ L.NSS_HE_LST_STR : Nat)
              + (i : Int) * s'.ent.h_length < M.umax →
            ((load_ptr M s'.mem (slot M v s'.ent.h_addr_list i) : Nat) : Int)
              = (v.buf : Int) + (hdr16 M s'.m.data L.NSS_HE_HDRSZ L.NSS_HE_LST_STR : Nat)
                + (i : Int) * s'.ent.h_length) := by
  intro i hi
  have hf := hostent_decode_fill M L v s s' h
  obtain ⟨d, _, hlst, _, hsz, _, _, _, hB, _⟩ := hostent_fill_copy M L v hv _ s' hf
  simp only at hlst hsz hB
  have hP := ptrsz_pos M
  have hk := hdr16_lt M s'.m.data L.NSS_HE_HDRSZ L.NSS_HE_LST_NUM
  generalize hdr16 M s'.m.data L.NSS_HE_HDRSZ L.NSS_HE_MEM_NUM = n at *
  generalize hdr16 M s'.m.data L.NSS_HE_HDRSZ L.NSS_HE_LST_NUM = k at *
  generalize hdr16 M s'.m.data L.NSS_HE_HDRSZ L.NSS_HE_LST_STR = a at *
  have e1 : M.ptrsz * (n + 1) + M.ptrsz * (i + 1) ≤ 8 * (n + 1 + k + 1) := by
    have h1 := Nat.mul_le_mul_right (n + 1) hP.2
    have h2 := Nat.mul_le_mul_right (i + 1) hP.2
    omega
  have e2 : M.ptrsz * (i + 1) = M.ptrsz * i + M.ptrsz := by ring
  have hs : slot M v s'.ent.h_addr_list i = d + M.ptrsz * (n + 1) + M.ptrsz * i := by
    rw [hlst]
    exact slot_eq M v _ i (by have := hv.2; omega)
  rw [hs, hB i hi]
  refine ⟨rfl, ?_⟩
  intro h0 h1
  rw [ptr_add_int M v.buf _ (by omega) (by omega)]
  omega

/-- Instance of C24: the second address pointer of a record with the addresses 10.0.0.1 and
0.0.0.0 is buffer start + 8 + 4. -/
theorem addr_pointers_fixed_stride_witness :
    ((load_ptr lp64le
        (state_of (nss_mcdb_netdb_hostent_decode lp64le hostLayout ex_v ex_host2_call)
          ex_host2_call).mem
        (slot lp64le ex_v
          (state_of (nss_mcdb_netdb_hostent_decode lp64le hostLayout ex_v ex_host2_call)
            ex_host2_call).ent.h_addr_list 1) : Nat) : Int) = 4096 + 8 + 1 * 4 :=
  ((addr_pointers_fixed_stride lp64le hostLayout ex_v ex_host2_call
    (state_of (nss_mcdb_netdb_hostent_decode lp64le hostLayout ex_v ex_host2_call)
      ex_host2_call) (by decide) rfl) 1 (by decide)).2 (by decide) (by decide)

/-! ## The copied region -/

/-- A string read from `l` is read from every list that agrees with `l` up to its NUL. -/
theorem cstr_congr : ∀ (l l' str : List Nat), cstr l = some str → str.length < l'.length →
    (∀ i, i ≤ str.length → rd l' i = rd l i) → cstr l' = some str := by
  intro l
  induction l with
  | nil =>
    intro l' str h
    exact absurd h (by simp [cstr])
  | cons c cs ih =>
    intro l' str h hlen hrd
    cases l' with
    | nil => exact absurd hlen (by simp)
    | cons c' cs' =>
      have h0 : c' = c := by
        have := hrd 0 (Nat.zero_le _)
        simpa [rd] using this
      subst h0
      unfold cstr at h ⊢
      by_cases hc : c' = 0
      · rw [if_pos hc] at h ⊢
        exact h
      · rw [if_neg hc] at h ⊢
        cases hcs : cstr cs with
        | none =>
          rw [hcs] at h
          exact absurd h (by simp)
        | some t =>
          rw [hcs] at h
          simp only [Option.map_some', Option.some.injEq] at h
          subst h
          have := ih cs' t hcs (by simpa using hlen) (by
            intro i hi
            have := hrd (i + 1) (by simp; omega)
            simpa [rd] using this)
          rw [this]
          rfl

/-- A string that ends inside a list is shorter than the list. -/
theorem cstr_length (l str : List Nat) (h : cstr l = some str) : str.length < l.length := by
  obtain ⟨_, rest, hr⟩ := (cstr_eq_some_iff l str).mp h
  rw [hr]
  simp

/-- A string of the variable region is read at the same offset of a buffer that holds the
region. -/
theorem cstr_buf_of_region (data : List Nat) (hdrsz : Nat) (mem' : Mem) (n : Nat)
    (hn : data.length - hdrsz ≤ n)
    (hcp : ∀ x, x < data.length - hdrsz → mem' x = rd data (hdrsz + x))
    (off : Nat) (str : List Nat) (h : cstr_at data (hdrsz + off) = some str) :
    cstr ((buf_bytes mem' n).drop off) = some str := by
  unfold cstr_at at h
  have hl := cstr_length _ _ h
  rw [List.length_drop] at hl
  apply cstr_congr _ _ _ h
  · rw [List.length_drop, buf_bytes_length]
    omega
  · intro i hi
    rw [rd_drop, rd_drop, rd_buf_bytes mem' n (off + i) (by omega), hcp (off + i) (by omega)]
    congr 1
    omega

/-- A successful `pack_aliases` on a record whose variable region is no longer than the
array offset copies the region. -/
theorem pack_aliases_region {ε : Type} (M : Machine) (v : nss_mcdb_vinfo) (hv : valid_buf M v)
    (hdrsz m mem_str num : Nat) (s s' : State ε) (ent : ε)
    (hm : m < 65536) (hnum : num < 65536)
    (h1 : hdrsz ≤ s.m.data.length) (h2 : s.m.data.length < 4294967296)
    (h3 : s.m.data.length - hdrsz ≤ m)
    (h : pack_aliases M v hdrsz mem_str num s ent (align8u M v.buf m)
      = some (NSS_STATUS_SUCCESS, s')) :
    region_copied v s.m.data hdrsz s.mem s'.mem (align8u M v.buf m) (num + 1) := by
  obtain ⟨d, hal, hmd, hsz, hvl, hcp, hfr, _⟩ :=
    pack_aliases_copy M v hv hdrsz m mem_str num s s' ent hm hnum h
  rw [var_len_eq M s.m.data hdrsz h1 h2] at hvl hcp hfr
  have hP := ptrsz_pos M
  have hmul := Nat.mul_le_mul_right (num + 1) hP.2
  have hcp2 : ∀ x, x < s.m.data.length - hdrsz → s'.mem x = rd s.m.data (hdrsz + x) :=
    fun x hx => hcp x (by omega) hx
  refine ⟨d, hal, by omega, hsz, ?_, hcp2, ?_⟩
  · intro x hx
    exact hfr x (by omega) (by omega)
  · intro off str hstr
    exact cstr_buf_of_region s.m.data hdrsz s'.mem v.bufsz hvl hcp2 off str hstr

/-- A successful `hostent_fill` on a record whose variable region is no longer than the
array offset copies the region. -/
theorem hostent_fill_region (M : Machine) (L : HostentLayout) (v : nss_mcdb_vinfo)
    (hv : valid_buf M v) (s s' : State hostent)
    (h1 : L.NSS_HE_HDRSZ ≤ s.m.data.length) (h2 : s.m.data.length < 4294967296)
    (h3 : s.m.data.length - L.NSS_HE_HDRSZ ≤ hdr16 M s.m.data L.NSS_HE_HDRSZ L.NSS_HE_MEM)
    (h : hostent_fill M L v s = some (NSS_STATUS_SUCCESS, s')) :
    region_copied v s.m.data L.NSS_HE_HDRSZ s.mem s'.mem s'.ent.h_aliases
        (hdr16 M s.m.data L.NSS_HE_HDRSZ L.NSS_HE_MEM_NUM + 1
          + hdr16 M s.m.data L.NSS_HE_HDRSZ L.NSS_HE_LST_NUM + 1)
      ∧ s'.ent.h_addr_list
          = s'.ent.h_aliases
            + M.ptrsz * (hdr16 M s.m.data L.NSS_HE_HDRSZ L.NSS_HE_MEM_NUM + 1) := by
  obtain ⟨d, hal, hlst, hmd, hsz, hvl, hcp, hfr, _, _⟩ := hostent_fill_copy M L v hv s s' h
  refine ⟨?_, by rw [hlst, hal, Nat.add_assoc]⟩
  rw [var_len_eq M s.m.data L.NSS_HE_HDRSZ h1 h2] at hvl hcp hfr
  have hP := ptrsz_pos M
  have hmul := Nat.mul_le_mul_right
    (hdr16 M s.m.data L.NSS_HE_HDRSZ L.NSS_HE_MEM_NUM + 1
      + hdr16 M s.m.data L.NSS_HE_HDRSZ L.NSS_HE_LST_NUM + 1) hP.2
  have hcp2 : ∀ x, x < s.m.data.length - L.NSS_HE_HDRSZ →
      s'.mem x = rd s.m.data (L.NSS_HE_HDRSZ + x) :=
    fun x hx => hcp x (by omega) hx
  refine ⟨d, hal, by omega, hsz, ?_, hcp2, ?_⟩
  · intro x hx
    exact hfr x (by omega) (by omega)
  · intro off str hstr
    exact cstr_buf_of_region s.m.data L.NSS_HE_HDRSZ s'.mem v.bufsz hvl hcp2 off str hstr

/-- A successful service decode is a successful `servent_fill` on the record the cursor ends
on. -/
theorem servent_decode_fill (M : Machine) (L : ServentLayout) (v : nss_mcdb_vinfo)
    (s s' : State servent)
    (h : nss_mcdb_netdb_servent_decode M L v s = some (NSS_STATUS_SUCCESS, s')) :
    servent_fill M L v { s with m := s'.m } = some (NSS_STATUS_SUCCESS, s') := by
  obtain ⟨_, hcase⟩ := servent_decode_cases M L v s _ s' h
  rcases hcase with ⟨h1, _⟩ | ⟨m', _, hf⟩
  · exact absurd h1 (by decide)
  · have hf2 := hf
    unfold servent_fill at hf2
    have hm := (pack_aliases_cases M v _ _ _ _ _ _ _ s' hf2).2.1
    simp only at hm
    rw [hm]
    exact hf

/-- C25: a successful decode, by any of the five routines, into a buffer of the address
space, of a record that holds its header, whose length fits `uint32_t` and whose array
offset `m` is at least the length `L` of its variable region: the primary name pointer
(`h_name`, `n_name`, `p_name`, `r_name`; `s_proto` for services) is the buffer start; the
pointer arrays start at an offset `d` with `L ≤ d` and end inside the buffer, the address
array of a host right behind its alias array; no byte from offset `bufsz` on has changed;
the buffer bytes `[0, L)` are the variable region; and every NUL-terminated string of the
variable region, the first one included, is read at the same offset of the buffer. -/
theorem decode_copies_region (M : Machine) (LH : HostentLayout) (LN : NetentLayout)
    (LP : ProtoentLayout) (LR : RpcentLayout) (LS : ServentLayout) (v : nss_mcdb_vinfo)
    (hv : valid_buf M v) :
    (∀ s s' : State hostent,
      nss_mcdb_netdb_hostent_decode M LH v s = some (NSS_STATUS_SUCCESS, s') →
      LH.NSS_HE_HDRSZ ≤ s'.m.data.length → s'.m.data.length < 4294967296 →
      s'.m.data.length - LH.NSS_HE_HDRSZ
        ≤ hdr16 M s'.m.data LH.NSS_HE_HDRSZ LH.NSS_HE_MEM →
      s'.ent.h_name = v.buf
        ∧ region_copied v s'.m.data LH.NSS_HE_HDRSZ s.mem s'.mem s'.ent.h_aliases
            (hdr16 M s'.m.data LH.NSS_HE_HDRSZ LH.NSS_HE_MEM_NUM + 1
              + hdr16 M s'.m.data LH.NSS_HE_HDRSZ LH.NSS_HE_LST_NUM + 1)
        ∧ s'.ent.h_addr_list
            = s'.ent.h_aliases
              + M.ptrsz * (hdr16 M s'.m.data LH.NSS_HE_HDRSZ LH.NSS_HE_MEM_NUM + 1))
    ∧ (∀ s s' : State netent,
      nss_mcdb_netdb_netent_decode M LN v s = some (NSS_STATUS_SUCCESS, s') →
      LN.NSS_NE_HDRSZ ≤ s.m.data.length → s.m.data.length < 4294967296 →
      s.m.data.length - LN.NSS_NE_HDRSZ ≤ hdr16 M s.m.data LN.NSS_NE_HDRSZ LN.NSS_NE_MEM →
      s'.ent.n_name = v.buf
        ∧ region_copied v s.m.data LN.NSS_NE_HDRSZ s.mem s'.mem s'.ent.n_aliases
            (hdr16 M s.m.data LN.NSS_NE_HDRSZ LN.NSS_NE_MEM_NUM + 1))
    ∧ (∀ s s' : State protoent,
      nss_mcdb_netdb_protoent_decode M LP v s = some (NSS_STATUS_SUCCESS, s') →
      LP.NSS_PE_HDRSZ ≤ s.m.data.length → s.m.data.length < 4294967296 →
      s.m.data.length - LP.NSS_PE_HDRSZ ≤ hdr16 M s.m.data LP.NSS_PE_HDRSZ LP.NSS_PE_MEM →
      s'.ent.p_name = v.buf
        ∧ region_copied v s.m.data LP.NSS_PE_HDRSZ s.mem s'.mem s'.ent.p_aliases
            (hdr16 M s.m.data LP.NSS_PE_HDRSZ LP.NSS_PE_MEM_NUM + 1))
    ∧ (∀ s s' : State rpcent,
      nss_mcdb_netdb_rpcent_decode M LR v s = some (NSS_STATUS_SUCCESS, s') →
      LR.NSS_RE_HDRSZ ≤ s.m.data.length → s.m.data.length < 4294967296 →
      s.m.data.length - LR.NSS_RE_HDRSZ ≤ hdr16 M s.m.data LR.NSS_RE_HDRSZ LR.NSS_RE_MEM →
      s'.ent.r_name = v.buf
        ∧ region_copied v s.m.data LR.NSS_RE_HDRSZ s.mem s'.mem s'.ent.r_aliases
            (hdr16 M s.m.data LR.NSS_RE_HDRSZ LR.NSS_RE_MEM_NUM + 1))
    ∧ (∀ s s' : State servent,
      nss_mcdb_netdb_servent_decode M LS v s = some (NSS_STATUS_SUCCESS, s') →
      LS.NSS_SE_HDRSZ ≤ s'.m.data.length → s'.m.data.length < 4294967296 →
      s'.m.data.length - LS.NSS_SE_HDRSZ
        ≤ hdr16 M s'.m.data LS.NSS_SE_HDRSZ LS.NSS_SE_MEM →
      s'.ent.s_proto = v.buf
        ∧ region_copied v s'.m.data LS.NSS_SE_HDRSZ s.mem s'.mem s'.ent.s_aliases
            (hdr16 M s'.m.data LS.NSS_SE_HDRSZ LS.NSS_SE_MEM_NUM + 1)) := by
  refine ⟨?_, ?_, ?_, ?_, ?_⟩
  · intro s s' h h1 h2 h3
    have hf := hostent_decode_fill M LH v s s' h
    have hn := (hostent_fill_cases M LH v _ _ s' hf).2.1
    exact ⟨hn, hostent_fill_region M LH v hv { s with m := s'.m } s' h1 h2 h3 hf⟩
  · intro s s' h h1 h2 h3
    unfold nss_mcdb_netdb_netent_decode at h
    simp only at h
    have he := (pack_aliases_cases M v _ _ _ _ _ _ _ s' h).1
    have hr := pack_aliases_region M v hv _ _ _ _ s s' _ (hdr16_lt _ _ _ _) (hdr16_lt _ _ _ _)
      h1 h2 h3 h
    rw [he]
    exact ⟨rfl, hr⟩
  · intro s s' h h1 h2 h3
    unfold nss_mcdb_netdb_protoent_decode at h
    simp only at h
    have he := (pack_aliases_cases M v _ _ _ _ _ _ _ s' h).1
    have hr := pack_aliases_region M v hv _ _ _ _ s s' _ (hdr16_lt _ _ _ _) (hdr16_lt _ _ _ _)
      h1 h2 h3 h
    rw [he]
    exact ⟨rfl, hr⟩
  · intro s s' h h1 h2 h3
    unfold nss_mcdb_netdb_rpcent_decode at h
    simp only at h
    have he := (pack_aliases_cases M v _ _ _ _ _ _ _ s' h).1
    have hr := pack_aliases_region M v hv _ _ _ _ s s' _ (hdr16_lt _ _ _ _) (hdr16_lt _ _ _ _)
      h1 h2 h3 h
    rw [he]
    exact ⟨rfl, hr⟩
  · intro s s' h h1 h2 h3
    have hf := servent_decode_fill M LS v s s' h
    unfold servent_fill at hf
    simp only at hf
    have he := (pack_aliases_cases M v _ _ _ _ _ _ _ s' hf).1
    have hr := pack_aliases_region M v hv _ _ _ _ { s with m := s'.m } s' _
      (hdr16_lt _ _ _ _) (hdr16_lt _ _ _ _) h1 h2 h3 hf
    rw [he]
    exact ⟨rfl, hr⟩

/-- Instance of C25 on the example records of the five databases, decoded into a buffer of
64 bytes at address 4096. -/
theorem decode_copies_region_witness :
    ((state_of
        (nss_mcdb_netdb_hostent_decode lp64le hostLayout ex_v ex_host_call)
        ex_host_call).ent.h_name = ex_v.buf
      ∧ region_copied ex_v
        (state_of
          (nss_mcdb_netdb_hostent_decode lp64le hostLayout ex_v ex_host_call)
          ex_host_call).m.data
        hostLayout.NSS_HE_HDRSZ ex_host_call.mem
        (state_of
          (nss_mcdb_netdb_hostent_decode lp64le hostLayout ex_v ex_host_call)
          ex_host_call).mem
        (state_of
          (nss_mcdb_netdb_hostent_decode lp64le hostLayout ex_v ex_host_call)
          ex_host_call).ent.h_aliases
        (hdr16 lp64le
            (state_of
              (nss_mcdb_netdb_hostent_decode lp64le hostLayout ex_v ex_host_call)
              ex_host_call).m.data
            hostLayout.NSS_HE_HDRSZ hostLayout.NSS_HE_MEM_NUM + 1
          + hdr16 lp64le
            (state_of
              (nss_mcdb_netdb_hostent_decode lp64le hostLayout ex_v ex_host_call)
              ex_host_call).m.data
            hostLayout.NSS_HE_HDRSZ hostLayout.NSS_HE_LST_NUM + 1)
      ∧ (state_of
          (nss_mcdb_netdb_hostent_decode lp64le hostLayout ex_v ex_host_call)
          ex_host_call).ent.h_addr_list
        = (state_of
            (nss_mcdb_netdb_hostent_decode lp64le hostLayout ex_v ex_host_call)
            ex_host_call).ent.h_aliases
          + lp64le.ptrsz
            * (hdr16 lp64le
                (state_of
                  (nss_mcdb_netdb_hostent_decode lp64le hostLayout ex_v ex_host_call)
                  ex_host_call).m.data
                hostLayout.NSS_HE_HDRSZ hostLayout.NSS_HE_MEM_NUM + 1))
    ∧ ((state_of
        (nss_mcdb_netdb_netent_decode lp64le netLayout ex_v ex_net_call)
        ex_net_call).ent.n_name = ex_v.buf
      ∧ region_copied ex_v
        ex_net_call.m.data
        netLayout.NSS_NE_HDRSZ ex_net_call.mem
        (state_of
          (nss_mcdb_netdb_netent_decode lp64le netLayout ex_v ex_net_call)
          ex_net_call).mem
        (state_of
          (nss_mcdb_netdb_netent_decode lp64le netLayout ex_v ex_net_call)
          ex_net_call).ent.n_aliases
        (hdr16 lp64le
            ex_net_call.m.data
            netLayout.NSS_NE_HDRSZ netLayout.NSS_NE_MEM_NUM + 1))
    ∧ ((state_of
        (nss_mcdb_netdb_protoent_decode lp64le protoLayout ex_v ex_proto_call)
        ex_proto_call).ent.p_name = ex_v.buf
      ∧ region_copied ex_v
        ex_proto_call.m.data
        protoLayout.NSS_PE_HDRSZ ex_proto_call.mem
        (state_of
          (nss_mcdb_netdb_protoent_decode lp64le protoLayout ex_v ex_proto_call)
          ex_proto_call).mem
        (state_of
          (nss_mcdb_netdb_protoent_decode lp64le protoLayout ex_v ex_proto_call)
          ex_proto_call).ent.p_aliases
        (hdr16 lp64le
            ex_proto_call.m.data
            protoLayout.NSS_PE_HDRSZ protoLayout.NSS_PE_MEM_NUM + 1))
    ∧ ((state_of
        (nss_mcdb_netdb_rpcent_decode lp64le rpcLayout ex_v ex_rpc_call)
        ex_rpc_call).ent.r_name = ex_v.buf
      ∧ region_copied ex_v
        ex_rpc_call.m.data
        rpcLayout.NSS_RE_HDRSZ ex_rpc_call.mem
        (state_of
          (nss_mcdb_netdb_rpcent_decode lp64le rpcLayout ex_v ex_rpc_call)
          ex_rpc_call).mem
        (state_of
          (nss_mcdb_netdb_rpcent_decode lp64le rpcLayout ex_v ex_rpc_call)
          ex_rpc_call).ent.r_aliases
        (hdr16 lp64le
            ex_rpc_call.m.data
            rpcLayout.NSS_RE_HDRSZ rpcLayout.NSS_RE_MEM_NUM + 1))
    ∧ ((state_of
        (nss_mcdb_netdb_servent_decode lp64le servLayout ex_v ex_serv_call)
        ex_serv_call).ent.s_proto = ex_v.buf
      ∧ region_copied ex_v
        (state_of
          (nss_mcdb_netdb_servent_decode lp64le servLayout ex_v ex_serv_call)
          ex_serv_call).m.data
        servLayout.NSS_SE_HDRSZ ex_serv_call.mem
        (state_of
          (nss_mcdb_netdb_servent_decode lp64le servLayout ex_v ex_serv_call)
          ex_serv_call).mem
        (state_of
          (nss_mcdb_netdb_servent_decode lp64le servLayout ex_v ex_serv_call)
          ex_serv_call).ent.s_aliases
        (hdr16 lp64le
            (state_of
              (nss_mcdb_netdb_servent_decode lp64le servLayout ex_v ex_serv_call)
              ex_serv_call).m.data
            servLayout.NSS_SE_HDRSZ servLayout.NSS_SE_MEM_NUM + 1)) :=
  ⟨(decode_copies_region lp64le hostLayout netLayout protoLayout rpcLayout servLayout ex_v
      (by decide)).1 ex_host_call
      (state_of
        (nss_mcdb_netdb_hostent_decode lp64le hostLayout ex_v ex_host_call)
        ex_host_call)
      rfl (by decide) (by decide) (by decide),
    (decode_copies_region lp64le hostLayout netLayout protoLayout rpcLayout servLayout ex_v
      (by decide)).2.1 ex_net_call
      (state_of
        (nss_mcdb_netdb_netent_decode lp64le netLayout ex_v ex_net_call)
        ex_net_call)
      rfl (by decide) (by decide) (by decide),
    (decode_copies_region lp64le hostLayout netLayout protoLayout rpcLayout servLayout ex_v
      (by decide)).2.2.1 ex_proto_call
      (state_of
        (nss_mcdb_netdb_protoent_decode lp64le protoLayout ex_v ex_proto_call)
        ex_proto_call)
      rfl (by decide) (by decide) (by decide),
    (decode_copies_region lp64le hostLayout netLayout protoLayout rpcLayout servLayout ex_v
      (by decide)).2.2.2.1 ex_rpc_call
      (state_of
        (nss_mcdb_netdb_rpcent_decode lp64le rpcLayout ex_v ex_rpc_call)
        ex_rpc_call)
      rfl (by decide) (by decide) (by decide),
    (decode_copies_region lp64le hostLayout netLayout protoLayout rpcLayout servLayout ex_v
      (by decide)).2.2.2.2 ex_serv_call
      (state_of
        (nss_mcdb_netdb_servent_decode lp64le servLayout ex_v ex_serv_call)
        ex_serv_call)
      rfl (by decide) (by decide) (by decide)⟩

/-! ## Alias pointers and alias strings -/

/-- C23, as stated, fails: the aliases "" and "b" of a protocol record are stored back to
back at offsets 4 and 5 of its variable region, each NUL-terminated; the decode succeeds and
sets alias pointer 1 to buffer start + 7, not to buffer start + 5 where the copy of "b"
starts, and the string read there is not "b". -/
theorem protoent_empty_alias_skipped :
    status_of (nss_mcdb_netdb_protoent_decode lp64le protoLayout ex_v
        (ex_state (⟨0, 0, 0⟩ : protoent) [] ex_empty_alias_rec [])) = some NSS_STATUS_SUCCESS
    ∧ cstr_at ex_empty_alias_rec (protoLayout.NSS_PE_HDRSZ + 4) = some []
    ∧ cstr_at ex_empty_alias_rec (protoLayout.NSS_PE_HDRSZ + 5) = some [98]
    ∧ ex_empty_alias_rec.length = protoLayout.NSS_PE_HDRSZ + 7
    ∧ ent_of (nss_mcdb_netdb_protoent_decode lp64le protoLayout ex_v
        (ex_state (⟨0, 0, 0⟩ : protoent) [] ex_empty_alias_rec [])) = some ⟨4096, 4104, 6⟩
    ∧ load_ptr lp64le
        (state_of (nss_mcdb_netdb_protoent_decode lp64le protoLayout ex_v
          (ex_state (⟨0, 0, 0⟩ : protoent) [] ex_empty_alias_rec []))
          (ex_state (⟨0, 0, 0⟩ : protoent) [] ex_empty_alias_rec [])).mem
        (slot lp64le ex_v 4104 0) = 4096 + 4
    ∧ load_ptr lp64le
        (state_of (nss_mcdb_netdb_protoent_decode lp64le protoLayout ex_v
          (ex_state (⟨0, 0, 0⟩ : protoent) [] ex_empty_alias_rec []))
          (ex_state (⟨0, 0, 0⟩ : protoent) [] ex_empty_alias_rec [])).mem
        (slot lp64le ex_v 4104 1) = 4096 + 7
    ∧ cstr ((buf_bytes
        (state_of (nss_mcdb_netdb_protoent_decode lp64le protoLayout ex_v
          (ex_state (⟨0, 0, 0⟩ : protoent) [] ex_empty_alias_rec []))
          (ex_state (⟨0, 0, 0⟩ : protoent) [] ex_empty_alias_rec [])).mem
        ex_v.bufsz).drop 7) ≠ some [98] := by
  decide

/-- Each of the offsets `alias_offsets` returns is the start of a non-empty string of the
region. -/
theorem alias_offsets_cstr (var : List Nat) : ∀ (n off : Nat) (offs : List Nat),
    alias_offsets var off n = some offs →
      ∀ t, t < n → ∃ str, str ≠ [] ∧ cstr (var.drop (offs.getD t 0)) = some str := by
  intro n
  induction n with
  | zero =>
    intro off offs _ t ht
    exact absurd ht (by omega)
  | succ n ih =>
    intro off offs h t ht
    unfold alias_offsets at h
    split at h
    · exact absurd h (by simp)
    next str hstr =>
      split at h
      · exact absurd h (by simp)
      next hne =>
        cases hr : alias_offsets var (off + str.length + 1) n with
        | none =>
          rw [hr] at h
          exact absurd h (by simp)
        | some rest =>
          rw [hr] at h
          simp only [Option.map_some', Option.some.injEq] at h
          subst h
          cases t with
          | zero => exact ⟨str, hne, by simpa using hstr⟩
          | succ t =>
            simp only [List.getD_cons_succ]
            exact ih _ rest hr t (by omega)

/-- The alias strings of a consistent region are read through the stored pointers. -/
theorem region_aliases_read (M : Machine) (v : nss_mcdb_vinfo) (data : List Nat)
    (hdrsz mem_str num : Nat) (mem' : Mem) (arr d : Nat) (offs : List Nat)
    (hv : valid_buf M v) (harr : arr = v.buf + d) (hsz : d + 8 * (num + 1) ≤ v.bufsz)
    (hL : data.length - hdrsz ≤ d)
    (ho : alias_offsets (data.drop hdrsz) mem_str num = some offs)
    (hcp : ∀ x, x < data.length - hdrsz → mem' x = rd data (hdrsz + x))
    (hB : ∀ t, t < num → load_ptr M mem' (d + M.ptrsz * t) = v.buf + offs.getD t 0) :
    aliases_read M v data hdrsz mem_str num mem' arr := by
  refine ⟨offs, ho, ?_⟩
  intro i hi
  have hP := ptrsz_pos M
  have hPt : M.ptrsz * (i + 1) ≤ 8 * (num + 1) :=
    Nat.le_trans (Nat.mul_le_mul_right _ hP.2) (Nat.mul_le_mul_left _ (by omega))
  rw [Nat.mul_add, Nat.mul_one] at hPt
  have hs : slot M v arr i = d + M.ptrsz * i := by
    rw [harr]
    exact slot_eq M v d i (by have := hv.2; omega)
  rw [hs]
  refine ⟨hB i hi, ?_⟩
  obtain ⟨str, _, hstr⟩ := alias_offsets_cstr _ num mem_str offs ho i hi
  have hat : cstr_at data (hdrsz + offs.getD i 0) = some str := by
    unfold cstr_at
    rw [List.drop_drop] at hstr
    exact hstr
  exact ⟨str, hat, cstr_buf_of_region data hdrsz mem' v.bufsz (by omega) hcp _ str hat⟩

/-- After a successful `pack_aliases` on a consistent record, reading the alias array
returns the alias strings of the record. -/
theorem pack_aliases_read {ε : Type} (M : Machine) (v : nss_mcdb_vinfo) (hv : valid_buf M v)
    (hdrsz m mem_str num : Nat) (s s' : State ε) (ent : ε)
    (hm : m < 65536) (hnum : num < 65536)
    (hc : consistent s.m.data hdrsz m mem_str num)
    (h : pack_aliases M v hdrsz mem_str num s ent (align8u M v.buf m)
      = some (NSS_STATUS_SUCCESS, s')) :
    aliases_read M v s.m.data hdrsz mem_str num s'.mem (align8u M v.buf m) := by
  obtain ⟨_, _, hcase⟩ := pack_aliases_cases M v hdrsz mem_str num s ent _ _ s' h
  rcases hcase with ⟨h1, _⟩ | ⟨_, hchk, mem0', hm0', hf'⟩
  · exact absurd h1 (by decide)
  · obtain ⟨d, offs, mem0, mem1, hal, hmd, hsz, ho, hm0, hf, hcp, _, hB, _⟩ :=
      copy_and_fill_ok M v hv s.m.data hdrsz m mem_str num (num + 1) s.mem hm (by omega)
        (Nat.le_refl _) hc hchk
    rw [hm0] at hm0'
    simp only [Option.some.injEq] at hm0'
    subst hm0'
    rw [hf] at hf'
    simp only [Option.some.injEq] at hf'
    subst hf'
    obtain ⟨_, _, hc3, _⟩ := hc
    exact region_aliases_read M v s.m.data hdrsz mem_str num s'.mem _ d offs hv hal hsz
      (by omega) ho hcp (fun t ht => (hB t ht).1)

/-- After a successful `hostent_fill` on a consistent record, reading the alias array returns
the alias strings of the record. -/
theorem hostent_fill_read (M : Machine) (L : HostentLayout) (v : nss_mcdb_vinfo)
    (hv : valid_buf M v) (s s' : State hostent)
    (hc : consistent s.m.data L.NSS_HE_HDRSZ (hdr16 M s.m.data L.NSS_HE_HDRSZ L.NSS_HE_MEM)
      (hdr16 M s.m.data L.NSS_HE_HDRSZ L.NSS_HE_MEM_STR)
      (hdr16 M s.m.data L.NSS_HE_HDRSZ L.NSS_HE_MEM_NUM))
    (h : hostent_fill M L v s = some (NSS_STATUS_SUCCESS, s')) :
    aliases_read M v s.m.data L.NSS_HE_HDRSZ
      (hdr16 M s.m.data L.NSS_HE_HDRSZ L.NSS_HE_MEM_STR)
      (hdr16 M s.m.data L.NSS_HE_HDRSZ L.NSS_HE_MEM_NUM) s'.mem s'.ent.h_aliases := by
  obtain ⟨st, s'', h2, hok⟩ := hostent_fill_ok M L v hv s hc
  rw [h] at h2
  simp only [Option.some.injEq, Prod.mk.injEq] at h2
  obtain ⟨hst, hs⟩ := h2
  subst hs
  obtain ⟨d, offs, hal, _, hmd, hsz, ho, hcp, hB, _⟩ := hok hst.symm
  obtain ⟨_, _, hc3, _⟩ := hc
  exact region_aliases_read M v s.m.data L.NSS_HE_HDRSZ _ _ s'.mem _ d offs hv hal
    (by omega) (by omega) ho hcp (fun t ht => (hB t ht).1)

/-- C23, amended: for every consistent record (it holds its header, its length fits
`uint32_t`, its variable region is no longer than the array offset of the header, and its
alias strings are non-empty, NUL-terminated and stored back to back inside the variable
region from the first-alias offset of the header), a successful decode by any of the five
routines into a buffer of the address space sets alias pointer `i`, for every `i` below the
alias count, to the start of the `i`-th alias string in the copied region, and the string
read there is the `i`-th alias string of the record. -/
theorem alias_pointers_in_order (M : Machine) (LH : HostentLayout) (LN : NetentLayout)
    (LP : ProtoentLayout) (LR : RpcentLayout) (LS : ServentLayout) (v : nss_mcdb_vinfo)
    (hv : valid_buf M v) :
    (∀ s s' : State hostent,
      nss_mcdb_netdb_hostent_decode M LH v s = some (NSS_STATUS_SUCCESS, s') →
      consistent s'.m.data LH.NSS_HE_HDRSZ (hdr16 M s'.m.data LH.NSS_HE_HDRSZ LH.NSS_HE_MEM)
        (hdr16 M s'.m.data LH.NSS_HE_HDRSZ LH.NSS_HE_MEM_STR)
        (hdr16 M s'.m.data LH.NSS_HE_HDRSZ LH.NSS_HE_MEM_NUM) →
      aliases_read M v s'.m.data LH.NSS_HE_HDRSZ
        (hdr16 M s'.m.data LH.NSS_HE_HDRSZ LH.NSS_HE_MEM_STR)
        (hdr16 M s'.m.data LH.NSS_HE_HDRSZ LH.NSS_HE_MEM_NUM) s'.mem s'.ent.h_aliases)
    ∧ (∀ s s' : State netent,
      nss_mcdb_netdb_netent_decode M LN v s = some (NSS_STATUS_SUCCESS, s') →
      consistent s.m.data LN.NSS_NE_HDRSZ (hdr16 M s.m.data LN.NSS_NE_HDRSZ LN.NSS_NE_MEM)
        (hdr16 M s.m.data LN.NSS_NE_HDRSZ LN.NSS_NE_MEM_STR)
        (hdr16 M s.m.data LN.NSS_NE_HDRSZ LN.NSS_NE_MEM_NUM) →
      aliases_read M v s.m.data LN.NSS_NE_HDRSZ
        (hdr16 M s.m.data LN.NSS_NE_HDRSZ LN.NSS_NE_MEM_STR)
        (hdr16 M s.m.data LN.NSS_NE_HDRSZ LN.NSS_NE_MEM_NUM) s'.mem s'.ent.n_aliases)
    ∧ (∀ s s' : State protoent,
      nss_mcdb_netdb_protoent_decode M LP v s = some (NSS_STATUS_SUCCESS, s') →
      consistent s.m.data LP.NSS_PE_HDRSZ (hdr16 M s.m.data LP.NSS_PE_HDRSZ LP.NSS_PE_MEM)
        (hdr16 M s.m.data LP.NSS_PE_HDRSZ LP.NSS_PE_MEM_STR)
        (hdr16 M s.m.data LP.NSS_PE_HDRSZ LP.NSS_PE_MEM_NUM) →
      aliases_read M v s.m.data LP.NSS_PE_HDRSZ
        (hdr16 M s.m.data LP.NSS_PE_HDRSZ LP.NSS_PE_MEM_STR)
        (hdr16 M s.m.data LP.NSS_PE_HDRSZ LP.NSS_PE_MEM_NUM) s'.mem s'.ent.p_aliases)
    ∧ (∀ s s' : State rpcent,
      nss_mcdb_netdb_rpcent_decode M LR v s = some (NSS_STATUS_SUCCESS, s') →
      consistent s.m.data LR.NSS_RE_HDRSZ (hdr16 M s.m.data LR.NSS_RE_HDRSZ LR.NSS_RE_MEM)
        (hdr16 M s.m.data LR.NSS_RE_HDRSZ LR.NSS_RE_MEM_STR)
        (hdr16 M s.m.data LR.NSS_RE_HDRSZ LR.NSS_RE_MEM_NUM) →
      aliases_read M v s.m.data LR.NSS_RE_HDRSZ
        (hdr16 M s.m.data LR.NSS_RE_HDRSZ LR.NSS_RE_MEM_STR)
        (hdr16 M s.m.data LR.NSS_RE_HDRSZ LR.NSS_RE_MEM_NUM) s'.mem s'.ent.r_aliases)
    ∧ (∀ s s' : State servent,
      nss_mcdb_netdb_servent_decode M LS v s = some (NSS_STATUS_SUCCESS, s') →
      consistent s'.m.data LS.NSS_SE_HDRSZ (hdr16 M s'.m.data LS.NSS_SE_HDRSZ LS.NSS_SE_MEM)
        (hdr16 M s'.m.data LS.NSS_SE_HDRSZ LS.NSS_SE_MEM_STR)
        (hdr16 M s'.m.data LS.NSS_SE_HDRSZ LS.NSS_SE_MEM_NUM) →
      aliases_read M v s'.m.data LS.NSS_SE_HDRSZ
        (hdr16 M s'.m.data LS.NSS_SE_HDRSZ LS.NSS_SE_MEM_STR)
        (hdr16 M s'.m.data LS.NSS_SE_HDRSZ LS.NSS_SE_MEM_NUM) s'.mem s'.ent.s_aliases) := by
  refine ⟨?_, ?_, ?_, ?_, ?_⟩
  · intro s s' h hc
    have hf := hostent_decode_fill M LH v s s' h
    exact hostent_fill_read M LH v hv { s with m := s'.m } s' hc hf
  · intro s s' h hc
    unfold nss_mcdb_netdb_netent_decode at h
    simp only at h
    have he := (pack_aliases_cases M v _ _ _ _ _ _ _ s' h).1
    have hr := pack_aliases_read M v hv _ _ _ _ s s' _ (hdr16_lt _ _ _ _) (hdr16_lt _ _ _ _)
      hc h
    rw [he]
    exact hr
  · intro s s' h hc
    unfold nss_mcdb_netdb_protoent_decode at h
    simp only at h
    have he := (pack_aliases_cases M v _ _ _ _ _ _ _ s' h).1
    have hr := pack_aliases_read M v hv _ _ _ _ s s' _ (hdr16_lt _ _ _ _) (hdr16_lt _ _ _ _)
      hc h
    rw [he]
    exact hr
  · intro s s' h hc
    unfold nss_mcdb_netdb_rpcent_decode at h
    simp only at h
    have he := (pack_aliases_cases M v _ _ _ _ _ _ _ s' h).1
    have hr := pack_aliases_read M v hv _ _ _ _ s s' _ (hdr16_lt _ _ _ _) (hdr16_lt _ _ _ _)
      hc h
    rw [he]
    exact hr
  · intro s s' h hc
    have hf := servent_decode_fill M LS v s s' h
    unfold servent_fill at hf
    simp only at hf
    have he := (pack_aliases_cases M v _ _ _ _ _ _ _ s' hf).1
    have hr := pack_aliases_read M v hv _ _ _ _ { s with m := s'.m } s' _
      (hdr16_lt _ _ _ _) (hdr16_lt _ _ _ _) hc hf
    rw [he]
    exact hr

/-- Instance of C23 on the example records of the five databases. -/
theorem alias_pointers_in_order_witness :
    aliases_read lp64le ex_v
      (state_of
        (nss_mcdb_netdb_hostent_decode lp64le hostLayout ex_v ex_host_call)
        ex_host_call).m.data
      hostLayout.NSS_HE_HDRSZ
      (hdr16 lp64le
        (state_of
          (nss_mcdb_netdb_hostent_decode lp64le hostLayout ex_v ex_host_call)
          ex_host_call).m.data
        hostLayout.NSS_HE_HDRSZ hostLayout.NSS_HE_MEM_STR)
      (hdr16 lp64le
        (state_of
          (nss_mcdb_netdb_hostent_decode lp64le hostLayout ex_v ex_host_call)
          ex_host_call).m.data
        hostLayout.NSS_HE_HDRSZ hostLayout.NSS_HE_MEM_NUM)
      (state_of
        (nss_mcdb_netdb_hostent_decode lp64le hostLayout ex_v ex_host_call)
        ex_host_call).mem
      (state_of
        (nss_mcdb_netdb_hostent_decode lp64le hostLayout ex_v ex_host_call)
        ex_host_call).ent.h_aliases
    ∧ aliases_read lp64le ex_v
      ex_net_call.m.data
      netLayout.NSS_NE_HDRSZ
      (hdr16 lp64le
        ex_net_call.m.data
        netLayout.NSS_NE_HDRSZ netLayout.NSS_NE_MEM_STR)
      (hdr16 lp64le
        ex_net_call.m.data
        netLayout.NSS_NE_HDRSZ netLayout.NSS_NE_MEM_NUM)
      (state_of
        (nss_mcdb_netdb_netent_decode lp64le netLayout ex_v ex_net_call)
        ex_net_call).mem
      (state_of
        (nss_mcdb_netdb_netent_decode lp64le netLayout ex_v ex_net_call)
        ex_net_call).ent.n_aliases
    ∧ aliases_read lp64le ex_v
      ex_proto_call.m.data
      protoLayout.NSS_PE_HDRSZ
      (hdr16 lp64le
        ex_proto_call.m.data
        protoLayout.NSS_PE_HDRSZ protoLayout.NSS_PE_MEM_STR)
      (hdr16 lp64le
        ex_proto_call.m.data
        protoLayout.NSS_PE_HDRSZ protoLayout.NSS_PE_MEM_NUM)
      (state_of
        (nss_mcdb_netdb_protoent_decode lp64le protoLayout ex_v ex_proto_call)
        ex_proto_call).mem
      (state_of
        (nss_mcdb_netdb_protoent_decode lp64le protoLayout ex_v ex_proto_call)
        ex_proto_call).ent.p_aliases
    ∧ aliases_read lp64le ex_v
      ex_rpc_call.m.data
      rpcLayout.NSS_RE_HDRSZ
      (hdr16 lp64le
        ex_rpc_call.m.data
        rpcLayout.NSS_RE_HDRSZ rpcLayout.NSS_RE_MEM_STR)
      (hdr16 lp64le
        ex_rpc_call.m.data
        rpcLayout.NSS_RE_HDRSZ rpcLayout.NSS_RE_MEM_NUM)
      (state_of
        (nss_mcdb_netdb_rpcent_decode lp64le rpcLayout ex_v ex_rpc_call)
        ex_rpc_call).mem
      (state_of
        (nss_mcdb_netdb_rpcent_decode lp64le rpcLayout ex_v ex_rpc_call)
        ex_rpc_call).ent.r_aliases
    ∧ aliases_read lp64le ex_v
      (state_of
        (nss_mcdb_netdb_servent_decode lp64le servLayout ex_v ex_serv_call)
        ex_serv_call).m.data
      servLayout.NSS_SE_HDRSZ
      (hdr16 lp64le
        (state_of
          (nss_mcdb_netdb_servent_decode lp64le servLayout ex_v ex_serv_call)
          ex_serv_call).m.data
        servLayout.NSS_SE_HDRSZ servLayout.NSS_SE_MEM_STR)
      (hdr16 lp64le
        (state_of
          (nss_mcdb_netdb_servent_decode lp64le servLayout ex_v ex_serv_call)
          ex_serv_call).m.data
        servLayout.NSS_SE_HDRSZ servLayout.NSS_SE_MEM_NUM)
      (state_of
        (nss_mcdb_netdb_servent_decode lp64le servLayout ex_v ex_serv_call)
        ex_serv_call).mem
      (state_of
        (nss_mcdb_netdb_servent_decode lp64le servLayout ex_v ex_serv_call)
        ex_serv_call).ent.s_aliases :=
  ⟨(alias_pointers_in_order lp64le hostLayout netLayout protoLayout rpcLayout servLayout ex_v
      (by decide)).1 ex_host_call
      (state_of
        (nss_mcdb_netdb_hostent_decode lp64le hostLayout ex_v ex_host_call)
        ex_host_call)
      rfl (by decide),
    (alias_pointers_in_order lp64le hostLayout netLayout protoLayout rpcLayout servLayout ex_v
      (by decide)).2.1 ex_net_call
      (state_of
        (nss_mcdb_netdb_netent_decode lp64le netLayout ex_v ex_net_call)
        ex_net_call)
      rfl (by decide),
    (alias_pointers_in_order lp64le hostLayout netLayout protoLayout rpcLayout servLayout ex_v
      (by decide)).2.2.1 ex_proto_call
      (state_of
        (nss_mcdb_netdb_protoent_decode lp64le protoLayout ex_v ex_proto_call)
        ex_proto_call)
      rfl (by decide),
    (alias_pointers_in_order lp64le hostLayout netLayout protoLayout rpcLayout servLayout ex_v
      (by decide)).2.2.2.1 ex_rpc_call
      (state_of
        (nss_mcdb_netdb_rpcent_decode lp64le rpcLayout ex_v ex_rpc_call)
        ex_rpc_call)
      rfl (by decide),
    (alias_pointers_in_order lp64le hostLayout netLayout protoLayout rpcLayout servLayout ex_v
      (by decide)).2.2.2.2 ex_serv_call
      (state_of
        (nss_mcdb_netdb_servent_decode lp64le servLayout ex_v ex_serv_call)
        ex_serv_call)
      rfl (by decide)⟩

/-! ## The protocol string of a service -/

/-- C26, as stated, fails: the staged protocol "tcp" matches a record whose array offset is
0; the decode succeeds, `s_proto` is the buffer start, and the alias array, stored over the
first 8 bytes of the copy, leaves the empty string there, not "tcp". -/
theorem servent_proto_overwritten :
    status_of (nss_mcdb_netdb_servent_decode lp64le servLayout ex_v
        (ex_state (⟨0, 0, 0, 0⟩ : servent) [116, 99, 112, 0] ex_serv_overlap_rec []))
      = some NSS_STATUS_SUCCESS
    ∧ strlen_buf (ex_state (⟨0, 0, 0, 0⟩ : servent) [116, 99, 112, 0] ex_serv_overlap_rec
        []).mem 0 ex_v.bufsz = some 3
    ∧ cstr_at ex_serv_overlap_rec servLayout.NSS_SE_HDRSZ = some [116, 99, 112]
    ∧ (state_of (nss_mcdb_netdb_servent_decode lp64le servLayout ex_v
          (ex_state (⟨0, 0, 0, 0⟩ : servent) [116, 99, 112, 0] ex_serv_overlap_rec []))
        (ex_state (⟨0, 0, 0, 0⟩ : servent) [116, 99, 112, 0] ex_serv_overlap_rec
          [])).ent.s_proto = ex_v.buf
    ∧ cstr (buf_bytes
        (state_of (nss_mcdb_netdb_servent_decode lp64le servLayout ex_v
          (ex_state (⟨0, 0, 0, 0⟩ : servent) [116, 99, 112, 0] ex_serv_overlap_rec []))
          (ex_state (⟨0, 0, 0, 0⟩ : servent) [116, 99, 112, 0] ex_serv_overlap_rec [])).mem
        ex_v.bufsz) = some []
    ∧ hdr16 lp64le ex_serv_overlap_rec servLayout.NSS_SE_HDRSZ servLayout.NSS_SE_MEM = 0 := by
  decide

/-- A record the service scan stops at passes the comparison of the loop condition. -/
theorem servent_scan_found (L : ServentLayout) (mem : Mem) (protolen : Nat) :
    ∀ (dups : List (List Nat)) (data : List Nat) (nexts : Nat),
      (servent_scan L mem protolen data nexts dups).1 = true →
        ¬ (rd (servent_scan L mem protolen data nexts dups).2.data L.NSS_SE_HDRSZ ≠ mem 0
            ∨ memcmp
                (fun i => rd (servent_scan L mem protolen data nexts dups).2.data
                  (L.NSS_SE_HDRSZ + i)) mem protolen ≠ 0) := by
  intro dups
  induction dups with
  | nil =>
    intro data nexts h
    unfold servent_scan at h ⊢
    by_cases hc : rd data L.NSS_SE_HDRSZ ≠ mem 0
        ∨ memcmp (fun i => rd data (L.NSS_SE_HDRSZ + i)) mem protolen ≠ 0
    · rw [if_pos hc] at h
      exact absurd h (by simp)
    · rw [if_neg hc]
      exact hc
  | cons r rs ih =>
    intro data nexts h
    unfold servent_scan at h ⊢
    by_cases hc : rd data L.NSS_SE_HDRSZ ≠ mem 0
        ∨ memcmp (fun i => rd data (L.NSS_SE_HDRSZ + i)) mem protolen ≠ 0
    · rw [if_pos hc] at h
      rw [if_pos hc]
      exact ih r (nexts + 1) h
    · rw [if_neg hc]
      exact hc

/-- A service decode under a non-empty staged protocol that does not end in "not found" ends
on a record that passes the comparison with the staged string. -/
theorem servent_decode_found (M : Machine) (L : ServentLayout) (v : nss_mcdb_vinfo)
    (s s' : State servent) (st : nss_status_t)
    (h : nss_mcdb_netdb_servent_decode M L v s = some (st, s'))
    (hst : st ≠ NSS_STATUS_NOTFOUND) (hp : s.mem 0 ≠ 0) :
    ∃ n, strlen_buf s.mem 0 v.bufsz = some n
      ∧ ¬ (rd s'.m.data L.NSS_SE_HDRSZ ≠ s.mem 0
          ∨ memcmp (fun i => rd s'.m.data (L.NSS_SE_HDRSZ + i)) s.mem (1 + n) ≠ 0) := by
  unfold nss_mcdb_netdb_servent_decode at h
  by_cases hsz : 1 ≤ v.bufsz
  · rw [if_pos hsz, if_pos hp] at h
    split at h
    · exact absurd h (by simp)
    next len hlen =>
      simp only at h
      split at h
      next hr =>
        have hf := h
        unfold servent_fill at hf
        have hm := (pack_aliases_cases M v _ _ _ _ _ _ st s' hf).2.1
        simp only at hm
        rw [hm]
        exact ⟨len, hlen, servent_scan_found L s.mem (1 + len) s.m.dups s.m.data s.m.nexts hr⟩
      next hr =>
        simp only [Option.some.injEq, Prod.mk.injEq] at h
        exact absurd h.1.symm hst
  · rw [if_neg hsz] at h
    exact absurd h (by simp)

/-- C26, amended: after a successful service decode into a buffer of the address space,
`s_proto` is the buffer start and `s_name` is the buffer start advanced by the name offset of
the header.  When the length of the record fits `uint32_t` and its protocol string, with its
NUL, ends inside the record and not behind the array offset of the header, the string read at
`s_proto` after the call is the protocol string of the record the cursor ends on; when the
staged protocol was non-empty that string is the staged one. -/
theorem servent_proto_in_place (M : Machine) (L : ServentLayout) (v : nss_mcdb_vinfo)
    (s s' : State servent) (hv : valid_buf M v)
    (h : nss_mcdb_netdb_servent_decode M L v s = some (NSS_STATUS_SUCCESS, s')) :
    s'.ent.s_proto = v.buf
      ∧ s'.ent.s_name
          = ptr_add M v.buf (hdr16 M s'.m.data L.NSS_SE_HDRSZ L.NSS_S_NAME : Nat)
      ∧ (v.buf + hdr16 M s'.m.data L.NSS_SE_HDRSZ L.NSS_S_NAME < M.umax →
          s'.ent.s_name = v.buf + hdr16 M s'.m.data L.NSS_SE_HDRSZ L.NSS_S_NAME)
      ∧ ∀ str, s'.m.data.length < 4294967296 →
          cstr_at s'.m.data L.NSS_SE_HDRSZ = some str →
          str.length + 1 ≤ hdr16 M s'.m.data L.NSS_SE_HDRSZ L.NSS_SE_MEM →
          cstr (buf_bytes s'.mem v.bufsz) = some str
            ∧ (s.mem 0 ≠ 0 →
                ∃ n, strlen_buf s.mem 0 v.bufsz = some n ∧ str = buf_bytes s.mem n) := by
  have hf := servent_decode_fill M L v s s' h
  have hf2 := hf
  unfold servent_fill at hf2
  simp only at hf2
  have he := (pack_aliases_cases M v _ _ _ _ _ _ _ s' hf2).1
  refine ⟨by rw [he], by rw [he], ?_, ?_⟩
  · intro hlt
    rw [he]
    exact ptr_add_nat M v.buf _ hlt
  · intro str hlen hstr hm
    obtain ⟨d, _, hmd, _, hvl, hcp, _, _⟩ :=
      pack_aliases_copy M v hv _ _ _ _ { s with m := s'.m } s' _ (hdr16_lt _ _ _ _)
        (hdr16_lt _ _ _ _) hf2
    simp only at hvl hcp
    have hsl := cstr_length _ _ hstr
    rw [List.length_drop] at hsl
    rw [var_len_eq M s'.m.data L.NSS_SE_HDRSZ (by omega) hlen] at hvl hcp
    refine ⟨?_, ?_⟩
    · apply cstr_congr _ _ _ hstr
      · rw [buf_bytes_length]
        omega
      · intro i hi
        rw [rd_drop, rd_buf_bytes s'.mem v.bufsz i (by omega)]
        exact hcp i (by omega) (by omega)
    · intro hp
      obtain ⟨n, hn, hcmp⟩ := servent_decode_found M L v s s' _ h (by decide) hp
      refine ⟨n, hn, ?_⟩
      have hiff := servent_match_iff L s.mem v.bufsz n s'.m.data hn (by rw [hstr]; rfl)
      have := not_not.mp (fun hne => hcmp (hiff.mpr hne))
      rw [hstr] at this
      exact Option.some.inj this

/-- Instance of C26: the staged "tcp" is read back at `s_proto` after the "tcp" record was
decoded, and under the empty predicate `s_proto` reads the "udp" of the record. -/
theorem servent_proto_in_place_witness :
    ((state_of (nss_mcdb_netdb_servent_decode lp64le servLayout ex_v ex_serv_call)
          ex_serv_call).ent.s_proto = ex_v.buf
      ∧ (state_of (nss_mcdb_netdb_servent_decode lp64le servLayout ex_v ex_serv_call)
          ex_serv_call).ent.s_name = 4096 + 4
      ∧ cstr (buf_bytes
          (state_of (nss_mcdb_netdb_servent_decode lp64le servLayout ex_v ex_serv_call)
            ex_serv_call).mem ex_v.bufsz) = some [116, 99, 112]
      ∧ ∃ n, strlen_buf ex_serv_call.mem 0 ex_v.bufsz = some n
          ∧ [116, 99, 112] = buf_bytes ex_serv_call.mem n)
    ∧ cstr (buf_bytes
        (state_of
          (nss_mcdb_netdb_servent_decode lp64le servLayout ex_v
            (ex_state (⟨0, 0, 0, 0⟩ : servent) [0] (ex_serv_rec [117, 100, 112]) []))
          (ex_state (⟨0, 0, 0, 0⟩ : servent) [0] (ex_serv_rec [117, 100, 112]) [])).mem
        ex_v.bufsz) = some [117, 100, 112] :=
  ⟨⟨(servent_proto_in_place lp64le servLayout ex_v ex_serv_call
        (state_of (nss_mcdb_netdb_servent_decode lp64le servLayout ex_v ex_serv_call)
          ex_serv_call) (by decide) rfl).1,
      (servent_proto_in_place lp64le servLayout ex_v ex_serv_call
        (state_of (nss_mcdb_netdb_servent_decode lp64le servLayout ex_v ex_serv_call)
          ex_serv_call) (by decide) rfl).2.2.1 (by decide),
      ((servent_proto_in_place lp64le servLayout ex_v ex_serv_call
        (state_of (nss_mcdb_netdb_servent_decode lp64le servLayout ex_v ex_serv_call)
          ex_serv_call) (by decide) rfl).2.2.2 [116, 99, 112] (by decide) (by decide)
          (by decide)).1,
      ((servent_proto_in_place lp64le servLayout ex_v ex_serv_call
        (state_of (nss_mcdb_netdb_servent_decode lp64le servLayout ex_v ex_serv_call)
          ex_serv_call) (by decide) rfl).2.2.2 [116, 99, 112] (by decide) (by decide)
          (by decide)).2 (by decide)⟩,
    ((servent_proto_in_place lp64le servLayout ex_v
      (ex_state (⟨0, 0, 0, 0⟩ : servent) [0] (ex_serv_rec [117, 100, 112]) [])
      (state_of
        (nss_mcdb_netdb_servent_decode lp64le servLayout ex_v
          (ex_state (⟨0, 0, 0, 0⟩ : servent) [0] (ex_serv_rec [117, 100, 112]) []))
        (ex_state (⟨0, 0, 0, 0⟩ : servent) [0] (ex_serv_rec [117, 100, 112]) []))
      (by decide) rfl).2.2.2 [117, 100, 112] (by decide) (by decide) (by decide)).1⟩

end NssMcdbNetdb
